import Mathlib

/-!
par2MX: the packet loader, the consistency sweep, the first phases of
`Process` and the data blocks of `Par2Repairer`.

A shallow embedding of the parts of `par2repairer.cpp` and `datablock.cpp`
that the specification talks about, followed by theorems about them.

Conventions of the embedding.

* `u64`, `u32` and `size_t` values are natural numbers; the sums and
  differences that the C++ code takes in 64 or 32 bits keep an explicit
  `% 2 ^ 64` or `% 2 ^ 32` wherever they can leave that range.
* A disk file is its content (a list of bytes) together with an oracle that
  says which positioned reads fail with an I/O error.
* Loops are recursive functions.  Where a loop of the source need not
  terminate, the function takes a fuel argument and returns `none` when the
  fuel is used up.
* Pointers to heap objects are replaced by the object itself or by a key.
-/

set_option autoImplicit false

/-- One byte of a file or a buffer. -/
abbrev Byte := Fin 256

/-- The range of `u64`. -/
abbrev U64 : Nat := 2 ^ 64

/-- A file on disk as `DiskFile` sees it: its name, its content and an oracle
`ioOk offset length` that is `false` when the operating system fails the read
of that range although it lies inside the file; `writeOk offset length` is the
same for a write. -/
structure DiskFile where
  filename : String := ""
  content : List Byte := []
  ioOk : Nat → Nat → Bool := fun _ _ => true
  writeOk : Nat → Nat → Bool := fun _ _ => true

namespace DiskFile

/-- The function `DiskFile::FileSize`. -/
def FileSize (f : DiskFile) : Nat := f.content.length

/-- Modelled from the spec: `DiskFile::Read` (diskfile.cpp is not among the
sources; diskfile.h only declares it).  A positioned read of `length` bytes at
`offset` ("ordinary positioned reads"): it delivers exactly the requested
bytes, and fails when the range is not inside the file or the operating system
reports an error. -/
def Read (f : DiskFile) (offset length : Nat) : Option (List Byte) :=
  if offset + length ≤ f.FileSize ∧ f.ioOk offset length = true then
    some ((f.content.drop offset).take length)
  else
    none

/-- Modelled from the spec: `DiskFile::Write` (diskfile.cpp is not among the
sources; diskfile.h declares "Write some data to the file").  A positioned
write: the bytes replace those of the range, after zero bytes when the range
starts past the end of the file; it fails when the operating system reports an
error. -/
def Write (f : DiskFile) (offset : Nat) (data : List Byte) : Option DiskFile :=
  if f.writeOk offset data.length = true then
    some { f with content :=
      (f.content ++ List.replicate (offset - f.content.length) 0).take offset ++ data ++
        f.content.drop (offset + data.length) }
  else
    none

end DiskFile

/-- The class `DataBlock`: a region `[offset, offset + length)` of a disk file.  The
pointer `diskfile` is kept as the name of the file (`none` is the null
pointer, the block is then "unset"). -/
structure DataBlock where
  diskfile : Option String := none
  offset : Nat := 0
  length : Nat := 0
deriving DecidableEq, Repr

namespace DataBlock

/-- The function `DataBlock::IsSet`. -/
def IsSet (b : DataBlock) : Bool := b.diskfile.isSome

/-- The function `DataBlock::ReadData(position, size, buffer)` (datablock.cpp 38-70).
`file` is the object `*diskfile`.  The result is the return value (`none` for
`false`, `some buffer` for `true` with the `size` bytes the buffer then holds)
and the list of `(offset, length)` requests passed to `DiskFile::Read`. -/
def ReadData (b : DataBlock) (file : DiskFile) (position size : Nat) :
    Option (List Byte) × List (Nat × Nat) :=
  if b.length > position then
    let fileoffset := (b.offset + position) % U64
    let want := min size (b.length - position)
    match file.Read fileoffset want with
    | none => (none, [(fileoffset, want)])
    | some data =>
      if want < size then
        (some (data ++ List.replicate (size - want) 0), [(fileoffset, want)])
      else
        (some data, [(fileoffset, want)])
  else
    (some (List.replicate size 0), [])

/-- The function `DataBlock::WriteData(position, size, buffer, wrote)` (datablock.cpp 75-100).
`file` is the object `*diskfile`.  The result is the file after the call when
the return value is true (`none` for `false`), the value left in `wrote`, and
the list of `(offset, length)` requests passed to `DiskFile::Write`. -/
def WriteData (b : DataBlock) (file : DiskFile) (position size : Nat) (buffer : List Byte) :
    Option DiskFile × Nat × List (Nat × Nat) :=
  if b.length > position then
    let fileoffset := (b.offset + position) % U64
    let have_ := min size (b.length - position)
    match file.Write fileoffset (buffer.take have_) with
    | none => (none, 0, [(fileoffset, have_)])
    | some written => (some written, have_, [(fileoffset, have_)])
  else
    (some file, 0, [])

end DataBlock

namespace Par2Repairer

/-- The loop that assigns block locations to the blocks of one file
(par2repairer.cpp 2325-2338 in `CreateTargetFiles`, 1611-1625 in
`VerifyDataFile`, 1698-1711 in `ScanDataFile`):

    u64 offset = 0;
    while (offset < filesize) {
      datablock.SetLocation(file, offset);
      datablock.SetLength(min(blocksize, filesize-offset));
      offset += blocksize;  ++sb;
    }

The result lists, in iterator order, the `(offset, length)` given to the
successive blocks; `none` means that the fuel ran out. -/
def assignBlockLocations (blocksize filesize : Nat) : Nat → Nat → Option (List (Nat × Nat))
  | 0, _ => none
  | fuel + 1, offset =>
    if offset < filesize then
      (assignBlockLocations blocksize filesize fuel ((offset + blocksize) % U64)).map
        (fun rest => (offset, min blocksize (filesize - offset)) :: rest)
    else
      some []

/-- The number of blocks of a file: `ceil(filesize / blocksize)`. -/
def ceilBlocks (filesize blocksize : Nat) : Nat := (filesize + blocksize - 1) / blocksize

end Par2Repairer

/-! ## Packets -/

/-- Modelled from the spec: MD5 (md5.cpp is not among the sources; "MD5 is
RFC 1321").  The hash is a parameter of the embedding: any function from byte
strings to 16-byte digests.  An `MD5Context` is the list of the bytes fed to
`Update` so far, and `Final` applies `hash` to it. -/
structure MD5Function where
  hash : List Byte → List Byte
  length_hash : ∀ data, (hash data).length = 16

/-- The class `MD5Hash`: 16 bytes. -/
abbrev MD5Hash := List Byte

/-- Modelled from the spec: `PACKET_HEADER` (par2fileformat.h is not among the
sources).  "8-byte magic, little-endian 64-bit total length, 16-byte MD5 over
all bytes of the packet after the hash field, 16-byte setid, and 16-byte
type": 64 bytes, `setid` at byte 32. -/
structure PACKET_HEADER where
  magic : List Byte := []
  length : Nat := 0
  hash : MD5Hash := []
  setid : MD5Hash := []
  type : List Byte := []
deriving DecidableEq, Repr

/-- Modelled from the spec: the magic `"PAR2\0PKT"`. -/
def packet_magic : List Byte := [80, 65, 82, 50, 0, 80, 75, 84]

/-- Modelled from the spec: type tag `"PAR 2.0\0Main\0\0\0\0"`. -/
def mainpacket_type : List Byte := [80, 65, 82, 32, 50, 46, 48, 0, 77, 97, 105, 110, 0, 0, 0, 0]

/-- Modelled from the spec: type tag `"PAR 2.0\0FileDesc"`. -/
def filedescriptionpacket_type : List Byte :=
  [80, 65, 82, 32, 50, 46, 48, 0, 70, 105, 108, 101, 68, 101, 115, 99]

/-- Modelled from the spec: type tag `"PAR 2.0\0IFSC\0\0\0\0"`. -/
def fileverificationpacket_type : List Byte :=
  [80, 65, 82, 32, 50, 46, 48, 0, 73, 70, 83, 67, 0, 0, 0, 0]

/-- Modelled from the spec: type tag `"PAR 2.0\0RecvSlic"`. -/
def recoveryblockpacket_type : List Byte :=
  [80, 65, 82, 32, 50, 46, 48, 0, 82, 101, 99, 118, 83, 108, 105, 99]

/-- Modelled from the spec: type tag `"PAR 2.0\0Creator\0"`. -/
def creatorpacket_type : List Byte :=
  [80, 65, 82, 32, 50, 46, 48, 0, 67, 114, 101, 97, 116, 111, 114, 0]

/-- A little-endian unsigned integer (`leu64` for 8 bytes). -/
def leValue : List Byte → Nat
  | [] => 0
  | b :: rest => b.val + 256 * leValue rest

/-- The `PACKET_HEADER` held by 64 raw bytes (the `Read` into `&header`, or
the `memcpy` out of the scan buffer). -/
def parseHeader (bytes : List Byte) : PACKET_HEADER :=
  { magic := bytes.take 8
    length := leValue ((bytes.drop 8).take 8)
    hash := (bytes.drop 16).take 16
    setid := (bytes.drop 32).take 16
    type := (bytes.drop 48).take 16 }

/-- A recovery packet.  `header` is the header the packet was loaded from,
`blocksize` is `RecoveryPacket::BlockSize()`, `datablock` is the block that
`GetDataBlock()` points at. -/
structure RecoveryPacket where
  header : PACKET_HEADER := {}
  exponent : Nat := 0
  blocksize : Nat := 0
  datablock : DataBlock := {}
deriving DecidableEq, Repr

/-- A file description packet. -/
structure DescriptionPacket where
  header : PACKET_HEADER := {}
  fileid : MD5Hash := []
  hashfull : MD5Hash := []
  hash16k : MD5Hash := []
  filesize : Nat := 0
  filename : String := ""
deriving DecidableEq, Repr

/-- A file verification packet; `blockcount` is `BlockCount()`. -/
structure VerificationPacket where
  header : PACKET_HEADER := {}
  fileid : MD5Hash := []
  blockcount : Nat := 0
deriving DecidableEq, Repr

/-- The main packet; `TotalFileCount()` is the length of `fileids`. -/
structure MainPacket where
  header : PACKET_HEADER := {}
  blocksize : Nat := 0
  recoverablefilecount : Nat := 0
  fileids : List MD5Hash := []
deriving DecidableEq, Repr

/-- The creator packet. -/
structure CreatorPacket where
  header : PACKET_HEADER := {}
deriving DecidableEq, Repr

/-- The `Load(diskfile, offset, header)` members of the five packet classes
(recoverypacket.cpp, descriptionpacket.cpp, ... are not among the sources):
parameters of the embedding.  `none` is the return value `false`.  The
`header` field of a result is overwritten by the caller below with the header
that was passed in, so nothing is assumed about it. -/
structure PacketLoaders where
  recovery : DiskFile → Nat → PACKET_HEADER → Option RecoveryPacket
  verification : DiskFile → Nat → PACKET_HEADER → Option VerificationPacket
  description : DiskFile → Nat → PACKET_HEADER → Option DescriptionPacket
  main : DiskFile → Nat → PACKET_HEADER → Option MainPacket
  creator : DiskFile → Nat → PACKET_HEADER → Option CreatorPacket

/-- The class `Par2RepairerSourceFile`: what the repairer knows about one source file.
The members beyond the two packets and the block count follow the data model
of the specification (par2repairersourcefile.h is not among the sources): the
flag `targetexists`, the pointers `targetfile` and `completefile` (a `DiskFile`
is named by the file name it was opened or created with, `none` is the null
pointer), and the iterators `sourceblocks` and `targetblocks` into the two
block vectors of the repairer, kept as the index of the first block of the
file (`none` until `SetBlocks` has given the file a range). -/
structure Par2RepairerSourceFile where
  descriptionpacket : Option DescriptionPacket := none
  verificationpacket : Option VerificationPacket := none
  blockcount : Nat := 0
  targetexists : Bool := false
  targetfile : Option String := none
  completefile : Option String := none
  sourceblocks : Option Nat := none
  targetblocks : Option Nat := none
deriving DecidableEq, Repr

/-- A `DataBlock*` held in `inputblocks`, `copyblocks` or `outputblocks`: the
address of the source block or of the target block with the given index in the
two block vectors, or the data block of the recovery packet with the given
exponent. -/
inductive BlockRef where
  | source (index : Nat)
  | target (index : Nat)
  | recovery (exponent : Nat)
deriving DecidableEq, Repr

/-- A header that passed validation: where it was found. -/
structure ValidatedPacket where
  filename : String
  offset : Nat
  header : PACKET_HEADER
deriving DecidableEq, Repr

/-- The state of a `Par2Repairer`.  `recoverypacketmap` is the
`map<u32,RecoveryPacket*>` as a list sorted by exponent; `sourcefilemap` is the
`map<MD5Hash,Par2RepairerSourceFile*>` as an association list (only lookups,
insertions of absent keys and erasures are made, so the order is immaterial);
`sourcefiles` holds, for each slot, the key of the entry it points to or
`none` for a null pointer; `diskFileMap` lists the names of the registered
files.  `validated` is not in the source: it records, in order, the headers
that passed the validation of `LoadPacketsFromFile`.  `sourceblocks` and
`targetblocks` are the two `vector<DataBlock>`; the six counters are `u32`;
`inputblocks`, `copyblocks` and `outputblocks` are the three
`vector<DataBlock*>` (a null pointer is `none`); `chunksize` is a `size_t`;
`verifylist` holds the keys of the source files whose target file was
created. -/
structure Par2Repairer where
  firstpacket : Bool := true
  setid : MD5Hash := []
  mainpacket : Option MainPacket := none
  creatorpacket : Option CreatorPacket := none
  recoverypacketmap : List (Nat × RecoveryPacket) := []
  sourcefilemap : List (MD5Hash × Par2RepairerSourceFile) := []
  diskFileMap : List String := []
  blocksize : Nat := 0
  sourcefiles : List (Option MD5Hash) := []
  sourceblockcount : Nat := 0
  blocksallocated : Bool := false
  blockverifiable : Bool := false
  unverifiablesourcefiles : List MD5Hash := []
  validated : List ValidatedPacket := []
  sourceblocks : List DataBlock := []
  targetblocks : List DataBlock := []
  availableblockcount : Nat := 0
  missingblockcount : Nat := 0
  completefilecount : Nat := 0
  renamedfilecount : Nat := 0
  damagedfilecount : Nat := 0
  missingfilecount : Nat := 0
  inputblocks : List (Option BlockRef) := []
  copyblocks : List (Option BlockRef) := []
  outputblocks : List (Option BlockRef) := []
  chunksize : Nat := 0
  verifylist : List MD5Hash := []
deriving DecidableEq, Repr

/-! ## The two maps of the repairer -/

/-- The operation `map<u32,...>::insert`: the updated map and whether the pair was inserted
(`false` when the key is already present; the map is then unchanged). -/
def mapInsert {β : Type} (k : Nat) (v : β) : List (Nat × β) → List (Nat × β) × Bool
  | [] => ([(k, v)], true)
  | e :: rest =>
    if k = e.1 then (e :: rest, false)
    else if k < e.1 then ((k, v) :: e :: rest, true)
    else (e :: (mapInsert k v rest).1, (mapInsert k v rest).2)

/-- The operation `map::find` on the recovery packet map. -/
def mapFind {β : Type} (k : Nat) : List (Nat × β) → Option β
  | [] => none
  | e :: rest => if k = e.1 then some e.2 else mapFind k rest

/-- The operation `sourcefilemap.find(fileid)`: the entry, or `none` for `end()`. -/
def sfFind (fileid : MD5Hash) :
    List (MD5Hash × Par2RepairerSourceFile) → Option Par2RepairerSourceFile
  | [] => none
  | e :: rest => if fileid = e.1 then some e.2 else sfFind fileid rest

/-- A write through the pointer `sfmi->second`: replaces the entry of
`fileid`. -/
def sfSet (fileid : MD5Hash) (sf : Par2RepairerSourceFile) :
    List (MD5Hash × Par2RepairerSourceFile) → List (MD5Hash × Par2RepairerSourceFile)
  | [] => []
  | e :: rest => if fileid = e.1 then (e.1, sf) :: rest else e :: sfSet fileid sf rest

namespace Par2Repairer

/-- The constant `sizeof(PACKET_HEADER)`. -/
abbrev headerSize : Nat := 64

/-- The function `Par2Repairer::LoadRecoveryPacket` (par2repairer.cpp 607-633). -/
def LoadRecoveryPacket (ld : PacketLoaders) (s : Par2Repairer) (diskfile : DiskFile)
    (offset : Nat) (header : PACKET_HEADER) : Bool × Par2Repairer :=
  match ld.recovery diskfile offset header with
  | none => (false, s)
  | some loaded =>
    let packet : RecoveryPacket := { loaded with header := header }
    let location := mapInsert packet.exponent packet s.recoverypacketmap
    if location.2 then (true, { s with recoverypacketmap := location.1 })
    else (false, s)

/-- The function `Par2Repairer::LoadDescriptionPacket` (par2repairer.cpp 636-681). -/
def LoadDescriptionPacket (ld : PacketLoaders) (s : Par2Repairer) (diskfile : DiskFile)
    (offset : Nat) (header : PACKET_HEADER) : Bool × Par2Repairer :=
  match ld.description diskfile offset header with
  | none => (false, s)
  | some loaded =>
    let packet : DescriptionPacket := { loaded with header := header }
    match sfFind packet.fileid s.sourcefilemap with
    | some sourcefile =>
      if sourcefile.descriptionpacket.isSome then (false, s)
      else
        (true, { s with sourcefilemap :=
          (sfSet packet.fileid { sourcefile with descriptionpacket := some packet }
            s.sourcefilemap) })
    | none =>
      (true, { s with sourcefilemap :=
        s.sourcefilemap ++ [(packet.fileid, { descriptionpacket := some packet })] })

/-- The function `Par2Repairer::LoadVerificationPacket` (par2repairer.cpp 684-730). -/
def LoadVerificationPacket (ld : PacketLoaders) (s : Par2Repairer) (diskfile : DiskFile)
    (offset : Nat) (header : PACKET_HEADER) : Bool × Par2Repairer :=
  match ld.verification diskfile offset header with
  | none => (false, s)
  | some loaded =>
    let packet : VerificationPacket := { loaded with header := header }
    match sfFind packet.fileid s.sourcefilemap with
    | some sourcefile =>
      if sourcefile.verificationpacket.isSome then (false, s)
      else
        (true, { s with sourcefilemap :=
          (sfSet packet.fileid { sourcefile with verificationpacket := some packet }
            s.sourcefilemap) })
    | none =>
      (true, { s with sourcefilemap :=
        s.sourcefilemap ++ [(packet.fileid, { verificationpacket := some packet })] })

/-- The function `Par2Repairer::LoadMainPacket` (par2repairer.cpp 733-751). -/
def LoadMainPacket (ld : PacketLoaders) (s : Par2Repairer) (diskfile : DiskFile)
    (offset : Nat) (header : PACKET_HEADER) : Bool × Par2Repairer :=
  if s.mainpacket.isSome then (false, s)
  else
    match ld.main diskfile offset header with
    | none => (false, s)
    | some loaded => (true, { s with mainpacket := some { loaded with header := header } })

/-- The function `Par2Repairer::LoadCreatorPacket` (par2repairer.cpp 754-772). -/
def LoadCreatorPacket (ld : PacketLoaders) (s : Par2Repairer) (diskfile : DiskFile)
    (offset : Nat) (header : PACKET_HEADER) : Bool × Par2Repairer :=
  if s.creatorpacket.isSome then (false, s)
  else
    match ld.creator diskfile offset header with
    | none => (false, s)
    | some loaded => (true, { s with creatorpacket := some { loaded with header := header } })

/-- The scan of one buffer in `ReadPacketHeader` (par2repairer.cpp 583-588):
`current` advances while `current <= limit` and the magic is not at
`current`; `n` is `limit + 1 - current`. -/
def findMagic (buffer : List Byte) : Nat → Nat → Nat
  | 0, current => current
  | n + 1, current =>
    if (buffer.drop current).take 8 = packet_magic then current
    else findMagic buffer n (current + 1)

/-- The resynchronisation loop of `ReadPacketHeader` (par2repairer.cpp
570-600).  The result is the final `offset` and the header found (`none` for
the return value `false`).  Inside the loop `want >= 64`, because the offsets
that get here satisfy `offset + 64 <= filesize` as true sums. -/
def resync (diskfile : DiskFile) (buffersize : Nat) : Nat → Nat → Nat × Option PACKET_HEADER
  | 0, offset => (offset, none)
  | fuel + 1, offset =>
    if (offset + headerSize) % U64 ≤ diskfile.FileSize then
      let want := min buffersize ((diskfile.FileSize + U64 - offset) % U64)
      match diskfile.Read offset want with
      | none => (diskfile.FileSize, none)
      | some buffer =>
        let limit := want - headerSize
        let current := findMagic buffer (limit + 1) 0
        let offset' := (offset + current) % U64
        if current ≤ limit then
          (offset', some (parseHeader ((buffer.drop current).take headerSize)))
        else
          resync diskfile buffersize fuel offset'
    else
      (offset, none)

/-- The function `Par2Repairer::ReadPacketHeader` (par2repairer.cpp 552-604).  Every turn
of the resynchronisation loop advances `offset` by at least one, so
`FileSize` turns are enough fuel. -/
def ReadPacketHeader (diskfile : DiskFile) (offset buffersize : Nat) :
    Nat × Option PACKET_HEADER :=
  match diskfile.Read offset headerSize with
  | none => (offset, none)
  | some bytes =>
    let header := parseHeader bytes
    if packet_magic = header.magic then (offset, some header)
    else resync diskfile buffersize diskfile.FileSize ((offset + 1) % U64)

/-- The loop that feeds the body of a packet to the MD5 context
(par2repairer.cpp 432-442); the result is the final `current` and context.
Since `want <= limit - current` and `limit < 2^64`, the sum `current + want`
stays below `2^64` and is written without a reduction. -/
def hashPacketBody (diskfile : DiskFile) (buffersize limit : Nat) :
    Nat → Nat → List Byte → Nat × List Byte
  | 0, current, context => (current, context)
  | fuel + 1, current, context =>
    if current < limit then
      let want := min buffersize (limit - current)
      match diskfile.Read current want with
      | none => (current, context)
      | some buffer => hashPacketBody diskfile buffersize limit fuel (current + want)
          (context ++ buffer)
    else
      (current, context)

/-- The checks made on a candidate whose magic matched (par2repairer.cpp
416-458): `true` when the candidate goes on to the setid check, `false` when
it is rejected (`offset++; continue`).  Each turn of the hashing loop reads at
least one byte below `limit <= filesize`, so `FileSize + 1` is enough fuel. -/
def validatePacket (md5 : MD5Function) (diskfile : DiskFile) (buffersize offset : Nat)
    (header : PACKET_HEADER) : Bool :=
  if headerSize > header.length ∨ header.length % 4 ≠ 0 ∨
      diskfile.FileSize < (offset + header.length) % U64 then
    false
  else
    let current := (offset + headerSize) % U64
    let limit := (offset + header.length) % U64
    let r := hashPacketBody diskfile buffersize limit (diskfile.FileSize + 1) current
      (header.setid ++ header.type)
    if r.1 < limit then false
    else if md5.hash r.2 ≠ header.hash then false
    else true

/-- Recording the set id (par2repairer.cpp 460-465): the first validated
packet fixes `setid`.  The header is also appended to the history
`validated`. -/
def noteSetid (s : Par2Repairer) (diskfile : DiskFile) (offset : Nat)
    (header : PACKET_HEADER) : Par2Repairer :=
  let s0 : Par2Repairer :=
    { s with validated := s.validated ++ [⟨diskfile.filename, offset, header⟩] }
  if s0.firstpacket then { s0 with setid := header.setid, firstpacket := false } else s0

/-- The dispatch on `header.type` to the typed loaders (par2repairer.cpp
470-506); a packet of any other type is ignored. -/
def loadTypedPacket (ld : PacketLoaders) (s : Par2Repairer) (diskfile : DiskFile)
    (offset : Nat) (header : PACKET_HEADER) : Bool × Par2Repairer :=
  if recoveryblockpacket_type = header.type then
    LoadRecoveryPacket ld s diskfile offset header
  else if fileverificationpacket_type = header.type then
    LoadVerificationPacket ld s diskfile offset header
  else if filedescriptionpacket_type = header.type then
    LoadDescriptionPacket ld s diskfile offset header
  else if mainpacket_type = header.type then
    LoadMainPacket ld s diskfile offset header
  else if creatorpacket_type = header.type then
    LoadCreatorPacket ld s diskfile offset header
  else (false, s)

/-- What `LoadPacketsFromFile` does with a validated packet (par2repairer.cpp
460-507).  The second component is the counter `packets`, incremented when the
typed loader returns true. -/
def acceptPacket (ld : PacketLoaders) (st : Par2Repairer × Nat) (diskfile : DiskFile)
    (offset : Nat) (header : PACKET_HEADER) : Par2Repairer × Nat :=
  let s := noteSetid st.1 diskfile offset header
  if s.setid = header.setid then
    let r := loadTypedPacket ld s diskfile offset header
    (r.2, if r.1 then st.2 + 1 else st.2)
  else (s, st.2)

/-- The packet scan loop of `LoadPacketsFromFile` (par2repairer.cpp 393-511).
`none` means that the fuel ran out before the loop ended. -/
def scanPackets (ld : PacketLoaders) (md5 : MD5Function) (diskfile : DiskFile)
    (buffersize : Nat) : Nat → Nat → Par2Repairer × Nat → Option (Par2Repairer × Nat)
  | 0, _, _ => none
  | fuel + 1, offset, st =>
    if (offset + headerSize) % U64 ≤ diskfile.FileSize then
      match ReadPacketHeader diskfile offset buffersize with
      | (_, none) => some st
      | (found, some header) =>
        if validatePacket md5 diskfile buffersize found header then
          scanPackets ld md5 diskfile buffersize fuel ((found + header.length) % U64)
            (acceptPacket ld st diskfile found header)
        else
          scanPackets ld md5 diskfile buffersize fuel ((found + 1) % U64) st
    else
      some st

/-- The function `Par2Repairer::LoadPacketsFromFile` (par2repairer.cpp 338-550).  `fs` is
the file system: `fs name` is the file that `Open(name)` opens, `none` when it
cannot be opened.  The function returns `true` whenever it returns, so the
result is the state after the call, or `none` when the scan does not end
within `fuel` turns. -/
def LoadPacketsFromFile (ld : PacketLoaders) (md5 : MD5Function)
    (fs : String → Option DiskFile) (fuel : Nat) (s : Par2Repairer) (filename : String) :
    Option Par2Repairer :=
  if filename ∈ s.diskFileMap then some s
  else
    match fs filename with
    | none => some s
    | some diskfile =>
      if diskfile.FileSize > 0 then
        let buffersize := min (1024 * 1024 * 10) diskfile.FileSize
        match scanPackets ld md5 diskfile buffersize fuel 0 (s, 0) with
        | none => none
        | some r =>
          if r.2 > 0 then some { r.1 with diskFileMap := r.1.diskFileMap ++ [filename] }
          else some r.1
      else some s

/-- A sequence of `LoadPacketsFromFile` calls, as made by `Process`,
`LoadPacketsFromOtherFiles` and `LoadPacketsFromExtraFiles`. -/
def LoadPacketsFromFiles (ld : PacketLoaders) (md5 : MD5Function)
    (fs : String → Option DiskFile) (fuel : Nat) : Par2Repairer → List String →
    Option Par2Repairer
  | s, [] => some s
  | s, filename :: rest =>
    match LoadPacketsFromFile ld md5 fs fuel s filename with
    | none => none
    | some s' => LoadPacketsFromFiles ld md5 fs fuel s' rest

end Par2Repairer

/-! ## The consistency sweep and the first phases of `Process` -/

/-- Modelled from the spec: `Par2RepairerSourceFile::SetBlockCount`
(par2repairersourcefile.cpp is not among the sources).  "File-level: block
count equals `ceil(size / blocksize)`"; without a description packet the count
is 0. -/
def Par2RepairerSourceFile.SetBlockCount (sf : Par2RepairerSourceFile) (blocksize : Nat) :
    Par2RepairerSourceFile :=
  { sf with blockcount :=
      match sf.descriptionpacket with
      | some d => Par2Repairer.ceilBlocks d.filesize blocksize
      | none => 0 }

/-- Modelled from the spec: the `Result` codes of par2cmdline.h (not among the
sources), as listed in the exit status table. -/
inductive Result where
  | eSuccess
  | eRepairPossible
  | eRepairNotPossible
  | eRepairFailed
  | eFileIOError
  | eLogicError
  | eMemoryError
  | eInvalidCommandLineArguments
  | eInsufficientCriticalData
deriving DecidableEq, Repr

/-- The operations of `DiskFile` that change the disk. -/
inductive FileOp where
  | rename (filename : String)
  | create (filename : String) (filesize : Nat)
  | write (filename : String) (offset length : Nat)
  | delete (filename : String)
deriving DecidableEq, Repr

namespace Par2Repairer

/-- One turn of the second loop of `CheckPacketConsistency` (par2repairer.cpp
936-996) on the map entry `e`: `none` when the entry is erased, otherwise the
entry as it is left in the map.  The test of line 974 is made on `u64` values,
so the sum `filesize + blocksize-1` is taken modulo `2 ^ 64`. -/
def checkSourceFile (blocksize : Nat) (e : MD5Hash × Par2RepairerSourceFile) :
    Option (MD5Hash × Par2RepairerSourceFile) :=
  match e.2.descriptionpacket with
  | none => none
  | some descriptionpacket =>
    let sourcefile := e.2.SetBlockCount blocksize
    match sourcefile.verificationpacket with
    | none => some (e.1, sourcefile)
    | some verificationpacket =>
      if ((descriptionpacket.filesize + blocksize + (U64 - 1)) % U64) / blocksize ≠
          verificationpacket.blockcount then
        none
      else
        some (e.1, sourcefile)

/-- The function `Par2Repairer::CheckPacketConsistency` (par2repairer.cpp 892-1017): the
return value and the state it leaves. -/
def CheckPacketConsistency (s : Par2Repairer) : Bool × Par2Repairer :=
  match s.mainpacket with
  | none => (false, s)
  | some mainpacket =>
    (true,
      { s with
        blocksize := mainpacket.blocksize
        recoverypacketmap :=
          s.recoverypacketmap.filter (fun e => e.2.blocksize = mainpacket.blocksize)
        sourcefilemap := s.sourcefilemap.filterMap (checkSourceFile mainpacket.blocksize) })

/-- The function `Par2Repairer::CreateSourceFileList` (par2repairer.cpp 1021-1041); it
returns true.  A slot is the key of the map entry found for the file id, or
`none` (a null pointer) when there is none. -/
def CreateSourceFileList (s : Par2Repairer) : Par2Repairer :=
  match s.mainpacket with
  | none => s
  | some mainpacket =>
    { s with sourcefiles := s.sourcefiles ++
        mainpacket.fileids.map (fun fileid =>
          if (sfFind fileid s.sourcefilemap).isSome then some fileid else none) }

/-- The first loop of `AllocateSourceBlocks` (par2repairer.cpp 1053-1071): the
sum, in `u32`, of the block counts of the source files in the first
`recoverable` slots. -/
def countSourceBlocks (s : Par2Repairer) : Nat → List (Option MD5Hash) → Nat → Nat
  | 0, _, count => count
  | _, [], count => count
  | recoverable + 1, slot :: rest, count =>
    match slot.bind (fun fileid => sfFind fileid s.sourcefilemap) with
    | some sourcefile =>
      countSourceBlocks s recoverable rest ((count + sourcefile.blockcount) % 2 ^ 32)
    | none => countSourceBlocks s recoverable rest count

/-- The operation `vector::resize(n)`: the first `n` elements, followed by
default elements when the vector was shorter. -/
def resize {α : Type} (v : List α) (n : Nat) (d : α) : List α :=
  v.take n ++ List.replicate (n - v.length) d

/-- Modelled from the spec: the block lengths that `SetBlocks` gives to the
`blockcount` source blocks from index `first` on.  A block "has length =
main-packet `blocksize`, except the trailing block of each file, which is ...
logically truncated to the remaining bytes". -/
def setBlockLengths (blocksize filesize first blockcount : Nat) (blocks : List DataBlock) :
    List DataBlock :=
  blocks.enum.map (fun e =>
    if first ≤ e.1 ∧ e.1 < first + blockcount then
      { e.2 with length := min blocksize (filesize - (e.1 - first) * blocksize) }
    else e.2)

/-- Modelled from the spec: `Par2RepairerSourceFile::SetBlocks`
(par2repairersourcefile.cpp is not among the sources), called with the
iterators at index `first` of the two block vectors: "slice them by file so
that each source file owns a disjoint range of both vectors". -/
def SetBlocks (s : Par2Repairer) (fileid : MD5Hash) (sourcefile : Par2RepairerSourceFile)
    (first blockcount : Nat) : Par2Repairer :=
  { s with
    sourcefilemap :=
      (sfSet fileid
        { sourcefile with blockcount := blockcount, sourceblocks := some first,
                          targetblocks := some first }
        s.sourcefilemap)
    sourceblocks :=
      (setBlockLengths s.blocksize
        (match sourcefile.descriptionpacket with
          | some d => d.filesize
          | none => 0)
        first blockcount s.sourceblocks) }

/-- The second loop of `AllocateSourceBlocks` (par2repairer.cpp 1091-1112):
each source file in the first `recoverable` slots is given the next
`BlockCount()` blocks of the two vectors; `first` is the position of the
iterators `sourceblock` and `targetblock`. -/
def allocateBlocks : Nat → List (Option MD5Hash) → Nat → Par2Repairer → Par2Repairer
  | 0, _, _, s => s
  | _, [], _, s => s
  | recoverable + 1, slot :: rest, first, s =>
    match slot.bind (fun fileid =>
        (sfFind fileid s.sourcefilemap).map (fun sourcefile => (fileid, sourcefile))) with
    | some (fileid, sourcefile) =>
      allocateBlocks recoverable rest (first + sourcefile.blockcount)
        (SetBlocks s fileid sourcefile first sourcefile.blockcount)
    | none => allocateBlocks recoverable rest first s

/-- The function `Par2Repairer::AllocateSourceBlocks` (par2repairer.cpp 1045-1135); it
returns true.  Only the source files in the first `RecoverableFileCount()`
slots are counted and given blocks. -/
def AllocateSourceBlocks (s : Par2Repairer) : Par2Repairer :=
  match s.mainpacket with
  | none => s
  | some mainpacket =>
    let sourceblockcount := countSourceBlocks s mainpacket.recoverablefilecount s.sourcefiles 0
    if sourceblockcount > 0 then
      allocateBlocks mainpacket.recoverablefilecount s.sourcefiles 0
        { s with sourceblockcount := sourceblockcount
                 sourceblocks := resize s.sourceblocks sourceblockcount {}
                 targetblocks := resize s.targetblocks sourceblockcount {}
                 blocksallocated := true }
    else
      { s with sourceblockcount := sourceblockcount }

/-- The function `Par2Repairer::PrepareVerificationHashTable` (par2repairer.cpp 1140-1176),
without the hash table itself (verificationhashtable.cpp is not among the
sources); it returns true. -/
def PrepareVerificationHashTable (s : Par2Repairer) : Par2Repairer :=
  let present := s.sourcefiles.filterMap (fun slot =>
    slot.bind (fun fileid => (sfFind fileid s.sourcefilemap).map (fun sf => (fileid, sf))))
  { s with
    blockverifiable := present.any (fun e => e.2.verificationpacket.isSome)
    unverifiablesourcefiles := s.unverifiablesourcefiles ++
      (present.filter (fun e => !e.2.verificationpacket.isSome)).map Prod.fst }

/-- The first loop of `VerifySourceFiles` (par2repairer.cpp 1209-1242): the
value of `finalresult` after it.  The source never increments `filenumber` in
this loop, so the test `filenumber < RecoverableFileCount()` is made with
`filenumber = 0` for every null slot. -/
def checkSourceFileSlots (recoverablefilecount : Nat) : List (Option MD5Hash) → Bool → Bool
  | [], finalresult => finalresult
  | slot :: rest, finalresult =>
    match slot with
    | some _ => checkSourceFileSlots recoverablefilecount rest finalresult
    | none =>
      if 0 < recoverablefilecount then checkSourceFileSlots recoverablefilecount rest false
      else checkSourceFileSlots recoverablefilecount rest finalresult

/-- What `Process` takes from outside the sequential code of par2repairer.cpp:
the packet loaders, MD5 and the file system; the files that the two wildcard
searches of `LoadPacketsFromOtherFiles` find; `getrlimit` (`none` when it
fails) and `setrlimit`; the two parallel scans, which only open, read and
close files: `verifyFiles` is the `dispatch_apply` of `Verify1SourceFile` in
`VerifySourceFiles` and `verifyExtraFiles` the one of `Verify1ExtraFile` in
`VerifyExtraFiles`; and `repair`, the branch of `Process` that is taken when a
repair is wanted and needed (par2repairer.cpp 222-318), with its result and the
disk operations it makes (`none` when it has no result); `repairBranch` below
is that branch. -/
structure ProcessEnv where
  loaders : PacketLoaders
  md5 : MD5Function
  fs : String → Option DiskFile
  otherFiles : String → List String
  getrlimit : Option Nat
  setrlimit : Nat → Bool
  verifyFiles : Par2Repairer → Bool × Par2Repairer
  verifyExtraFiles : Par2Repairer → List String → Par2Repairer
  repair : Par2Repairer → Option (Result × List FileOp)

/-- The function `Par2Repairer::VerifySourceFiles` (par2repairer.cpp 1197-1276). -/
def VerifySourceFiles (env : ProcessEnv) (s : Par2Repairer) : Bool × Par2Repairer :=
  let finalresult :=
    checkSourceFileSlots
      (match s.mainpacket with
        | some mainpacket => mainpacket.recoverablefilecount
        | none => 0)
      s.sourcefiles true
  let r := env.verifyFiles s
  (finalresult && r.1, r.2)

/-- The test of `LoadPacketsFromExtraFiles` (par2repairer.cpp 881-882): the
name contains `.par2` or `.PAR2`. -/
def isPar2Name (filename : String) : Bool :=
  filename.data.tails.any (fun t => ".par2".data.isPrefixOf t) ||
    filename.data.tails.any (fun t => ".PAR2".data.isPrefixOf t)

/-- The names passed to `LoadPacketsFromFile` by `Process`, in order: the main
PAR2 file, the files found by `LoadPacketsFromOtherFiles`, and the extra files
that `LoadPacketsFromExtraFiles` selects. -/
def packetFiles (env : ProcessEnv) (par2filename : String) (extrafiles : List String) :
    List String :=
  par2filename :: (env.otherFiles par2filename ++ extrafiles.filter isPar2Name)

/-- The value of `mainpacket->TotalFileCount()`, the number of file ids of the main packet.
The main packet is held whenever the source reads it (`CheckPacketConsistency`
has returned true); for a null pointer the model reads 0. -/
def TotalFileCount (s : Par2Repairer) : Nat :=
  match s.mainpacket with
  | some mainpacket => mainpacket.fileids.length
  | none => 0

/-- The value of `mainpacket->RecoverableFileCount()`; see `TotalFileCount`. -/
def RecoverableFileCount (s : Par2Repairer) : Nat :=
  match s.mainpacket with
  | some mainpacket => mainpacket.recoverablefilecount
  | none => 0

/-- The block loop of `UpdateVerificationResults` (par2repairer.cpp 2085-2092)
on a source file with `n` blocks left to look at: the iterator `lSb` is at
index `index` of `sourceblocks` (`none` when the file was given no range), and
`available` is `availableblockcount`.  Reading through an iterator that points
at no block has no defined result: `none`. -/
def countSetBlocks (blocks : List DataBlock) : Nat → Option Nat → Nat → Option Nat
  | 0, _, available => some available
  | _ + 1, none, _ => none
  | n + 1, some index, available =>
    match blocks[index]? with
    | none => none
    | some datablock =>
      countSetBlocks blocks n (some (index + 1))
        (if datablock.IsSet then (available + 1) % 2 ^ 32 else available)

/-- The loop of `UpdateVerificationResults` (par2repairer.cpp 2062-2113) over
the slots it visits; `acc` carries the six counters.  The file counters are
incremented at most `TotalFileCount()` times and cannot wrap. -/
def updateVerificationLoop (s : Par2Repairer) :
    List (Option MD5Hash) → Par2Repairer → Option Par2Repairer
  | [], acc => some acc
  | slot :: rest, acc =>
    match slot.bind (fun fileid => sfFind fileid s.sourcefilemap) with
    | some lSourcefile =>
      if lSourcefile.completefile.isSome then
        let counted : Par2Repairer :=
          if lSourcefile.completefile = lSourcefile.targetfile then
            { acc with completefilecount := acc.completefilecount + 1 }
          else
            { acc with renamedfilecount := acc.renamedfilecount + 1 }
        updateVerificationLoop s rest
          { counted with availableblockcount :=
              (counted.availableblockcount + lSourcefile.blockcount) % 2 ^ 32 }
      else
        match countSetBlocks s.sourceblocks lSourcefile.blockcount lSourcefile.sourceblocks
            acc.availableblockcount with
        | none => none
        | some available =>
          if lSourcefile.targetexists then
            updateVerificationLoop s rest
              { acc with availableblockcount := available
                         damagedfilecount := acc.damagedfilecount + 1 }
          else
            updateVerificationLoop s rest
              { acc with availableblockcount := available
                         missingfilecount := acc.missingfilecount + 1 }
    | none =>
      updateVerificationLoop s rest { acc with missingfilecount := acc.missingfilecount + 1 }

/-- The function `Par2Repairer::UpdateVerificationResults` (par2repairer.cpp 2049-2117).  The
loop visits the first `TotalFileCount()` slots of `sourcefiles`; the last line
is the `u32` subtraction `sourceblockcount - availableblockcount`.  The result
is `none` when the block loop reads through an iterator that points at no
block. -/
def UpdateVerificationResults (s : Par2Repairer) : Option Par2Repairer :=
  (updateVerificationLoop s (s.sourcefiles.take (TotalFileCount s))
    { s with availableblockcount := 0, missingblockcount := 0, completefilecount := 0,
             renamedfilecount := 0, damagedfilecount := 0, missingfilecount := 0 }).map
    (fun r => { r with missingblockcount :=
      (r.sourceblockcount + 2 ^ 32 - r.availableblockcount) % 2 ^ 32 })

/-- The function `Par2Repairer::CheckVerificationResults` (par2repairer.cpp 2120-2207): the
return value and, in the branch "Repair is not possible", the number printed
in "You need ... more recovery blocks to be able to repair" (the difference
of a `u32` and a `size_t`, taken in 64 bits; it is printed unless the noise
level is silent). -/
def CheckVerificationResults (s : Par2Repairer) : Bool × Option Nat :=
  if s.completefilecount < RecoverableFileCount s ∨ s.renamedfilecount > 0 ∨
      s.damagedfilecount > 0 ∨ s.missingfilecount > 0 then
    if s.recoverypacketmap.length ≥ s.missingblockcount then
      (true, none)
    else
      (false, some ((s.missingblockcount + U64 - s.recoverypacketmap.length) % U64))
  else
    (true, none)

/-- The outcome of the phases of `Process` that come before the report: either
the result `Process` returns early, or the state after the scans. -/
inductive Scanned where
  | stopped (result : Result)
  | done (s : Par2Repairer)
deriving DecidableEq, Repr

/-- The state after the scans, when they were completed. -/
def Scanned.state? : Scanned → Option Par2Repairer
  | Scanned.stopped _ => none
  | Scanned.done s => some s

/-- The lines 179-198 of `Process`: `UpdateVerificationResults`, and, when files
are still incomplete, the scan of the extra files followed by a second
`UpdateVerificationResults` (`VerifyExtraFiles` always returns true). -/
def scanExtraFiles (env : ProcessEnv) (s : Par2Repairer) (extrafiles : List String) :
    Option Par2Repairer :=
  match UpdateVerificationResults s with
  | none => none
  | some s1 =>
    if s1.completefilecount < RecoverableFileCount s1 then
      UpdateVerificationResults (env.verifyExtraFiles s1 extrafiles)
    else
      some s1

/-- The phases of `Process` up to the second `UpdateVerificationResults`
(par2repairer.cpp 88-198) on a new repairer.  `none` means that there is no
outcome: the packet scan of some file does not end within `fuel` turns, or
`UpdateVerificationResults` reads through an iterator that points at no block.
The three `LoadPackets...` calls, `CreateSourceFileList`,
`AllocateSourceBlocks`, `PrepareVerificationHashTable` and
`ComputeWindowTable` return true whenever they return. -/
def scanPhase (env : ProcessEnv) (fuel : Nat) (par2filename : String)
    (extrafiles : List String) : Option Scanned :=
  match LoadPacketsFromFiles env.loaders env.md5 env.fs fuel {}
      (packetFiles env par2filename extrafiles) with
  | none => none
  | some loaded =>
    let checked := CheckPacketConsistency loaded
    if !checked.1 then some (Scanned.stopped Result.eInsufficientCriticalData)
    else
      match env.getrlimit with
      | none => some (Scanned.stopped Result.eLogicError)
      | some rlim_cur =>
        let lFileHandlesNeeded :=
          (match checked.2.mainpacket with
            | some mainpacket => mainpacket.fileids.length
            | none => 0) + 16
        if rlim_cur < lFileHandlesNeeded ∧ env.setrlimit lFileHandlesNeeded = false then
          some (Scanned.stopped Result.eLogicError)
        else
          let prepared :=
            PrepareVerificationHashTable (AllocateSourceBlocks (CreateSourceFileList checked.2))
          let verified := VerifySourceFiles env prepared
          if !verified.1 then some (Scanned.stopped Result.eFileIOError)
          else (scanExtraFiles env verified.2 extrafiles).map Scanned.done

/-- The function `Par2Repairer::Process` (par2repairer.cpp 88-335) on a new repairer: the
result and the disk operations made, or `none` when `scanPhase` or the repair
branch has no outcome.  No phase before the repair branch renames, creates, writes or
deletes a file. -/
def Process (env : ProcessEnv) (fuel : Nat) (par2filename : String)
    (extrafiles : List String) (dorepair : Bool) : Option (Result × List FileOp) :=
  match scanPhase env fuel par2filename extrafiles with
  | none => none
  | some (Scanned.stopped result) => some (result, [])
  | some (Scanned.done s) =>
    if !(CheckVerificationResults s).1 then some (Result.eRepairNotPossible, [])
    else if s.completefilecount < RecoverableFileCount s then
      if dorepair then env.repair s
      else some (Result.eRepairPossible, [])
    else some (Result.eSuccess, [])

end Par2Repairer

namespace Par2Repairer

/-- The sweep of one source-file entry as the specification words it: an entry
without description packet is dropped; an entry whose verification packet's
block count differs from `ceil(filesize / blocksize)` is dropped; every other
entry is kept, with its block count set to `ceil(filesize / blocksize)`. -/
def keepSourceFile (blocksize : Nat) (e : MD5Hash × Par2RepairerSourceFile) :
    Option (MD5Hash × Par2RepairerSourceFile) :=
  match e.2.descriptionpacket with
  | none => none
  | some d =>
    match e.2.verificationpacket with
    | none => some (e.1, { e.2 with blockcount := ceilBlocks d.filesize blocksize })
    | some v =>
      if v.blockcount ≠ ceilBlocks d.filesize blocksize then none
      else some (e.1, { e.2 with blockcount := ceilBlocks d.filesize blocksize })

end Par2Repairer

/-! ## Predicates used in the statements -/

namespace Par2Repairer

/-- Nothing is held before the first validated packet, `setid` is the set id
of the first validated header, and every packet held was loaded from a header
whose set id is `setid`. -/
def SetidInvariant (s : Par2Repairer) : Prop :=
  (s.firstpacket = true ↔ s.validated = []) ∧
  (s.firstpacket = true →
    s.mainpacket = none ∧ s.creatorpacket = none ∧ s.recoverypacketmap = [] ∧
      s.sourcefilemap = []) ∧
  (∀ v, s.validated.head? = some v → s.setid = v.header.setid) ∧
  (∀ p, s.mainpacket = some p → p.header.setid = s.setid) ∧
  (∀ p, s.creatorpacket = some p → p.header.setid = s.setid) ∧
  (∀ e ∈ s.recoverypacketmap, e.2.header.setid = s.setid) ∧
  (∀ e ∈ s.sourcefilemap,
    (∀ d, e.2.descriptionpacket = some d → d.header.setid = s.setid) ∧
    (∀ v, e.2.verificationpacket = some v → v.header.setid = s.setid))

/-- The critical packets held in `s` are still held, unchanged, in `s'`. -/
def KeepsCritical (s s' : Par2Repairer) : Prop :=
  (∀ p, s.mainpacket = some p → s'.mainpacket = some p) ∧
  (∀ p, s.creatorpacket = some p → s'.creatorpacket = some p) ∧
  (∀ fileid sf d, sfFind fileid s.sourcefilemap = some sf → sf.descriptionpacket = some d →
    ∃ sf', sfFind fileid s'.sourcefilemap = some sf' ∧ sf'.descriptionpacket = some d) ∧
  (∀ fileid sf v, sfFind fileid s.sourcefilemap = some sf → sf.verificationpacket = some v →
    ∃ sf', sfFind fileid s'.sourcefilemap = some sf' ∧ sf'.verificationpacket = some v)

end Par2Repairer

namespace Par2Repairer

/-- A valid packet starts at position `p` of the file, in the sense of the
packet format: the magic is there, the length is at least 64, a multiple of 4
and fits in the file (as a true sum), and the MD5 of the bytes
`[p + 32, p + length)` is the hash field. -/
def ValidPacketAt (md5 : MD5Function) (file : DiskFile) (p : Nat) : Prop :=
  p + 64 ≤ file.FileSize ∧
  (parseHeader ((file.content.drop p).take 64)).magic = packet_magic ∧
  64 ≤ (parseHeader ((file.content.drop p).take 64)).length ∧
  (parseHeader ((file.content.drop p).take 64)).length % 4 = 0 ∧
  p + (parseHeader ((file.content.drop p).take 64)).length ≤ file.FileSize ∧
  md5.hash ((file.content.drop (p + 32)).take
      ((parseHeader ((file.content.drop p).take 64)).length - 32)) =
    (parseHeader ((file.content.drop p).take 64)).hash

end Par2Repairer

/-! ## Concrete inputs used by the theorems -/

namespace Par2Repairer

/-- The MD5 digest `90b72c62f3dae94b3de028f31e199502` of the 32 bytes that end
the two example headers below (a zero setid followed by the creator type
tag). -/
def exampleDigest : MD5Hash :=
  [144, 183, 44, 98, 243, 218, 233, 75, 61, 224, 40, 243, 30, 25, 149, 2]

/-- A 68-byte file: four zero bytes, then one 64-byte packet header whose
length field is `2 ^ 64 - 4` (bytes `FC FF FF FF FF FF FF FF`) and whose hash
field is the MD5 of the 32 header bytes that follow it. -/
def wrapBytes : List Byte :=
  [0, 0, 0, 0] ++ packet_magic ++ [252, 255, 255, 255, 255, 255, 255, 255] ++
    exampleDigest ++ List.replicate 16 0 ++ creatorpacket_type

/-- The header at offset 4 of `wrapBytes`. -/
def wrapHeader : PACKET_HEADER :=
  { magic := packet_magic
    length := 2 ^ 64 - 4
    hash := exampleDigest
    setid := List.replicate 16 0
    type := creatorpacket_type }

/-- The file holding `wrapBytes`. -/
def wrapFile : DiskFile :=
  { filename := "wrap.par2", content := wrapBytes }

/-- A well-formed 64-byte creator packet without body: magic, length 64, the
MD5 of its last 32 bytes, a zero setid and the creator type tag. -/
def creatorBytes : List Byte :=
  packet_magic ++ [64, 0, 0, 0, 0, 0, 0, 0] ++ exampleDigest ++ List.replicate 16 0 ++
    creatorpacket_type

/-- The header of `creatorBytes`. -/
def creatorHeader : PACKET_HEADER :=
  { magic := packet_magic
    length := 64
    hash := exampleDigest
    setid := List.replicate 16 0
    type := creatorpacket_type }

/-- A 132-byte file: the 68 bytes of `wrapBytes` followed by the well-formed
packet `creatorBytes` at offset 68. -/
def junkThenPacketFile : DiskFile :=
  { filename := "junk.par2", content := wrapBytes ++ creatorBytes }

/-- The file holding `creatorBytes`. -/
def creatorFile : DiskFile :=
  { filename := "creator.par2", content := creatorBytes }

/-- A file system with the three example files. -/
def exampleFS : String → Option DiskFile := fun name =>
  if name = "creator.par2" then some creatorFile
  else if name = "wrap.par2" then some wrapFile
  else if name = "junk.par2" then some junkThenPacketFile
  else none

/-- A stand-in for MD5 used to evaluate the definitions: it maps every input
to `exampleDigest`. -/
def toyMD5 : MD5Function :=
  ⟨fun _ => exampleDigest, fun _ => rfl⟩

/-- Packet loaders that accept creator packets and nothing else. -/
def creatorOnlyLoaders : PacketLoaders :=
  { recovery := fun _ _ _ => none
    verification := fun _ _ _ => none
    description := fun _ _ _ => none
    main := fun _ _ _ => none
    creator := fun _ _ _ => some {} }

/-- The repairer after loading `creator.par2` with `creatorOnlyLoaders`. -/
def creatorLoaded : Par2Repairer :=
  { firstpacket := false
    setid := List.replicate 16 0
    creatorpacket := some { header := creatorHeader }
    diskFileMap := ["creator.par2"]
    validated := [⟨"creator.par2", 0, creatorHeader⟩] }

/-- Packet loaders that accept recovery packets and nothing else; the exponent
of the packet loaded at `offset` is `offset / 100`, its block size is 4. -/
def recoveryOnlyLoaders : PacketLoaders :=
  { recovery := fun _ offset _ => some { exponent := offset / 100, blocksize := 4 }
    verification := fun _ _ _ => none
    description := fun _ _ _ => none
    main := fun _ _ _ => none
    creator := fun _ _ _ => none }

/-- A repairer that holds recovery packets for the exponents 1 and 5. -/
def twoRecoveryPackets : Par2Repairer :=
  { firstpacket := false
    recoverypacketmap := [(1, { exponent := 1, blocksize := 4 }),
      (5, { exponent := 5, blocksize := 4 })] }

/-- A repairer whose main packet has block size `2 ^ 64 - 4` and that holds,
for the file id `[1]`, a description packet of a 5-byte file and a
verification packet with one block. -/
def hugeBlockSize : Par2Repairer :=
  { firstpacket := false
    mainpacket := some { blocksize := 2 ^ 64 - 4, recoverablefilecount := 1, fileids := [[1]] }
    sourcefilemap := [([1], { descriptionpacket := some { fileid := [1], filesize := 5 }
                              verificationpacket := some { fileid := [1], blockcount := 1 } })] }

/-- A repairer with block size 4 that holds recovery packets of sizes 4 and 8,
a consistent entry for the file id `[1]` (10 bytes, 3 blocks), an entry without
description packet for `[2]` and an entry with a wrong block count for `[3]`. -/
def mixedPackets : Par2Repairer :=
  { firstpacket := false
    mainpacket := some { blocksize := 4, recoverablefilecount := 3,
                         fileids := [[1], [2], [3]] }
    recoverypacketmap := [(0, { exponent := 0, blocksize := 4 }),
      (1, { exponent := 1, blocksize := 8 })]
    sourcefilemap :=
      [([1], { descriptionpacket := some { fileid := [1], filesize := 10 }
               verificationpacket := some { fileid := [1], blockcount := 3 } }),
       ([2], { verificationpacket := some { fileid := [2], blockcount := 1 } }),
       ([3], { descriptionpacket := some { fileid := [3], filesize := 10 }
               verificationpacket := some { fileid := [3], blockcount := 2 } })] }

/-- A well-formed 64-byte main-type packet header for `toyMD5` (its hash field
is `exampleDigest`). -/
def mainBytes : List Byte :=
  packet_magic ++ [64, 0, 0, 0, 0, 0, 0, 0] ++ exampleDigest ++ List.replicate 16 0 ++
    mainpacket_type

/-- The header of `mainBytes`. -/
def mainHeader : PACKET_HEADER :=
  { magic := packet_magic
    length := 64
    hash := exampleDigest
    setid := List.replicate 16 0
    type := mainpacket_type }

/-- Packet loaders that accept main packets and nothing else: block size 4 and
one recoverable file, with file id `[1]`. -/
def mainOnlyLoaders : PacketLoaders :=
  { recovery := fun _ _ _ => none
    verification := fun _ _ _ => none
    description := fun _ _ _ => none
    main := fun _ _ _ => some { blocksize := 4, recoverablefilecount := 1, fileids := [[1]] }
    creator := fun _ _ _ => none }

/-- An environment for `Process`: the files `creator.par2` and `main.par2`, no
other files found, and later phases that report success. -/
def exampleEnv (loaders : PacketLoaders) : ProcessEnv :=
  { loaders := loaders
    md5 := toyMD5
    fs := fun name =>
      if name = "main.par2" then some { filename := "main.par2", content := mainBytes }
      else exampleFS name
    otherFiles := fun _ => []
    getrlimit := some 256
    setrlimit := fun _ => true
    verifyFiles := fun s => (true, s)
    verifyExtraFiles := fun s _ => s
    repair := fun _ => some (Result.eSuccess, []) }

/-- The repairer after loading `main.par2` with `mainOnlyLoaders`. -/
def mainLoaded : Par2Repairer :=
  { firstpacket := false
    setid := List.replicate 16 0
    mainpacket := some { header := mainHeader, blocksize := 4, recoverablefilecount := 1,
                         fileids := [[1]] }
    diskFileMap := ["main.par2"]
    validated := [⟨"main.par2", 0, mainHeader⟩] }

end Par2Repairer

/-! ## Concrete inputs for the verification results -/

namespace Par2Repairer

/-- A well-formed 64-byte description-type packet header for `toyMD5`. -/
def descriptionBytes : List Byte :=
  packet_magic ++ [64, 0, 0, 0, 0, 0, 0, 0] ++ exampleDigest ++ List.replicate 16 0 ++
    filedescriptionpacket_type

/-- A well-formed 64-byte verification-type packet header for `toyMD5`. -/
def verificationBytes : List Byte :=
  packet_magic ++ [64, 0, 0, 0, 0, 0, 0, 0] ++ exampleDigest ++ List.replicate 16 0 ++
    fileverificationpacket_type

/-- The file `set.par2`: a main packet, two description packets and one
verification packet. -/
def setFile : DiskFile :=
  { filename := "set.par2"
    content := mainBytes ++ descriptionBytes ++ descriptionBytes ++ verificationBytes }

/-- Packet loaders for `set.par2`: the main packet has block size 4 and lists
the recoverable file `[1]` and the non-recoverable file `[2]`; the description
packet at offset 64 is that of `[1]` (`x.dat`, `size1` bytes), the other one
that of `[2]` (`y.dat`, `size2` bytes); the verification packet is that of the
file `verified` and has `blockcount` blocks. -/
def twoFileLoaders (size1 size2 : Nat) (verified : MD5Hash) (blockcount : Nat) :
    PacketLoaders :=
  { recovery := fun _ _ _ => none
    verification := fun _ _ _ => some { fileid := verified, blockcount := blockcount }
    description := fun _ offset _ =>
      if offset = 64 then some { fileid := [1], filesize := size1, filename := "x.dat" }
      else some { fileid := [2], filesize := size2, filename := "y.dat" }
    main := fun _ _ _ =>
      some { blocksize := 4, recoverablefilecount := 1, fileids := [[1], [2]] }
    creator := fun _ _ _ => none }

/-- What `Verify1SourceFile` records in the source file `fileid` when its
target file `filename` exists (`SetTargetExists(true)`, `SetTargetFile`, the
entry in `diskFileMap`), and, when `VerifyDataFile` finds it to be a full
match for that source file, `SetCompleteFile`. -/
def foundTarget (fileid : MD5Hash) (filename : String) (complete : Bool) (s : Par2Repairer) :
    Par2Repairer :=
  match sfFind fileid s.sourcefilemap with
  | none => s
  | some sourcefile =>
    { s with
      diskFileMap := s.diskFileMap ++ [filename]
      sourcefilemap :=
        (sfSet fileid
          { sourcefile with targetexists := true, targetfile := some filename,
                            completefile := if complete then some filename else none }
          s.sourcefilemap) }

/-- An environment for `Process` on `set.par2` with the given loaders and the
given outcome of the scan of the source files. -/
def twoFileEnv (loaders : PacketLoaders) (verifyFiles : Par2Repairer → Bool × Par2Repairer) :
    ProcessEnv :=
  { loaders := loaders
    md5 := toyMD5
    fs := fun name => if name = "set.par2" then some setFile else none
    otherFiles := fun _ => []
    getrlimit := some 256
    setrlimit := fun _ => true
    verifyFiles := verifyFiles
    verifyExtraFiles := fun s _ => s
    repair := fun _ => some (Result.eRepairFailed, []) }

/-- The recoverable file `x.dat` is empty (size 0, a verification packet with
no block); the non-recoverable file `y.dat` has 4 bytes (one block) and no
verification packet.  On disk `x.dat` exists and is not found complete, and
`y.dat` is found complete under its name by the comparison of the whole-file
hashes. -/
def emptyRecoverableEnv : ProcessEnv :=
  twoFileEnv (twoFileLoaders 0 4 [1] 0)
    (fun s => (true, foundTarget [2] "y.dat" true (foundTarget [1] "x.dat" false s)))

/-- A state after the scans: five source blocks are missing, three recovery
packets are held, one file is damaged. -/
def fiveMissingThreeHeld : Par2Repairer :=
  { mainpacket := some { blocksize := 4, recoverablefilecount := 1, fileids := [[1]] }
    recoverypacketmap := [(0, { exponent := 0, blocksize := 4 }),
      (1, { exponent := 1, blocksize := 4 }), (2, { exponent := 2, blocksize := 4 })]
    sourceblockcount := 10
    availableblockcount := 5
    missingblockcount := 5
    damagedfilecount := 1 }

end Par2Repairer

/-! ## The repair planner -/

/-- An assignment `*it = x` through an iterator at position `i` of the vector
`v`; it has no defined result (`none`) when the iterator is at or past
`end()`. -/
def assignAt {α : Type} (v : List α) (i : Nat) (x : α) : Option (List α) :=
  if i < v.length then some (v.set i x) else none

/-- The vectors that the first part of `ComputeRSmatrix` fills, with the
positions of the iterators `inputblock`, `copyblock` and `outputblock`; a null
pointer is `none`. -/
structure Partition where
  present : List Bool := []
  inputblocks : List (Option BlockRef) := []
  copyblocks : List (Option BlockRef) := []
  outputblocks : List (Option BlockRef) := []
  inputblock : Nat := 0
  copyblock : Nat := 0
  outputblock : Nat := 0
deriving DecidableEq, Repr

namespace Par2Repairer

/-- The partition loop of `ComputeRSmatrix` (par2repairer.cpp 2376-2411) over
the source blocks that are left; `index` is the position of the iterators
`sourceblock`, `targetblock` and `pres`, and `targetcount` the size of
`targetblocks`. -/
def partitionLoop (targetcount : Nat) : List DataBlock → Nat → Partition → Option Partition
  | [], _, p => some p
  | sourceblock :: rest, index, p =>
    if index < targetcount then
      if sourceblock.IsSet then
        match assignAt p.present index true with
        | none => none
        | some present =>
          match assignAt p.inputblocks p.inputblock (some (BlockRef.source index)) with
          | none => none
          | some inputblocks =>
            match assignAt p.copyblocks p.copyblock (some (BlockRef.target index)) with
            | none => none
            | some copyblocks =>
              partitionLoop targetcount rest (index + 1)
                { p with present := present, inputblocks := inputblocks,
                         copyblocks := copyblocks, inputblock := p.inputblock + 1,
                         copyblock := p.copyblock + 1 }
      else
        match assignAt p.present index false with
        | none => none
        | some present =>
          match assignAt p.outputblocks p.outputblock (some (BlockRef.target index)) with
          | none => none
          | some outputblocks =>
            partitionLoop targetcount rest (index + 1)
              { p with present := present, outputblocks := outputblocks,
                       outputblock := p.outputblock + 1 }
    else
      none

/-- The first part of `ComputeRSmatrix` (par2repairer.cpp 2357-2411): the three
`resize` calls on the (still empty) vectors, the vector `present`, and the
partition loop over all source blocks. -/
def partitionBlocks (s : Par2Repairer) : Option Partition :=
  partitionLoop s.targetblocks.length s.sourceblocks 0
    { present := resize [] s.sourceblockcount false
      inputblocks := resize [] s.sourceblockcount none
      copyblocks := resize [] s.availableblockcount none
      outputblocks := resize [] s.missingblockcount none }

/-- The indices, counted from `first`, of the blocks of the list that satisfy
`keep`, in increasing order. -/
def blockIndices (keep : DataBlock → Bool) (blocks : List DataBlock) (first : Nat) : List Nat :=
  ((blocks.enumFrom first).filter (fun e => keep e.2)).map Prod.fst

/-- The function `Par2Repairer::AllocateBuffers` (par2repairer.cpp 2452-2478).  The product
`blocksize * missingblockcount` is taken in 64 bits, `~3` is the mask
`2 ^ 64 - 4`; `allocate n` tells whether `new u8[n]` gives a buffer.  The
result is the return value and the state with the new `chunksize`. -/
def AllocateBuffers (allocate : Nat → Bool) (memorylimit : Nat) (s : Par2Repairer) :
    Bool × Par2Repairer :=
  let chunksize :=
    if (s.blocksize * s.missingblockcount) % U64 > memorylimit then
      (U64 - 4) &&& (memorylimit / s.missingblockcount)
    else
      s.blocksize
  (allocate chunksize && allocate ((chunksize * s.missingblockcount) % U64),
    { s with chunksize := chunksize })

/-- The chunk loop of `Process` (par2repairer.cpp 266-288).  `processData` is
the return value of `ProcessData(blockoffset, blocklength)`.  The result is
`true` when the loop runs to its end and `false` when `ProcessData` fails,
with the `(blockoffset, blocklength)` pairs passed to `ProcessData`; `none`
means that the fuel ran out.  Since `blocklength <= blocksize - blockoffset`,
the sum `blockoffset + blocklength` stays in 64 bits. -/
def chunkLoop (processData : Nat → Nat → Bool) (blocksize chunksize : Nat) :
    Nat → Nat → Option (Bool × List (Nat × Nat))
  | 0, _ => none
  | fuel + 1, blockoffset =>
    if blockoffset < blocksize then
      let blocklength := min chunksize (blocksize - blockoffset)
      if processData blockoffset blocklength then
        (chunkLoop processData blocksize chunksize fuel (blockoffset + blocklength)).map
          (fun r => (r.1, (blockoffset, blocklength) :: r.2))
      else
        some (false, [(blockoffset, blocklength)])
    else
      some (true, [])

/-- A block vector with five blocks, of which those with index 1 and 3 are
set. -/
def fiveBlocks : Par2Repairer :=
  { sourceblockcount := 5
    availableblockcount := 2
    missingblockcount := 3
    sourceblocks := [{}, { diskfile := some "a", length := 4 }, {},
      { diskfile := some "b", length := 4 }, {}]
    targetblocks := List.replicate 5 {} }

end Par2Repairer

/-! ## The repair executor -/

/-- The files on disk, by name. -/
abbrev Disk := String → Option DiskFile

/-- The disk after the file `file` has been written back. -/
def Disk.update (disk : Disk) (file : DiskFile) : Disk :=
  fun name => if name = file.filename then some file else disk name

/-- What `ProcessData` does, in order.  `read` is a call of `ReadData` that
returned true, with the bytes it left in the input buffer; `copied` is a call
of `WriteData` on a copy block and `written` one on an output block, each with
the buffer passed, that returned true; `repaired` is a call of
`RepairMissingBlocks`. -/
inductive RepairEvent where
  | opened (filename : String)
  | closed (filename : String)
  | read (inputindex : Nat) (block : Option BlockRef) (position size : Nat) (data : List Byte)
  | copied (copyindex : Nat) (block : Option BlockRef) (position size : Nat)
      (buffer : List Byte)
  | repaired (inputindex blocklength : Nat)
  | written (outputindex : Nat) (block : Option BlockRef) (position size : Nat)
      (buffer : List Byte)
deriving DecidableEq, Repr

/-- The event is a transfer of data or a call of the coder (not an open or a
close). -/
def RepairEvent.isTransfer : RepairEvent → Bool
  | RepairEvent.opened _ => false
  | RepairEvent.closed _ => false
  | _ => true

/-- What `ProcessData` takes from outside par2repairer.cpp and datablock.cpp:
`Open name` is the return value of `DiskFile::Open(false)` on the file `name`;
`RepairMissingBlocks outputbuffer inputbuffer blocklength inputindex` is the
output buffer after the parallel calls of `rs.Process` for all output
indices. -/
structure RepairEnv where
  Open : String → Bool
  RepairMissingBlocks : List Byte → List Byte → Nat → Nat → List Byte

/-- The variables that change during `ProcessData`: the disk, the two buffers
(of `inputbuffer` only the `blocklength` bytes in use are kept), the local
`lastopenfile`, and the events so far. -/
structure RepairState where
  disk : Disk
  outputbuffer : List Byte := []
  inputbuffer : List Byte := []
  lastopenfile : Option String := none
  events : List RepairEvent := []

namespace Par2Repairer

/-- The block a `DataBlock*` points at; `none` for a null pointer or a pointer
to no block. -/
def derefBlock (s : Par2Repairer) : Option BlockRef → Option DataBlock
  | none => none
  | some (BlockRef.source index) => s.sourceblocks[index]?
  | some (BlockRef.target index) => s.targetblocks[index]?
  | some (BlockRef.recovery exponent) =>
    (mapFind exponent s.recoverypacketmap).map (fun packet => packet.datablock)

/-- The steps "Are we reading from a new file?" and "Read data from the current
input block" of `ProcessData` (par2repairer.cpp 2499-2522 and 2556-2579).
`none`: the block pointer or its `diskfile` is null; `some (false, _)`:
`ProcessData` returns false. -/
def readInput (env : RepairEnv) (s : Par2Repairer) (blockoffset blocklength inputindex : Nat)
    (inputblock : Option BlockRef) (st : RepairState) : Option (Bool × RepairState) :=
  match derefBlock s inputblock with
  | none => none
  | some block =>
    match block.diskfile with
    | none => none
    | some filename =>
      let reopened : Bool × RepairState :=
        if st.lastopenfile = some filename then (true, st)
        else
          let closed : List RepairEvent :=
            match st.lastopenfile with
            | some last => st.events ++ [RepairEvent.closed last]
            | none => st.events
          if env.Open filename then
            (true, { st with lastopenfile := some filename
                             events := closed ++ [RepairEvent.opened filename] })
          else
            (false, { st with lastopenfile := some filename, events := closed })
      if reopened.1 then
        match reopened.2.disk filename with
        | none => some (false, reopened.2)
        | some file =>
          match (block.ReadData file blockoffset blocklength).1 with
          | none => some (false, reopened.2)
          | some data =>
            some (true, { reopened.2 with
              inputbuffer := data
              events := reopened.2.events ++
                [RepairEvent.read inputindex inputblock blockoffset blocklength data] })
      else
        some (false, reopened.2)

/-- A call `WriteData(blockoffset, blocklength, buffer, wrote)` on the block
that `target` points at; `event` is recorded when it returns true.  `none`:
the block pointer or its `diskfile` is null. -/
def writeBlock (s : Par2Repairer) (blockoffset blocklength : Nat) (target : Option BlockRef)
    (buffer : List Byte) (event : RepairEvent) (st : RepairState) :
    Option (Bool × RepairState) :=
  match derefBlock s target with
  | none => none
  | some block =>
    match block.diskfile with
    | none => none
    | some filename =>
      match st.disk filename with
      | none => some (false, st)
      | some file =>
        match (block.WriteData file blockoffset blocklength buffer).1 with
        | none => some (false, st)
        | some written =>
          some (true, { st with disk := st.disk.update written
                                events := st.events ++ [event] })

/-- The step "Have we reached the last source data block" of `ProcessData`
(par2repairer.cpp 2524-2541); `copyblock` is the position of the iterator, the
third component its position after the step. -/
def copyInput (s : Par2Repairer) (blockoffset blocklength copyblock : Nat) (st : RepairState) :
    Option (Bool × RepairState × Nat) :=
  match s.copyblocks[copyblock]? with
  | none => some (true, st, copyblock)
  | some target =>
    match derefBlock s target with
    | none => none
    | some block =>
      if block.IsSet then
        match writeBlock s blockoffset blocklength target st.inputbuffer
            (RepairEvent.copied copyblock target blockoffset blocklength st.inputbuffer) st with
        | none => none
        | some (false, st1) => some (false, st1, copyblock)
        | some (true, st1) => some (true, st1, copyblock + 1)
      else
        some (true, st, copyblock + 1)

/-- The loop "For each input block" of `ProcessData` (par2repairer.cpp
2496-2547), taken when `missingblockcount > 0`, over the input blocks that are
left. -/
def processInputs (env : RepairEnv) (s : Par2Repairer) (blockoffset blocklength : Nat) :
    List (Option BlockRef) → Nat → Nat → RepairState → Option (Bool × RepairState)
  | [], _, _, st => some (true, st)
  | inputblock :: rest, inputindex, copyblock, st =>
    match readInput env s blockoffset blocklength inputindex inputblock st with
    | none => none
    | some (false, st1) => some (false, st1)
    | some (true, st1) =>
      match copyInput s blockoffset blocklength copyblock st1 with
      | none => none
      | some (false, st2, _) => some (false, st2)
      | some (true, st2, copyblock2) =>
        processInputs env s blockoffset blocklength rest (inputindex + 1) copyblock2
          { st2 with
            outputbuffer :=
              env.RepairMissingBlocks st2.outputbuffer st2.inputbuffer blocklength inputindex
            events := st2.events ++ [RepairEvent.repaired inputindex blocklength] }

/-- The loop "For each block that might need to be copied" of `ProcessData`
(par2repairer.cpp 2549-2624), taken when `missingblockcount = 0`, over the copy
blocks that are left; `index` is the position of both iterators. -/
def copyBlocks (env : RepairEnv) (s : Par2Repairer) (blockoffset blocklength : Nat) :
    List (Option BlockRef) → Nat → RepairState → Option (Bool × RepairState)
  | [], _, st => some (true, st)
  | copyblock :: rest, index, st =>
    match derefBlock s copyblock with
    | none => none
    | some block =>
      if block.IsSet then
        match s.inputblocks[index]? with
        | none => none
        | some inputblock =>
          match readInput env s blockoffset blocklength index inputblock st with
          | none => none
          | some (false, st1) => some (false, st1)
          | some (true, st1) =>
            match writeBlock s blockoffset blocklength copyblock st1.inputbuffer
                (RepairEvent.copied index copyblock blockoffset blocklength st1.inputbuffer)
                st1 with
            | none => none
            | some (false, st2) => some (false, st2)
            | some (true, st2) => copyBlocks env s blockoffset blocklength rest (index + 1) st2
      else
        copyBlocks env s blockoffset blocklength rest (index + 1) st

/-- The loop "For each output block that has been recomputed" of `ProcessData`
(par2repairer.cpp 2640-2653) with `count` turns left; the buffer passed starts
at byte `chunksize * outputindex` of the output buffer. -/
def writeOutputs (s : Par2Repairer) (blockoffset blocklength : Nat) :
    Nat → Nat → RepairState → Option (Bool × RepairState)
  | 0, _, st => some (true, st)
  | count + 1, outputindex, st =>
    match s.outputblocks[outputindex]? with
    | none => none
    | some outputblock =>
      match writeBlock s blockoffset blocklength outputblock
          ((st.outputbuffer.drop (s.chunksize * outputindex)).take blocklength)
          (RepairEvent.written outputindex outputblock blockoffset blocklength
            ((st.outputbuffer.drop (s.chunksize * outputindex)).take blocklength)) st with
      | none => none
      | some (false, st1) => some (false, st1)
      | some (true, st1) => writeOutputs s blockoffset blocklength count (outputindex + 1) st1

/-- The function `Par2Repairer::ProcessData(blockoffset, blocklength)` (par2repairer.cpp
2481-2661) on the disk `disk`: the return value with the state it leaves, or
`none` when a null pointer or an iterator at `end()` is dereferenced. -/
def ProcessData (env : RepairEnv) (s : Par2Repairer) (disk : Disk)
    (blockoffset blocklength : Nat) : Option (Bool × RepairState) :=
  let st0 : RepairState :=
    { disk := disk
      outputbuffer := List.replicate ((s.chunksize * s.missingblockcount) % U64) 0 }
  match (if s.missingblockcount > 0 then
      processInputs env s blockoffset blocklength s.inputblocks 0 0 st0
    else
      copyBlocks env s blockoffset blocklength s.copyblocks 0 st0) with
  | none => none
  | some (false, st1) => some (false, st1)
  | some (true, st1) =>
    writeOutputs s blockoffset blocklength s.missingblockcount 0
      { st1 with events :=
          match st1.lastopenfile with
          | some last => st1.events ++ [RepairEvent.closed last]
          | none => st1.events }

/-- The events that `ProcessData` is expected to make for the input blocks
`inputs` (each with its index) when the chunks read are `chunks`: the read, the
copy when the copy block of the same index exists and is set, and the call of
the coder. -/
def inputEvents (s : Par2Repairer) (blockoffset blocklength : Nat) :
    List (Nat × Option BlockRef) → List (List Byte) → List RepairEvent
  | [], _ => []
  | _ :: _, [] => []
  | (k, inputblock) :: rest, chunk :: chunks =>
    [RepairEvent.read k inputblock blockoffset blocklength chunk] ++
      (match s.copyblocks[k]? with
        | some target =>
          if ((derefBlock s target).map DataBlock.IsSet) = some true then
            [RepairEvent.copied k target blockoffset blocklength chunk]
          else []
        | none => []) ++
      [RepairEvent.repaired k blocklength] ++
      inputEvents s blockoffset blocklength rest chunks

/-- The events that `ProcessData` is expected to make for the output blocks
with the indices `indices`, from the output buffer `outputbuffer`. -/
def outputEvents (s : Par2Repairer) (blockoffset blocklength : Nat) (outputbuffer : List Byte)
    (indices : List Nat) : List RepairEvent :=
  indices.map (fun j =>
    RepairEvent.written j (s.outputblocks.getD j none) blockoffset blocklength
      ((outputbuffer.drop (s.chunksize * j)).take blocklength))

end Par2Repairer

/-! ## Concrete inputs for the repair executor -/

namespace Par2Repairer

/-- A repairer ready for `ProcessData`: source block 0 is in `a.dat` and is
copied to `a.out`, source block 1 is missing and is rebuilt in `b.out` from
the recovery block held at offset 68 of `r.par2`; the chunk size is the block
size 4. -/
def oneMissingBlock : Par2Repairer :=
  { blocksize := 4
    sourceblockcount := 2
    availableblockcount := 1
    missingblockcount := 1
    chunksize := 4
    recoverypacketmap :=
      [(0, { exponent := 0, blocksize := 4
             datablock := { diskfile := some "r.par2", offset := 68, length := 4 } })]
    sourceblocks := [{ diskfile := some "a.dat", offset := 0, length := 4 }, { length := 4 }]
    targetblocks := [{ diskfile := some "a.out", offset := 0, length := 4 },
      { diskfile := some "b.out", offset := 0, length := 4 }]
    inputblocks := [some (BlockRef.source 0), some (BlockRef.recovery 0)]
    copyblocks := [some (BlockRef.target 0)]
    outputblocks := [some (BlockRef.target 1)] }

/-- The disk for `oneMissingBlock`. -/
def oneMissingBlockDisk : Disk := fun name =>
  if name = "a.dat" then some { filename := "a.dat", content := [1, 2, 3, 4] }
  else if name = "r.par2" then
    some { filename := "r.par2", content := List.replicate 68 0 ++ [5, 6, 7, 8] }
  else if name = "a.out" then some { filename := "a.out", content := [0, 0, 0, 0] }
  else if name = "b.out" then some { filename := "b.out", content := [0, 0, 0, 0] }
  else none

/-- A stand-in for the coder: every file opens, and the output buffer becomes
the sum, byte by byte modulo 256, of itself and the input chunk. -/
def toyRepairEnv : RepairEnv :=
  { Open := fun _ => true
    RepairMissingBlocks := fun outputbuffer inputbuffer _ _ =>
      List.zipWith (fun a b => a + b) outputbuffer inputbuffer }

end Par2Repairer

/-! ## The block scanner -/

/-- The enumeration `MatchType` of par2repairer.h (not among the sources), by the names
used in par2repairer.cpp. -/
inductive MatchType where
  | eNoMatch
  | ePartialMatch
  | eFullMatch
deriving DecidableEq, Repr

/-- One turn of the scan loop of `ScanDataFile`, as recorded by the model: a
match of the entry `entry` with the window at `offset`, a duplicate, or a
miss. -/
inductive ScanStep where
  | hit (offset entry : Nat)
  | duplicate (offset : Nat)
  | miss (offset : Nat)
deriving DecidableEq, Repr

/-- A call made to the `FileCheckSummer` of the candidate file; each of them
may read the file. -/
inductive ScanAccess where
  | start
  | jump (offset distance : Nat)
  | step (offset : Nat)
  | hashes
deriving DecidableEq, Repr

/-- What `ScanDataFile` takes from outside par2repairer.cpp: the classes
`FileCheckSummer`, `VerificationHashTable` and `VerificationHashEntry` and the
function `DiskFile::FileConsideredOK` are not among the sources.  A
`VerificationHashEntry*` is kept as a number.  The checksummer of a file is
represented by its `Offset()`: `Start file blocksize` is the return value of
`Start()`, `Jump file offset distance` and `Step file offset` give the new
`Offset()`, or `none` when the call returns false.  `FindMatch s file offset
nextentry sourcefile` is the entry returned (`none` for a null pointer) and
the flag `duplicate`; `SourceFile`, `FirstBlock` and `Next` are the accessors
of an entry; `BlockLength s entry` is `GetDataBlock()->GetLength()`; `SetBlock
s entry filename offset` is the state after `SetBlock(diskfile, offset)`. -/
structure ScanEnv where
  FileConsideredOK : DiskFile → Bool
  Start : DiskFile → Nat → Bool
  Jump : DiskFile → Nat → Nat → Option Nat
  Step : DiskFile → Nat → Option Nat
  FindMatch : Par2Repairer → DiskFile → Nat → Option Nat → Option MD5Hash → Option Nat × Bool
  SourceFile : Nat → MD5Hash
  FirstBlock : Nat → Bool
  Next : Nat → Option Nat
  BlockLength : Par2Repairer → Nat → Nat
  SetBlock : Par2Repairer → Nat → String → Nat → Par2Repairer

/-- The variables of `ScanDataFile`: the repairer, the parameters `sourcefile`,
`matchtype`, `hashfull`, `hash16k` and `count` (for the three output
parameters the caller's variables, which keep their value until they are
assigned), the locals `nextentry`, `duplicatecount` and `multipletargets`, the
`Offset()` of the checksummer, and the two records kept by the model. -/
structure ScanState where
  s : Par2Repairer
  sourcefile : Option MD5Hash
  matchtype : MatchType
  hashfull : MD5Hash
  hash16k : MD5Hash
  count : Nat
  nextentry : Option Nat := none
  duplicatecount : Nat := 0
  multipletargets : Bool := false
  offset : Nat := 0
  log : List ScanStep := []
  accesses : List ScanAccess := []
deriving DecidableEq, Repr

namespace Par2Repairer

/-- Modelled from the spec: `FileCheckSummer::GetFileHashes` after the whole
file has been scanned: "an incremental MD5 context covering all bytes of the
file and another covering the first 16 KiB".  The pair is `(hashfull,
hash16k)`. -/
def GetFileHashes (md5 : MD5Function) (diskfile : DiskFile) : MD5Hash × MD5Hash :=
  (md5.hash diskfile.content, md5.hash (diskfile.content.take 16384))

/-- The scan loop of `ScanDataFile` (par2repairer.cpp 1750-1867).  The result
is the return value so far (`false` when `Jump` or `Step` fails, and
`ScanDataFile` returns false) with the variables; `none` means that the fuel
ran out.  `count` is a `u32`. -/
def scanLoop (env : ScanEnv) (diskfile : DiskFile) : Nat → ScanState → Option (Bool × ScanState)
  | 0, _ => none
  | fuel + 1, st =>
    if st.offset < diskfile.FileSize then
      match env.FindMatch st.s diskfile st.offset st.nextentry st.sourcefile with
      | (some currententry, _) =>
        let st1 : ScanState :=
          if st.count = 0 then
            { st with
              sourcefile := some (env.SourceFile currententry)
              matchtype :=
                if !env.FirstBlock currententry ∨ st.offset ≠ 0 then MatchType.ePartialMatch
                else st.matchtype }
          else
            { st with
              matchtype :=
                if some currententry ≠ st.nextentry then MatchType.ePartialMatch
                else st.matchtype
              multipletargets :=
                if st.sourcefile ≠ some (env.SourceFile currententry) then true
                else st.multipletargets }
        let recorded : Par2Repairer :=
          if st1.s.blocksallocated then
            env.SetBlock st1.s currententry diskfile.filename st.offset
          else st1.s
        let st2 : ScanState :=
          { st1 with
            s := recorded
            count := (st1.count + 1) % 2 ^ 32
            nextentry := env.Next currententry
            log := st1.log ++ [ScanStep.hit st.offset currententry]
            accesses := st1.accesses ++
              [ScanAccess.jump st.offset (env.BlockLength recorded currententry)] }
        match env.Jump diskfile st.offset (env.BlockLength recorded currententry) with
        | none => some (false, st2)
        | some offset => scanLoop env diskfile fuel { st2 with offset := offset }
      | (none, duplicate) =>
        if duplicate then
          let st1 : ScanState :=
            { st with
              matchtype := MatchType.ePartialMatch
              duplicatecount := (st.duplicatecount + 1) % 2 ^ 32
              nextentry := none
              log := st.log ++ [ScanStep.duplicate st.offset]
              accesses := st.accesses ++ [ScanAccess.jump st.offset st.s.blocksize] }
          match env.Jump diskfile st.offset st.s.blocksize with
          | none => some (false, st1)
          | some offset => scanLoop env diskfile fuel { st1 with offset := offset }
        else
          let st1 : ScanState :=
            { st with
              matchtype := MatchType.ePartialMatch
              nextentry := none
              log := st.log ++ [ScanStep.miss st.offset]
              accesses := st.accesses ++ [ScanAccess.step st.offset] }
          match env.Step diskfile st.offset with
          | none => some (false, st1)
          | some offset => scanLoop env diskfile fuel { st1 with offset := offset }
    else
      some (true, st)

/-- The assignments `SetLocation(diskfile, offset); SetLength(length)` to the
successive blocks from the iterator `sb` on (par2repairer.cpp 1704-1711), for
the pairs that the location loop produces.  `none`: the iterator points at no
block. -/
def setBlockLocations (filename : String) :
    List (Nat × Nat) → Option Nat → List DataBlock → Option (List DataBlock)
  | [], _, blocks => some blocks
  | _ :: _, none, _ => none
  | (offset, length) :: rest, some index, blocks =>
    match assignAt blocks index
        { diskfile := some filename, offset := offset, length := length } with
    | none => none
    | some assigned => setBlockLocations filename rest (some (index + 1)) assigned

/-- The branch of `ScanDataFile` for a file that is considered OK
(par2repairer.cpp 1690-1712).  `none`: a null pointer or an iterator that
points at no block is dereferenced, or the location loop does not end within
`fuel` turns. -/
def scanTrusted (fuel : Nat) (diskfile : DiskFile) (st : ScanState) : Option ScanState :=
  match st.sourcefile.bind (fun fileid => sfFind fileid st.s.sourcefilemap) with
  | none => none
  | some sourcefile =>
    match sourcefile.verificationpacket, sourcefile.descriptionpacket with
    | some verificationpacket, some descriptionpacket =>
      match assignBlockLocations st.s.blocksize descriptionpacket.filesize fuel 0 with
      | none => none
      | some locations =>
        match setBlockLocations diskfile.filename locations sourcefile.sourceblocks
            st.s.sourceblocks with
        | none => none
        | some sourceblocks =>
          some { st with
            matchtype := MatchType.eFullMatch
            count := verificationpacket.blockcount
            hashfull := descriptionpacket.hashfull
            hash16k := descriptionpacket.hash16k
            s := { st.s with sourceblocks := sourceblocks } }
    | _, _ => none

/-- The end of `ScanDataFile` (par2repairer.cpp 1873-2014): the final value of
`matchtype`.  The `||` chain is evaluated from the left, so the packets of
`sourcefile` are read only when `matchtype` is still `eFullMatch`; `none`: a
null pointer is dereferenced there.  The messages are left out (with
`noiselevel` above `nlSilent` they read the packets of `sourcefile` for a
partial match as well). -/
def classifyScan (diskfile : DiskFile) (st : ScanState) : Option ScanState :=
  if st.count > 0 then
    if st.matchtype ≠ MatchType.eFullMatch then
      some { st with matchtype := MatchType.ePartialMatch }
    else
      match st.sourcefile.bind (fun fileid => sfFind fileid st.s.sourcefilemap) with
      | none => none
      | some sourcefile =>
        match sourcefile.verificationpacket, sourcefile.descriptionpacket with
        | some verificationpacket, some descriptionpacket =>
          if st.count ≠ verificationpacket.blockcount ∨
              diskfile.FileSize ≠ descriptionpacket.filesize ∨
              st.hashfull ≠ descriptionpacket.hashfull ∨
              st.hash16k ≠ descriptionpacket.hash16k then
            some { st with matchtype := MatchType.ePartialMatch }
          else
            some st
        | _, _ => none
  else
    some { st with matchtype := MatchType.eNoMatch }

/-- The function `Par2Repairer::ScanDataFile` (par2repairer.cpp 1642-2017).  `sourcefile` is
the in/out parameter; `hashfull`, `hash16k` and `count` are the values that
the caller's variables hold at the call.  The result is the return value with
the variables at the return; `none` when there is no defined result (see
`scanTrusted`, `classifyScan`) or the fuel runs out. -/
def ScanDataFile (env : ScanEnv) (md5 : MD5Function) (fuel : Nat) (s : Par2Repairer)
    (diskfile : DiskFile) (sourcefile : Option MD5Hash) (hashfull hash16k : MD5Hash)
    (count : Nat) : Option (Bool × ScanState) :=
  let st0 : ScanState :=
    { s := s, sourcefile := sourcefile, matchtype := MatchType.eNoMatch, hashfull := hashfull,
      hash16k := hash16k, count := count }
  if diskfile.FileSize = 0 then
    some (true, st0)
  else if env.FileConsideredOK diskfile then
    match scanTrusted fuel diskfile st0 with
    | none => none
    | some st1 => (classifyScan diskfile st1).map (fun st2 => (true, st2))
  else if env.Start diskfile s.blocksize then
    match scanLoop env diskfile fuel
        { st0 with matchtype := MatchType.eFullMatch, count := 0,
                   accesses := [ScanAccess.start] } with
    | none => none
    | some (false, st1) => some (false, st1)
    | some (true, st1) =>
      (classifyScan diskfile
        { st1 with hashfull := (GetFileHashes md5 diskfile).1
                   hash16k := (GetFileHashes md5 diskfile).2
                   accesses := st1.accesses ++ [ScanAccess.hashes] }).map
        (fun st2 => (true, st2))
  else
    some (false, { st0 with accesses := [ScanAccess.start] })

/-- The matches of a scan, in order: the offset and the entry of each. -/
def scanHits : List ScanStep → List (Nat × Nat)
  | [] => []
  | ScanStep.hit offset entry :: rest => (offset, entry) :: scanHits rest
  | _ :: rest => scanHits rest

/-- The values of `matchtype`, `count`, `nextentry` and `sourcefile` after the
turns `steps` of the scan loop, from their values before. -/
def trackScan (env : ScanEnv) :
    List ScanStep → MatchType → Nat → Option Nat → Option MD5Hash →
      MatchType × Nat × Option Nat × Option MD5Hash
  | [], matchtype, count, nextentry, sourcefile => (matchtype, count, nextentry, sourcefile)
  | ScanStep.hit offset entry :: rest, matchtype, count, nextentry, sourcefile =>
    trackScan env rest
      (if count = 0 then
        (if !env.FirstBlock entry ∨ offset ≠ 0 then MatchType.ePartialMatch else matchtype)
      else
        (if some entry ≠ nextentry then MatchType.ePartialMatch else matchtype))
      ((count + 1) % 2 ^ 32) (env.Next entry)
      (if count = 0 then some (env.SourceFile entry) else sourcefile)
  | _ :: rest, _, count, _, sourcefile =>
    trackScan env rest MatchType.ePartialMatch count none sourcefile

/-- Every step of `steps` is a match, the first one of the entry `nextentry`
and each later one of the entry that `Next()` of the entry before it points
at. -/
def chainFrom (env : ScanEnv) : Option Nat → List ScanStep → Bool
  | _, [] => true
  | nextentry, ScanStep.hit _ entry :: rest =>
    decide (some entry = nextentry) && chainFrom env (env.Next entry) rest
  | _, _ :: _ => false

end Par2Repairer

/-- The step is a match. -/
def ScanStep.isHit : ScanStep → Bool
  | ScanStep.hit _ _ => true
  | _ => false

namespace Par2Repairer

/-- The conditions of a full match on the record of a finished scan: the first
turn is a match of a first block, at offset 0, and `sourcefile` is the source
file of that entry; every later turn is a match (no miss, no duplicate), each
of the entry that `Next()` of the match before it points at; the number of
matches is the block count of the verification packet of `sourcefile`; and the
size of the candidate, the MD5 of its content and the MD5 of its first 16384
bytes are those of the description packet of `sourcefile`. -/
def IsFullScan (env : ScanEnv) (md5 : MD5Function) (diskfile : DiskFile) (r : ScanState) :
    Prop :=
  (∃ offset entry rest, r.log = ScanStep.hit offset entry :: rest ∧
      env.FirstBlock entry = true ∧ offset = 0 ∧
      r.sourcefile = some (env.SourceFile entry) ∧
      rest.all ScanStep.isHit = true ∧
      List.Chain (fun a b => env.Next a = some b) entry ((scanHits rest).map Prod.snd)) ∧
  ∃ sourcefile verificationpacket descriptionpacket,
    r.sourcefile.bind (fun fileid => sfFind fileid r.s.sourcefilemap) = some sourcefile ∧
    sourcefile.verificationpacket = some verificationpacket ∧
    sourcefile.descriptionpacket = some descriptionpacket ∧
    (scanHits r.log).length = verificationpacket.blockcount ∧
    diskfile.FileSize = descriptionpacket.filesize ∧
    md5.hash diskfile.content = descriptionpacket.hashfull ∧
    md5.hash (diskfile.content.take 16384) = descriptionpacket.hash16k

/-- A checksummer and hash table for examples: the hash table holds the two
blocks of one source file, entry `0` then entry `1`; the window at offset 0
matches entry `0` and the window at offset 4 matches entry `1`, nothing else
matches and there are no duplicates; `Jump` and `Step` move the offset
forward, no further than the end of the file. -/
def toyScanEnv : ScanEnv :=
  { FileConsideredOK := fun _ => false
    Start := fun _ _ => true
    Jump := fun file offset distance =>
      if distance = 0 then none else some (min (offset + distance) file.FileSize)
    Step := fun _ offset => some (offset + 1)
    FindMatch := fun _ _ offset _ _ =>
      if offset = 0 then (some 0, false)
      else if offset = 4 then (some 1, false)
      else (none, false)
    SourceFile := fun _ => List.replicate 16 1
    FirstBlock := fun entry => decide (entry = 0)
    Next := fun entry => if entry = 0 then some 1 else none
    BlockLength := fun _ _ => 4
    SetBlock := fun s _ _ _ => s }

/-- A repairer for `toyScanEnv`: block size 4 and one source file of 8 bytes
in 2 blocks, whose hashes are `exampleDigest`. -/
def scanRepairer : Par2Repairer :=
  { blocksize := 4
    sourceblockcount := 2
    sourcefilemap :=
      [(List.replicate 16 1,
        { descriptionpacket := some
            { fileid := List.replicate 16 1, hashfull := exampleDigest,
              hash16k := exampleDigest, filesize := 8, filename := "a.dat" }
          verificationpacket := some { fileid := List.replicate 16 1, blockcount := 2 } })] }

/-- An 8-byte candidate file. -/
def scanCandidate : DiskFile :=
  { filename := "a.dat", content := [1, 2, 3, 4, 5, 6, 7, 8] }

/-- An empty candidate file. -/
def emptyCandidate : DiskFile :=
  { filename := "empty.dat", content := [] }

end Par2Repairer

/-! ## The root name used by `LoadPacketsFromOtherFiles` -/

namespace Par2Repairer

/-- The calls `where = name.find_last_of('.')`, `tail = name.substr(where+1)`
and `name.substr(0,where)` of `LoadPacketsFromOtherFiles`: what precedes and
what follows the last dot of `name`; `none` when `name` has no dot
(`string::npos`). -/
def splitLastDot : List Char → Option (List Char × List Char)
  | [] => none
  | ch :: rest =>
    match splitLastDot rest with
    | some (before, tail) => some (ch :: before, tail)
    | none => if ch = '.' then some ([], rest) else none

/-- The loop "Trim .par2 off of the end original name" of
`LoadPacketsFromOtherFiles` (par2repairer.cpp 785-795): while `name` has a
dot, what follows the last dot is cut off together with the dot, and the loop
ends when the part cut off was `par2` (`stricmp`, so in any case of letters).
Each turn shortens `name`, so its length is enough fuel. -/
def trimToPar2 : Nat → List Char → List Char
  | 0, name => name
  | fuel + 1, name =>
    match splitLastDot name with
    | none => name
    | some (before, tail) =>
      if tail.map Char.toLower = "par2".data then before
      else trimToPar2 fuel before

/-- The loop `trimToPar2` run to its end. -/
def trimPar2 (name : List Char) : List Char := trimToPar2 name.length name

/-- The scan of `tail` in `LoadPacketsFromOtherFiles` (par2repairer.cpp
806-830) from the state `n`: `true` when the `for` loop reaches `tail.end()`
without a `break`. -/
def volScan : Nat → List Char → Bool
  | _, [] => true
  | n, ch :: rest =>
    if n = 0 then
      if ch.toLower = 'v' then volScan 1 rest else false
    else if n = 1 then
      if ch.toLower = 'o' then volScan 2 rest else false
    else if n = 2 then
      if ch.toLower = 'l' then volScan 3 rest else false
    else if n = 3 then
      if ch.isDigit then volScan 3 rest
      else if ch = '-' ∨ ch = '+' then volScan 4 rest
      else false
    else if n = 4 then
      if ch.isDigit then volScan 4 rest else false
    else volScan n rest

/-- The step "If what is left ends in .volNNN-NNN or .volNNN+NNN strip that as
well" of `LoadPacketsFromOtherFiles` (par2repairer.cpp 797-837). -/
def stripVol (name : List Char) : List Char :=
  match splitLastDot name with
  | none => name
  | some (before, tail) => if volScan 0 tail then before else name

/-- The value of `name` in `LoadPacketsFromOtherFiles` (par2repairer.cpp
775-837) when the wildcard is built, from the name part of the file name that
`SplitFilename` gives. -/
def rootName (name : String) : String :=
  String.mk (stripVol (trimPar2 name.data))

/-- The wildcard of the first search of `LoadPacketsFromOtherFiles`
(par2repairer.cpp 842). -/
def otherFilesWildcard (name : String) : String :=
  if (rootName name).data = [] then "*.par2" else rootName name ++ ".*.par2"

/-- The form `volNNN+NNN` or `volNNN-NNN` of a dot-segment: the letters `vol`
in any case, digits, one sign, digits (each run of digits may be empty). -/
def isVolForm : List Char → Bool
  | v :: o :: l :: rest =>
    v.toLower = 'v' && o.toLower = 'o' && l.toLower = 'l' &&
      (match rest.dropWhile Char.isDigit with
        | sign :: digits => (sign = '+' || sign = '-') && digits.all Char.isDigit
        | [] => false)
  | _ => false

/-- The segment is the beginning of a segment of the form `isVolForm`. -/
def IsVolPrefix (seg : List Char) : Prop := ∃ rest, isVolForm (seg ++ rest) = true

/-- The root name in the words of the specification: "the primary file's name
with a trailing .par2 (case-insensitive) removed and then a trailing
.volNNN+NNN or .volNNN-NNN segment removed if present; a final dot-segment
that is not of that vol form is left in place, and nothing else is
removed". -/
def claimedRootName (name : String) : String :=
  let trimmed : List Char :=
    if (name.data.drop (name.data.length - 5)).map Char.toLower = ".par2".data then
      name.data.take (name.data.length - 5)
    else name.data
  match splitLastDot trimmed with
  | none => String.mk trimmed
  | some (before, tail) => if isVolForm tail then String.mk before else String.mk trimmed

end Par2Repairer

/-! ## Concrete inputs for the scan of a file that is considered OK -/

namespace Par2Repairer

/-- The environment `toyScanEnv` with every file considered OK. -/
def trustingScanEnv : ScanEnv :=
  { toyScanEnv with FileConsideredOK := fun _ => true }

/-- The repairer `scanRepairer` after `AllocateSourceBlocks`: the source file
owns the two blocks of the block vectors. -/
def allocatedRepairer : Par2Repairer :=
  { blocksize := 4
    sourceblockcount := 2
    blocksallocated := true
    sourceblocks := [{ length := 4 }, { length := 4 }]
    targetblocks := [{}, {}]
    sourcefilemap :=
      [(List.replicate 16 1,
        { descriptionpacket := some
            { fileid := List.replicate 16 1, hashfull := exampleDigest,
              hash16k := exampleDigest, filesize := 8, filename := "a.dat" }
          verificationpacket := some { fileid := List.replicate 16 1, blockcount := 2 }
          blockcount := 2
          sourceblocks := some 0
          targetblocks := some 0 })] }

/-- A 3-byte candidate file with the name of the source file. -/
def shortCandidate : DiskFile :=
  { filename := "a.dat", content := [1, 2, 3] }

end Par2Repairer

/-! ## The verification of a data file -/

namespace Par2Repairer

/-- The loop of `VerifyDataFile` that reads the file and feeds it to the MD5
context (par2repairer.cpp 1536-1568).  Modelled from the spec: `MD5Context`
(md5.cpp is not among the sources) is "an incremental MD5 context": it is kept
as the bytes passed to `Update` so far, and `Final` gives the MD5 of those
bytes.  The result is `none` when the fuel runs out, `some none` when a read
fails (`VerifyDataFile` returns false), and otherwise the context and the value
of `hash16k` after the loop.  `offset + want` is at most the file size, so the
sum stays in 64 bits. -/
def hashFileLoop (md5 : MD5Function) (diskfile : DiskFile) (buffersize : Nat) :
    Nat → Nat → List Byte → MD5Hash → Option (Option (List Byte × MD5Hash))
  | 0, _, _, _ => none
  | fuel + 1, offset, context, hash16k =>
    if offset < diskfile.FileSize then
      let want := min buffersize (diskfile.FileSize - offset)
      match diskfile.Read offset want with
      | none => some none
      | some buffer =>
        if offset < 16384 ∧ offset + want ≥ 16384 then
          let context1 := context ++ buffer.take (16384 - offset)
          let context2 :=
            if offset + want > 16384 then
              context1 ++ (buffer.drop (16384 - offset)).take (offset + want - 16384)
            else context1
          hashFileLoop md5 diskfile buffersize fuel (offset + want) context2 (md5.hash context1)
        else
          hashFileLoop md5 diskfile buffersize fuel (offset + want) (context ++ buffer.take want)
            hash16k
    else
      some (some (context, hash16k))

/-- The loop "Compare the hash values of each source file for a match" of
`VerifyDataFile` (par2repairer.cpp 1581-1631) over the entries of
`unverifiablesourcefiles` that are left: the first source file that has no
complete file and whose description packet has the size of the candidate and
the two hashes `hash16k` and `hashfull`; `some none` when there is none, `none`
when a null pointer is dereferenced. -/
def findUnverifiable (s : Par2Repairer) (diskfile : DiskFile) (hashfull hash16k : MD5Hash) :
    List MD5Hash → Option (Option (MD5Hash × Par2RepairerSourceFile × DescriptionPacket))
  | [] => some none
  | fileid :: rest =>
    match sfFind fileid s.sourcefilemap with
    | none => none
    | some sourcefile =>
      if sourcefile.completefile.isSome then
        findUnverifiable s diskfile hashfull hash16k rest
      else
        match sourcefile.descriptionpacket with
        | none => none
        | some descriptionpacket =>
          if diskfile.FileSize = descriptionpacket.filesize ∧
              hash16k = descriptionpacket.hash16k ∧ hashfull = descriptionpacket.hashfull then
            some (some (fileid, sourcefile, descriptionpacket))
          else
            findUnverifiable s diskfile hashfull hash16k rest

/-- The second half of `VerifyDataFile` (par2repairer.cpp 1513-1637), reached
when the block scan found nothing or was not made; `hashfull` and `hash16k`
are the values of the two variables declared at the top of the function.  The
hash of the whole file is put by `context.Final(hashfull)` into the variable
`hashfull` that is declared anew inside the block (line 1572) and is used for
`hash16k` when the file is shorter than 16384 bytes; the comparison after the
block reads the variable of the top of the function. -/
def verifyUnverifiable (md5 : MD5Function) (fuel : Nat) (s : Par2Repairer) (diskfile : DiskFile)
    (hashfull hash16k : MD5Hash) : Option (Bool × Par2Repairer) :=
  if s.unverifiablesourcefiles.length > 0 then
    let hashed : Option (Option MD5Hash) :=
      if !s.blockverifiable then
        let filesize := diskfile.FileSize
        let buffersize := min (1024 * 1024 * 10) (min s.blocksize filesize)
        match hashFileLoop md5 diskfile buffersize fuel 0 [] hash16k with
        | none => none
        | some none => some none
        | some (some (context, computed16k)) =>
          let innerhashfull := md5.hash context
          some (some (if filesize < 16384 then innerhashfull else computed16k))
      else
        some (some hash16k)
    match hashed with
    | none => none
    | some none => some (false, s)
    | some (some hash16k1) =>
      match findUnverifiable s diskfile hashfull hash16k1 s.unverifiablesourcefiles with
      | none => none
      | some none => some (true, s)
      | some (some (fileid, sourcefile, descriptionpacket)) =>
        let recorded : Par2Repairer :=
          { s with sourcefilemap :=
              (sfSet fileid { sourcefile with completefile := some diskfile.filename }
                s.sourcefilemap) }
        if s.blocksallocated then
          match assignBlockLocations s.blocksize descriptionpacket.filesize fuel 0 with
          | none => none
          | some locations =>
            match setBlockLocations diskfile.filename locations sourcefile.sourceblocks
                s.sourceblocks with
            | none => none
            | some sourceblocks => some (true, { recorded with sourceblocks := sourceblocks })
        else
          some (true, recorded)
  else
    some (true, s)

/-- The function `Par2Repairer::VerifyDataFile` (par2repairer.cpp 1459-1637).  `hashfull`,
`hash16k` and `count` are the values that the uninitialised variables of the
function hold (`MD5Hash` has no constructor that sets it).  The result is the
return value with the state, or `none` when there is no defined result or the
fuel runs out. -/
def VerifyDataFile (env : ScanEnv) (md5 : MD5Function) (fuel : Nat) (s : Par2Repairer)
    (diskfile : DiskFile) (sourcefile : Option MD5Hash) (hashfull hash16k : MD5Hash)
    (count : Nat) : Option (Bool × Par2Repairer) :=
  if s.blockverifiable then
    match ScanDataFile env md5 fuel s diskfile sourcefile hashfull hash16k count with
    | none => none
    | some (false, r) => some (false, r.s)
    | some (true, r) =>
      match r.matchtype with
      | MatchType.eNoMatch => verifyUnverifiable md5 fuel r.s diskfile r.hashfull r.hash16k
      | MatchType.ePartialMatch => some (true, r.s)
      | MatchType.eFullMatch =>
        match r.sourcefile.bind (fun fileid =>
            (sfFind fileid r.s.sourcefilemap).map (fun found => (fileid, found))) with
        | none => none
        | some (fileid, found) =>
          some (true, { r.s with sourcefilemap :=
            (sfSet fileid { found with completefile := some diskfile.filename }
              r.s.sourcefilemap) })
  else
    verifyUnverifiable md5 fuel s diskfile hashfull hash16k

/-- A stand-in for MD5 that tells short inputs apart: the first 16 bytes of the
input, followed by zero bytes when it is shorter. -/
def headMD5 : MD5Function :=
  ⟨fun data => (data ++ List.replicate 16 0).take 16, fun data => by simp⟩

/-- A repairer for a set without verification packets: block size 4 and one
source file `b.dat` of 4 bytes `[1, 2, 3, 4]`, whose two hashes under `headMD5`
are those bytes followed by 12 zero bytes. -/
def unverifiableRepairer : Par2Repairer :=
  { blocksize := 4
    sourceblockcount := 1
    blocksallocated := true
    sourceblocks := [{ length := 4 }]
    targetblocks := [{}]
    unverifiablesourcefiles := [[7]]
    sourcefilemap :=
      [([7],
        { descriptionpacket := some
            { fileid := [7], hashfull := [1, 2, 3, 4, 0, 0, 0, 0, 0, 0, 0, 0, 0, 0, 0, 0],
              hash16k := [1, 2, 3, 4, 0, 0, 0, 0, 0, 0, 0, 0, 0, 0, 0, 0],
              filesize := 4, filename := "b.dat" }
          blockcount := 1
          sourceblocks := some 0
          targetblocks := some 0 })] }

/-- The file `b.dat` with the content `[1, 2, 3, 4]`. -/
def intactCandidate : DiskFile :=
  { filename := "b.dat", content := [1, 2, 3, 4] }

end Par2Repairer

/-! ## The Reed-Solomon matrix -/

/-- What `ComputeRSmatrix` takes from the Reed-Solomon coder `rs`
(reedsolomon.cpp is not among the sources): `SetInput present` is the return
value of `rs.SetInput(present)`; `SetOutput registered exponent` is the return
value of `rs.SetOutput(true, exponent)` when the exponents `registered` have
been passed before; `Compute present exponents` is the return value of
`rs.Compute`. -/
structure CoderEnv where
  SetInput : List Bool → Bool
  SetOutput : List Nat → Nat → Bool
  Compute : List Bool → List Nat → Bool

namespace Par2Repairer

/-- The second loop of `ComputeRSmatrix` (par2repairer.cpp 2417-2441) over the
entries of `recoverypacketmap` from the iterator `rp` on: while `inputblock`
is not at the end of `inputblocks`, the data block of the next recovery packet
is put there and its exponent, cast to `u16`, is passed to `rs.SetOutput`.
The result is `false` when `SetOutput` fails (`ComputeRSmatrix` returns
false), with the vectors and the exponents registered so far; `none`: `rp` is
dereferenced at the end of the map. -/
def recoveryLoop (env : CoderEnv) :
    List (Nat × RecoveryPacket) → Partition → List Nat → Option (Bool × Partition × List Nat)
  | [], p, exponents =>
    if p.inputblock ≠ p.inputblocks.length then none else some (true, p, exponents)
  | (exponent, _) :: rest, p, exponents =>
    if p.inputblock ≠ p.inputblocks.length then
      match assignAt p.inputblocks p.inputblock (some (BlockRef.recovery exponent)) with
      | none => none
      | some inputblocks =>
        if env.SetOutput exponents (exponent % 2 ^ 16) then
          recoveryLoop env rest
            { p with inputblocks := inputblocks, inputblock := p.inputblock + 1 }
            (exponents ++ [exponent % 2 ^ 16])
        else
          some (false, { p with inputblocks := inputblocks }, exponents)
    else
      some (true, p, exponents)

/-- The function `Par2Repairer::ComputeRSmatrix` (par2repairer.cpp 2354-2449): the return
value, the state with the three vectors, and the exponents that were passed to
`rs.SetOutput`, in order; `none` when an iterator is used at or past the end of
its container. -/
def ComputeRSmatrix (env : CoderEnv) (s : Par2Repairer) :
    Option (Bool × Par2Repairer × List Nat) :=
  match partitionBlocks s with
  | none => none
  | some p =>
    if !env.SetInput p.present then
      some (false, { s with inputblocks := p.inputblocks, copyblocks := p.copyblocks,
                            outputblocks := p.outputblocks }, [])
    else
      match recoveryLoop env s.recoverypacketmap p [] with
      | none => none
      | some (ok, q, exponents) =>
        let planned : Par2Repairer :=
          { s with inputblocks := q.inputblocks, copyblocks := q.copyblocks,
                   outputblocks := q.outputblocks }
        if !ok then some (false, planned, exponents)
        else if s.missingblockcount = 0 then some (true, planned, exponents)
        else some (env.Compute q.present exponents, planned, exponents)

end Par2Repairer

/-! ## The repair branch of `Process` -/

/-- Modelled from the spec: the effect of `DiskFile::Rename` on the disk
(diskfile.cpp is not among the sources; diskfile.h declares "Rename the
file"): the file is found under the new name and no longer under the old
one. -/
def Disk.rename (disk : Disk) (oldname newname : String) : Disk :=
  fun name =>
    if name = newname then (disk oldname).map (fun file => { file with filename := newname })
    else if name = oldname then none
    else disk name

/-- Modelled from the spec: the effect of `DiskFile::Create` on the disk
(diskfile.h: "Create a file and set its length"): a file of `filesize` zero
bytes. -/
def Disk.create (disk : Disk) (filename : String) (filesize : Nat) : Disk :=
  fun name =>
    if name = filename then
      some { filename := filename, content := List.replicate filesize 0 }
    else disk name

/-- Modelled from the spec: the effect of `DiskFile::Delete` on the disk
(diskfile.h: "Delete the file"). -/
def Disk.delete (disk : Disk) (filename : String) : Disk :=
  fun name => if name = filename then none else disk name

/-- The repairer, the disk and the disk operations made so far, as they are
threaded through the repair branch of `Process`. -/
structure RepairRun where
  s : Par2Repairer
  disk : Disk
  ops : List FileOp := []

/-- What the repair branch of `Process` takes from outside par2repairer.cpp and
datablock.cpp.  `TargetFileName sourcefile` is the value of
`sourcefile->TargetFileName()` (par2repairersourcefile.cpp is not among the
sources).  `RenameAway disk name` is the name that `DiskFile::Rename()` picks for
the file `name` (`none` when it returns false), `RenameTo disk name newname`
the return value of `DiskFile::Rename(newname)`, and `Create disk name size`
that of `DiskFile::Create`.  `coder` is the Reed-Solomon coder, `allocate n`
tells whether `new u8[n]` gives a buffer, `memorylimit` is
`commandline.GetMemoryLimit()`, `repairEnv` is what `ProcessData` needs.
`verifyTargetFiles` is the sort of `verifylist` and the `dispatch_apply` of
`Verify1TargetFile` in `VerifyTargetFiles`, with the value of `finalresult`. -/
structure RepairBranchEnv where
  TargetFileName : Par2RepairerSourceFile → String
  RenameAway : Disk → String → Option String
  RenameTo : Disk → String → String → Bool
  Create : Disk → String → Nat → Bool
  coder : CoderEnv
  allocate : Nat → Bool
  memorylimit : Nat
  repairEnv : RepairEnv
  verifyTargetFiles : Par2Repairer → Disk → Bool × Par2Repairer

namespace Par2Repairer

/-- A pointer to a `DiskFile` after the file `oldname` has been renamed: a
`DiskFile` object is known by its current file name, so a pointer to the
renamed object is then the new name. -/
def renamePointer (oldname newname : String) (pointer : Option String) : Option String :=
  if pointer = some oldname then some newname else pointer

/-- The two `DiskFile` pointers of a source file after the rename of
`oldname`. -/
def renameSourceFile (oldname newname : String) (sourcefile : Par2RepairerSourceFile) :
    Par2RepairerSourceFile :=
  { sourcefile with
    targetfile := renamePointer oldname newname sourcefile.targetfile
    completefile := renamePointer oldname newname sourcefile.completefile }

/-- The state after the `DiskFile` object `oldname` has been renamed: every
pointer to the object (in the source files, in the data blocks) follows. -/
def renameRefs (oldname newname : String) (s : Par2Repairer) : Par2Repairer :=
  { s with
    sourcefilemap := s.sourcefilemap.map (fun e => (e.1, renameSourceFile oldname newname e.2))
    sourceblocks := s.sourceblocks.map
      (fun b => { b with diskfile := renamePointer oldname newname b.diskfile })
    targetblocks := s.targetblocks.map
      (fun b => { b with diskfile := renamePointer oldname newname b.diskfile })
    recoverypacketmap := s.recoverypacketmap.map (fun e =>
      (e.1, { e.2 with datablock :=
        { e.2.datablock with
          diskfile := renamePointer oldname newname e.2.datablock.diskfile } })) }

/-- The source file that a slot of `sourcefiles` points at, with its key;
`none` for a null pointer. -/
def derefSlot (s : Par2Repairer) (slot : Option MD5Hash) :
    Option (MD5Hash × Par2RepairerSourceFile) :=
  slot.bind (fun fileid => (sfFind fileid s.sourcefilemap).map (fun found => (fileid, found)))

/-- The first loop of `RenameTargetFiles`, "Rename any damaged target files"
(par2repairer.cpp 2215-2243), over the slots that are left.  The result is
the return value so far with the state; `none`: a null pointer is
dereferenced. -/
def renameDamagedFiles (env : RepairBranchEnv) :
    List (Option MD5Hash) → RepairRun → Option (Bool × RepairRun)
  | [], run => some (true, run)
  | slot :: rest, run =>
    match derefSlot run.s slot with
    | none => none
    | some (fileid, sourcefile) =>
      if sourcefile.targetexists ∧ sourcefile.targetfile ≠ sourcefile.completefile then
        match sourcefile.targetfile with
        | none => none
        | some targetfile =>
          let removed : Par2Repairer :=
            { run.s with diskFileMap := run.s.diskFileMap.filter (fun name => name ≠ targetfile) }
          match env.RenameAway run.disk targetfile with
          | none => some (false, { run with s := removed })
          | some newname =>
            let renamed := renameRefs targetfile newname removed
            renameDamagedFiles env rest
              { s := { renamed with
                  diskFileMap := renamed.diskFileMap ++ [newname]
                  sourcefilemap :=
                    (sfSet fileid
                      { renameSourceFile targetfile newname sourcefile with
                        targetexists := false, targetfile := none }
                      renamed.sourcefilemap) }
                disk := run.disk.rename targetfile newname
                ops := run.ops ++ [FileOp.rename targetfile] }
      else
        renameDamagedFiles env rest run

/-- The second loop of `RenameTargetFiles`, "Rename any missnamed but complete
versions of the files" (par2repairer.cpp 2248-2281), over the slots that are
left; `completefilecount` is a `u32`. -/
def renameCompleteFiles (env : RepairBranchEnv) :
    List (Option MD5Hash) → RepairRun → Option (Bool × RepairRun)
  | [], run => some (true, run)
  | slot :: rest, run =>
    match derefSlot run.s slot with
    | none => none
    | some (fileid, sourcefile) =>
      match sourcefile.targetfile, sourcefile.completefile with
      | none, some targetfile =>
        let removed : Par2Repairer :=
          { run.s with diskFileMap := run.s.diskFileMap.filter (fun name => name ≠ targetfile) }
        if env.RenameTo run.disk targetfile (env.TargetFileName sourcefile) then
          let renamed := renameRefs targetfile (env.TargetFileName sourcefile) removed
          renameCompleteFiles env rest
            { s := { renamed with
                diskFileMap := renamed.diskFileMap ++ [env.TargetFileName sourcefile]
                sourcefilemap :=
                  (sfSet fileid
                    { renameSourceFile targetfile (env.TargetFileName sourcefile) sourcefile with
                      targetexists := true
                      targetfile := some (env.TargetFileName sourcefile) }
                    renamed.sourcefilemap)
                completefilecount := (renamed.completefilecount + 1) % 2 ^ 32 }
              disk := run.disk.rename targetfile (env.TargetFileName sourcefile)
              ops := run.ops ++ [FileOp.rename targetfile] }
        else
          some (false, { run with s := removed })
      | _, _ => renameCompleteFiles env rest run

/-- The function `Par2Repairer::RenameTargetFiles` (par2repairer.cpp 2209-2286): both loops
visit the first `TotalFileCount()` slots of `sourcefiles`. -/
def RenameTargetFiles (env : RepairBranchEnv) (run : RepairRun) : Option (Bool × RepairRun) :=
  match renameDamagedFiles env (run.s.sourcefiles.take (TotalFileCount run.s)) run with
  | none => none
  | some (false, failed) => some (false, failed)
  | some (true, cleared) =>
    renameCompleteFiles env (cleared.s.sourcefiles.take (TotalFileCount cleared.s)) cleared

/-- The loop of `CreateTargetFiles` (par2repairer.cpp 2296-2347) over the slots
that are left.  `none`: a null pointer or an iterator that points at no block
is dereferenced, or the location loop does not end within `fuel` turns. -/
def createTargetFiles (env : RepairBranchEnv) (fuel : Nat) :
    List (Option MD5Hash) → RepairRun → Option (Bool × RepairRun)
  | [], run => some (true, run)
  | slot :: rest, run =>
    match derefSlot run.s slot with
    | none => none
    | some (fileid, sourcefile) =>
      if !sourcefile.targetexists then
        match sourcefile.descriptionpacket with
        | none => none
        | some descriptionpacket =>
          if env.Create run.disk (env.TargetFileName sourcefile) descriptionpacket.filesize then
            match assignBlockLocations run.s.blocksize descriptionpacket.filesize fuel 0 with
            | none => none
            | some locations =>
              match setBlockLocations (env.TargetFileName sourcefile) locations
                  sourcefile.targetblocks run.s.targetblocks with
              | none => none
              | some targetblocks =>
                createTargetFiles env fuel rest
                  { s := { run.s with
                      sourcefilemap :=
                        (sfSet fileid
                          { sourcefile with
                            targetexists := true
                            targetfile := some (env.TargetFileName sourcefile) }
                          run.s.sourcefilemap)
                      diskFileMap := run.s.diskFileMap ++ [env.TargetFileName sourcefile]
                      targetblocks := targetblocks
                      verifylist := run.s.verifylist ++ [fileid] }
                    disk := run.disk.create (env.TargetFileName sourcefile)
                      descriptionpacket.filesize
                    ops := run.ops ++
                      [FileOp.create (env.TargetFileName sourcefile)
                        descriptionpacket.filesize] }
          else
            some (false, run)
      else
        createTargetFiles env fuel rest run

/-- The function `Par2Repairer::CreateTargetFiles` (par2repairer.cpp 2290-2350). -/
def CreateTargetFiles (env : RepairBranchEnv) (fuel : Nat) (run : RepairRun) :
    Option (Bool × RepairRun) :=
  createTargetFiles env fuel (run.s.sourcefiles.take (TotalFileCount run.s)) run

/-- The loop of `DeleteIncompleteTargetFiles` (par2repairer.cpp 2823-2848) over
the entries of `verifylist` that are left; the return value of
`DiskFile::Delete` is not looked at.  `none`: a null pointer is
dereferenced. -/
def deleteTargetFiles : List MD5Hash → RepairRun → Option RepairRun
  | [], run => some run
  | fileid :: rest, run =>
    match sfFind fileid run.s.sourcefilemap with
    | none => none
    | some sourcefile =>
      if sourcefile.targetexists then
        match sourcefile.targetfile with
        | none => none
        | some targetfile =>
          deleteTargetFiles rest
            { s := { run.s with
                diskFileMap := run.s.diskFileMap.filter (fun name => name ≠ targetfile)
                sourcefilemap :=
                  (sfSet fileid { sourcefile with targetexists := false, targetfile := none }
                    run.s.sourcefilemap) }
              disk := run.disk.delete targetfile
              ops := run.ops ++ [FileOp.delete targetfile] }
      else
        deleteTargetFiles rest run

/-- The function `Par2Repairer::DeleteIncompleteTargetFiles` (par2repairer.cpp 2819-2851); it
returns true. -/
def DeleteIncompleteTargetFiles (run : RepairRun) : Option RepairRun :=
  deleteTargetFiles run.s.verifylist run

/-- The writes among the events of a `ProcessData` call, as disk operations. -/
def writeOps (s : Par2Repairer) : List RepairEvent → List FileOp
  | [] => []
  | RepairEvent.copied _ block position size _ :: rest =>
    (match (derefBlock s block).bind (fun b => b.diskfile) with
      | some filename => [FileOp.write filename position size]
      | none => []) ++ writeOps s rest
  | RepairEvent.written _ block position size _ :: rest =>
    (match (derefBlock s block).bind (fun b => b.diskfile) with
      | some filename => [FileOp.write filename position size]
      | none => []) ++ writeOps s rest
  | _ :: rest => writeOps s rest

/-- The chunk loop of `Process` (par2repairer.cpp 266-288) with the disk
threaded through the calls of `ProcessData`; see `chunkLoop`. -/
def repairChunks (env : RepairEnv) (s : Par2Repairer) :
    Nat → Nat → RepairRun → Option (Bool × RepairRun)
  | 0, _, _ => none
  | fuel + 1, blockoffset, run =>
    if blockoffset < s.blocksize then
      let blocklength := min s.chunksize (s.blocksize - blockoffset)
      match ProcessData env s run.disk blockoffset blocklength with
      | none => none
      | some (false, st) =>
        some (false, { run with disk := st.disk, ops := run.ops ++ writeOps s st.events })
      | some (true, st) =>
        repairChunks env s fuel (blockoffset + blocklength)
          { run with disk := st.disk, ops := run.ops ++ writeOps s st.events }
    else
      some (true, run)

/-- The function `Par2Repairer::VerifyTargetFiles` (par2repairer.cpp 2747-2779). -/
def VerifyTargetFiles (env : RepairBranchEnv) (run : RepairRun) : Option (Bool × RepairRun) :=
  (UpdateVerificationResults (env.verifyTargetFiles run.s run.disk).2).map
    (fun s => ((env.verifyTargetFiles run.s run.disk).1, { run with s := s }))

/-- The lines "Delete all of the partly reconstructed files" of `Process`:
`DeleteIncompleteTargetFiles` followed by the return of `result`. -/
def deleteAndReturn (result : Result) (run : RepairRun) : Option (Result × List FileOp) :=
  (DeleteIncompleteTargetFiles run).map (fun deleted => (result, deleted.ops))

/-- The end of the repair branch (par2repairer.cpp 310-327): "Are all of the
target files now complete?". -/
def repairOutcome (run : RepairRun) : Result × List FileOp :=
  if run.s.completefilecount < RecoverableFileCount run.s then
    (Result.eRepairFailed, run.ops)
  else
    (Result.eSuccess, run.ops)

/-- The branch of `Process` that is taken when a repair is wanted and needed
(par2repairer.cpp 222-327), from the state after the scans: the result of
`Process` and the disk operations made; `none` when a step has no result or
the fuel runs out. -/
def repairBranch (env : RepairBranchEnv) (fuel : Nat) (run : RepairRun) :
    Option (Result × List FileOp) :=
  match RenameTargetFiles env run with
  | none => none
  | some (false, failed) => some (Result.eFileIOError, failed.ops)
  | some (true, renamed) =>
    if renamed.s.completefilecount < RecoverableFileCount renamed.s then
      match CreateTargetFiles env fuel renamed with
      | none => none
      | some (false, failed) => some (Result.eFileIOError, failed.ops)
      | some (true, created) =>
        match ComputeRSmatrix env.coder created.s with
        | none => none
        | some (false, planned, _) =>
          deleteAndReturn Result.eFileIOError { created with s := planned }
        | some (true, planned, _) =>
          if !(AllocateBuffers env.allocate env.memorylimit planned).1 then
            deleteAndReturn Result.eMemoryError
              { created with s := (AllocateBuffers env.allocate env.memorylimit planned).2 }
          else
            match repairChunks env.repairEnv
                (AllocateBuffers env.allocate env.memorylimit planned).2 fuel 0
                { created with s := (AllocateBuffers env.allocate env.memorylimit planned).2 } with
            | none => none
            | some (false, failed) => deleteAndReturn Result.eFileIOError failed
            | some (true, repaired) =>
              match VerifyTargetFiles env repaired with
              | none => none
              | some (false, failed) => deleteAndReturn Result.eFileIOError failed
              | some (true, verified) => some (repairOutcome verified)
    else
      some (repairOutcome renamed)

/-- The environment of `Process` whose repair branch is `repairBranch` with the
environment `renv`, started on the disk `env.fs`. -/
def ProcessEnv.repairing (env : ProcessEnv) (renv : RepairBranchEnv) (fuel : Nat) :
    ProcessEnv :=
  { env with repair := fun s => repairBranch renv fuel { s := s, disk := env.fs } }

end Par2Repairer

/-! ## Concrete inputs for the repair branch -/

namespace Par2Repairer

/-- A well-formed 64-byte recovery-type packet header for `toyMD5`. -/
def recoveryBytes : List Byte :=
  packet_magic ++ [64, 0, 0, 0, 0, 0, 0, 0] ++ exampleDigest ++ List.replicate 16 0 ++
    recoveryblockpacket_type

/-- The file `repair.par2`: a main packet, two description packets and two
recovery packets. -/
def repairFile : DiskFile :=
  { filename := "repair.par2"
    content := mainBytes ++ descriptionBytes ++ descriptionBytes ++ recoveryBytes ++
      recoveryBytes }

/-- Packet loaders for `repair.par2`: block size 4, the recoverable files `[1]`
(`x.dat`) and `[2]` (`y.dat`) of 4 bytes each, without verification packets,
and recovery packets with the exponents 0 (at offset 192) and 1. -/
def repairLoaders : PacketLoaders :=
  { recovery := fun _ offset _ =>
      some { exponent := if offset = 192 then 0 else 1, blocksize := 4
             datablock := { diskfile := some "repair.par2", offset := offset + 68,
                            length := 4 } }
    verification := fun _ _ _ => none
    description := fun _ offset _ =>
      if offset = 64 then some { fileid := [1], filesize := 4, filename := "x.dat" }
      else some { fileid := [2], filesize := 4, filename := "y.dat" }
    main := fun _ _ _ =>
      some { blocksize := 4, recoverablefilecount := 2, fileids := [[1], [2]] }
    creator := fun _ _ _ => none }

/-- An environment for a repair of the set `repair.par2` when neither `x.dat`
nor `y.dat` is on disk: `create` tells which target files can be created and
`compute` whether the coder can compute its matrix. -/
def repairBranchEnv (create : String → Bool) (compute : Bool) : RepairBranchEnv :=
  { TargetFileName := fun sourcefile =>
      match sourcefile.descriptionpacket with
      | some descriptionpacket => descriptionpacket.filename
      | none => ""
    RenameAway := fun _ name => some (name ++ ".1")
    RenameTo := fun _ _ _ => true
    Create := fun _ name _ => create name
    coder := { SetInput := fun _ => true, SetOutput := fun _ _ => true,
               Compute := fun _ _ => compute }
    allocate := fun _ => true
    memorylimit := 1024
    repairEnv := toyRepairEnv
    verifyTargetFiles := fun s _ => (true, s) }

/-- The environment of the scans for the set `repair.par2` with both data
files missing. -/
def repairScanEnv : ProcessEnv :=
  { loaders := repairLoaders
    md5 := toyMD5
    fs := fun name => if name = "repair.par2" then some repairFile else none
    otherFiles := fun _ => []
    getrlimit := some 256
    setrlimit := fun _ => true
    verifyFiles := fun s => (true, s)
    verifyExtraFiles := fun s _ => s
    repair := fun _ => none }

/-- The environment of `Process` for the set `repair.par2` with both data
files missing. -/
def repairProcessEnv (create : String → Bool) (compute : Bool) : ProcessEnv :=
  ProcessEnv.repairing repairScanEnv (repairBranchEnv create compute) 10

/-- Every `DiskFile` that a source file of the map points at, as its target
file or as its complete file, is a file of the disk. -/
def TrackedOnDisk (m : List (MD5Hash × Par2RepairerSourceFile)) (disk : Disk) : Prop :=
  ∀ fileid sf, sfFind fileid m = some sf → ∀ name,
    sf.targetfile = some name ∨ sf.completefile = some name → (disk name).isSome = true

/-- No `DiskFile` is the target file of two source files of the map. -/
def TargetsDistinct (m : List (MD5Hash × Par2RepairerSourceFile)) : Prop :=
  ∀ a b sfa sfb name, sfFind a m = some sfa → sfFind b m = some sfb →
    sfa.targetfile = some name → sfb.targetfile = some name → a = b

/-- No `DiskFile` is the complete file of two source files of the map. -/
def CompletesDistinct (m : List (MD5Hash × Par2RepairerSourceFile)) : Prop :=
  ∀ a b sfa sfb name, sfFind a m = some sfa → sfFind b m = some sfb →
    sfa.completefile = some name → sfb.completefile = some name → a = b

/-- A disk with the files `x.dat` and `z.dat`. -/
def swappedDisk : Disk :=
  fun name =>
    if name = "x.dat" then some { filename := "x.dat", content := [5, 6, 7, 8] }
    else if name = "z.dat" then some { filename := "z.dat", content := [1, 2, 3, 4] }
    else none

/-- A state after the scans of a set of two files, `x.dat` and `y.dat`: the
file found as `x.dat` holds the data of `y.dat`, the data of `x.dat` was found
in the extra file `z.dat`, and there is no file `y.dat`. -/
def swappedRun : RepairRun :=
  { s :=
      { mainpacket := some { blocksize := 4, recoverablefilecount := 2, fileids := [[1], [2]] }
        sourcefiles := [some [1], some [2]]
        sourcefilemap :=
          [([1], { descriptionpacket := some { fileid := [1], filesize := 4, filename := "x.dat" }
                   targetexists := true
                   targetfile := some "x.dat"
                   completefile := some "z.dat" }),
           ([2], { descriptionpacket := some { fileid := [2], filesize := 4, filename := "y.dat" }
                   completefile := some "x.dat" })]
        diskFileMap := ["x.dat", "z.dat"] }
    disk := swappedDisk }

/-- An environment in which `DiskFile::Rename()` tries the suffix `.1` only and
`DiskFile::Rename(name)` refuses a name that is taken. -/
def renamingEnv : RepairBranchEnv :=
  { repairBranchEnv (fun _ => true) true with
    RenameAway := fun disk name =>
      if (disk (name ++ ".1")).isNone then some (name ++ ".1") else none
    RenameTo := fun disk _ newname => (disk newname).isNone }

/-- The disk after `buffer` has been written to the block that `block` points
at by `WriteData(position, size, buffer, wrote)`; `none` when the pointer or
the block's `diskfile` is null, the file is not on the disk, or the call
returns false. -/
def putBlock (s : Par2Repairer) (block : Option BlockRef) (position size : Nat)
    (buffer : List Byte) (disk : Disk) : Option Disk :=
  match derefBlock s block with
  | none => none
  | some datablock =>
    match datablock.diskfile.bind disk with
    | none => none
    | some file => (datablock.WriteData file position size buffer).1.map disk.update

/-- What one recorded event says of the disk: a `read` leaves the disk as it is
and carries the bytes that `ReadData(position, size)` gives for its block on
that disk (otherwise there is no result); a `copied` or `written` event puts
its buffer into its block; the other events leave the disk as it is. -/
def transferStep (s : Par2Repairer) (event : RepairEvent) (disk : Disk) : Option Disk :=
  match event with
  | RepairEvent.read _ block position size data =>
    match derefBlock s block with
    | none => none
    | some datablock =>
      match datablock.diskfile.bind disk with
      | none => none
      | some file =>
        if (datablock.ReadData file position size).1 = some data then some disk else none
  | RepairEvent.copied _ block position size buffer => putBlock s block position size buffer disk
  | RepairEvent.written _ block position size buffer => putBlock s block position size buffer disk
  | _ => some disk

/-- The disk that a list of events, taken in order, leads to from `disk`. -/
def replayTransfers (s : Par2Repairer) : List RepairEvent → Disk → Option Disk
  | [], disk => some disk
  | event :: rest, disk => (transferStep s event disk).bind (replayTransfers s rest)

end Par2Repairer

/-! ## Theorems -/

namespace Par2Repairer

theorem lt_ceilBlocks_iff (S B k : Nat) (hB : 0 < B) : k < ceilBlocks S B ↔ k * B < S := by
  unfold ceilBlocks
  rw [Nat.lt_iff_add_one_le, Nat.le_div_iff_mul_le hB, Nat.add_mul]
  omega

theorem assignBlockLocations_aux (B S : Nat) (hB : 0 < B) (hfit : ceilBlocks S B * B < U64) :
    ∀ fuel k, k ≤ ceilBlocks S B → ceilBlocks S B - k < fuel →
      assignBlockLocations B S fuel (k * B) =
        some ((List.range' k (ceilBlocks S B - k)).map (fun i => (i * B, min B (S - i * B)))) := by
  intro fuel
  induction fuel with
  | zero => intro k _ h; omega
  | succ fuel ih =>
    intro k hk hfuel
    unfold assignBlockLocations
    by_cases hlt : k * B < S
    · have hkc : k < ceilBlocks S B := (lt_ceilBlocks_iff S B k hB).2 hlt
      have hle : (k + 1) * B ≤ ceilBlocks S B * B := Nat.mul_le_mul_right B hkc
      have hnext : (k * B + B) % U64 = (k + 1) * B := by
        rw [Nat.add_mul, Nat.one_mul] at hle ⊢
        exact Nat.mod_eq_of_lt (by omega)
      rw [if_pos hlt, hnext, ih (k + 1) hkc (by omega)]
      have hsplit : ceilBlocks S B - k = (ceilBlocks S B - (k + 1)) + 1 := by omega
      rw [hsplit, List.range'_succ]
      simp
    · have hkc : ¬ k < ceilBlocks S B := fun h => hlt ((lt_ceilBlocks_iff S B k hB).1 h)
      have hz : ceilBlocks S B - k = 0 := by omega
      rw [if_neg hlt, hz]
      simp

theorem sum_lengths_aux (B S : Nat) (hB : 0 < B) :
    ∀ n k, k + n = ceilBlocks S B →
      ((List.range' k n).map (fun i => min B (S - i * B))).sum = S - k * B := by
  intro n
  induction n with
  | zero =>
    intro k hk
    have h : ¬ k < ceilBlocks S B := by omega
    rw [lt_ceilBlocks_iff S B k hB] at h
    simp
    omega
  | succ n ih =>
    intro k hk
    have hlt : k * B < S := (lt_ceilBlocks_iff S B k hB).1 (by omega)
    rw [List.range'_succ, List.map_cons, List.sum_cons, ih (k + 1) (by omega), Nat.add_mul,
      Nat.one_mul]
    omega

end Par2Repairer

namespace Par2Repairer

theorem ceilBlocks_mul_lt (S B : Nat) (hB : 0 < B) (hB64 : B < U64) (hS : S < 2 ^ 63) :
    ceilBlocks S B * B < U64 := by
  by_cases h1 : 1 < ceilBlocks S B
  · have h2 : (ceilBlocks S B - 1) * B < S :=
      (lt_ceilBlocks_iff S B (ceilBlocks S B - 1) hB).1 (by omega)
    have h3 : 1 * B < S := (lt_ceilBlocks_iff S B 1 hB).1 h1
    have h4 : ceilBlocks S B * B = (ceilBlocks S B - 1) * B + B := by
      conv_lhs => rw [show ceilBlocks S B = (ceilBlocks S B - 1) + 1 by omega]
      rw [Nat.add_mul, Nat.one_mul]
    have h5 : (2 : Nat) ^ 64 = 2 ^ 63 + 2 ^ 63 := by norm_num
    show ceilBlocks S B * B < 2 ^ 64
    omega
  · have h2 : ceilBlocks S B * B ≤ 1 * B := Nat.mul_le_mul_right B (by omega)
    omega

/-- The location-assignment loop when the offsets do not wrap, that is when
`ceil(S / B) * B < 2 ^ 64`: for a block size `B > 0` it terminates and assigns
exactly `ceil(S / B)` blocks, block `i` at file offset `i * B` with length
`min(B, S - i * B)`; the lengths sum to `S`, and every block except possibly
the last has length exactly `B`. -/
theorem assignBlockLocations_of_fit (S B fuel : Nat) (hB : 0 < B)
    (hfit : ceilBlocks S B * B < U64) (hfuel : ceilBlocks S B < fuel) :
    assignBlockLocations B S fuel 0 =
        some ((List.range (ceilBlocks S B)).map (fun i => (i * B, min B (S - i * B))))
      ∧ ((List.range (ceilBlocks S B)).map (fun i => min B (S - i * B))).sum = S
      ∧ ∀ i, i + 1 < ceilBlocks S B → min B (S - i * B) = B := by
  refine ⟨?_, ?_, ?_⟩
  · have h := assignBlockLocations_aux B S hB hfit fuel 0 (Nat.zero_le _) (by omega)
    rw [Nat.zero_mul] at h
    rw [h, List.range_eq_range']
    rfl
  · have h := sum_lengths_aux B S hB (ceilBlocks S B) 0 (by omega)
    rw [List.range_eq_range', h]
    simp
  · intro i hi
    have h := (lt_ceilBlocks_iff S B (i + 1) hB).1 hi
    rw [Nat.add_mul, Nat.one_mul] at h
    omega

/-- C10: with the block size `2 ^ 63` and the file size `2 ^ 64 - 1`, a file of
`ceil(S / B) = 2` blocks, the location-assignment loop does not stop after two
blocks: the 64-bit sum `offset + blocksize` after the second block is
`2 ^ 63 + 2 ^ 63 = 0`, which is again below the file size, so the loop goes on
from offset 0 and has no result, whatever the fuel. -/
theorem assignBlockLocations_wraps (fuel : Nat) :
    ceilBlocks (2 ^ 64 - 1) (2 ^ 63) = 2 ∧ (2 ^ 63 + 2 ^ 63) % U64 = 0 ∧
    assignBlockLocations (2 ^ 63) (2 ^ 64 - 1) fuel 0 = none := by
  have hfirst : (0 + 2 ^ 63) % U64 = 2 ^ 63 := by decide
  have hsecond : (2 ^ 63 + 2 ^ 63) % U64 = 0 := by decide
  have key : ∀ n, assignBlockLocations (2 ^ 63) (2 ^ 64 - 1) n 0 = none ∧
      assignBlockLocations (2 ^ 63) (2 ^ 64 - 1) n (2 ^ 63) = none := by
    intro n
    induction n with
    | zero => exact ⟨rfl, rfl⟩
    | succ n ih =>
      constructor
      · unfold assignBlockLocations
        rw [if_pos (by decide), hfirst, ih.2]
        rfl
      · unfold assignBlockLocations
        rw [if_pos (by decide), hsecond, ih.1]
        rfl
  exact ⟨by decide, hsecond, (key fuel).1⟩

end Par2Repairer

namespace DataBlock

/-- C9: `ReadData(position, size, buffer)` on a block `(file, offset, length)`
that lies in the 64-bit offset range.  With `w = min(size, length - position)`
when `position < length` and `w = 0` otherwise: a call that returns true leaves
in the buffer the file bytes `[offset+position, offset+position+w)` followed by
`size - w` zero bytes (`size` bytes in all); when `position >= length` no disk
read is issued and the call succeeds; otherwise exactly one read, of the `w`
bytes at `offset+position`, is issued; and the call returns false exactly when
that read fails. -/
theorem ReadData_spec (b : DataBlock) (file : DiskFile) (position size : Nat)
    (hrange : b.offset + b.length ≤ U64) :
    (∀ buffer, (b.ReadData file position size).1 = some buffer →
        buffer = (file.content.drop (b.offset + position)).take
            (if position < b.length then min size (b.length - position) else 0)
          ++ List.replicate
            (size - (if position < b.length then min size (b.length - position) else 0)) 0
        ∧ buffer.length = size)
    ∧ (b.length ≤ position → b.ReadData file position size = (some (List.replicate size 0), []))
    ∧ (position < b.length → (b.ReadData file position size).2 =
        [(b.offset + position, min size (b.length - position))])
    ∧ ((b.ReadData file position size).1 = none ↔
        position < b.length ∧
          file.Read (b.offset + position) (min size (b.length - position)) = none) := by
  by_cases hpos : position < b.length
  · have hmod : (b.offset + position) % U64 = b.offset + position :=
      Nat.mod_eq_of_lt (by omega)
    have hgt : b.length > position := hpos
    cases hread : file.Read (b.offset + position) (min size (b.length - position)) with
    | none =>
      simp [ReadData, hgt, hmod, hread, hpos]
    | some data =>
      have hdata : data = (file.content.drop (b.offset + position)).take
          (min size (b.length - position)) ∧
          b.offset + position + min size (b.length - position) ≤ file.content.length := by
        unfold DiskFile.Read DiskFile.FileSize at hread
        split at hread
        · rename_i h
          exact ⟨(Option.some.inj hread).symm, h.1⟩
        · exact absurd hread (by simp)
      have hlen : data.length = min size (b.length - position) := by
        rw [hdata.1, List.length_take, List.length_drop]
        omega
      by_cases hw : min size (b.length - position) < size
      · simp only [ReadData, hgt, hmod, hread, hpos, if_true, hw]
        refine ⟨?_, ?_, ?_, ?_⟩
        · intro buffer hb
          have hb2 : buffer = data ++ List.replicate (size - min size (b.length - position)) 0 :=
            (Option.some.inj hb).symm
          refine ⟨by rw [hb2, hdata.1], ?_⟩
          rw [hb2, List.length_append, List.length_replicate, hlen]
          omega
        · intro h; omega
        · intro _; trivial
        · simp
      · simp only [ReadData, hgt, hmod, hread, hpos, if_true, hw, if_false]
        have hz : size - min size (b.length - position) = 0 := by omega
        refine ⟨?_, ?_, ?_, ?_⟩
        · intro buffer hb
          have hb2 : buffer = data := (Option.some.inj hb).symm
          refine ⟨by rw [hb2, hz, hdata.1]; simp, ?_⟩
          rw [hb2, hlen]
          omega
        · intro h; omega
        · intro _; trivial
        · simp
  · have hgt : ¬ b.length > position := hpos
    simp only [ReadData, hgt, if_false, hpos]
    refine ⟨?_, ?_, ?_, ?_⟩
    · intro buffer hb
      have hb2 : buffer = List.replicate size 0 := (Option.some.inj hb).symm
      rw [hb2]
      simp
    · intro _; trivial
    · intro h; exact h.elim
    · simp

theorem ReadData_spec_witness :
    (∀ buffer, (ReadData { diskfile := some "a", offset := 1, length := 3 }
          { content := [1, 2, 3, 4, 5] } 1 4).1 = some buffer →
        buffer = (([1, 2, 3, 4, 5] : List Byte).drop (1 + 1)).take
            (if 1 < 3 then min 4 (3 - 1) else 0)
          ++ List.replicate (4 - (if 1 < 3 then min 4 (3 - 1) else 0)) 0
        ∧ buffer.length = 4)
    ∧ (ReadData { diskfile := some "a", offset := 1, length := 3 }
          { content := [1, 2, 3, 4, 5] } 1 4).1 = some [3, 4, 0, 0] :=
  ⟨(ReadData_spec { diskfile := some "a", offset := 1, length := 3 }
      { content := [1, 2, 3, 4, 5] } 1 4 (by decide)).1, by decide⟩

end DataBlock

/-! ## The packet scan on a header whose length wraps -/

namespace Par2Repairer

theorem ReadPacketHeader_wrapFile : ReadPacketHeader wrapFile 0 68 = (4, some wrapHeader) := by
  decide

theorem validatePacket_wrapFile (md5 : MD5Function)
    (hmd5 : md5.hash (List.replicate 16 0 ++ creatorpacket_type) = exampleDigest) :
    validatePacket md5 wrapFile 68 4 wrapHeader = true := by
  have hcond : ¬ (headerSize > wrapHeader.length ∨ wrapHeader.length % 4 ≠ 0 ∨
      wrapFile.FileSize < (4 + wrapHeader.length) % U64) := by decide
  have hbody : hashPacketBody wrapFile 68 ((4 + wrapHeader.length) % U64)
      (wrapFile.FileSize + 1) ((4 + headerSize) % U64) (wrapHeader.setid ++ wrapHeader.type) =
      (68, List.replicate 16 0 ++ creatorpacket_type) := by decide
  have hlim : ¬ (68 < (4 + wrapHeader.length) % U64) := by decide
  have hhash : wrapHeader.hash = exampleDigest := rfl
  unfold validatePacket
  rw [if_neg hcond]
  simp only [hbody, hlim, hmd5, hhash, if_false, ne_eq, not_true_eq_false]

end Par2Repairer

namespace Par2Repairer

theorem scanPackets_wrapFile_step (ld : PacketLoaders) (md5 : MD5Function)
    (hmd5 : md5.hash (List.replicate 16 0 ++ creatorpacket_type) = exampleDigest)
    (fuel : Nat) (st : Par2Repairer × Nat) :
    scanPackets ld md5 wrapFile 68 (fuel + 1) 0 st =
      scanPackets ld md5 wrapFile 68 fuel 0 (acceptPacket ld st wrapFile 4 wrapHeader) := by
  have hc : (0 + headerSize) % U64 ≤ wrapFile.FileSize := by decide
  have hnext : (4 + wrapHeader.length) % U64 = 0 := by decide
  rw [scanPackets, if_pos hc, ReadPacketHeader_wrapFile]
  dsimp only
  rw [validatePacket_wrapFile md5 hmd5, if_pos rfl, hnext]

/-- C2: the file `wrapFile` (68 bytes) has the packet magic at offset 4 with
the length field `2 ^ 64 - 4`.  `ReadPacketHeader` finds it, and although
`4 + length` exceeds the file size as a true sum, the candidate passes the
checks of `LoadPacketsFromFile` (the 64-bit sum `offset + header.length` wraps
to 0), is handed to the setid check and the typed loaders, and the scan
resumes at offset `(4 + length) mod 2 ^ 64 = 0`. -/
theorem wrapped_length_passes_validation (ld : PacketLoaders) (md5 : MD5Function)
    (hmd5 : md5.hash (List.replicate 16 0 ++ creatorpacket_type) = exampleDigest)
    (fuel : Nat) (st : Par2Repairer × Nat) :
    ReadPacketHeader wrapFile 0 68 = (4, some wrapHeader)
    ∧ validatePacket md5 wrapFile 68 4 wrapHeader = true
    ∧ wrapFile.FileSize < 4 + wrapHeader.length
    ∧ scanPackets ld md5 wrapFile 68 (fuel + 1) 0 st =
        scanPackets ld md5 wrapFile 68 fuel 0 (acceptPacket ld st wrapFile 4 wrapHeader) :=
  ⟨ReadPacketHeader_wrapFile, validatePacket_wrapFile md5 hmd5, by decide,
    scanPackets_wrapFile_step ld md5 hmd5 fuel st⟩

theorem wrapped_length_passes_validation_witness :
    toyMD5.hash (List.replicate 16 0 ++ creatorpacket_type) = exampleDigest
    ∧ validatePacket toyMD5 wrapFile 68 4 wrapHeader = true
    ∧ wrapFile.FileSize < 4 + wrapHeader.length :=
  ⟨rfl, (wrapped_length_passes_validation creatorOnlyLoaders toyMD5 rfl 0 ({}, 0)).2.1,
    (wrapped_length_passes_validation creatorOnlyLoaders toyMD5 rfl 0 ({}, 0)).2.2.1⟩

set_option maxRecDepth 20000 in
theorem ReadPacketHeader_junkThenPacketFile :
    ReadPacketHeader junkThenPacketFile 0 132 = (4, some wrapHeader) := by
  decide

set_option maxRecDepth 20000 in
theorem validatePacket_junkThenPacketFile (md5 : MD5Function)
    (hmd5 : md5.hash (List.replicate 16 0 ++ creatorpacket_type) = exampleDigest) :
    validatePacket md5 junkThenPacketFile 132 4 wrapHeader = true := by
  have hcond : ¬ (headerSize > wrapHeader.length ∨ wrapHeader.length % 4 ≠ 0 ∨
      junkThenPacketFile.FileSize < (4 + wrapHeader.length) % U64) := by decide
  have hbody : hashPacketBody junkThenPacketFile 132 ((4 + wrapHeader.length) % U64)
      (junkThenPacketFile.FileSize + 1) ((4 + headerSize) % U64)
      (wrapHeader.setid ++ wrapHeader.type) =
      (68, List.replicate 16 0 ++ creatorpacket_type) := by decide
  have hlim : ¬ (68 < (4 + wrapHeader.length) % U64) := by decide
  have hhash : wrapHeader.hash = exampleDigest := rfl
  unfold validatePacket
  rw [if_neg hcond]
  simp only [hbody, hlim, hmd5, hhash, if_false, ne_eq, not_true_eq_false]

set_option maxRecDepth 20000 in
theorem scanPackets_junkThenPacketFile_step (ld : PacketLoaders) (md5 : MD5Function)
    (hmd5 : md5.hash (List.replicate 16 0 ++ creatorpacket_type) = exampleDigest)
    (fuel : Nat) (st : Par2Repairer × Nat) :
    scanPackets ld md5 junkThenPacketFile 132 (fuel + 1) 0 st =
      scanPackets ld md5 junkThenPacketFile 132 fuel 0
        (acceptPacket ld st junkThenPacketFile 4 wrapHeader) := by
  have hc : (0 + headerSize) % U64 ≤ junkThenPacketFile.FileSize := by decide
  have hnext : (4 + wrapHeader.length) % U64 = 0 := by decide
  rw [scanPackets, if_pos hc, ReadPacketHeader_junkThenPacketFile]
  dsimp only
  rw [validatePacket_junkThenPacketFile md5 hmd5, if_pos rfl, hnext]

theorem scanPackets_junkThenPacketFile_none (ld : PacketLoaders) (md5 : MD5Function)
    (hmd5 : md5.hash (List.replicate 16 0 ++ creatorpacket_type) = exampleDigest) :
    ∀ (fuel : Nat) (st : Par2Repairer × Nat),
      scanPackets ld md5 junkThenPacketFile 132 fuel 0 st = none := by
  intro fuel
  induction fuel with
  | zero => intro st; rfl
  | succ fuel ih =>
    intro st
    rw [scanPackets_junkThenPacketFile_step ld md5 hmd5]
    exact ih _

set_option maxRecDepth 20000 in
theorem validPacketAt_junkThenPacketFile (md5 : MD5Function)
    (hmd5 : md5.hash (List.replicate 16 0 ++ creatorpacket_type) = exampleDigest) :
    ValidPacketAt md5 junkThenPacketFile 68 := by
  have hdata : (junkThenPacketFile.content.drop (68 + 32)).take
      ((parseHeader ((junkThenPacketFile.content.drop 68).take 64)).length - 32) =
      List.replicate 16 0 ++ creatorpacket_type := by decide
  have hhash : (parseHeader ((junkThenPacketFile.content.drop 68).take 64)).hash =
      exampleDigest := by decide
  refine ⟨by decide, by decide, by decide, by decide, by decide, ?_⟩
  rw [hdata, hhash, hmd5]

set_option maxRecDepth 20000 in
theorem no_valid_packet_in_junk (md5 : MD5Function) :
    ∀ p, p < 68 → ¬ ValidPacketAt md5 junkThenPacketFile p := by
  have h : ∀ p, p < 68 →
      ¬ ((parseHeader ((junkThenPacketFile.content.drop p).take 64)).magic = packet_magic ∧
        p + (parseHeader ((junkThenPacketFile.content.drop p).take 64)).length ≤
          junkThenPacketFile.FileSize) := by decide
  intro p hp hv
  exact h p hp ⟨hv.2.1, hv.2.2.2.2.1⟩

set_option maxRecDepth 20000 in
/-- C3: in the 132-byte file `junkThenPacketFile` a valid packet starts at
position 68, and no valid packet starts anywhere in the 68 bytes before it.
Yet `LoadPacketsFromFile` never reaches it: every turn of the scan that starts
at offset 0 accepts the header at offset 4, whose length field `2 ^ 64 - 4`
makes the 64-bit offset wrap back to 0, so the scan is back at offset 0 with
only that header handled, and the call does not return for any amount of
fuel. -/
theorem valid_packet_after_junk_not_reached (ld : PacketLoaders) (md5 : MD5Function)
    (hmd5 : md5.hash (List.replicate 16 0 ++ creatorpacket_type) = exampleDigest) :
    ValidPacketAt md5 junkThenPacketFile 68
    ∧ (∀ p, p < 68 → ¬ ValidPacketAt md5 junkThenPacketFile p)
    ∧ (∀ (fuel : Nat) (st : Par2Repairer × Nat),
        scanPackets ld md5 junkThenPacketFile 132 (fuel + 1) 0 st =
          scanPackets ld md5 junkThenPacketFile 132 fuel 0
            (acceptPacket ld st junkThenPacketFile 4 wrapHeader))
    ∧ (∀ (fuel : Nat) (s : Par2Repairer), "junk.par2" ∉ s.diskFileMap →
        LoadPacketsFromFile ld md5 exampleFS fuel s "junk.par2" = none) := by
  refine ⟨validPacketAt_junkThenPacketFile md5 hmd5, no_valid_packet_in_junk md5,
    scanPackets_junkThenPacketFile_step ld md5 hmd5, ?_⟩
  intro fuel s hs
  have hfs : exampleFS "junk.par2" = some junkThenPacketFile := by simp [exampleFS]
  have hsize : junkThenPacketFile.FileSize > 0 := by decide
  have hbuf : min (1024 * 1024 * 10) junkThenPacketFile.FileSize = 132 := by decide
  unfold LoadPacketsFromFile
  rw [if_neg hs, hfs]
  dsimp only
  rw [if_pos hsize, hbuf, scanPackets_junkThenPacketFile_none ld md5 hmd5]

set_option maxRecDepth 20000 in
theorem valid_packet_after_junk_not_reached_witness :
    toyMD5.hash (List.replicate 16 0 ++ creatorpacket_type) = exampleDigest
    ∧ ValidPacketAt toyMD5 junkThenPacketFile 68
    ∧ LoadPacketsFromFile creatorOnlyLoaders toyMD5 exampleFS 1000 {} "junk.par2" = none :=
  ⟨rfl, (valid_packet_after_junk_not_reached creatorOnlyLoaders toyMD5 rfl).1,
    (valid_packet_after_junk_not_reached creatorOnlyLoaders toyMD5 rfl).2.2.2 1000 {}
      (by decide)⟩

end Par2Repairer

/-! ## The two maps -/

theorem mapInsert_snd_eq_false_iff {β : Type} (k : Nat) (v : β) (m : List (Nat × β))
    (hs : (m.map Prod.fst).Pairwise (· < ·)) :
    (mapInsert k v m).2 = false ↔ k ∈ m.map Prod.fst := by
  induction m with
  | nil => simp [mapInsert]
  | cons e rest ih =>
    rw [List.map_cons, List.pairwise_cons] at hs
    unfold mapInsert
    by_cases h1 : k = e.1
    · simp [h1]
    · by_cases h2 : k < e.1
      · simp only [h1, h2, if_false, if_true, List.map_cons, List.mem_cons, false_or]
        constructor
        · intro h; exact absurd h (by simp)
        · intro h
          have := hs.1 k h
          omega
      · simp only [h1, h2, if_false, List.map_cons, List.mem_cons, false_or]
        exact ih hs.2

theorem mapInsert_of_mem {β : Type} (k : Nat) (v : β) (m : List (Nat × β))
    (hs : (m.map Prod.fst).Pairwise (· < ·)) (hk : k ∈ m.map Prod.fst) :
    mapInsert k v m = (m, false) := by
  induction m with
  | nil => simp at hk
  | cons e rest ih =>
    rw [List.map_cons, List.pairwise_cons] at hs
    unfold mapInsert
    by_cases h1 : k = e.1
    · simp [h1]
    · have hk2 : k ∈ rest.map Prod.fst := by
        rw [List.map_cons, List.mem_cons] at hk
        exact hk.resolve_left h1
      have h2 : ¬ k < e.1 := by
        have := hs.1 k hk2
        omega
      simp only [h1, h2, if_false, ih hs.2 hk2]

theorem mapInsert_of_not_mem {β : Type} (k : Nat) (v : β) (m : List (Nat × β))
    (hk : k ∉ m.map Prod.fst) :
    (mapInsert k v m).2 = true ∧ ((mapInsert k v m).1).Perm ((k, v) :: m) := by
  induction m with
  | nil => simp [mapInsert]
  | cons e rest ih =>
    rw [List.map_cons, List.mem_cons, not_or] at hk
    unfold mapInsert
    by_cases h2 : k < e.1
    · simp [hk.1, h2]
    · simp only [hk.1, h2, if_false]
      refine ⟨(ih hk.2).1, ?_⟩
      exact ((ih hk.2).2.cons e).trans (List.Perm.swap _ _ _)

theorem mapInsert_keys {β : Type} (k : Nat) (v : β) (m : List (Nat × β)) :
    ∀ x, x ∈ (mapInsert k v m).1.map Prod.fst → x = k ∨ x ∈ m.map Prod.fst := by
  induction m with
  | nil => intro x hx; simpa [mapInsert] using hx
  | cons e rest ih =>
    intro x hx
    unfold mapInsert at hx
    by_cases h1 : k = e.1
    · rw [if_pos h1] at hx; exact Or.inr hx
    · by_cases h2 : k < e.1
      · rw [if_neg h1, if_pos h2] at hx
        simpa using hx
      · rw [if_neg h1, if_neg h2] at hx
        simp only [List.map_cons, List.mem_cons] at hx ⊢
        rcases hx with hx | hx
        · exact Or.inr (Or.inl hx)
        · rcases ih x hx with h | h
          · exact Or.inl h
          · exact Or.inr (Or.inr h)

theorem mapInsert_sorted {β : Type} (k : Nat) (v : β) (m : List (Nat × β))
    (hs : (m.map Prod.fst).Pairwise (· < ·)) :
    ((mapInsert k v m).1.map Prod.fst).Pairwise (· < ·) := by
  induction m with
  | nil => simp [mapInsert]
  | cons e rest ih =>
    have hs' := hs
    rw [List.map_cons, List.pairwise_cons] at hs'
    unfold mapInsert
    by_cases h1 : k = e.1
    · rw [if_pos h1]; exact hs
    · by_cases h2 : k < e.1
      · rw [if_neg h1, if_pos h2]
        simp only [List.map_cons, List.pairwise_cons, List.mem_cons]
        refine ⟨?_, hs'⟩
        intro x hx
        rcases hx with hx | hx
        · omega
        · have := hs'.1 x hx
          omega
      · rw [if_neg h1, if_neg h2]
        simp only [List.map_cons, List.pairwise_cons]
        refine ⟨?_, ih hs'.2⟩
        intro x hx
        rcases mapInsert_keys k v rest x hx with h | h
        · omega
        · exact hs'.1 x h

theorem mapFind_mapInsert_self {β : Type} (k : Nat) (v : β) (m : List (Nat × β))
    (hk : k ∉ m.map Prod.fst) : mapFind k (mapInsert k v m).1 = some v := by
  induction m with
  | nil => simp [mapInsert, mapFind]
  | cons e rest ih =>
    rw [List.map_cons, List.mem_cons, not_or] at hk
    unfold mapInsert
    by_cases h2 : k < e.1
    · simp [hk.1, h2, mapFind]
    · simp [hk.1, h2, mapFind, ih hk.2]

theorem mapFind_mapInsert_ne {β : Type} (k k' : Nat) (v : β) (m : List (Nat × β))
    (hne : k' ≠ k) : mapFind k' (mapInsert k v m).1 = mapFind k' m := by
  induction m with
  | nil => simp [mapInsert, mapFind, hne]
  | cons e rest ih =>
    unfold mapInsert
    by_cases h1 : k = e.1
    · simp [h1]
    · by_cases h2 : k < e.1
      · simp [h1, h2, mapFind, hne]
      · simp [h1, h2, mapFind, ih]

theorem sfFind_mem (k : MD5Hash) (sf : Par2RepairerSourceFile)
    (m : List (MD5Hash × Par2RepairerSourceFile)) (h : sfFind k m = some sf) : (k, sf) ∈ m := by
  induction m with
  | nil => simp [sfFind] at h
  | cons e rest ih =>
    unfold sfFind at h
    by_cases h1 : k = e.1
    · rw [if_pos h1] at h
      have h2 : e.2 = sf := Option.some.inj h
      rw [List.mem_cons]
      left
      rw [h1, ← h2]
    · rw [if_neg h1] at h
      exact List.mem_cons_of_mem _ (ih h)

theorem sfFind_eq_none_iff (k : MD5Hash) (m : List (MD5Hash × Par2RepairerSourceFile)) :
    sfFind k m = none ↔ k ∉ m.map Prod.fst := by
  induction m with
  | nil => simp [sfFind]
  | cons e rest ih =>
    unfold sfFind
    by_cases h1 : k = e.1
    · simp [h1]
    · simp [h1, ih]

theorem mem_sfSet (k : MD5Hash) (v : Par2RepairerSourceFile)
    (m : List (MD5Hash × Par2RepairerSourceFile)) :
    ∀ e, e ∈ sfSet k v m → e ∈ m ∨ e = (k, v) := by
  induction m with
  | nil => intro e he; simp [sfSet] at he
  | cons a rest ih =>
    intro e he
    unfold sfSet at he
    by_cases h1 : k = a.1
    · rw [if_pos h1, List.mem_cons] at he
      rcases he with he | he
      · right; rw [he, h1]
      · left; exact List.mem_cons_of_mem _ he
    · rw [if_neg h1, List.mem_cons] at he
      rcases he with he | he
      · left; rw [he]; exact List.mem_cons_self _ _
      · rcases ih e he with h | h
        · left; exact List.mem_cons_of_mem _ h
        · right; exact h

theorem sfFind_sfSet_self (k : MD5Hash) (v : Par2RepairerSourceFile)
    (m : List (MD5Hash × Par2RepairerSourceFile)) (hk : (sfFind k m).isSome) :
    sfFind k (sfSet k v m) = some v := by
  induction m with
  | nil => simp [sfFind] at hk
  | cons a rest ih =>
    unfold sfFind at hk
    unfold sfSet
    by_cases h1 : k = a.1
    · rw [if_pos h1]; unfold sfFind; rw [if_pos h1]
    · rw [if_neg h1] at hk ⊢
      unfold sfFind
      rw [if_neg h1]
      exact ih hk

theorem sfFind_sfSet_ne (k k' : MD5Hash) (v : Par2RepairerSourceFile)
    (m : List (MD5Hash × Par2RepairerSourceFile)) (hne : k' ≠ k) :
    sfFind k' (sfSet k v m) = sfFind k' m := by
  induction m with
  | nil => rfl
  | cons a rest ih =>
    unfold sfSet
    by_cases h1 : k = a.1
    · rw [if_pos h1]
      have h2 : ¬ k' = a.1 := fun h => hne (h.trans h1.symm)
      simp [sfFind, h2]
    · rw [if_neg h1]
      unfold sfFind
      by_cases h3 : k' = a.1
      · simp [h3]
      · simp [h3, ih]

theorem sfFind_append_of_some (k : MD5Hash) (sf : Par2RepairerSourceFile)
    (m m' : List (MD5Hash × Par2RepairerSourceFile)) (h : sfFind k m = some sf) :
    sfFind k (m ++ m') = some sf := by
  induction m with
  | nil => simp [sfFind] at h
  | cons a rest ih =>
    rw [List.cons_append]
    unfold sfFind at h ⊢
    by_cases h1 : k = a.1
    · rw [if_pos h1] at h ⊢; exact h
    · rw [if_neg h1] at h ⊢; exact ih h

/-! ## Properties carried through the packet scan -/

namespace Par2Repairer

theorem scanPackets_preserves (ld : PacketLoaders) (md5 : MD5Function) (diskfile : DiskFile)
    (buffersize : Nat) (P : Par2Repairer → Prop)
    (hacc : ∀ (st : Par2Repairer × Nat) (o : Nat) (h : PACKET_HEADER),
      P st.1 → P (acceptPacket ld st diskfile o h).1) :
    ∀ (fuel offset : Nat) (st r : Par2Repairer × Nat), P st.1 →
      scanPackets ld md5 diskfile buffersize fuel offset st = some r → P r.1 := by
  intro fuel
  induction fuel with
  | zero => intro offset st r _ h; simp [scanPackets] at h
  | succ fuel ih =>
    intro offset st r hP h
    unfold scanPackets at h
    split at h
    · split at h
      · rw [← Option.some.inj h]; exact hP
      · split at h
        · exact ih _ _ _ (hacc st _ _ hP) h
        · exact ih _ _ _ hP h
    · rw [← Option.some.inj h]; exact hP

theorem LoadPacketsFromFile_preserves (ld : PacketLoaders) (md5 : MD5Function)
    (fs : String → Option DiskFile) (P : Par2Repairer → Prop)
    (hacc : ∀ (st : Par2Repairer × Nat) (f : DiskFile) (o : Nat) (h : PACKET_HEADER),
      P st.1 → P (acceptPacket ld st f o h).1)
    (hmap : ∀ (s : Par2Repairer) (l : List String), P s → P { s with diskFileMap := l })
    (fuel : Nat) (s s' : Par2Repairer) (filename : String) (hP : P s)
    (h : LoadPacketsFromFile ld md5 fs fuel s filename = some s') : P s' := by
  unfold LoadPacketsFromFile at h
  split at h
  · rw [← Option.some.inj h]; exact hP
  · split at h
    · rw [← Option.some.inj h]; exact hP
    · split at h
      · rename_i diskfile _ _
        dsimp only at h
        cases hr : scanPackets ld md5 diskfile (min (1024 * 1024 * 10) diskfile.FileSize)
            fuel 0 (s, 0) with
        | none => rw [hr] at h; simp at h
        | some r =>
          rw [hr] at h
          have hr1 : P r.1 :=
            scanPackets_preserves ld md5 diskfile _ P (fun st o hd => hacc st diskfile o hd)
              _ _ _ _ hP hr
          dsimp only at h
          split at h
          · rw [← Option.some.inj h]; exact hmap _ _ hr1
          · rw [← Option.some.inj h]; exact hr1
      · rw [← Option.some.inj h]; exact hP

theorem LoadPacketsFromFiles_preserves (ld : PacketLoaders) (md5 : MD5Function)
    (fs : String → Option DiskFile) (P : Par2Repairer → Prop)
    (hacc : ∀ (st : Par2Repairer × Nat) (f : DiskFile) (o : Nat) (h : PACKET_HEADER),
      P st.1 → P (acceptPacket ld st f o h).1)
    (hmap : ∀ (s : Par2Repairer) (l : List String), P s → P { s with diskFileMap := l })
    (fuel : Nat) : ∀ (files : List String) (s s' : Par2Repairer), P s →
      LoadPacketsFromFiles ld md5 fs fuel s files = some s' → P s' := by
  intro files
  induction files with
  | nil => intro s s' hP h; rw [← Option.some.inj h]; exact hP
  | cons f rest ih =>
    intro s s' hP h
    unfold LoadPacketsFromFiles at h
    split at h
    · simp at h
    · rename_i s1 hs1
      exact ih s1 s' (LoadPacketsFromFile_preserves ld md5 fs P hacc hmap fuel s s1 f hP hs1) h

end Par2Repairer

/-! ## The set id is locked by the first validated packet -/

namespace Par2Repairer

theorem mem_mapInsert {β : Type} (k : Nat) (v : β) (m : List (Nat × β)) :
    ∀ e, e ∈ (mapInsert k v m).1 → e = (k, v) ∨ e ∈ m := by
  induction m with
  | nil => intro e he; simpa [mapInsert] using he
  | cons a rest ih =>
    intro e he
    unfold mapInsert at he
    by_cases h1 : k = a.1
    · rw [if_pos h1] at he; exact Or.inr he
    · by_cases h2 : k < a.1
      · rw [if_neg h1, if_pos h2] at he
        simpa using he
      · rw [if_neg h1, if_neg h2, List.mem_cons] at he
        rcases he with he | he
        · right; rw [he]; exact List.mem_cons_self _ _
        · rcases ih e he with h | h
          · exact Or.inl h
          · exact Or.inr (List.mem_cons_of_mem _ h)

theorem noteSetid_invariant (s : Par2Repairer) (diskfile : DiskFile) (offset : Nat)
    (header : PACKET_HEADER) (hinv : SetidInvariant s) :
    SetidInvariant (noteSetid s diskfile offset header) ∧
      (noteSetid s diskfile offset header).firstpacket = false := by
  obtain ⟨h1, h2, h3, h4, h5, h6, h7⟩ := hinv
  by_cases hf : s.firstpacket = true
  · have e : noteSetid s diskfile offset header =
        { s with validated := s.validated ++ [⟨diskfile.filename, offset, header⟩],
                 setid := header.setid, firstpacket := false } := by
      simp [noteSetid, hf]
    obtain ⟨hm, hc, hr, hsf⟩ := h2 hf
    have hv : s.validated = [] := h1.1 hf
    rw [e]
    refine ⟨⟨?_, ?_, ?_, ?_, ?_, ?_, ?_⟩, rfl⟩
    · simp
    · intro h; simp at h
    · intro v hv'
      simp only [hv, List.nil_append, List.head?_cons, Option.some.injEq] at hv'
      rw [← hv']
    · intro p hp; simp [hm] at hp
    · intro p hp; simp [hc] at hp
    · intro e he; simp [hr] at he
    · intro e he; simp [hsf] at he
  · have hf' : s.firstpacket = false := by simpa using hf
    have e : noteSetid s diskfile offset header =
        { s with validated := s.validated ++ [⟨diskfile.filename, offset, header⟩] } := by
      simp [noteSetid, hf']
    have hv : s.validated ≠ [] := fun h => hf (h1.2 h)
    rw [e]
    refine ⟨⟨?_, ?_, ?_, h4, h5, h6, h7⟩, hf'⟩
    · simp [hf']
    · intro h; exact absurd h hf
    · intro v hv'
      apply h3 v
      cases hl : s.validated with
      | nil => exact absurd hl hv
      | cons a t =>
        simp only [hl, List.cons_append, List.head?_cons] at hv'
        simpa using hv'

end Par2Repairer

namespace Par2Repairer

theorem LoadRecoveryPacket_invariant (ld : PacketLoaders) (s : Par2Repairer)
    (diskfile : DiskFile) (offset : Nat) (header : PACKET_HEADER) (hinv : SetidInvariant s)
    (hf : s.firstpacket = false) (hs : s.setid = header.setid) :
    SetidInvariant (LoadRecoveryPacket ld s diskfile offset header).2 := by
  unfold LoadRecoveryPacket
  cases hl : ld.recovery diskfile offset header with
  | none => exact hinv
  | some loaded =>
    dsimp only
    split
    · obtain ⟨h1, h2, h3, h4, h5, h6, h7⟩ := hinv
      refine ⟨h1, ?_, h3, h4, h5, ?_, h7⟩
      · intro h; rw [hf] at h; exact Bool.noConfusion h
      · intro e he
        rcases mem_mapInsert _ _ _ e he with h | h
        · rw [h]; exact hs.symm
        · exact h6 e h
    · exact hinv

theorem LoadMainPacket_invariant (ld : PacketLoaders) (s : Par2Repairer)
    (diskfile : DiskFile) (offset : Nat) (header : PACKET_HEADER) (hinv : SetidInvariant s)
    (hf : s.firstpacket = false) (hs : s.setid = header.setid) :
    SetidInvariant (LoadMainPacket ld s diskfile offset header).2 := by
  unfold LoadMainPacket
  split
  · exact hinv
  · cases hl : ld.main diskfile offset header with
    | none => exact hinv
    | some loaded =>
      obtain ⟨h1, h2, h3, h4, h5, h6, h7⟩ := hinv
      refine ⟨h1, ?_, h3, ?_, h5, h6, h7⟩
      · intro h; rw [hf] at h; exact Bool.noConfusion h
      · intro p hp
        have : p = { loaded with header := header } := (Option.some.inj hp).symm
        rw [this]; exact hs.symm

theorem LoadCreatorPacket_invariant (ld : PacketLoaders) (s : Par2Repairer)
    (diskfile : DiskFile) (offset : Nat) (header : PACKET_HEADER) (hinv : SetidInvariant s)
    (hf : s.firstpacket = false) (hs : s.setid = header.setid) :
    SetidInvariant (LoadCreatorPacket ld s diskfile offset header).2 := by
  unfold LoadCreatorPacket
  split
  · exact hinv
  · cases hl : ld.creator diskfile offset header with
    | none => exact hinv
    | some loaded =>
      obtain ⟨h1, h2, h3, h4, h5, h6, h7⟩ := hinv
      refine ⟨h1, ?_, h3, h4, ?_, h6, h7⟩
      · intro h; rw [hf] at h; exact Bool.noConfusion h
      · intro p hp
        have : p = { loaded with header := header } := (Option.some.inj hp).symm
        rw [this]; exact hs.symm

theorem LoadDescriptionPacket_invariant (ld : PacketLoaders) (s : Par2Repairer)
    (diskfile : DiskFile) (offset : Nat) (header : PACKET_HEADER) (hinv : SetidInvariant s)
    (hf : s.firstpacket = false) (hs : s.setid = header.setid) :
    SetidInvariant (LoadDescriptionPacket ld s diskfile offset header).2 := by
  unfold LoadDescriptionPacket
  cases hl : ld.description diskfile offset header with
  | none => exact hinv
  | some loaded =>
    dsimp only
    obtain ⟨h1, h2, h3, h4, h5, h6, h7⟩ := hinv
    cases hfind : sfFind loaded.fileid s.sourcefilemap with
    | none =>
      dsimp only
      refine ⟨h1, ?_, h3, h4, h5, h6, ?_⟩
      · intro h; rw [hf] at h; exact Bool.noConfusion h
      · intro e he
        rcases List.mem_append.1 he with h | h
        · exact h7 e h
        · rw [List.mem_singleton] at h
          rw [h]
          refine ⟨?_, ?_⟩
          · intro d hd
            have : d = { loaded with header := header } := (Option.some.inj hd).symm
            rw [this]; exact hs.symm
          · intro v hv; simp at hv
    | some sourcefile =>
      dsimp only
      split
      · exact ⟨h1, h2, h3, h4, h5, h6, h7⟩
      · refine ⟨h1, ?_, h3, h4, h5, h6, ?_⟩
        · intro h; rw [hf] at h; exact Bool.noConfusion h
        · intro e he
          rcases mem_sfSet _ _ _ e he with h | h
          · exact h7 e h
          · rw [h]
            refine ⟨?_, ?_⟩
            · intro d hd
              have : d = { loaded with header := header } := (Option.some.inj hd).symm
              rw [this]; exact hs.symm
            · exact (h7 _ (sfFind_mem _ _ _ hfind)).2

theorem LoadVerificationPacket_invariant (ld : PacketLoaders) (s : Par2Repairer)
    (diskfile : DiskFile) (offset : Nat) (header : PACKET_HEADER) (hinv : SetidInvariant s)
    (hf : s.firstpacket = false) (hs : s.setid = header.setid) :
    SetidInvariant (LoadVerificationPacket ld s diskfile offset header).2 := by
  unfold LoadVerificationPacket
  cases hl : ld.verification diskfile offset header with
  | none => exact hinv
  | some loaded =>
    dsimp only
    obtain ⟨h1, h2, h3, h4, h5, h6, h7⟩ := hinv
    cases hfind : sfFind loaded.fileid s.sourcefilemap with
    | none =>
      dsimp only
      refine ⟨h1, ?_, h3, h4, h5, h6, ?_⟩
      · intro h; rw [hf] at h; exact Bool.noConfusion h
      · intro e he
        rcases List.mem_append.1 he with h | h
        · exact h7 e h
        · rw [List.mem_singleton] at h
          rw [h]
          refine ⟨?_, ?_⟩
          · intro d hd; simp at hd
          · intro v hv
            have : v = { loaded with header := header } := (Option.some.inj hv).symm
            rw [this]; exact hs.symm
    | some sourcefile =>
      dsimp only
      split
      · exact ⟨h1, h2, h3, h4, h5, h6, h7⟩
      · refine ⟨h1, ?_, h3, h4, h5, h6, ?_⟩
        · intro h; rw [hf] at h; exact Bool.noConfusion h
        · intro e he
          rcases mem_sfSet _ _ _ e he with h | h
          · exact h7 e h
          · rw [h]
            refine ⟨?_, ?_⟩
            · exact (h7 _ (sfFind_mem _ _ _ hfind)).1
            · intro v hv
              have : v = { loaded with header := header } := (Option.some.inj hv).symm
              rw [this]; exact hs.symm

theorem acceptPacket_invariant (ld : PacketLoaders) (st : Par2Repairer × Nat)
    (diskfile : DiskFile) (offset : Nat) (header : PACKET_HEADER)
    (hinv : SetidInvariant st.1) :
    SetidInvariant (acceptPacket ld st diskfile offset header).1 := by
  obtain ⟨hn, hf⟩ := noteSetid_invariant st.1 diskfile offset header hinv
  unfold acceptPacket
  dsimp only
  split
  · rename_i hs
    dsimp only
    unfold loadTypedPacket
    split
    · exact LoadRecoveryPacket_invariant ld _ _ _ _ hn hf hs
    · split
      · exact LoadVerificationPacket_invariant ld _ _ _ _ hn hf hs
      · split
        · exact LoadDescriptionPacket_invariant ld _ _ _ _ hn hf hs
        · split
          · exact LoadMainPacket_invariant ld _ _ _ _ hn hf hs
          · split
            · exact LoadCreatorPacket_invariant ld _ _ _ _ hn hf hs
            · exact hn
  · exact hn

theorem SetidInvariant_init : SetidInvariant {} := by
  refine ⟨by simp, fun _ => ⟨rfl, rfl, rfl, rfl⟩, ?_, ?_, ?_, ?_, ?_⟩ <;> simp

end Par2Repairer

namespace Par2Repairer

theorem loadTypedPacket_validated (ld : PacketLoaders) (s : Par2Repairer) (diskfile : DiskFile)
    (offset : Nat) (header : PACKET_HEADER) :
    (loadTypedPacket ld s diskfile offset header).2.validated = s.validated := by
  unfold loadTypedPacket LoadRecoveryPacket LoadVerificationPacket LoadDescriptionPacket
    LoadMainPacket LoadCreatorPacket
  repeat' (first | rfl | split | dsimp only)

theorem acceptPacket_validated (ld : PacketLoaders) (st : Par2Repairer × Nat)
    (diskfile : DiskFile) (offset : Nat) (header : PACKET_HEADER) :
    (acceptPacket ld st diskfile offset header).1.validated =
      st.1.validated ++ [⟨diskfile.filename, offset, header⟩] := by
  have hn : (noteSetid st.1 diskfile offset header).validated =
      st.1.validated ++ [⟨diskfile.filename, offset, header⟩] := by
    unfold noteSetid
    dsimp only
    split <;> rfl
  unfold acceptPacket
  dsimp only
  split
  · rw [loadTypedPacket_validated, hn]
  · exact hn

/-- C4: after any sequence of `LoadPacketsFromFile` calls on a new repairer,
`setid` is the set id of the first header that passed validation across the
whole load (every validated header is recorded in `validated`, whatever its
type and whatever its typed loader returns), every packet held (main, creator,
recovery, description, verification) was loaded from a header with that set
id, and a validated packet with another set id changes nothing in the state
but the history. -/
theorem setid_locked_by_first_validated_packet (ld : PacketLoaders) (md5 : MD5Function)
    (fs : String → Option DiskFile) (fuel : Nat) (files : List String) (s : Par2Repairer)
    (hload : LoadPacketsFromFiles ld md5 fs fuel {} files = some s) :
    (∀ v, s.validated.head? = some v → s.firstpacket = false ∧ s.setid = v.header.setid)
    ∧ (∀ p, s.mainpacket = some p → p.header.setid = s.setid)
    ∧ (∀ p, s.creatorpacket = some p → p.header.setid = s.setid)
    ∧ (∀ e ∈ s.recoverypacketmap, e.2.header.setid = s.setid)
    ∧ (∀ e ∈ s.sourcefilemap,
        (∀ d, e.2.descriptionpacket = some d → d.header.setid = s.setid) ∧
        (∀ v, e.2.verificationpacket = some v → v.header.setid = s.setid))
    ∧ (∀ (st : Par2Repairer × Nat) (f : DiskFile) (o : Nat) (h : PACKET_HEADER),
        (acceptPacket ld st f o h).1.validated = st.1.validated ++ [⟨f.filename, o, h⟩])
    ∧ (∀ (st : Par2Repairer × Nat) (f : DiskFile) (o : Nat) (h : PACKET_HEADER),
        st.1.firstpacket = false → st.1.setid ≠ h.setid →
        acceptPacket ld st f o h =
          ({ st.1 with validated := st.1.validated ++ [⟨f.filename, o, h⟩] }, st.2)) := by
  have hinv : SetidInvariant s :=
    LoadPacketsFromFiles_preserves ld md5 fs SetidInvariant
      (fun st f o h hP => acceptPacket_invariant ld st f o h hP) (fun _ _ hP => hP)
      fuel files {} s SetidInvariant_init hload
  obtain ⟨h1, h2, h3, h4, h5, h6, h7⟩ := hinv
  refine ⟨?_, h4, h5, h6, h7, acceptPacket_validated ld, ?_⟩
  · intro v hv
    refine ⟨?_, h3 v hv⟩
    cases hf : s.firstpacket with
    | false => rfl
    | true => rw [h1.1 hf] at hv; simp at hv
  · intro st f o h hf hne
    unfold acceptPacket noteSetid
    simp [hf, hne]

theorem setid_locked_by_first_validated_packet_witness :
    LoadPacketsFromFiles creatorOnlyLoaders toyMD5 exampleFS 5 {}
        ["creator.par2", "missing.par2"] = some creatorLoaded
    ∧ ∀ p, creatorLoaded.creatorpacket = some p → p.header.setid = creatorLoaded.setid :=
  ⟨by decide,
    (setid_locked_by_first_validated_packet creatorOnlyLoaders toyMD5 exampleFS 5
      ["creator.par2", "missing.par2"] creatorLoaded (by decide)).2.2.1⟩

/-! ## First wins -/

theorem KeepsCritical.refl (s : Par2Repairer) : KeepsCritical s s :=
  ⟨fun _ h => h, fun _ h => h, fun _ sf _ h1 h2 => ⟨sf, h1, h2⟩,
    fun _ sf _ h1 h2 => ⟨sf, h1, h2⟩⟩

theorem KeepsCritical.trans {a b c : Par2Repairer} (hab : KeepsCritical a b)
    (hbc : KeepsCritical b c) : KeepsCritical a c := by
  obtain ⟨a1, a2, a3, a4⟩ := hab
  obtain ⟨b1, b2, b3, b4⟩ := hbc
  refine ⟨fun p h => b1 p (a1 p h), fun p h => b2 p (a2 p h), ?_, ?_⟩
  · intro fileid sf d h1 h2
    obtain ⟨sf', h3, h4⟩ := a3 fileid sf d h1 h2
    exact b3 fileid sf' d h3 h4
  · intro fileid sf v h1 h2
    obtain ⟨sf', h3, h4⟩ := a4 fileid sf v h1 h2
    exact b4 fileid sf' v h3 h4

theorem KeepsCritical.of_eq (s s' : Par2Repairer) (h1 : s'.mainpacket = s.mainpacket)
    (h2 : s'.creatorpacket = s.creatorpacket) (h3 : s'.sourcefilemap = s.sourcefilemap) :
    KeepsCritical s s' := by
  unfold KeepsCritical
  rw [h1, h2, h3]
  exact KeepsCritical.refl s

theorem noteSetid_keeps (s : Par2Repairer) (diskfile : DiskFile) (offset : Nat)
    (header : PACKET_HEADER) : KeepsCritical s (noteSetid s diskfile offset header) := by
  apply KeepsCritical.of_eq <;> (unfold noteSetid; dsimp only; split <;> rfl)

theorem LoadRecoveryPacket_keeps (ld : PacketLoaders) (s : Par2Repairer) (diskfile : DiskFile)
    (offset : Nat) (header : PACKET_HEADER) :
    KeepsCritical s (LoadRecoveryPacket ld s diskfile offset header).2 := by
  apply KeepsCritical.of_eq <;>
    (unfold LoadRecoveryPacket; repeat' (first | rfl | split | dsimp only))

theorem LoadMainPacket_keeps (ld : PacketLoaders) (s : Par2Repairer) (diskfile : DiskFile)
    (offset : Nat) (header : PACKET_HEADER) :
    KeepsCritical s (LoadMainPacket ld s diskfile offset header).2 := by
  unfold LoadMainPacket
  split
  · exact KeepsCritical.refl s
  · rename_i hnone
    split
    · exact KeepsCritical.refl s
    · refine ⟨?_, fun _ h => h, fun _ sf _ h1 h2 => ⟨sf, h1, h2⟩,
        fun _ sf _ h1 h2 => ⟨sf, h1, h2⟩⟩
      intro p hp
      rw [hp] at hnone
      exact absurd rfl hnone

theorem LoadCreatorPacket_keeps (ld : PacketLoaders) (s : Par2Repairer) (diskfile : DiskFile)
    (offset : Nat) (header : PACKET_HEADER) :
    KeepsCritical s (LoadCreatorPacket ld s diskfile offset header).2 := by
  unfold LoadCreatorPacket
  split
  · exact KeepsCritical.refl s
  · rename_i hnone
    split
    · exact KeepsCritical.refl s
    · refine ⟨fun _ h => h, ?_, fun _ sf _ h1 h2 => ⟨sf, h1, h2⟩,
        fun _ sf _ h1 h2 => ⟨sf, h1, h2⟩⟩
      intro p hp
      rw [hp] at hnone
      exact absurd rfl hnone

end Par2Repairer

namespace Par2Repairer

theorem LoadDescriptionPacket_keeps (ld : PacketLoaders) (s : Par2Repairer)
    (diskfile : DiskFile) (offset : Nat) (header : PACKET_HEADER) :
    KeepsCritical s (LoadDescriptionPacket ld s diskfile offset header).2 := by
  unfold LoadDescriptionPacket
  cases hl : ld.description diskfile offset header with
  | none => exact KeepsCritical.refl s
  | some loaded =>
    dsimp only
    cases hfind : sfFind loaded.fileid s.sourcefilemap with
    | none =>
      dsimp only
      refine ⟨fun _ h => h, fun _ h => h, ?_, ?_⟩
      · intro fileid sf d h1 h2
        exact ⟨sf, sfFind_append_of_some _ _ _ _ h1, h2⟩
      · intro fileid sf v h1 h2
        exact ⟨sf, sfFind_append_of_some _ _ _ _ h1, h2⟩
    | some sourcefile =>
      dsimp only
      split
      · exact KeepsCritical.refl s
      · rename_i hnone
        refine ⟨fun _ h => h, fun _ h => h, ?_, ?_⟩
        · intro fileid sf d h1 h2
          by_cases hk : fileid = loaded.fileid
          · rw [hk, hfind] at h1
            have e : sourcefile = sf := Option.some.inj h1
            rw [e, h2] at hnone
            exact absurd rfl hnone
          · exact ⟨sf, by rw [sfFind_sfSet_ne _ _ _ _ hk]; exact h1, h2⟩
        · intro fileid sf v h1 h2
          by_cases hk : fileid = loaded.fileid
          · rw [hk, hfind] at h1
            have e : sourcefile = sf := Option.some.inj h1
            refine ⟨{ sourcefile with
              descriptionpacket := some { loaded with header := header } }, ?_, ?_⟩
            · rw [hk]
              exact sfFind_sfSet_self _ _ _ (by rw [hfind]; rfl)
            · show sourcefile.verificationpacket = some v
              rw [e]; exact h2
          · exact ⟨sf, by rw [sfFind_sfSet_ne _ _ _ _ hk]; exact h1, h2⟩

theorem LoadVerificationPacket_keeps (ld : PacketLoaders) (s : Par2Repairer)
    (diskfile : DiskFile) (offset : Nat) (header : PACKET_HEADER) :
    KeepsCritical s (LoadVerificationPacket ld s diskfile offset header).2 := by
  unfold LoadVerificationPacket
  cases hl : ld.verification diskfile offset header with
  | none => exact KeepsCritical.refl s
  | some loaded =>
    dsimp only
    cases hfind : sfFind loaded.fileid s.sourcefilemap with
    | none =>
      dsimp only
      refine ⟨fun _ h => h, fun _ h => h, ?_, ?_⟩
      · intro fileid sf d h1 h2
        exact ⟨sf, sfFind_append_of_some _ _ _ _ h1, h2⟩
      · intro fileid sf v h1 h2
        exact ⟨sf, sfFind_append_of_some _ _ _ _ h1, h2⟩
    | some sourcefile =>
      dsimp only
      split
      · exact KeepsCritical.refl s
      · rename_i hnone
        refine ⟨fun _ h => h, fun _ h => h, ?_, ?_⟩
        · intro fileid sf d h1 h2
          by_cases hk : fileid = loaded.fileid
          · rw [hk, hfind] at h1
            have e : sourcefile = sf := Option.some.inj h1
            refine ⟨{ sourcefile with
              verificationpacket := some { loaded with header := header } }, ?_, ?_⟩
            · rw [hk]
              exact sfFind_sfSet_self _ _ _ (by rw [hfind]; rfl)
            · show sourcefile.descriptionpacket = some d
              rw [e]; exact h2
          · exact ⟨sf, by rw [sfFind_sfSet_ne _ _ _ _ hk]; exact h1, h2⟩
        · intro fileid sf v h1 h2
          by_cases hk : fileid = loaded.fileid
          · rw [hk, hfind] at h1
            have e : sourcefile = sf := Option.some.inj h1
            rw [e, h2] at hnone
            exact absurd rfl hnone
          · exact ⟨sf, by rw [sfFind_sfSet_ne _ _ _ _ hk]; exact h1, h2⟩

theorem loadTypedPacket_keeps (ld : PacketLoaders) (s : Par2Repairer) (diskfile : DiskFile)
    (offset : Nat) (header : PACKET_HEADER) :
    KeepsCritical s (loadTypedPacket ld s diskfile offset header).2 := by
  unfold loadTypedPacket
  split
  · exact LoadRecoveryPacket_keeps ld s diskfile offset header
  · split
    · exact LoadVerificationPacket_keeps ld s diskfile offset header
    · split
      · exact LoadDescriptionPacket_keeps ld s diskfile offset header
      · split
        · exact LoadMainPacket_keeps ld s diskfile offset header
        · split
          · exact LoadCreatorPacket_keeps ld s diskfile offset header
          · exact KeepsCritical.refl s

theorem acceptPacket_keeps (ld : PacketLoaders) (st : Par2Repairer × Nat) (diskfile : DiskFile)
    (offset : Nat) (header : PACKET_HEADER) :
    KeepsCritical st.1 (acceptPacket ld st diskfile offset header).1 := by
  unfold acceptPacket
  dsimp only
  split
  · exact (noteSetid_keeps st.1 diskfile offset header).trans (loadTypedPacket_keeps ld _ _ _ _)
  · exact noteSetid_keeps st.1 diskfile offset header

/-- C5: first wins for critical packets.  Loading a main (creator) packet
when one is held, or a description (verification) packet for a file id whose
source-file entry already has one, returns false and leaves the whole state
unchanged; and whatever is loaded afterwards, by one validated packet or by
any sequence of `LoadPacketsFromFile` calls, the main packet, the creator
packet and, for each file id, the description and the verification packet that
are held stay the ones that were loaded first. -/
theorem first_wins_for_critical_packets (ld : PacketLoaders) (md5 : MD5Function)
    (fs : String → Option DiskFile) (s : Par2Repairer) (diskfile : DiskFile) (offset : Nat)
    (header : PACKET_HEADER) :
    (s.mainpacket.isSome → LoadMainPacket ld s diskfile offset header = (false, s))
    ∧ (s.creatorpacket.isSome → LoadCreatorPacket ld s diskfile offset header = (false, s))
    ∧ (∀ loaded sf, ld.description diskfile offset header = some loaded →
        sfFind loaded.fileid s.sourcefilemap = some sf → sf.descriptionpacket.isSome →
        LoadDescriptionPacket ld s diskfile offset header = (false, s))
    ∧ (∀ loaded sf, ld.verification diskfile offset header = some loaded →
        sfFind loaded.fileid s.sourcefilemap = some sf → sf.verificationpacket.isSome →
        LoadVerificationPacket ld s diskfile offset header = (false, s))
    ∧ (∀ n, KeepsCritical s (acceptPacket ld (s, n) diskfile offset header).1)
    ∧ (∀ fuel files s', LoadPacketsFromFiles ld md5 fs fuel s files = some s' →
        KeepsCritical s s') := by
  refine ⟨?_, ?_, ?_, ?_, ?_, ?_⟩
  · intro h; unfold LoadMainPacket; rw [if_pos h]
  · intro h; unfold LoadCreatorPacket; rw [if_pos h]
  · intro loaded sf hl hfind hsome
    unfold LoadDescriptionPacket
    rw [hl]
    dsimp only
    rw [hfind]
    dsimp only
    rw [if_pos hsome]
  · intro loaded sf hl hfind hsome
    unfold LoadVerificationPacket
    rw [hl]
    dsimp only
    rw [hfind]
    dsimp only
    rw [if_pos hsome]
  · intro n
    exact acceptPacket_keeps ld (s, n) diskfile offset header
  · intro fuel files s' h
    exact LoadPacketsFromFiles_preserves ld md5 fs (KeepsCritical s)
      (fun st f o hd hP => hP.trans (acceptPacket_keeps ld st f o hd))
      (fun _ _ hP => hP) fuel files s s' (KeepsCritical.refl s) h

/-! ## The recovery packet map -/

/-- C6: the recovery packet map keeps at most one packet per exponent (its
keys stay strictly increasing, hence without duplicates).  When the packet
loads, `LoadRecoveryPacket` returns false and leaves the state unchanged if
its exponent is already in the map, and otherwise returns true and adds
exactly the entry for that exponent, changing nothing else. -/
theorem LoadRecoveryPacket_spec (ld : PacketLoaders) (s : Par2Repairer) (diskfile : DiskFile)
    (offset : Nat) (header : PACKET_HEADER) (loaded : RecoveryPacket)
    (hload : ld.recovery diskfile offset header = some loaded)
    (hsorted : (s.recoverypacketmap.map Prod.fst).Pairwise (· < ·)) :
    (((LoadRecoveryPacket ld s diskfile offset header).2.recoverypacketmap.map
        Prod.fst).Pairwise (· < ·))
    ∧ ((LoadRecoveryPacket ld s diskfile offset header).2.recoverypacketmap.map Prod.fst).Nodup
    ∧ (loaded.exponent ∈ s.recoverypacketmap.map Prod.fst →
        LoadRecoveryPacket ld s diskfile offset header = (false, s))
    ∧ (loaded.exponent ∉ s.recoverypacketmap.map Prod.fst →
        ∃ m, LoadRecoveryPacket ld s diskfile offset header =
            (true, { s with recoverypacketmap := m })
          ∧ m.Perm ((loaded.exponent, { loaded with header := header }) :: s.recoverypacketmap)
          ∧ mapFind loaded.exponent m = some { loaded with header := header }
          ∧ ∀ k, k ≠ loaded.exponent → mapFind k m = mapFind k s.recoverypacketmap) := by
  have hsorted' : (((LoadRecoveryPacket ld s diskfile offset header).2.recoverypacketmap.map
        Prod.fst).Pairwise (· < ·)) := by
    unfold LoadRecoveryPacket
    rw [hload]
    dsimp only
    split
    · exact mapInsert_sorted _ _ _ hsorted
    · exact hsorted
  refine ⟨hsorted', ?_, ?_, ?_⟩
  · exact hsorted'.imp (fun h => Nat.ne_of_lt h)
  · intro hmem
    unfold LoadRecoveryPacket
    rw [hload]
    dsimp only
    rw [mapInsert_of_mem _ _ _ hsorted hmem]
    rfl
  · intro hnot
    have hins := mapInsert_of_not_mem loaded.exponent
      ({ loaded with header := header } : RecoveryPacket) s.recoverypacketmap hnot
    refine ⟨(mapInsert loaded.exponent ({ loaded with header := header } : RecoveryPacket)
      s.recoverypacketmap).1, ?_, hins.2, mapFind_mapInsert_self _ _ _ hnot,
      fun k hk => mapFind_mapInsert_ne _ _ _ _ hk⟩
    unfold LoadRecoveryPacket
    rw [hload]
    dsimp only
    rw [if_pos hins.1]

theorem LoadRecoveryPacket_spec_witness :
    LoadRecoveryPacket recoveryOnlyLoaders twoRecoveryPackets creatorFile 500 creatorHeader =
        (false, twoRecoveryPackets)
    ∧ ∃ m, LoadRecoveryPacket recoveryOnlyLoaders twoRecoveryPackets creatorFile 300
          creatorHeader = (true, { twoRecoveryPackets with recoverypacketmap := m })
        ∧ m.Perm ((3, { header := creatorHeader, exponent := 3, blocksize := 4 }) ::
            twoRecoveryPackets.recoverypacketmap)
        ∧ mapFind 3 m = some { header := creatorHeader, exponent := 3, blocksize := 4 }
        ∧ ∀ k, k ≠ 3 → mapFind k m = mapFind k twoRecoveryPackets.recoverypacketmap :=
  ⟨(LoadRecoveryPacket_spec recoveryOnlyLoaders twoRecoveryPackets creatorFile 500
      creatorHeader { exponent := 5, blocksize := 4 } rfl (by decide)).2.2.1 (by decide),
   (LoadRecoveryPacket_spec recoveryOnlyLoaders twoRecoveryPackets creatorFile 300
      creatorHeader { exponent := 3, blocksize := 4 } rfl (by decide)).2.2.2 (by decide)⟩

end Par2Repairer

/-! ## The consistency sweep -/

namespace Par2Repairer

theorem checkSourceFile_eq_keepSourceFile (blocksize : Nat)
    (e : MD5Hash × Par2RepairerSourceFile) (hpos : 0 < blocksize)
    (hfit : ∀ d, e.2.descriptionpacket = some d → d.filesize + blocksize ≤ U64) :
    checkSourceFile blocksize e = keepSourceFile blocksize e := by
  unfold checkSourceFile keepSourceFile Par2RepairerSourceFile.SetBlockCount
  cases hd : e.2.descriptionpacket with
  | none => rfl
  | some d =>
    have hsum : (d.filesize + blocksize + (U64 - 1)) % U64 = d.filesize + blocksize - 1 := by
      have := hfit d hd
      unfold U64 at this ⊢
      omega
    cases hv : e.2.verificationpacket with
    | none => simp [hd, hv]
    | some v =>
      simp only [hd, hv, hsum, ceilBlocks]
      by_cases hc : (d.filesize + blocksize - 1) / blocksize = v.blockcount
      · rw [if_neg (not_not.2 hc), if_neg (not_not.2 hc.symm)]
      · rw [if_pos hc, if_pos (fun h => hc h.symm)]

/-- The consistency sweep does what the specification says whenever the 64-bit
sum `filesize + blocksize - 1` of line 974 cannot overflow: with a main
packet held and `blocksize > 0`, exactly the recovery packets of another block
size, the entries without description packet and the entries whose
verification packet's block count differs from `ceil(filesize / blocksize)`
are removed, and the entries kept get that block count. -/
theorem CheckPacketConsistency_spec (s : Par2Repairer) (mainpacket : MainPacket)
    (hmain : s.mainpacket = some mainpacket) (hpos : 0 < mainpacket.blocksize)
    (hfit : ∀ e ∈ s.sourcefilemap, ∀ d, e.2.descriptionpacket = some d →
      d.filesize + mainpacket.blocksize ≤ U64) :
    CheckPacketConsistency s =
      (true,
        { s with
          blocksize := mainpacket.blocksize
          recoverypacketmap :=
            s.recoverypacketmap.filter (fun e => e.2.blocksize = mainpacket.blocksize)
          sourcefilemap := s.sourcefilemap.filterMap (keepSourceFile mainpacket.blocksize) }) := by
  have hmap : s.sourcefilemap.filterMap (checkSourceFile mainpacket.blocksize) =
      s.sourcefilemap.filterMap (keepSourceFile mainpacket.blocksize) := by
    have : ∀ (l : List (MD5Hash × Par2RepairerSourceFile)),
        (∀ e ∈ l, ∀ d, e.2.descriptionpacket = some d →
          d.filesize + mainpacket.blocksize ≤ U64) →
        l.filterMap (checkSourceFile mainpacket.blocksize) =
          l.filterMap (keepSourceFile mainpacket.blocksize) := by
      intro l
      induction l with
      | nil => intro _; rfl
      | cons a rest ih =>
        intro h
        rw [List.filterMap_cons, List.filterMap_cons,
          checkSourceFile_eq_keepSourceFile _ a hpos (h a (List.mem_cons_self _ _)),
          ih (fun e he => h e (List.mem_cons_of_mem _ he))]
    exact this _ hfit
  unfold CheckPacketConsistency
  rw [hmain]
  dsimp only
  rw [hmap]

theorem CheckPacketConsistency_spec_witness :
    CheckPacketConsistency mixedPackets =
      (true,
        { mixedPackets with
          blocksize := 4
          recoverypacketmap := [(0, { exponent := 0, blocksize := 4 })]
          sourcefilemap :=
            [([1], { descriptionpacket := some { fileid := [1], filesize := 10 }
                     verificationpacket := some { fileid := [1], blockcount := 3 }
                     blockcount := 3 })] }) :=
  (CheckPacketConsistency_spec mixedPackets
    { blocksize := 4, recoverablefilecount := 3, fileids := [[1], [2], [3]] } rfl
    (by decide) (by decide)).trans (by decide)

/-- C7: with the main packet's block size `2 ^ 64 - 4`, the entry of a 5-byte
file whose verification packet has one block is consistent (its block count is
`ceil(5 / blocksize) = 1`), yet `CheckPacketConsistency` removes it: the
64-bit sum `filesize + blocksize - 1` wraps to 0, so the block count computed
at line 974 is 0. -/
theorem CheckPacketConsistency_drops_consistent_entry :
    keepSourceFile (2 ^ 64 - 4)
        ([1], { descriptionpacket := some { fileid := [1], filesize := 5 }
                verificationpacket := some { fileid := [1], blockcount := 1 } }) =
      some ([1], { descriptionpacket := some { fileid := [1], filesize := 5 }
                   verificationpacket := some { fileid := [1], blockcount := 1 }
                   blockcount := 1 })
    ∧ ceilBlocks 5 (2 ^ 64 - 4) = 1
    ∧ (5 + (2 ^ 64 - 4) + (U64 - 1)) % U64 / (2 ^ 64 - 4) = 0
    ∧ (CheckPacketConsistency hugeBlockSize).1 = true
    ∧ (CheckPacketConsistency hugeBlockSize).2.sourcefilemap = [] := by
  decide

end Par2Repairer

/-! ## Missing critical packets -/

namespace Par2Repairer

theorem checkSourceFileSlots_false (rc : Nat) (slots : List (Option MD5Hash)) :
    checkSourceFileSlots rc slots false = false := by
  induction slots with
  | nil => rfl
  | cons slot rest ih =>
    unfold checkSourceFileSlots
    cases slot with
    | none => dsimp only; split <;> exact ih
    | some k => exact ih

theorem checkSourceFileSlots_of_null (rc : Nat) (hrc : 0 < rc) (slots : List (Option MD5Hash))
    (hnull : none ∈ slots) (b : Bool) : checkSourceFileSlots rc slots b = false := by
  induction slots generalizing b with
  | nil => simp at hnull
  | cons slot rest ih =>
    unfold checkSourceFileSlots
    cases slot with
    | none =>
      dsimp only
      rw [if_pos hrc]
      exact checkSourceFileSlots_false rc rest
    | some k =>
      dsimp only
      apply ih
      rcases List.mem_cons.1 hnull with h | h
      · exact absurd h (by simp)
      · exact h

theorem checkSourceFile_some (blocksize : Nat) (e e' : MD5Hash × Par2RepairerSourceFile)
    (h : checkSourceFile blocksize e = some e') :
    e'.1 = e.1 ∧ e.2.descriptionpacket ≠ none := by
  unfold checkSourceFile at h
  cases hd : e.2.descriptionpacket with
  | none => rw [hd] at h; simp at h
  | some d =>
    rw [hd] at h
    dsimp only at h
    refine ⟨?_, by simp⟩
    split at h
    · rw [← Option.some.inj h]
    · split at h
      · simp at h
      · rw [← Option.some.inj h]

theorem sfFind_filterMap_checkSourceFile (blocksize : Nat) (fileid : MD5Hash)
    (m : List (MD5Hash × Par2RepairerSourceFile))
    (h : ∀ e ∈ m, e.1 = fileid → e.2.descriptionpacket = none) :
    sfFind fileid (m.filterMap (checkSourceFile blocksize)) = none := by
  rw [sfFind_eq_none_iff]
  intro hmem
  obtain ⟨e', he', hk⟩ := List.mem_map.1 hmem
  obtain ⟨e, he, hc⟩ := List.mem_filterMap.1 he'
  have := checkSourceFile_some blocksize e e' hc
  exact this.2 (h e he (by rw [← this.1, hk]))

theorem allocateBlocks_frame (recoverable : Nat) (slots : List (Option MD5Hash)) (first : Nat)
    (s : Par2Repairer) :
    (allocateBlocks recoverable slots first s).sourcefiles = s.sourcefiles ∧
    (allocateBlocks recoverable slots first s).mainpacket = s.mainpacket ∧
    (allocateBlocks recoverable slots first s).recoverypacketmap = s.recoverypacketmap ∧
    (allocateBlocks recoverable slots first s).sourceblockcount = s.sourceblockcount ∧
    (allocateBlocks recoverable slots first s).blocksize = s.blocksize ∧
    (allocateBlocks recoverable slots first s).blocksallocated = s.blocksallocated := by
  induction recoverable generalizing slots first s with
  | zero => simp [allocateBlocks]
  | succ n ih =>
    cases slots with
    | nil => simp [allocateBlocks]
    | cons slot rest =>
      simp only [allocateBlocks]
      split
      · rename_i fileid sourcefile _
        have h := ih rest (first + sourcefile.blockcount)
          (SetBlocks s fileid sourcefile first sourcefile.blockcount)
        exact h
      · exact ih rest first s

theorem AllocateSourceBlocks_sourcefiles (t : Par2Repairer) :
    (AllocateSourceBlocks t).sourcefiles = t.sourcefiles := by
  unfold AllocateSourceBlocks
  split
  · rfl
  · dsimp only
    split
    · rw [(allocateBlocks_frame _ _ _ _).1]
    · rfl

theorem AllocateSourceBlocks_mainpacket (t : Par2Repairer) :
    (AllocateSourceBlocks t).mainpacket = t.mainpacket := by
  unfold AllocateSourceBlocks
  split
  · rfl
  · dsimp only
    split
    · rw [(allocateBlocks_frame _ _ _ _).2.1]
    · rfl

theorem null_slot_of_missing (s : Par2Repairer) (mainpacket : MainPacket) (fileid : MD5Hash)
    (hmain : s.mainpacket = some mainpacket) (hid : fileid ∈ mainpacket.fileids)
    (hfind : sfFind fileid s.sourcefilemap = none) :
    none ∈ (PrepareVerificationHashTable
      (AllocateSourceBlocks (CreateSourceFileList s))).sourcefiles := by
  have h1 : none ∈ (CreateSourceFileList s).sourcefiles := by
    unfold CreateSourceFileList
    rw [hmain]
    dsimp only
    apply List.mem_append_right
    apply List.mem_map.2
    exact ⟨fileid, hid, by rw [hfind]; rfl⟩
  have h3 : ∀ t : Par2Repairer, (PrepareVerificationHashTable t).sourcefiles = t.sourcefiles :=
    fun _ => rfl
  rw [h3, AllocateSourceBlocks_sourcefiles]
  exact h1

theorem mainpacket_prepared (s : Par2Repairer) :
    (PrepareVerificationHashTable
      (AllocateSourceBlocks (CreateSourceFileList s))).mainpacket = s.mainpacket := by
  have h1 : (CreateSourceFileList s).mainpacket = s.mainpacket := by
    unfold CreateSourceFileList
    split <;> rfl
  have h3 : ∀ t : Par2Repairer, (PrepareVerificationHashTable t).mainpacket = t.mainpacket :=
    fun _ => rfl
  rw [h3, AllocateSourceBlocks_mainpacket, h1]

theorem scanPhase_of_check_false (env : ProcessEnv) (fuel : Nat) (par2filename : String)
    (extrafiles : List String) (loaded : Par2Repairer)
    (hload : LoadPacketsFromFiles env.loaders env.md5 env.fs fuel {}
      (packetFiles env par2filename extrafiles) = some loaded)
    (hcheck : (CheckPacketConsistency loaded).1 = false) :
    scanPhase env fuel par2filename extrafiles =
      some (Scanned.stopped Result.eInsufficientCriticalData) := by
  unfold scanPhase
  rw [hload]
  dsimp only
  rw [hcheck]
  rfl

theorem scanPhase_of_verify_false (env : ProcessEnv) (fuel : Nat) (par2filename : String)
    (extrafiles : List String) (loaded : Par2Repairer)
    (hload : LoadPacketsFromFiles env.loaders env.md5 env.fs fuel {}
      (packetFiles env par2filename extrafiles) = some loaded)
    (hcheck : (CheckPacketConsistency loaded).1 = true)
    (hverify : (VerifySourceFiles env (PrepareVerificationHashTable (AllocateSourceBlocks
      (CreateSourceFileList (CheckPacketConsistency loaded).2)))).1 = false) :
    scanPhase env fuel par2filename extrafiles = some (Scanned.stopped Result.eLogicError) ∨
      scanPhase env fuel par2filename extrafiles = some (Scanned.stopped Result.eFileIOError) := by
  unfold scanPhase
  rw [hload]
  dsimp only
  rw [hcheck]
  simp only [Bool.not_true, Bool.false_eq_true, if_false]
  cases hg : env.getrlimit with
  | none => exact Or.inl rfl
  | some rlim_cur =>
    dsimp only
    split
    · exact Or.inl rfl
    · rw [hverify]
      exact Or.inr rfl

theorem Process_of_stopped (env : ProcessEnv) (fuel : Nat) (par2filename : String)
    (extrafiles : List String) (dorepair : Bool) (result : Result)
    (h : scanPhase env fuel par2filename extrafiles = some (Scanned.stopped result)) :
    Process env fuel par2filename extrafiles dorepair = some (result, []) := by
  unfold Process
  rw [h]

theorem Process_of_check_false (env : ProcessEnv) (fuel : Nat) (par2filename : String)
    (extrafiles : List String) (dorepair : Bool) (loaded : Par2Repairer)
    (hload : LoadPacketsFromFiles env.loaders env.md5 env.fs fuel {}
      (packetFiles env par2filename extrafiles) = some loaded)
    (hcheck : (CheckPacketConsistency loaded).1 = false) :
    Process env fuel par2filename extrafiles dorepair =
      some (Result.eInsufficientCriticalData, []) :=
  Process_of_stopped env fuel par2filename extrafiles dorepair _
    (scanPhase_of_check_false env fuel par2filename extrafiles loaded hload hcheck)

theorem Process_of_verify_false (env : ProcessEnv) (fuel : Nat) (par2filename : String)
    (extrafiles : List String) (dorepair : Bool) (loaded : Par2Repairer)
    (hload : LoadPacketsFromFiles env.loaders env.md5 env.fs fuel {}
      (packetFiles env par2filename extrafiles) = some loaded)
    (hcheck : (CheckPacketConsistency loaded).1 = true)
    (hverify : (VerifySourceFiles env (PrepareVerificationHashTable (AllocateSourceBlocks
      (CreateSourceFileList (CheckPacketConsistency loaded).2)))).1 = false) :
    Process env fuel par2filename extrafiles dorepair = some (Result.eLogicError, []) ∨
      Process env fuel par2filename extrafiles dorepair = some (Result.eFileIOError, []) := by
  rcases scanPhase_of_verify_false env fuel par2filename extrafiles loaded hload hcheck
    hverify with h | h
  · exact Or.inl (Process_of_stopped env fuel par2filename extrafiles dorepair _ h)
  · exact Or.inr (Process_of_stopped env fuel par2filename extrafiles dorepair _ h)

/-- C8: missing critical packets are fatal.  If the packet loading ends with
no main packet, or with a main packet that lists a recoverable file id (one of
the first `recoverablefilecount` ids) for which no description packet is held,
then `Process` returns, its result is one of the failure codes
`eInsufficientCriticalData`, `eLogicError`, `eFileIOError` (so neither
`eSuccess` nor `eRepairPossible`), and it has made no rename, create, write or
delete. -/
theorem missing_critical_packets_are_fatal (env : ProcessEnv) (fuel : Nat)
    (par2filename : String) (extrafiles : List String) (dorepair : Bool)
    (loaded : Par2Repairer)
    (hload : LoadPacketsFromFiles env.loaders env.md5 env.fs fuel {}
      (packetFiles env par2filename extrafiles) = some loaded)
    (hmissing : loaded.mainpacket = none ∨
      ∃ mainpacket fileid i, loaded.mainpacket = some mainpacket ∧
        i < mainpacket.recoverablefilecount ∧ mainpacket.fileids[i]? = some fileid ∧
        ∀ e ∈ loaded.sourcefilemap, e.1 = fileid → e.2.descriptionpacket = none) :
    ∃ r, Process env fuel par2filename extrafiles dorepair = some (r, [])
      ∧ (r = Result.eInsufficientCriticalData ∨ r = Result.eLogicError ∨
          r = Result.eFileIOError)
      ∧ r ≠ Result.eSuccess ∧ r ≠ Result.eRepairPossible := by
  rcases hmissing with hnone | ⟨mainpacket, fileid, i, hmain, hi, hid, hdesc⟩
  · have hc : CheckPacketConsistency loaded = (false, loaded) := by
      unfold CheckPacketConsistency
      rw [hnone]
    exact ⟨Result.eInsufficientCriticalData,
      Process_of_check_false env fuel par2filename extrafiles dorepair loaded hload
        (by rw [hc]),
      Or.inl rfl, by decide, by decide⟩
  · have hc : CheckPacketConsistency loaded =
        (true, { loaded with
          blocksize := mainpacket.blocksize
          recoverypacketmap :=
            loaded.recoverypacketmap.filter (fun e => e.2.blocksize = mainpacket.blocksize)
          sourcefilemap :=
            loaded.sourcefilemap.filterMap (checkSourceFile mainpacket.blocksize) }) := by
      unfold CheckPacketConsistency
      rw [hmain]
    have hmain2 : (CheckPacketConsistency loaded).2.mainpacket = some mainpacket := by
      rw [hc]; exact hmain
    have hfind : sfFind fileid (CheckPacketConsistency loaded).2.sourcefilemap = none := by
      rw [hc]
      exact sfFind_filterMap_checkSourceFile _ _ _ hdesc
    have hnull := null_slot_of_missing (CheckPacketConsistency loaded).2 mainpacket fileid
      hmain2 (List.getElem?_mem hid) hfind
    have hv : (VerifySourceFiles env (PrepareVerificationHashTable (AllocateSourceBlocks
        (CreateSourceFileList (CheckPacketConsistency loaded).2)))).1 = false := by
      unfold VerifySourceFiles
      dsimp only
      rw [mainpacket_prepared, hmain2]
      dsimp only
      rw [checkSourceFileSlots_of_null _ (by omega) _ hnull]
      rfl
    rcases Process_of_verify_false env fuel par2filename extrafiles dorepair loaded hload
        (by rw [hc]) hv with h | h
    · exact ⟨Result.eLogicError, h, Or.inr (Or.inl rfl), by decide, by decide⟩
    · exact ⟨Result.eFileIOError, h, Or.inr (Or.inr rfl), by decide, by decide⟩

theorem missing_critical_packets_are_fatal_witness :
    (∃ r, Process (exampleEnv creatorOnlyLoaders) 5 "creator.par2" [] true = some (r, [])
      ∧ (r = Result.eInsufficientCriticalData ∨ r = Result.eLogicError ∨
          r = Result.eFileIOError)
      ∧ r ≠ Result.eSuccess ∧ r ≠ Result.eRepairPossible)
    ∧ (∃ r, Process (exampleEnv mainOnlyLoaders) 5 "main.par2" [] false = some (r, [])
      ∧ (r = Result.eInsufficientCriticalData ∨ r = Result.eLogicError ∨
          r = Result.eFileIOError)
      ∧ r ≠ Result.eSuccess ∧ r ≠ Result.eRepairPossible) :=
  ⟨missing_critical_packets_are_fatal (exampleEnv creatorOnlyLoaders) 5 "creator.par2" [] true
      creatorLoaded (by decide) (Or.inl rfl),
    missing_critical_packets_are_fatal (exampleEnv mainOnlyLoaders) 5 "main.par2" [] false
      mainLoaded (by decide)
      (Or.inr ⟨_, [1], 0, rfl, by decide, rfl, by decide⟩)⟩

end Par2Repairer

/-! ## What the validation establishes when the offset does not wrap -/

namespace Par2Repairer

theorem DiskFile_Read_some (file : DiskFile) (offset length : Nat) (data : List Byte)
    (h : file.Read offset length = some data) :
    data = (file.content.drop offset).take length ∧ offset + length ≤ file.content.length := by
  unfold DiskFile.Read DiskFile.FileSize at h
  split at h
  · rename_i hc
    exact ⟨(Option.some.inj h).symm, hc.1⟩
  · exact absurd h (by simp)

theorem hashPacketBody_spec (diskfile : DiskFile) (buffersize limit : Nat) :
    ∀ (fuel current : Nat) (context : List Byte), current ≤ limit →
      limit ≤ (hashPacketBody diskfile buffersize limit fuel current context).1 →
      (hashPacketBody diskfile buffersize limit fuel current context).2 =
        context ++ (diskfile.content.drop current).take (limit - current) := by
  intro fuel
  induction fuel with
  | zero =>
    intro current context hle hge
    have hge' : limit ≤ current := hge
    have hz : limit - current = 0 := by omega
    show context = _
    rw [hz]
    simp
  | succ fuel ih =>
    intro current context hle hge
    unfold hashPacketBody at hge ⊢
    by_cases hlt : current < limit
    · rw [if_pos hlt] at hge ⊢
      dsimp only at hge ⊢
      cases hr : diskfile.Read current (min buffersize (limit - current)) with
      | none =>
        rw [hr] at hge
        have hge' : limit ≤ current := hge
        omega
      | some buffer =>
        rw [hr] at hge
        dsimp only at hge ⊢
        have hb := (DiskFile_Read_some _ _ _ _ hr).1
        have hwant : min buffersize (limit - current) ≤ limit - current := Nat.min_le_right _ _
        rw [ih _ _ (by omega) hge, hb, List.append_assoc]
        congr 1
        have hsplit : limit - current =
            min buffersize (limit - current) +
              (limit - (current + min buffersize (limit - current))) := by omega
        conv_rhs => rw [hsplit, List.take_add]
        rw [List.drop_drop]
    · rw [if_neg hlt]
      have hz : limit - current = 0 := by omega
      rw [hz]
      simp

/-- A candidate that passes the checks of `LoadPacketsFromFile` and whose end
`offset + header.length` is a 64-bit value has a length of at least 64 that is
a multiple of 4, fits in the file, and carries the MD5 of the 32 header bytes
from `setid` on followed by the file bytes `[offset + 64, offset + length)`. -/
theorem validatePacket_sound (md5 : MD5Function) (diskfile : DiskFile)
    (buffersize offset : Nat) (header : PACKET_HEADER)
    (hv : validatePacket md5 diskfile buffersize offset header = true)
    (hnowrap : offset + header.length < U64) :
    64 ≤ header.length ∧ header.length % 4 = 0 ∧
      offset + header.length ≤ diskfile.FileSize ∧
      md5.hash (header.setid ++ header.type ++
        (diskfile.content.drop (offset + 64)).take (header.length - 64)) = header.hash := by
  unfold validatePacket at hv
  split at hv
  · exact absurd hv (by simp)
  · rename_i hc
    simp only [not_or, not_lt, Decidable.not_not, headerSize] at hc
    obtain ⟨h64, h4, hfit⟩ := hc
    rw [Nat.mod_eq_of_lt hnowrap] at hfit
    have hcur : (offset + headerSize) % U64 = offset + 64 :=
      Nat.mod_eq_of_lt (by unfold headerSize; omega)
    dsimp only at hv
    rw [Nat.mod_eq_of_lt hnowrap, hcur] at hv
    split at hv
    · exact absurd hv (by simp)
    · rename_i hge
      split at hv
      · exact absurd hv (by simp)
      · rename_i hhash
        refine ⟨h64, h4, hfit, ?_⟩
        have hspec := hashPacketBody_spec diskfile buffersize (offset + header.length)
          (diskfile.FileSize + 1) (offset + 64) (header.setid ++ header.type) (by omega)
          (by omega)
        rw [hspec] at hhash
        have hlen : offset + header.length - (offset + 64) = header.length - 64 := by omega
        rw [hlen] at hhash
        exact Decidable.not_not.1 hhash

end Par2Repairer

/-! ## The scan reaches every valid packet that no accepted candidate covers -/

theorem take_drop_take_drop {α : Type} (c : List α) (o want i k : Nat) (h : i + k ≤ want) :
    ((c.drop o |>.take want).drop i).take k = (c.drop (o + i)).take k := by
  rw [List.drop_take, List.take_take, List.drop_drop, Nat.min_eq_left (by omega)]

namespace Par2Repairer

theorem DiskFile_Read_of_le (file : DiskFile) (hio : ∀ o n, file.ioOk o n = true)
    (offset length : Nat) (h : offset + length ≤ file.FileSize) :
    file.Read offset length = some ((file.content.drop offset).take length) := by
  unfold DiskFile.Read
  rw [if_pos ⟨h, hio offset length⟩]

theorem findMagic_spec (buffer : List Byte) :
    ∀ (n current : Nat),
      current ≤ findMagic buffer n current ∧ findMagic buffer n current ≤ current + n ∧
      (findMagic buffer n current < current + n →
        (buffer.drop (findMagic buffer n current)).take 8 = packet_magic) ∧
      (∀ i, current ≤ i → i < findMagic buffer n current →
        (buffer.drop i).take 8 ≠ packet_magic) := by
  intro n
  induction n with
  | zero =>
    intro current
    refine ⟨Nat.le_refl _, Nat.le_refl _, fun h => absurd h (Nat.lt_irrefl _), ?_⟩
    intro i h1 h2
    have h3 : i < current := h2
    omega
  | succ n ih =>
    intro current
    unfold findMagic
    by_cases hm : (buffer.drop current).take 8 = packet_magic
    · rw [if_pos hm]
      refine ⟨Nat.le_refl _, by omega, fun _ => hm, ?_⟩
      intro i h1 h2
      omega
    · rw [if_neg hm]
      obtain ⟨h1, h2, h3, h4⟩ := ih (current + 1)
      refine ⟨by omega, by omega, fun h => h3 (by omega), ?_⟩
      intro i hi1 hi2
      by_cases hic : i = current
      · rw [hic]; exact hm
      · exact h4 i (by omega) hi2

theorem resync_finds (file : DiskFile) (hio : ∀ o n, file.ioOk o n = true)
    (hsize : file.FileSize < U64) (buffersize : Nat) (hbuf : 64 ≤ buffersize) (p : Nat)
    (hp : p + 64 ≤ file.FileSize) (hmagic : (file.content.drop p).take 8 = packet_magic) :
    ∀ (fuel offset : Nat), offset ≤ p → p - offset < fuel →
      ∃ q, offset ≤ q ∧ q ≤ p ∧ (file.content.drop q).take 8 = packet_magic ∧
        resync file buffersize fuel offset =
          (q, some (parseHeader ((file.content.drop q).take 64))) := by
  intro fuel
  induction fuel with
  | zero => intro offset _ h; omega
  | succ fuel ih =>
    intro offset hle hfuel
    have hU : U64 = 18446744073709551616 := by decide
    have hcond : (offset + headerSize) % U64 ≤ file.FileSize := by
      rw [Nat.mod_eq_of_lt (by unfold headerSize; omega)]
      unfold headerSize; omega
    have hdiff : (file.FileSize + U64 - offset) % U64 = file.FileSize - offset := by
      rw [hU] at hsize ⊢; omega
    have hwant1 : 64 ≤ min buffersize (file.FileSize - offset) := by
      apply Nat.le_min.2; constructor <;> omega
    have hwant2 : min buffersize (file.FileSize - offset) ≤ file.FileSize - offset :=
      Nat.min_le_right _ _
    unfold resync
    rw [if_pos hcond]
    dsimp only
    rw [hdiff, DiskFile_Read_of_le file hio _ _ (by omega)]
    dsimp only
    obtain ⟨f1, f2, f3, f4⟩ := findMagic_spec
      ((file.content.drop offset).take (min buffersize (file.FileSize - offset)))
      (min buffersize (file.FileSize - offset) - headerSize + 1) 0
    generalize hcur : findMagic
      ((file.content.drop offset).take (min buffersize (file.FileSize - offset)))
      (min buffersize (file.FileSize - offset) - headerSize + 1) 0 = cur at f1 f2 f3 f4
    have hnot : ∀ i, i < cur → i + 64 ≤ min buffersize (file.FileSize - offset) →
        (file.content.drop (offset + i)).take 8 ≠ packet_magic := by
      intro i hi hiw
      have := f4 i (Nat.zero_le _) hi
      rwa [take_drop_take_drop _ _ _ _ _ (by omega)] at this
    have hoff : (offset + cur) % U64 = offset + cur := by
      apply Nat.mod_eq_of_lt
      unfold headerSize at f2
      omega
    rw [hoff]
    by_cases hfound : cur ≤ min buffersize (file.FileSize - offset) - headerSize
    · rw [if_pos hfound]
      unfold headerSize at hfound
      have hm := f3 (by unfold headerSize; omega)
      rw [take_drop_take_drop _ _ _ _ _ (by omega)] at hm
      refine ⟨offset + cur, by omega, ?_, hm, ?_⟩
      · by_contra hgt
        exact hnot (p - offset) (by omega) (by omega)
          (by rw [show offset + (p - offset) = p by omega]; exact hmagic)
      · rw [take_drop_take_drop _ _ _ _ _ (by unfold headerSize; omega)]
    · rw [if_neg hfound]
      unfold headerSize at hfound f2
      have hlt : offset + cur ≤ p := by
        by_contra hgt
        exact hnot (p - offset) (by omega) (by omega)
          (by rw [show offset + (p - offset) = p by omega]; exact hmagic)
      obtain ⟨q, hq1, hq2, hq3, hq4⟩ := ih (offset + cur) hlt (by omega)
      exact ⟨q, by omega, hq2, hq3, hq4⟩

theorem ReadPacketHeader_finds (file : DiskFile) (hio : ∀ o n, file.ioOk o n = true)
    (hsize : file.FileSize < U64) (buffersize : Nat) (hbuf : 64 ≤ buffersize) (p : Nat)
    (hp : p + 64 ≤ file.FileSize) (hmagic : (file.content.drop p).take 8 = packet_magic)
    (offset : Nat) (hle : offset ≤ p) :
    ∃ q, offset ≤ q ∧ q ≤ p ∧ (file.content.drop q).take 8 = packet_magic ∧
      ReadPacketHeader file offset buffersize =
        (q, some (parseHeader ((file.content.drop q).take 64))) := by
  unfold ReadPacketHeader
  rw [DiskFile_Read_of_le file hio _ _ (by unfold headerSize; omega)]
  dsimp only
  have hmag : (parseHeader ((file.content.drop offset).take headerSize)).magic =
      (file.content.drop offset).take 8 := by
    show ((file.content.drop offset).take headerSize).take 8 = _
    rw [List.take_take]
    rfl
  by_cases h0 : packet_magic = (parseHeader ((file.content.drop offset).take headerSize)).magic
  · rw [if_pos h0]
    exact ⟨offset, Nat.le_refl _, hle, by rw [← hmag]; exact h0.symm, rfl⟩
  · rw [if_neg h0]
    have hne : offset ≠ p := by
      intro h
      rw [hmag, h, hmagic] at h0
      exact h0 rfl
    have hU : U64 = 18446744073709551616 := by decide
    have hnext : (offset + 1) % U64 = offset + 1 := by
      apply Nat.mod_eq_of_lt; rw [hU] at hsize ⊢; omega
    rw [hnext]
    obtain ⟨q, hq1, hq2, hq3, hq4⟩ := resync_finds file hio hsize buffersize hbuf p hp hmagic
      file.FileSize (offset + 1) (by omega) (by omega)
    exact ⟨q, by omega, hq2, hq3, hq4⟩

end Par2Repairer

namespace Par2Repairer

theorem hashPacketBody_reaches (file : DiskFile) (hio : ∀ o n, file.ioOk o n = true)
    (buffersize limit : Nat) (hbuf : 0 < buffersize) (hlimit : limit ≤ file.FileSize) :
    ∀ (fuel current : Nat) (context : List Byte), current ≤ limit → limit - current < fuel →
      (hashPacketBody file buffersize limit fuel current context).1 = limit := by
  intro fuel
  induction fuel with
  | zero => intro current context _ h; omega
  | succ fuel ih =>
    intro current context hle hfuel
    unfold hashPacketBody
    by_cases hlt : current < limit
    · have hwant1 : 0 < min buffersize (limit - current) := by
        apply Nat.lt_min.2; constructor <;> omega
      have hwant2 : min buffersize (limit - current) ≤ limit - current := Nat.min_le_right _ _
      rw [if_pos hlt]
      dsimp only
      rw [DiskFile_Read_of_le file hio _ _ (by omega)]
      dsimp only
      exact ih _ _ (by omega) (by omega)
    · rw [if_neg hlt]
      show current = limit
      omega

theorem validatePacket_complete (md5 : MD5Function) (file : DiskFile)
    (hio : ∀ o n, file.ioOk o n = true) (hsize : file.FileSize < U64) (buffersize : Nat)
    (hbuf : 0 < buffersize) (p : Nat) (hv : ValidPacketAt md5 file p) :
    validatePacket md5 file buffersize p (parseHeader ((file.content.drop p).take 64)) =
      true := by
  obtain ⟨hp, _, h64, h4, hfit, hhash⟩ := hv
  generalize hhdr : parseHeader ((file.content.drop p).take 64) = hdr at h64 h4 hfit hhash
  have hsetid : hdr.setid = (file.content.drop (p + 32)).take 16 := by
    rw [← hhdr]
    exact take_drop_take_drop _ _ _ _ _ (by omega)
  have htype : hdr.type = (file.content.drop (p + 32 + 16)).take 16 := by
    rw [← hhdr]
    exact take_drop_take_drop _ _ _ _ _ (by omega)
  have hU : U64 = 18446744073709551616 := by decide
  have hlim : (p + hdr.length) % U64 = p + hdr.length := by
    apply Nat.mod_eq_of_lt; rw [hU] at hsize ⊢; omega
  have hcur : (p + headerSize) % U64 = p + 64 := by
    apply Nat.mod_eq_of_lt; rw [hU] at hsize ⊢; unfold headerSize; omega
  have hcond : ¬ (headerSize > hdr.length ∨ hdr.length % 4 ≠ 0 ∨
      file.FileSize < (p + hdr.length) % U64) := by
    rw [hlim]; unfold headerSize; omega
  have hreach := hashPacketBody_reaches file hio buffersize (p + hdr.length) hbuf hfit
    (file.FileSize + 1) (p + 64) (hdr.setid ++ hdr.type) (by omega) (by omega)
  have hspec := hashPacketBody_spec file buffersize (p + hdr.length) (file.FileSize + 1)
    (p + 64) (hdr.setid ++ hdr.type) (by omega) (by omega)
  have hdata : hdr.setid ++ hdr.type ++
      (file.content.drop (p + 64)).take (p + hdr.length - (p + 64)) =
      (file.content.drop (p + 32)).take (hdr.length - 32) := by
    rw [hsetid, htype]
    have e1 : hdr.length - 32 = 16 + (16 + (p + hdr.length - (p + 64))) := by omega
    rw [e1, List.take_add, List.take_add, List.drop_drop, List.drop_drop, List.append_assoc]
  unfold validatePacket
  rw [if_neg hcond]
  dsimp only
  rw [hlim, hcur, if_neg (by omega), hspec, hdata, hhash]
  simp

/-- The first sentence of C3, on the code: let a valid packet start at position
`p` of a file that is read without I/O errors, and let the scan be at an
offset not beyond `p`.  Then, after finitely many turns of the loop, either
the packet at `p` has been validated and consumed (it was passed to
`acceptPacket` and the scan goes on at `p + length`), or a candidate at an
earlier position `q` has been accepted whose declared extent
`[q, q + length)` covers `p`. -/
theorem scanPackets_reaches_valid_packet (ld : PacketLoaders) (md5 : MD5Function)
    (file : DiskFile) (hio : ∀ o n, file.ioOk o n = true) (hsize : file.FileSize < U64)
    (buffersize : Nat) (hbuf : 64 ≤ buffersize) (p : Nat) (hv : ValidPacketAt md5 file p) :
    ∀ (bound offset : Nat) (st : Par2Repairer × Nat), offset ≤ p → p - offset < bound →
      (∃ n st', n < bound ∧ ∀ fuel,
        scanPackets ld md5 file buffersize (fuel + n + 1) offset st =
          scanPackets ld md5 file buffersize fuel
            ((p + (parseHeader ((file.content.drop p).take 64)).length) % U64)
            (acceptPacket ld st' file p (parseHeader ((file.content.drop p).take 64))))
      ∨ (∃ q n st', n < bound ∧ offset ≤ q ∧ q < p ∧
          p < q + (parseHeader ((file.content.drop q).take 64)).length ∧ ∀ fuel,
        scanPackets ld md5 file buffersize (fuel + n + 1) offset st =
          scanPackets ld md5 file buffersize fuel
            ((q + (parseHeader ((file.content.drop q).take 64)).length) % U64)
            (acceptPacket ld st' file q (parseHeader ((file.content.drop q).take 64)))) := by
  have hp : p + 64 ≤ file.FileSize := hv.1
  have hmagic : (file.content.drop p).take 8 = packet_magic := by
    have := hv.2.1
    rw [← this]
    show _ = ((file.content.drop p).take 64).take 8
    rw [List.take_take]
    rfl
  have hU : U64 = 18446744073709551616 := by decide
  intro bound
  induction bound with
  | zero => intro offset st _ h; omega
  | succ bound ih =>
    intro offset st hle hbound
    obtain ⟨q, hq1, hq2, _, hq4⟩ :=
      ReadPacketHeader_finds file hio hsize buffersize hbuf p hp hmagic offset hle
    have hcond : (offset + headerSize) % U64 ≤ file.FileSize := by
      rw [Nat.mod_eq_of_lt (by rw [hU] at hsize ⊢; unfold headerSize; omega)]
      unfold headerSize; omega
    by_cases hval : validatePacket md5 file buffersize q
        (parseHeader ((file.content.drop q).take 64)) = true
    · have hstep : ∀ fuel, scanPackets ld md5 file buffersize (fuel + 1) offset st =
          scanPackets ld md5 file buffersize fuel
            ((q + (parseHeader ((file.content.drop q).take 64)).length) % U64)
            (acceptPacket ld st file q (parseHeader ((file.content.drop q).take 64))) := by
        intro fuel
        rw [scanPackets, if_pos hcond, hq4]
        dsimp only
        rw [if_pos hval]
      by_cases hqp : q = p
      · left
        refine ⟨0, st, by omega, ?_⟩
        intro fuel
        rw [← hqp]
        exact hstep fuel
      · by_cases hcover : p < q + (parseHeader ((file.content.drop q).take 64)).length
        · right
          exact ⟨q, 0, st, by omega, hq1, by omega, hcover, hstep⟩
        · have hsound := validatePacket_sound md5 file buffersize q _ hval
            (by rw [hU] at hsize ⊢; omega)
          have hnext : (q + (parseHeader ((file.content.drop q).take 64)).length) % U64 =
              q + (parseHeader ((file.content.drop q).take 64)).length :=
            Nat.mod_eq_of_lt (by rw [hU] at hsize ⊢; omega)
          rcases ih (q + (parseHeader ((file.content.drop q).take 64)).length)
              (acceptPacket ld st file q (parseHeader ((file.content.drop q).take 64)))
              (by omega) (by omega) with ⟨n, st', hn, h⟩ | ⟨q', n, st', hn, h1, h2, h3, h⟩
          · left
            refine ⟨n + 1, st', by omega, ?_⟩
            intro fuel
            rw [show fuel + (n + 1) + 1 = (fuel + n + 1) + 1 by omega, hstep, hnext]
            exact h fuel
          · right
            refine ⟨q', n + 1, st', by omega, by omega, h2, h3, ?_⟩
            intro fuel
            rw [show fuel + (n + 1) + 1 = (fuel + n + 1) + 1 by omega, hstep, hnext]
            exact h fuel
    · have hstep : ∀ fuel, scanPackets ld md5 file buffersize (fuel + 1) offset st =
          scanPackets ld md5 file buffersize fuel ((q + 1) % U64) st := by
        intro fuel
        rw [scanPackets, if_pos hcond, hq4]
        dsimp only
        rw [if_neg hval]
      have hqp : q ≠ p := by
        intro h
        rw [h] at hval
        exact hval (validatePacket_complete md5 file hio hsize buffersize (by omega) p hv)
      have hnext : (q + 1) % U64 = q + 1 :=
        Nat.mod_eq_of_lt (by rw [hU] at hsize ⊢; omega)
      rcases ih (q + 1) st (by omega) (by omega) with
        ⟨n, st', hn, h⟩ | ⟨q', n, st', hn, h1, h2, h3, h⟩
      · left
        refine ⟨n + 1, st', by omega, ?_⟩
        intro fuel
        rw [show fuel + (n + 1) + 1 = (fuel + n + 1) + 1 by omega, hstep, hnext]
        exact h fuel
      · right
        refine ⟨q', n + 1, st', by omega, by omega, h2, h3, ?_⟩
        intro fuel
        rw [show fuel + (n + 1) + 1 = (fuel + n + 1) + 1 by omega, hstep, hnext]
        exact h fuel

end Par2Repairer

/-! ## Verification results -/

namespace Par2Repairer

theorem Process_of_done (env : ProcessEnv) (fuel : Nat) (par2filename : String)
    (extrafiles : List String) (dorepair : Bool) (s : Par2Repairer)
    (h : scanPhase env fuel par2filename extrafiles = some (Scanned.done s)) :
    Process env fuel par2filename extrafiles dorepair =
      if !(CheckVerificationResults s).1 then some (Result.eRepairNotPossible, [])
      else if s.completefilecount < RecoverableFileCount s then
        if dorepair then env.repair s
        else some (Result.eRepairPossible, [])
      else some (Result.eSuccess, []) := by
  unfold Process
  rw [h]

set_option maxRecDepth 20000 in
/-- C11: on the set `set.par2` (block size 4, one recoverable file `x.dat` of
size 0, one non-recoverable file `y.dat` of size 4 that is found complete),
`AllocateSourceBlocks` counts no source block and `UpdateVerificationResults`
counts one available block: `sourceblockcount = 0`, `availableblockcount = 1`,
the 32-bit subtraction wraps to `missingblockcount = 4294967295`, and
`availableblockcount + missingblockcount` is not `sourceblockcount`. -/
theorem UpdateVerificationResults_counts_non_recoverable_files :
    ((scanPhase emptyRecoverableEnv 10 "set.par2" []).bind Scanned.state?).map
      (fun s => ([s.sourceblockcount, s.availableblockcount, s.missingblockcount],
        decide (s.availableblockcount + s.missingblockcount = s.sourceblockcount))) =
      some ([0, 1, 4294967295], false) := by
  decide

/-- C12: `CheckVerificationResults` returns false exactly when a repair is
needed (fewer complete files than recoverable files, or some renamed, damaged
or missing file) and fewer recovery packets are held than
`missingblockcount`; then the number it reports as needed is
`missingblockcount` minus the number of recovery packets, and `Process`
returns `eRepairNotPossible` (without any disk operation). -/
theorem CheckVerificationResults_spec (env : ProcessEnv) (fuel : Nat) (par2filename : String)
    (extrafiles : List String) (dorepair : Bool) (s : Par2Repairer)
    (hrange : s.missingblockcount < 2 ^ 32) :
    ((CheckVerificationResults s).1 = false ↔
      (s.completefilecount < RecoverableFileCount s ∨ s.renamedfilecount > 0 ∨
        s.damagedfilecount > 0 ∨ s.missingfilecount > 0) ∧
      s.recoverypacketmap.length < s.missingblockcount)
    ∧ ((CheckVerificationResults s).1 = false →
        (CheckVerificationResults s).2 =
          some (s.missingblockcount - s.recoverypacketmap.length))
    ∧ ((CheckVerificationResults s).1 = false →
        scanPhase env fuel par2filename extrafiles = some (Scanned.done s) →
        Process env fuel par2filename extrafiles dorepair =
          some (Result.eRepairNotPossible, [])) := by
  refine ⟨?_, ?_, ?_⟩
  · unfold CheckVerificationResults
    by_cases hneed : s.completefilecount < RecoverableFileCount s ∨ s.renamedfilecount > 0 ∨
        s.damagedfilecount > 0 ∨ s.missingfilecount > 0
    · by_cases hrec : s.recoverypacketmap.length ≥ s.missingblockcount
      · rw [if_pos hneed, if_pos hrec]
        constructor
        · intro h
          exact absurd h (by decide)
        · intro h
          omega
      · rw [if_pos hneed, if_neg hrec]
        constructor
        · intro _
          exact ⟨hneed, by omega⟩
        · intro _
          rfl
    · rw [if_neg hneed]
      constructor
      · intro h
        exact absurd h (by decide)
      · intro h
        exact absurd h.1 hneed
  · unfold CheckVerificationResults
    by_cases hneed : s.completefilecount < RecoverableFileCount s ∨ s.renamedfilecount > 0 ∨
        s.damagedfilecount > 0 ∨ s.missingfilecount > 0
    · by_cases hrec : s.recoverypacketmap.length ≥ s.missingblockcount
      · rw [if_pos hneed, if_pos hrec]
        intro h
        exact absurd h (by decide)
      · rw [if_pos hneed, if_neg hrec]
        intro _
        have hU : U64 = 18446744073709551616 := rfl
        have : (s.missingblockcount + U64 - s.recoverypacketmap.length) % U64 =
            s.missingblockcount - s.recoverypacketmap.length := by
          rw [hU]
          omega
        rw [this]
    · rw [if_neg hneed]
      intro h
      exact absurd h (by decide)
  · intro hfalse hscan
    rw [Process_of_done env fuel par2filename extrafiles dorepair s hscan, hfalse]
    rfl

theorem CheckVerificationResults_spec_witness :
    (CheckVerificationResults fiveMissingThreeHeld = (false, some 2))
    ∧ (scanPhase (exampleEnv mainOnlyLoaders) 5 "main.par2" [] =
          some (Scanned.done fiveMissingThreeHeld) →
        Process (exampleEnv mainOnlyLoaders) 5 "main.par2" [] true =
          some (Result.eRepairNotPossible, [])) :=
  have h := CheckVerificationResults_spec (exampleEnv mainOnlyLoaders) 5 "main.par2" [] true
    fiveMissingThreeHeld (by decide)
  ⟨by decide, h.2.2 (by decide)⟩

/-- C14: without repair (`dorepair = false`) `Process` makes no rename, create,
write or delete, whatever it returns; and it returns `eRepairPossible` whenever
the state after the scans has `completefilecount` below the recoverable file
count and at least `missingblockcount` recovery packets. -/
theorem Process_without_repair (env : ProcessEnv) (fuel : Nat) (par2filename : String)
    (extrafiles : List String) :
    (∀ r ops, Process env fuel par2filename extrafiles false = some (r, ops) → ops = [])
    ∧ (∀ s, scanPhase env fuel par2filename extrafiles = some (Scanned.done s) →
        s.completefilecount < RecoverableFileCount s →
        s.recoverypacketmap.length ≥ s.missingblockcount →
        Process env fuel par2filename extrafiles false = some (Result.eRepairPossible, [])) := by
  constructor
  · intro r ops h
    cases hs : scanPhase env fuel par2filename extrafiles with
    | none =>
      unfold Process at h
      rw [hs] at h
      exact absurd h (by simp)
    | some sc =>
      cases sc with
      | stopped result =>
        rw [Process_of_stopped env fuel par2filename extrafiles false result hs] at h
        exact (Prod.mk.inj (Option.some.inj h)).2.symm
      | done s =>
        rw [Process_of_done env fuel par2filename extrafiles false s hs] at h
        split at h
        · exact (Prod.mk.inj (Option.some.inj h)).2.symm
        · split at h
          · simp only [Bool.false_eq_true, if_false] at h
            exact (Prod.mk.inj (Option.some.inj h)).2.symm
          · exact (Prod.mk.inj (Option.some.inj h)).2.symm
  · intro s hs hlt hrec
    rw [Process_of_done env fuel par2filename extrafiles false s hs]
    have hcheck : (CheckVerificationResults s).1 = true := by
      unfold CheckVerificationResults
      rw [if_pos (Or.inl hlt), if_pos hrec]
    rw [hcheck, if_pos hlt]
    rfl

end Par2Repairer

/-! ## The partition of the blocks in `ComputeRSmatrix` -/

namespace Par2Repairer

theorem take_set_succ {α : Type} (l : List α) (i : Nat) (x : α) (h : i < l.length) :
    (l.set i x).take (i + 1) = l.take i ++ [x] := by
  rw [List.set_eq_take_append_cons_drop, if_pos h]
  have hlen : (l.take i).length = i := by
    rw [List.length_take]
    omega
  rw [List.take_append_eq_append_take, hlen]
  have h1 : (l.take i).take (i + 1) = l.take i := by
    rw [List.take_take]
    congr 1
    omega
  rw [h1]
  have h2 : i + 1 - i = 1 := by omega
  rw [h2]
  rfl

theorem drop_set_succ {α : Type} (l : List α) (i k : Nat) (x : α) :
    (l.set i x).drop (i + 1 + k) = l.drop (i + 1 + k) :=
  List.drop_set_of_lt x l (by omega)

theorem assignAt_of_lt {α : Type} (v : List α) (i : Nat) (x : α) (h : i < v.length) :
    assignAt v i x = some (v.set i x) := by
  unfold assignAt
  rw [if_pos h]

theorem blockIndices_cons_pos (keep : DataBlock → Bool) (b : DataBlock) (rest : List DataBlock)
    (first : Nat) (h : keep b = true) :
    blockIndices keep (b :: rest) first = first :: blockIndices keep rest (first + 1) := by
  unfold blockIndices
  rw [List.enumFrom_cons, List.filter_cons_of_pos (by simpa using h)]
  rfl

theorem blockIndices_cons_neg (keep : DataBlock → Bool) (b : DataBlock) (rest : List DataBlock)
    (first : Nat) (h : keep b = false) :
    blockIndices keep (b :: rest) first = blockIndices keep rest (first + 1) := by
  unfold blockIndices
  rw [List.enumFrom_cons, List.filter_cons_of_neg (by simpa using h)]

theorem blockIndices_length (keep : DataBlock → Bool) (blocks : List DataBlock) (first : Nat) :
    (blockIndices keep blocks first).length = blocks.countP keep := by
  induction blocks generalizing first with
  | nil => rfl
  | cons b rest ih =>
    cases hk : keep b with
    | true =>
      rw [blockIndices_cons_pos keep b rest first hk, List.length_cons, ih,
        List.countP_cons_of_pos _ _ hk]
    | false =>
      rw [blockIndices_cons_neg keep b rest first hk, ih,
        List.countP_cons_of_neg _ _ (by simp [hk])]

theorem partitionLoop_spec (targetcount : Nat) (blocks : List DataBlock) :
    ∀ (index : Nat) (p : Partition),
      index + blocks.length ≤ targetcount →
      index + blocks.length ≤ p.present.length →
      p.inputblock + blocks.countP DataBlock.IsSet ≤ p.inputblocks.length →
      p.copyblock + blocks.countP DataBlock.IsSet ≤ p.copyblocks.length →
      p.outputblock + blocks.countP (fun b => !b.IsSet) ≤ p.outputblocks.length →
      ∃ q, partitionLoop targetcount blocks index p = some q
        ∧ q.present = p.present.take index ++ blocks.map DataBlock.IsSet ++
            p.present.drop (index + blocks.length)
        ∧ q.inputblocks = p.inputblocks.take p.inputblock ++
            (blockIndices DataBlock.IsSet blocks index).map (fun i => some (BlockRef.source i)) ++
            p.inputblocks.drop (p.inputblock + blocks.countP DataBlock.IsSet)
        ∧ q.copyblocks = p.copyblocks.take p.copyblock ++
            (blockIndices DataBlock.IsSet blocks index).map (fun i => some (BlockRef.target i)) ++
            p.copyblocks.drop (p.copyblock + blocks.countP DataBlock.IsSet)
        ∧ q.outputblocks = p.outputblocks.take p.outputblock ++
            (blockIndices (fun b => !b.IsSet) blocks index).map
              (fun i => some (BlockRef.target i)) ++
            p.outputblocks.drop (p.outputblock + blocks.countP (fun b => !b.IsSet))
        ∧ q.inputblock = p.inputblock + blocks.countP DataBlock.IsSet
        ∧ q.copyblock = p.copyblock + blocks.countP DataBlock.IsSet
        ∧ q.outputblock = p.outputblock + blocks.countP (fun b => !b.IsSet) := by
  induction blocks with
  | nil =>
    intro index p _ _ _ _ _
    refine ⟨p, rfl, ?_, ?_, ?_, ?_, rfl, rfl, rfl⟩ <;>
      simp [blockIndices]
  | cons b rest ih =>
    intro index p ht hp hi hc ho
    rw [List.length_cons] at ht hp
    cases hb : b.IsSet with
    | true =>
      have hcount : (b :: rest).countP DataBlock.IsSet = rest.countP DataBlock.IsSet + 1 :=
        List.countP_cons_of_pos _ _ hb
      have hcount' : (b :: rest).countP (fun b => !b.IsSet) =
          rest.countP (fun b => !b.IsSet) :=
        List.countP_cons_of_neg _ _ (by simp [hb])
      rw [hcount] at hi hc
      rw [hcount'] at ho
      obtain ⟨q, hq, h1, h2, h3, h4, h5, h6, h7⟩ := ih (index + 1)
        { p with present := p.present.set index true
                 inputblocks := p.inputblocks.set p.inputblock (some (BlockRef.source index))
                 copyblocks := p.copyblocks.set p.copyblock (some (BlockRef.target index))
                 inputblock := p.inputblock + 1
                 copyblock := p.copyblock + 1 }
        (by omega) (by simp only [List.length_set]; omega)
        (by simp only [List.length_set]; omega) (by simp only [List.length_set]; omega)
        (by simpa using ho)
      refine ⟨q, ?_, ?_, ?_, ?_, ?_, ?_, ?_, ?_⟩
      · rw [← hq]
        simp only [partitionLoop]
        rw [if_pos (by omega), hb, if_pos rfl,
          assignAt_of_lt p.present index true (by omega),
          assignAt_of_lt p.inputblocks p.inputblock _ (by omega),
          assignAt_of_lt p.copyblocks p.copyblock _ (by omega)]
      · rw [h1]
        dsimp only
        rw [take_set_succ _ _ _ (by omega), drop_set_succ, List.map_cons, hb]
        have e : index + (rest.length + 1) = index + 1 + rest.length := by omega
        rw [List.length_cons, e]
        simp
      · rw [h2]
        dsimp only
        rw [take_set_succ _ _ _ (by omega), drop_set_succ,
          blockIndices_cons_pos _ b rest index hb, hcount, List.map_cons]
        have e : p.inputblock + (rest.countP DataBlock.IsSet + 1) =
            p.inputblock + 1 + rest.countP DataBlock.IsSet := by omega
        rw [e]
        simp
      · rw [h3]
        dsimp only
        rw [take_set_succ _ _ _ (by omega), drop_set_succ,
          blockIndices_cons_pos _ b rest index hb, hcount, List.map_cons]
        have e : p.copyblock + (rest.countP DataBlock.IsSet + 1) =
            p.copyblock + 1 + rest.countP DataBlock.IsSet := by omega
        rw [e]
        simp
      · rw [h4]
        dsimp only
        rw [blockIndices_cons_neg _ b rest index (by simp [hb]), hcount']
      · rw [h5, hcount]
        dsimp only
        omega
      · rw [h6, hcount]
        dsimp only
        omega
      · rw [h7, hcount']
    | false =>
      have hcount : (b :: rest).countP DataBlock.IsSet = rest.countP DataBlock.IsSet :=
        List.countP_cons_of_neg _ _ (by simp [hb])
      have hcount' : (b :: rest).countP (fun b => !b.IsSet) =
          rest.countP (fun b => !b.IsSet) + 1 :=
        List.countP_cons_of_pos _ _ (by simp [hb])
      rw [hcount] at hi hc
      rw [hcount'] at ho
      obtain ⟨q, hq, h1, h2, h3, h4, h5, h6, h7⟩ := ih (index + 1)
        { p with present := p.present.set index false
                 outputblocks := p.outputblocks.set p.outputblock (some (BlockRef.target index))
                 outputblock := p.outputblock + 1 }
        (by omega) (by simp only [List.length_set]; omega)
        (by simpa using hi) (by simpa using hc)
        (by simp only [List.length_set]; omega)
      refine ⟨q, ?_, ?_, ?_, ?_, ?_, ?_, ?_, ?_⟩
      · rw [← hq]
        simp only [partitionLoop]
        rw [if_pos (by omega), hb, if_neg (by decide),
          assignAt_of_lt p.present index false (by omega),
          assignAt_of_lt p.outputblocks p.outputblock _ (by omega)]
      · rw [h1]
        dsimp only
        rw [take_set_succ _ _ _ (by omega), drop_set_succ, List.map_cons, hb]
        have e : index + (rest.length + 1) = index + 1 + rest.length := by omega
        rw [List.length_cons, e]
        simp
      · rw [h2]
        dsimp only
        rw [blockIndices_cons_neg _ b rest index hb, hcount]
      · rw [h3]
        dsimp only
        rw [blockIndices_cons_neg _ b rest index hb, hcount]
      · rw [h4]
        dsimp only
        rw [take_set_succ _ _ _ (by omega), drop_set_succ,
          blockIndices_cons_pos _ b rest index (by simp [hb]), hcount', List.map_cons]
        have e : p.outputblock + (rest.countP (fun b => !b.IsSet) + 1) =
            p.outputblock + 1 + rest.countP (fun b => !b.IsSet) := by omega
        rw [e]
        simp
      · rw [h5, hcount]
      · rw [h6, hcount]
      · rw [h7, hcount']
        dsimp only
        omega

theorem countP_IsSet_add (blocks : List DataBlock) :
    blocks.countP DataBlock.IsSet + blocks.countP (fun b => !b.IsSet) = blocks.length := by
  induction blocks with
  | nil => rfl
  | cons b rest ih =>
    cases hb : b.IsSet with
    | true =>
      rw [List.countP_cons_of_pos _ _ hb, List.countP_cons_of_neg _ _ (by simp [hb]),
        List.length_cons]
      omega
    | false =>
      rw [List.countP_cons_of_neg _ _ (by simp [hb]), List.countP_cons_of_pos _ _ (by simp [hb]),
        List.length_cons]
      omega

theorem resize_nil {α : Type} (n : Nat) (d : α) : resize [] n d = List.replicate n d := by
  simp [resize]

theorem mem_blockIndices (keep : DataBlock → Bool) (blocks : List DataBlock) (first i : Nat) :
    i ∈ blockIndices keep blocks first ↔
      first ≤ i ∧ ∃ b, blocks[i - first]? = some b ∧ keep b = true := by
  induction blocks generalizing first with
  | nil => simp [blockIndices]
  | cons b rest ih =>
    have hstep : ∀ j, first + 1 ≤ j → (b :: rest)[j - first]? = rest[j - (first + 1)]? := by
      intro j hj
      have e : j - first = (j - (first + 1)) + 1 := by omega
      rw [e, List.getElem?_cons_succ]
    cases hk : keep b with
    | true =>
      rw [blockIndices_cons_pos keep b rest first hk, List.mem_cons, ih]
      constructor
      · rintro (rfl | ⟨h1, c, h2, h3⟩)
        · exact ⟨Nat.le_refl _, b, by simp, hk⟩
        · exact ⟨by omega, c, by rw [hstep i h1]; exact h2, h3⟩
      · rintro ⟨h1, c, h2, h3⟩
        by_cases e : i = first
        · exact Or.inl e
        · refine Or.inr ⟨by omega, c, ?_, h3⟩
          rw [← hstep i (by omega)]
          exact h2
    | false =>
      rw [blockIndices_cons_neg keep b rest first hk, ih]
      constructor
      · rintro ⟨h1, c, h2, h3⟩
        exact ⟨by omega, c, by rw [hstep i h1]; exact h2, h3⟩
      · rintro ⟨h1, c, h2, h3⟩
        by_cases e : i = first
        · subst e
          simp at h2
          subst h2
          rw [hk] at h3
          exact absurd h3 (by decide)
        · refine ⟨by omega, c, ?_, h3⟩
          rw [← hstep i (by omega)]
          exact h2

theorem blockIndices_sorted (keep : DataBlock → Bool) (blocks : List DataBlock) (first : Nat) :
    (blockIndices keep blocks first).Pairwise (· < ·) := by
  induction blocks generalizing first with
  | nil => simp [blockIndices]
  | cons b rest ih =>
    cases hk : keep b with
    | true =>
      rw [blockIndices_cons_pos keep b rest first hk, List.pairwise_cons]
      refine ⟨?_, ih (first + 1)⟩
      intro j hj
      have := ((mem_blockIndices keep rest (first + 1) j).1 hj).1
      omega
    | false =>
      rw [blockIndices_cons_neg keep b rest first hk]
      exact ih (first + 1)

/-- The partition loop of `ComputeRSmatrix`, when the two block vectors
have `sourceblockcount` elements and the counters `availableblockcount` and
`missingblockcount` are the numbers `a` of set and `m` of unset source blocks.
The loop runs to its end without leaving any vector, and then: `present[i]` is
true iff source block `i` is set; the first `a` entries of `inputblocks` point
at the set source blocks, in index order; `copyblocks[k]` points at the target
block with the index of the `k`-th set source block; `outputblocks[j]` points
at the target block with the index of the `j`-th unset source block; and
`|copyblocks| = a`, `|outputblocks| = m`, `|inputblocks| = a + m`.  (The list
`blockIndices keep blocks 0` is the increasing list of the indices of the
blocks that satisfy `keep`: `mem_blockIndices`, `blockIndices_sorted`.) -/
theorem partitionBlocks_spec (s : Par2Repairer)
    (hsource : s.sourceblocks.length = s.sourceblockcount)
    (htarget : s.targetblocks.length = s.sourceblockcount)
    (havailable : s.availableblockcount = s.sourceblocks.countP DataBlock.IsSet)
    (hmissing : s.missingblockcount = s.sourceblocks.countP (fun b => !b.IsSet)) :
    ∃ p, partitionBlocks s = some p
      ∧ p.present = s.sourceblocks.map DataBlock.IsSet
      ∧ p.inputblocks.take (s.sourceblocks.countP DataBlock.IsSet) =
          (blockIndices DataBlock.IsSet s.sourceblocks 0).map
            (fun i => some (BlockRef.source i))
      ∧ p.copyblocks =
          (blockIndices DataBlock.IsSet s.sourceblocks 0).map
            (fun i => some (BlockRef.target i))
      ∧ p.outputblocks =
          (blockIndices (fun b => !b.IsSet) s.sourceblocks 0).map
            (fun i => some (BlockRef.target i))
      ∧ p.copyblocks.length = s.sourceblocks.countP DataBlock.IsSet
      ∧ p.copyblocks.length = s.availableblockcount
      ∧ p.outputblocks.length = s.sourceblocks.countP (fun b => !b.IsSet)
      ∧ p.outputblocks.length = s.missingblockcount
      ∧ p.inputblocks.length = s.availableblockcount + s.missingblockcount
      ∧ p.inputblock = s.availableblockcount
      ∧ p.copyblock = s.availableblockcount
      ∧ p.outputblock = s.missingblockcount := by
  have hsum := countP_IsSet_add s.sourceblocks
  obtain ⟨q, hq, h1, h2, h3, h4, h5, h6, h7⟩ :=
    partitionLoop_spec s.targetblocks.length s.sourceblocks 0
      { present := resize [] s.sourceblockcount false
        inputblocks := resize [] s.sourceblockcount none
        copyblocks := resize [] s.availableblockcount none
        outputblocks := resize [] s.missingblockcount none }
      (by omega)
      (by simp only [resize_nil, List.length_replicate]; omega)
      (by simp only [resize_nil, List.length_replicate]; omega)
      (by simp only [resize_nil, List.length_replicate]; omega)
      (by simp only [resize_nil, List.length_replicate]; omega)
  simp only [resize_nil, List.take_zero, List.nil_append, Nat.zero_add] at h1 h2 h3 h4 h5 h6 h7
  have d1 : List.drop s.sourceblocks.length (List.replicate s.sourceblockcount false) = [] := by
    apply List.drop_eq_nil_of_le
    rw [List.length_replicate]
    omega
  have d3 : List.drop (s.sourceblocks.countP DataBlock.IsSet)
      (List.replicate s.availableblockcount (none : Option BlockRef)) = [] := by
    apply List.drop_eq_nil_of_le
    rw [List.length_replicate]
    omega
  have d4 : List.drop (s.sourceblocks.countP (fun b => !b.IsSet))
      (List.replicate s.missingblockcount (none : Option BlockRef)) = [] := by
    apply List.drop_eq_nil_of_le
    rw [List.length_replicate]
    omega
  rw [d1, List.append_nil] at h1
  rw [d3, List.append_nil] at h3
  rw [d4, List.append_nil] at h4
  have l3 : q.copyblocks.length = s.sourceblocks.countP DataBlock.IsSet := by
    rw [h3, List.length_map, blockIndices_length]
  have l4 : q.outputblocks.length = s.sourceblocks.countP (fun b => !b.IsSet) := by
    rw [h4, List.length_map, blockIndices_length]
  refine ⟨q, hq, h1, ?_, h3, h4, l3, by rw [l3, havailable], l4, by rw [l4, hmissing], ?_,
    by rw [h5, havailable], by rw [h6, havailable], by rw [h7, hmissing]⟩
  · rw [h2, List.take_append_of_le_length]
    · apply List.take_of_length_le
      rw [List.length_map, blockIndices_length]
    · rw [List.length_map, blockIndices_length]
  · rw [h2, List.length_append, List.length_map, blockIndices_length, List.length_drop,
      List.length_replicate]
    omega

theorem partitionBlocks_spec_witness :
    ∃ p, partitionBlocks fiveBlocks = some p
      ∧ p.present = [false, true, false, true, false]
      ∧ p.inputblocks.take 2 = [some (BlockRef.source 1), some (BlockRef.source 3)]
      ∧ p.copyblocks = [some (BlockRef.target 1), some (BlockRef.target 3)]
      ∧ p.outputblocks =
          [some (BlockRef.target 0), some (BlockRef.target 2), some (BlockRef.target 4)]
      ∧ p.inputblocks.length = 5 := by
  obtain ⟨p, h0, h1, h2, h3, h4, _, _, _, _, h9, _⟩ :=
    partitionBlocks_spec fiveBlocks (by decide) (by decide) (by decide) (by decide)
  exact ⟨p, h0, h1.trans (by decide), h2.trans (by decide), h3.trans (by decide),
    h4.trans (by decide), h9.trans (by decide)⟩

end Par2Repairer

/-! ## The buffers and the chunk loop -/

namespace Par2Repairer

theorem land_mask (x : Nat) (hx : x < 2 ^ 64) : (2 ^ 64 - 4) &&& x = x / 4 * 4 := by
  apply Nat.eq_of_testBit_eq
  intro i
  rw [Nat.testBit_and]
  have hm : (2 ^ 64 - 4 : Nat) = (2 ^ 62 - 1) <<< 2 := by decide
  have hx4 : x / 4 * 4 = (x >>> 2) <<< 2 := by
    rw [Nat.shiftLeft_eq, Nat.shiftRight_eq_div_pow]
  rw [hm, hx4, Nat.testBit_shiftLeft, Nat.testBit_shiftLeft, Nat.testBit_shiftRight,
    Nat.testBit_two_pow_sub_one]
  by_cases h2 : 2 ≤ i
  · simp only [h2, decide_True, Bool.true_and]
    have e : 2 + (i - 2) = i := by omega
    rw [e]
    by_cases h62 : i - 2 < 62
    · simp [h62]
    · simp only [h62, decide_False, Bool.false_and]
      symm
      apply Nat.testBit_lt_two_pow
      calc x < 2 ^ 64 := hx
        _ ≤ 2 ^ i := Nat.pow_le_pow_right (by decide) (by omega)
  · simp [h2]

/-- C16: for a block size that is a multiple of 4 (positive or not), a missing
block count above 0 and a 64-bit memory limit, with
`blocksize * missingblockcount` inside 64 bits, `AllocateBuffers` sets `chunksize` to the minimum of
`blocksize` and `floor(memorylimit / missingblockcount)` with its two low bits
cleared; the value is a multiple of 4 and at most `blocksize`. -/
theorem AllocateBuffers_chunksize (allocate : Nat → Bool) (memorylimit : Nat) (s : Par2Repairer)
    (hfour : s.blocksize % 4 = 0) (hmissing : 0 < s.missingblockcount)
    (hlimit : memorylimit < U64) (hproduct : s.blocksize * s.missingblockcount < U64) :
    (AllocateBuffers allocate memorylimit s).2.chunksize =
        min s.blocksize (memorylimit / s.missingblockcount / 4 * 4)
    ∧ (AllocateBuffers allocate memorylimit s).2.chunksize % 4 = 0
    ∧ (AllocateBuffers allocate memorylimit s).2.chunksize ≤ s.blocksize := by
  have hq : memorylimit / s.missingblockcount < 2 ^ 64 :=
    Nat.lt_of_le_of_lt (Nat.div_le_self _ _) hlimit
  have hchunk : (AllocateBuffers allocate memorylimit s).2.chunksize =
      min s.blocksize (memorylimit / s.missingblockcount / 4 * 4) := by
    unfold AllocateBuffers
    dsimp only
    rw [Nat.mod_eq_of_lt hproduct]
    by_cases h : s.blocksize * s.missingblockcount > memorylimit
    · rw [if_pos h]
      have hlt : memorylimit / s.missingblockcount < s.blocksize :=
        (Nat.div_lt_iff_lt_mul hmissing).2 h
      have hU : U64 - 4 = 2 ^ 64 - 4 := rfl
      rw [hU, land_mask _ hq]
      omega
    · rw [if_neg h]
      have hle : s.blocksize ≤ memorylimit / s.missingblockcount :=
        (Nat.le_div_iff_mul_le hmissing).2 (by omega)
      omega
  rw [hchunk]
  refine ⟨rfl, ?_, Nat.min_le_left _ _⟩
  omega

theorem AllocateBuffers_chunksize_witness :
    (AllocateBuffers (fun _ => true) 10000
        { blocksize := 4096, missingblockcount := 5 }).2.chunksize = 2000
    ∧ (2000 : Nat) % 4 = 0 ∧ (2000 : Nat) ≤ 4096 :=
  have h := AllocateBuffers_chunksize (fun _ => true) 10000
    { blocksize := 4096, missingblockcount := 5 } (by decide) (by decide) (by decide)
    (by decide)
  ⟨h.1.trans (by decide), by decide, by decide⟩

theorem chunkLoop_aux (processData : Nat → Nat → Bool) (B C : Nat) (hC : 0 < C)
    (hok : ∀ o l, processData o l = true) :
    ∀ fuel k, k ≤ ceilBlocks B C → ceilBlocks B C - k < fuel →
      chunkLoop processData B C fuel (min (k * C) B) =
        some (true,
          (List.range' k (ceilBlocks B C - k)).map (fun i => (i * C, min C (B - i * C)))) := by
  intro fuel
  induction fuel with
  | zero => intro k _ h; omega
  | succ fuel ih =>
    intro k hk hfuel
    unfold chunkLoop
    by_cases hlt : k * C < B
    · have hkc : k < ceilBlocks B C := (lt_ceilBlocks_iff B C k hC).2 hlt
      have hmin : min (k * C) B = k * C := Nat.min_eq_left (Nat.le_of_lt hlt)
      have hnext : k * C + min C (B - k * C) = min ((k + 1) * C) B := by
        rw [Nat.add_mul, Nat.one_mul]
        omega
      rw [hmin, if_pos hlt]
      dsimp only
      rw [hok, if_pos rfl, hnext, ih (k + 1) hkc (by omega)]
      have hsplit : ceilBlocks B C - k = (ceilBlocks B C - (k + 1)) + 1 := by omega
      rw [hsplit, List.range'_succ]
      simp
    · have hkc : ¬ k < ceilBlocks B C := fun h => hlt ((lt_ceilBlocks_iff B C k hC).1 h)
      have hz : ceilBlocks B C - k = 0 := by omega
      have hmin : min (k * C) B = B := Nat.min_eq_right (by omega)
      rw [hmin, if_neg (Nat.lt_irrefl B), hz]
      simp

theorem chunkLoop_spec (processData : Nat → Nat → Bool) (blocksize chunksize fuel : Nat)
    (hchunk : 0 < chunksize) (hok : ∀ o l, processData o l = true)
    (hfuel : ceilBlocks blocksize chunksize < fuel) :
    chunkLoop processData blocksize chunksize fuel 0 =
      some (true, (List.range (ceilBlocks blocksize chunksize)).map
        (fun i => (i * chunksize, min chunksize (blocksize - i * chunksize)))) := by
  have h := chunkLoop_aux processData blocksize chunksize hchunk hok fuel 0 (Nat.zero_le _)
    (by omega)
  rw [Nat.zero_mul, Nat.zero_min] at h
  rw [h, List.range_eq_range']
  rfl

theorem chunkLoop_terminates (processData : Nat → Nat → Bool) (B C : Nat) (hC : 0 < C) :
    ∀ fuel blockoffset, B - blockoffset < fuel →
      (chunkLoop processData B C fuel blockoffset).isSome = true := by
  intro fuel
  induction fuel with
  | zero => intro blockoffset h; omega
  | succ fuel ih =>
    intro blockoffset hfuel
    unfold chunkLoop
    by_cases hlt : blockoffset < B
    · rw [if_pos hlt]
      dsimp only
      cases processData blockoffset (min C (B - blockoffset)) with
      | true =>
        rw [if_pos rfl, Option.isSome_map']
        exact ih _ (by omega)
      | false => rfl
    · rw [if_neg hlt]
      rfl

/-- C17: with block size 8, memory limit 8 and 3 missing blocks,
`AllocateBuffers` sets `chunksize = ~3 & (8 / 3) = 0`; every call of
`ProcessData` then gets `blocklength = 0`, `blockoffset` stays 0, and the chunk
loop of `Process` has no end: whatever the fuel, the loop has no result. -/
theorem chunkLoop_without_end (fuel : Nat) :
    (AllocateBuffers (fun _ => true) 8 { blocksize := 8, missingblockcount := 3 }).2.chunksize = 0
    ∧ chunkLoop (fun _ _ => true) 8
        (AllocateBuffers (fun _ => true) 8
          { blocksize := 8, missingblockcount := 3 }).2.chunksize fuel 0 = none := by
  have hc : (AllocateBuffers (fun _ => true) 8
      { blocksize := 8, missingblockcount := 3 }).2.chunksize = 0 := by decide
  refine ⟨hc, ?_⟩
  rw [hc]
  induction fuel with
  | zero => rfl
  | succ fuel ih =>
    unfold chunkLoop
    simp only [Nat.zero_lt_succ, if_true, Nat.zero_min, Nat.add_zero, if_pos]
    rw [ih]
    rfl

end Par2Repairer

/-! ## The repair executor -/

namespace Par2Repairer

theorem readInput_true (env : RepairEnv) (s : Par2Repairer)
    (blockoffset blocklength inputindex : Nat) (inputblock : Option BlockRef)
    (st st1 : RepairState)
    (h : readInput env s blockoffset blocklength inputindex inputblock st = some (true, st1)) :
    st1.outputbuffer = st.outputbuffer ∧
    st1.events.filter RepairEvent.isTransfer =
      st.events.filter RepairEvent.isTransfer ++
        [RepairEvent.read inputindex inputblock blockoffset blocklength st1.inputbuffer] := by
  unfold readInput at h
  split at h
  · exact absurd h (by simp)
  · split at h
    · exact absurd h (by simp)
    · rename_i block _ filename _
      dsimp only at h
      by_cases hlast : st.lastopenfile = some filename
      · simp only [hlast, if_true] at h
        split at h
        · exact absurd h (by simp)
        · split at h
          · exact absurd h (by simp)
          · rename_i data _
            have e := (Prod.mk.inj (Option.some.inj h)).2
            rw [← e]
            simp [RepairEvent.isTransfer]
      · simp only [hlast, if_false] at h
        by_cases hopen : env.Open filename = true
        · simp only [hopen, if_true] at h
          split at h
          · exact absurd h (by simp)
          · split at h
            · exact absurd h (by simp)
            · rename_i data _
              have e := (Prod.mk.inj (Option.some.inj h)).2
              rw [← e]
              cases hl : st.lastopenfile <;> simp [RepairEvent.isTransfer]
        · simp only [hopen] at h
          exact absurd h (by simp)

theorem writeBlock_true (s : Par2Repairer) (blockoffset blocklength : Nat)
    (target : Option BlockRef) (buffer : List Byte) (event : RepairEvent) (st st1 : RepairState)
    (h : writeBlock s blockoffset blocklength target buffer event st = some (true, st1)) :
    st1.outputbuffer = st.outputbuffer ∧ st1.inputbuffer = st.inputbuffer ∧
    st1.events = st.events ++ [event] := by
  unfold writeBlock at h
  split at h
  · exact absurd h (by simp)
  · split at h
    · exact absurd h (by simp)
    · split at h
      · exact absurd h (by simp)
      · split at h
        · exact absurd h (by simp)
        · have e := (Prod.mk.inj (Option.some.inj h)).2
          rw [← e]
          exact ⟨rfl, rfl, rfl⟩

/-- The copy event expected for the input with index `k` and chunk `chunk`. -/
theorem copyInput_true (s : Par2Repairer) (blockoffset blocklength copyblock : Nat)
    (st st1 : RepairState) (next : Nat)
    (h : copyInput s blockoffset blocklength copyblock st = some (true, st1, next)) :
    st1.outputbuffer = st.outputbuffer ∧ st1.inputbuffer = st.inputbuffer ∧
    next = (if copyblock < s.copyblocks.length then copyblock + 1 else copyblock) ∧
    st1.events = st.events ++
      (match s.copyblocks[copyblock]? with
        | some target =>
          if ((derefBlock s target).map DataBlock.IsSet) = some true then
            [RepairEvent.copied copyblock target blockoffset blocklength st.inputbuffer]
          else []
        | none => []) := by
  unfold copyInput at h
  cases hc : s.copyblocks[copyblock]? with
  | none =>
    rw [hc] at h
    have hlen : ¬ copyblock < s.copyblocks.length := by
      intro hlt
      rw [List.getElem?_eq_getElem hlt] at hc
      exact absurd hc (by simp)
    have e := Prod.mk.inj (Prod.mk.inj (Option.some.inj h)).2
    rw [← e.1, ← e.2, if_neg hlen]
    simp
  | some target =>
    rw [hc] at h
    have hlen : copyblock < s.copyblocks.length := by
      by_contra hge
      rw [List.getElem?_eq_none (by omega)] at hc
      exact absurd hc (by simp)
    rw [if_pos hlen]
    dsimp only at h ⊢
    cases hd : derefBlock s target with
    | none =>
      rw [hd] at h
      exact absurd h (by simp)
    | some block =>
      rw [hd] at h
      dsimp only at h
      cases hset : block.IsSet with
      | true =>
        rw [hset, if_pos rfl] at h
        split at h
        · exact absurd h (by simp)
        · exact absurd h (by simp)
        · rename_i st2 hw
          have e := Prod.mk.inj (Prod.mk.inj (Option.some.inj h)).2
          obtain ⟨h1, h2, h3⟩ := writeBlock_true _ _ _ _ _ _ _ _ hw
          rw [← e.1, ← e.2]
          refine ⟨h1, h2, rfl, ?_⟩
          rw [h3]
          simp [hset]
      | false =>
        rw [hset, if_neg (by decide)] at h
        have e := Prod.mk.inj (Prod.mk.inj (Option.some.inj h)).2
        rw [← e.1, ← e.2]
        simp [hset]

theorem replayTransfers_append (s : Par2Repairer) :
    ∀ (first second : List RepairEvent) (disk : Disk),
      replayTransfers s (first ++ second) disk =
        (replayTransfers s first disk).bind (replayTransfers s second) := by
  intro first
  induction first with
  | nil =>
    intro second disk
    rfl
  | cons event rest ih =>
    intro second disk
    simp only [List.cons_append, replayTransfers]
    cases transferStep s event disk with
    | none => rfl
    | some next => exact ih second next

theorem replayTransfers_filter (s : Par2Repairer) :
    ∀ (events : List RepairEvent) (disk : Disk),
      replayTransfers s (events.filter RepairEvent.isTransfer) disk =
        replayTransfers s events disk := by
  intro events
  induction events with
  | nil =>
    intro disk
    rfl
  | cons event rest ih =>
    intro disk
    cases event with
    | opened filename =>
      simp only [List.filter, RepairEvent.isTransfer, replayTransfers, transferStep,
        Option.some_bind]
      exact ih disk
    | closed filename =>
      simp only [List.filter, RepairEvent.isTransfer, replayTransfers, transferStep,
        Option.some_bind]
      exact ih disk
    | read inputindex block position size data =>
      simp only [List.filter, RepairEvent.isTransfer, replayTransfers]
      cases transferStep s (RepairEvent.read inputindex block position size data) disk with
      | none => rfl
      | some next => exact ih next
    | copied copyindex block position size buffer =>
      simp only [List.filter, RepairEvent.isTransfer, replayTransfers]
      cases transferStep s (RepairEvent.copied copyindex block position size buffer) disk with
      | none => rfl
      | some next => exact ih next
    | repaired inputindex blocklength =>
      simp only [List.filter, RepairEvent.isTransfer, replayTransfers]
      cases transferStep s (RepairEvent.repaired inputindex blocklength) disk with
      | none => rfl
      | some next => exact ih next
    | written outputindex block position size buffer =>
      simp only [List.filter, RepairEvent.isTransfer, replayTransfers]
      cases transferStep s (RepairEvent.written outputindex block position size buffer) disk with
      | none => rfl
      | some next => exact ih next

/-- The replay of a list of events followed by more events. -/
theorem replayTransfers_extend (s : Par2Repairer) (events more : List RepairEvent)
    (start disk next : Disk) (h : replayTransfers s events start = some disk)
    (hmore : replayTransfers s more disk = some next) :
    replayTransfers s (events ++ more) start = some next := by
  rw [replayTransfers_append, h]
  exact hmore

theorem replayTransfers_read (s : Par2Repairer) (inputindex : Nat) (inputblock : Option BlockRef)
    (block : DataBlock) (filename : String) (file : DiskFile) (position size : Nat)
    (data : List Byte) (disk : Disk)
    (hblock : derefBlock s inputblock = some block) (hfile : block.diskfile = some filename)
    (hdisk : disk filename = some file)
    (hdata : (block.ReadData file position size).1 = some data) :
    replayTransfers s [RepairEvent.read inputindex inputblock position size data] disk =
      some disk := by
  simp [replayTransfers, transferStep, hblock, hfile, hdisk, hdata]

theorem putBlock_of_write (s : Par2Repairer) (target : Option BlockRef) (block : DataBlock)
    (filename : String) (file written : DiskFile) (position size : Nat) (buffer : List Byte)
    (disk : Disk)
    (hblock : derefBlock s target = some block) (hfile : block.diskfile = some filename)
    (hdisk : disk filename = some file)
    (hwrite : (block.WriteData file position size buffer).1 = some written) :
    putBlock s target position size buffer disk = some (disk.update written) := by
  simp [putBlock, hblock, hfile, hdisk, hwrite]

/-- A successful `readInput` reads from the disk of the moment and leaves the
disk as it is. -/
theorem readInput_disk (env : RepairEnv) (s : Par2Repairer)
    (blockoffset blocklength inputindex : Nat) (inputblock : Option BlockRef)
    (st st1 : RepairState)
    (h : readInput env s blockoffset blocklength inputindex inputblock st = some (true, st1))
    (start : Disk) (hreplay : replayTransfers s st.events start = some st.disk) :
    replayTransfers s st1.events start = some st1.disk := by
  unfold readInput at h
  split at h
  · exact absurd h (by simp)
  · rename_i block hblock
    split at h
    · exact absurd h (by simp)
    · rename_i filename hfile
      dsimp only at h
      by_cases hlast : st.lastopenfile = some filename
      · simp only [hlast, if_true] at h
        split at h
        · exact absurd h (by simp)
        · rename_i file hdisk
          split at h
          · exact absurd h (by simp)
          · rename_i data hdata
            have e := (Prod.mk.inj (Option.some.inj h)).2
            rw [← e]
            exact replayTransfers_extend s _ _ start st.disk st.disk hreplay
              (replayTransfers_read s inputindex inputblock block filename file blockoffset
                blocklength data st.disk hblock hfile hdisk hdata)
      · simp only [hlast, if_false] at h
        by_cases hopen : env.Open filename = true
        · simp only [hopen, if_true] at h
          split at h
          · exact absurd h (by simp)
          · rename_i file hdisk
            split at h
            · exact absurd h (by simp)
            · rename_i data hdata
              have e := (Prod.mk.inj (Option.some.inj h)).2
              rw [← e]
              have hopened : replayTransfers s
                  ((match st.lastopenfile with
                    | some last => st.events ++ [RepairEvent.closed last]
                    | none => st.events) ++ [RepairEvent.opened filename]) start =
                  some st.disk := by
                cases st.lastopenfile with
                | none =>
                  exact replayTransfers_extend s _ _ start st.disk st.disk hreplay rfl
                | some last =>
                  exact replayTransfers_extend s _ _ start st.disk st.disk
                    (replayTransfers_extend s _ _ start st.disk st.disk hreplay rfl) rfl
              exact replayTransfers_extend s _ _ start st.disk st.disk hopened
                (replayTransfers_read s inputindex inputblock block filename file blockoffset
                  blocklength data st.disk hblock hfile hdisk hdata)
        · simp only [hopen] at h
          exact absurd h (by simp)

/-- A successful `writeBlock` puts the buffer into the block on the disk. -/
theorem writeBlock_disk (s : Par2Repairer) (blockoffset blocklength : Nat)
    (target : Option BlockRef) (buffer : List Byte) (event : RepairEvent) (st st1 : RepairState)
    (h : writeBlock s blockoffset blocklength target buffer event st = some (true, st1))
    (hevent : ∀ disk, transferStep s event disk =
      putBlock s target blockoffset blocklength buffer disk)
    (start : Disk) (hreplay : replayTransfers s st.events start = some st.disk) :
    replayTransfers s st1.events start = some st1.disk ∧
    putBlock s target blockoffset blocklength buffer st.disk = some st1.disk := by
  unfold writeBlock at h
  split at h
  · exact absurd h (by simp)
  · rename_i block hblock
    split at h
    · exact absurd h (by simp)
    · rename_i filename hfile
      split at h
      · exact absurd h (by simp)
      · rename_i file hdisk
        split at h
        · exact absurd h (by simp)
        · rename_i written hwrite
          have e := (Prod.mk.inj (Option.some.inj h)).2
          have hput := putBlock_of_write s target block filename file written blockoffset
            blocklength buffer st.disk hblock hfile hdisk hwrite
          rw [← e]
          refine ⟨?_, hput⟩
          apply replayTransfers_extend s _ _ start st.disk _ hreplay
          simp only [replayTransfers, hevent, hput, Option.some_bind]

theorem copyInput_disk (s : Par2Repairer) (blockoffset blocklength copyblock : Nat)
    (st st1 : RepairState) (next : Nat)
    (h : copyInput s blockoffset blocklength copyblock st = some (true, st1, next))
    (start : Disk) (hreplay : replayTransfers s st.events start = some st.disk) :
    replayTransfers s st1.events start = some st1.disk := by
  unfold copyInput at h
  split at h
  · have e := Prod.mk.inj (Prod.mk.inj (Option.some.inj h)).2
    rw [← e.1]
    exact hreplay
  · rename_i target _
    split at h
    · exact absurd h (by simp)
    · split at h
      · split at h
        · exact absurd h (by simp)
        · exact absurd h (by simp)
        · rename_i st2 hw
          have e := Prod.mk.inj (Prod.mk.inj (Option.some.inj h)).2
          rw [← e.1]
          exact (writeBlock_disk s blockoffset blocklength target st.inputbuffer _ st st2 hw
            (fun _ => rfl) start hreplay).1
      · have e := Prod.mk.inj (Prod.mk.inj (Option.some.inj h)).2
        rw [← e.1]
        exact hreplay

theorem processInputs_true (env : RepairEnv) (s : Par2Repairer) (blockoffset blocklength : Nat)
    (rest : List (Option BlockRef)) :
    ∀ (k c : Nat) (st st1 : RepairState), c = min k s.copyblocks.length →
      processInputs env s blockoffset blocklength rest k c st = some (true, st1) →
      ∃ chunks : List (List Byte), chunks.length = rest.length ∧
        st1.events.filter RepairEvent.isTransfer =
          st.events.filter RepairEvent.isTransfer ++
            inputEvents s blockoffset blocklength (rest.enumFrom k) chunks ∧
        st1.outputbuffer =
          (chunks.enumFrom k).foldl
            (fun buffer e => env.RepairMissingBlocks buffer e.2 blocklength e.1)
            st.outputbuffer ∧
        ∀ start, replayTransfers s st.events start = some st.disk →
          replayTransfers s st1.events start = some st1.disk := by
  induction rest with
  | nil =>
    intro k c st st1 _ h
    unfold processInputs at h
    have e := (Prod.mk.inj (Option.some.inj h)).2
    rw [← e]
    exact ⟨[], rfl, by simp [inputEvents], rfl, fun _ hr => hr⟩
  | cons inputblock rest ih =>
    intro k c st st1 hc h
    unfold processInputs at h
    split at h
    · exact absurd h (by simp)
    · exact absurd h (by simp)
    · rename_i st2 hread
      split at h
      · exact absurd h (by simp)
      · exact absurd h (by simp)
      · rename_i st3 c2 hcopy
        obtain ⟨hr1, hr2⟩ := readInput_true _ _ _ _ _ _ _ _ hread
        obtain ⟨hc1, hc2, hc3, hc4⟩ := copyInput_true _ _ _ _ _ _ _ hcopy
        have hnext : c2 = min (k + 1) s.copyblocks.length := by
          rw [hc3, hc]
          split <;> omega
        obtain ⟨chunks, hlen, hev, hbuf, hdisk⟩ := ih (k + 1) c2 _ st1 hnext h
        refine ⟨st2.inputbuffer :: chunks, by rw [List.length_cons, List.length_cons, hlen],
          ?_, ?_, ?_⟩
        · rw [hev]
          simp only [List.filter_append, List.enumFrom_cons, inputEvents]
          rw [hc4, List.filter_append, hr2]
          have hidx : s.copyblocks[c]? = s.copyblocks[k]? := by
            by_cases hk : k < s.copyblocks.length
            · have : c = k := by omega
              rw [this]
            · have : c = s.copyblocks.length := by omega
              rw [this, List.getElem?_eq_none (Nat.le_refl _), List.getElem?_eq_none (by omega)]
          have hck : ∀ target, s.copyblocks[k]? = some target → c = k := by
            intro target ht
            by_cases hk : k < s.copyblocks.length
            · omega
            · rw [List.getElem?_eq_none (by omega)] at ht
              exact absurd ht (by simp)
          rw [hidx]
          cases hk : s.copyblocks[k]? with
          | none => simp [RepairEvent.isTransfer]
          | some target =>
            have := hck target hk
            subst this
            dsimp only
            split <;> simp [RepairEvent.isTransfer]
        · rw [hbuf]
          simp only [List.enumFrom_cons, List.foldl_cons]
          rw [hc1, hr1, hc2]
        · intro start hreplay
          apply hdisk start
          exact replayTransfers_extend s _ _ start st3.disk st3.disk
            (copyInput_disk _ _ _ _ _ _ _ hcopy start
              (readInput_disk _ _ _ _ _ _ _ _ hread start hreplay)) rfl

theorem writeOutputs_true (s : Par2Repairer) (blockoffset blocklength : Nat) :
    ∀ (count j : Nat) (st st1 : RepairState),
      writeOutputs s blockoffset blocklength count j st = some (true, st1) →
      st1.outputbuffer = st.outputbuffer ∧
      st1.events = st.events ++
        outputEvents s blockoffset blocklength st.outputbuffer (List.range' j count) ∧
      ∀ start, replayTransfers s st.events start = some st.disk →
        replayTransfers s st1.events start = some st1.disk := by
  intro count
  induction count with
  | zero =>
    intro j st st1 h
    unfold writeOutputs at h
    have e := (Prod.mk.inj (Option.some.inj h)).2
    rw [← e]
    exact ⟨rfl, by simp [outputEvents], fun _ hr => hr⟩
  | succ count ih =>
    intro j st st1 h
    unfold writeOutputs at h
    cases ho : s.outputblocks[j]? with
    | none =>
      rw [ho] at h
      exact absurd h (by simp)
    | some outputblock =>
      rw [ho] at h
      dsimp only at h
      split at h
      · exact absurd h (by simp)
      · exact absurd h (by simp)
      · rename_i st2 hw
        obtain ⟨h1, _, h3⟩ := writeBlock_true _ _ _ _ _ _ _ _ hw
        obtain ⟨h4, h5, h6⟩ := ih (j + 1) st2 st1 h
        refine ⟨h4.trans h1, ?_, ?_⟩
        · rw [h5, h3, h1]
          simp [outputEvents, List.range'_succ, ho]
        · intro start hreplay
          exact h6 start
            (writeBlock_disk s blockoffset blocklength outputblock _ _ st st2 hw
              (fun _ => rfl) start hreplay).1

/-- C18: a call `ProcessData(blockoffset, blocklength)` with
`missingblockcount > 0` that returns true.  Apart from opening and closing
files, what it does is, in this order: for every input block, in the order of
`inputblocks`, one `ReadData` at `blockoffset` for `blocklength` bytes, then,
when `copyblocks` has an entry of the same index `k` whose block is set, one
`WriteData` of the chunk just read to `copyblocks[k]` at `blockoffset`, then the
call of the coder for that input; and, after all inputs, for each
`j < missingblockcount` in turn one `WriteData` to `outputblocks[j]` at
`blockoffset` of the `blocklength` bytes of the output buffer that start at
`j * chunksize`.  The chunks are the bytes that the reads give on the disk of
the moment, the output buffer is what the coder calls make of a zeroed buffer,
and the disk that the call leaves is the starting disk after these writes, in
this order. -/
theorem ProcessData_spec (env : RepairEnv) (s : Par2Repairer) (disk : Disk)
    (blockoffset blocklength : Nat) (st : RepairState)
    (hmissing : 0 < s.missingblockcount)
    (h : ProcessData env s disk blockoffset blocklength = some (true, st)) :
    ∃ chunks : List (List Byte), chunks.length = s.inputblocks.length ∧
      st.events.filter RepairEvent.isTransfer =
        inputEvents s blockoffset blocklength (s.inputblocks.enumFrom 0) chunks ++
          outputEvents s blockoffset blocklength st.outputbuffer
            (List.range s.missingblockcount) ∧
      st.outputbuffer =
        (chunks.enumFrom 0).foldl
          (fun buffer e => env.RepairMissingBlocks buffer e.2 blocklength e.1)
          (List.replicate ((s.chunksize * s.missingblockcount) % U64) 0) ∧
      replayTransfers s
        (inputEvents s blockoffset blocklength (s.inputblocks.enumFrom 0) chunks ++
          outputEvents s blockoffset blocklength st.outputbuffer
            (List.range s.missingblockcount)) disk = some st.disk := by
  unfold ProcessData at h
  dsimp only at h
  rw [if_pos hmissing] at h
  split at h
  · exact absurd h (by simp)
  · exact absurd h (by simp)
  · rename_i st1 hin
    obtain ⟨chunks, hlen, hev, hcoded, hdisk1⟩ := processInputs_true env s blockoffset
      blocklength s.inputblocks 0 0 _ st1 (by omega) hin
    obtain ⟨hbuf, hout, hdisk2⟩ := writeOutputs_true s blockoffset blocklength
      s.missingblockcount 0 _ st h
    have hevents : st.events.filter RepairEvent.isTransfer =
        inputEvents s blockoffset blocklength (s.inputblocks.enumFrom 0) chunks ++
          outputEvents s blockoffset blocklength st.outputbuffer
            (List.range s.missingblockcount) := by
      rw [hout, List.filter_append]
      dsimp only at hev hbuf ⊢
      have hclose : List.filter RepairEvent.isTransfer
          (match st1.lastopenfile with
            | some last => st1.events ++ [RepairEvent.closed last]
            | none => st1.events) = List.filter RepairEvent.isTransfer st1.events := by
        cases st1.lastopenfile <;> simp [RepairEvent.isTransfer]
      rw [hclose, hev, hbuf, List.range_eq_range']
      have hw : List.filter RepairEvent.isTransfer
          (outputEvents s blockoffset blocklength st1.outputbuffer
            (List.range' 0 s.missingblockcount)) =
          outputEvents s blockoffset blocklength st1.outputbuffer
            (List.range' 0 s.missingblockcount) := by
        apply List.filter_eq_self.2
        intro e he
        unfold outputEvents at he
        obtain ⟨j, _, rfl⟩ := List.mem_map.1 he
        rfl
      rw [hw]
      simp
    refine ⟨chunks, hlen, hevents, ?_, ?_⟩
    · dsimp only at hbuf hcoded
      rw [hbuf, hcoded]
    · rw [← hevents, replayTransfers_filter]
      apply hdisk2 disk
      dsimp only
      have hfirst := hdisk1 disk rfl
      cases hl : st1.lastopenfile with
      | none => exact hfirst
      | some last =>
        exact replayTransfers_extend s _ _ disk st1.disk st1.disk hfirst rfl

set_option maxRecDepth 20000 in
theorem ProcessData_spec_witness :
    (ProcessData toyRepairEnv oneMissingBlock oneMissingBlockDisk 0 4).map
        (fun r => (r.1, r.2.events)) =
      some (true,
        [RepairEvent.opened "a.dat",
         RepairEvent.read 0 (some (BlockRef.source 0)) 0 4 [1, 2, 3, 4],
         RepairEvent.copied 0 (some (BlockRef.target 0)) 0 4 [1, 2, 3, 4],
         RepairEvent.repaired 0 4,
         RepairEvent.closed "a.dat",
         RepairEvent.opened "r.par2",
         RepairEvent.read 1 (some (BlockRef.recovery 0)) 0 4 [5, 6, 7, 8],
         RepairEvent.repaired 1 4,
         RepairEvent.closed "r.par2",
         RepairEvent.written 0 (some (BlockRef.target 1)) 0 4 [6, 8, 10, 12]])
    ∧ (ProcessData toyRepairEnv oneMissingBlock oneMissingBlockDisk 0 4).map
        (fun r => [(r.2.disk "a.out").map (fun file => file.content),
          (r.2.disk "b.out").map (fun file => file.content)]) =
      some [some [1, 2, 3, 4], some [6, 8, 10, 12]]
    ∧ ∃ st chunks,
        ProcessData toyRepairEnv oneMissingBlock oneMissingBlockDisk 0 4 = some (true, st) ∧
        chunks.length = 2 ∧
        st.events.filter RepairEvent.isTransfer =
          inputEvents oneMissingBlock 0 4 (oneMissingBlock.inputblocks.enumFrom 0) chunks ++
            outputEvents oneMissingBlock 0 4 st.outputbuffer [0] ∧
        replayTransfers oneMissingBlock
          (inputEvents oneMissingBlock 0 4 (oneMissingBlock.inputblocks.enumFrom 0) chunks ++
            outputEvents oneMissingBlock 0 4 st.outputbuffer [0]) oneMissingBlockDisk =
          some st.disk := by
  have hev : (ProcessData toyRepairEnv oneMissingBlock oneMissingBlockDisk 0 4).map
      (fun r => r.1) = some true := by decide
  refine ⟨by decide, by decide, ?_⟩
  cases hp : ProcessData toyRepairEnv oneMissingBlock oneMissingBlockDisk 0 4 with
  | none =>
    rw [hp] at hev
    exact absurd hev (by simp)
  | some r =>
    obtain ⟨ok, st⟩ := r
    rw [hp] at hev
    have hok : ok = true := Option.some.inj hev
    subst hok
    obtain ⟨chunks, hlen, hspec, _, hdisk⟩ :=
      ProcessData_spec toyRepairEnv oneMissingBlock oneMissingBlockDisk 0 4 st (by decide) hp
    exact ⟨st, chunks, rfl, hlen, hspec, hdisk⟩

end Par2Repairer

/-! ## The block scanner -/

namespace Par2Repairer

theorem scanLoop_tracks (env : ScanEnv) (diskfile : DiskFile) :
    ∀ (fuel : Nat) (st : ScanState) (ok : Bool) (r : ScanState),
      scanLoop env diskfile fuel st = some (ok, r) →
      ∃ steps, r.log = st.log ++ steps ∧
        (r.matchtype, r.count, r.nextentry, r.sourcefile) =
          trackScan env steps st.matchtype st.count st.nextentry st.sourcefile ∧
        r.hashfull = st.hashfull ∧ r.hash16k = st.hash16k := by
  intro fuel
  induction fuel with
  | zero =>
    intro st ok r h
    exact absurd h (by simp [scanLoop])
  | succ fuel ih =>
    intro st ok r h
    unfold scanLoop at h
    by_cases hlt : st.offset < diskfile.FileSize
    · rw [if_pos hlt] at h
      split at h
      · rename_i currententry dup hfind
        dsimp only at h
        split at h
        · have e := (Prod.mk.inj (Option.some.inj h)).2
          refine ⟨[ScanStep.hit st.offset currententry], ?_, ?_, ?_, ?_⟩
          · rw [← e]
            by_cases hc : st.count = 0 <;> simp [hc]
          · rw [← e]
            by_cases hc : st.count = 0 <;> simp [hc, trackScan]
          · rw [← e]
            by_cases hc : st.count = 0 <;> simp [hc]
          · rw [← e]
            by_cases hc : st.count = 0 <;> simp [hc]
        · obtain ⟨steps, h1, h2, h3, h4⟩ := ih _ ok r h
          refine ⟨ScanStep.hit st.offset currententry :: steps, ?_, ?_, ?_, ?_⟩
          · rw [h1]
            by_cases hc : st.count = 0 <;> simp [hc]
          · rw [h2]
            by_cases hc : st.count = 0 <;> simp [hc, trackScan]
          · rw [h3]
            by_cases hc : st.count = 0 <;> simp [hc]
          · rw [h4]
            by_cases hc : st.count = 0 <;> simp [hc]
      · rename_i dup hfind
        by_cases hd : dup = true
        · rw [if_pos hd] at h
          dsimp only at h
          split at h
          · have e := (Prod.mk.inj (Option.some.inj h)).2
            refine ⟨[ScanStep.duplicate st.offset], ?_, ?_, ?_, ?_⟩ <;>
              simp [← e, trackScan]
          · obtain ⟨steps, h1, h2, h3, h4⟩ := ih _ ok r h
            refine ⟨ScanStep.duplicate st.offset :: steps, ?_, ?_, h3, h4⟩
            · rw [h1]
              simp
            · rw [h2]
              simp [trackScan]
        · rw [if_neg hd] at h
          dsimp only at h
          split at h
          · have e := (Prod.mk.inj (Option.some.inj h)).2
            refine ⟨[ScanStep.miss st.offset], ?_, ?_, ?_, ?_⟩ <;>
              simp [← e, trackScan]
          · obtain ⟨steps, h1, h2, h3, h4⟩ := ih _ ok r h
            refine ⟨ScanStep.miss st.offset :: steps, ?_, ?_, h3, h4⟩
            · rw [h1]
              simp
            · rw [h2]
              simp [trackScan]
    · rw [if_neg hlt] at h
      have e := (Prod.mk.inj (Option.some.inj h)).2
      refine ⟨[], ?_, ?_, ?_, ?_⟩ <;> simp [← e, trackScan]

theorem trackScan_count (env : ScanEnv) (steps : List ScanStep) :
    ∀ (m : MatchType) (c : Nat) (n : Option Nat) (sf : Option MD5Hash), c < 2 ^ 32 →
      (trackScan env steps m c n sf).2.1 = (c + (scanHits steps).length) % 2 ^ 32 := by
  induction steps with
  | nil =>
    intro m c n sf hc
    simp only [trackScan, scanHits, List.length_nil, Nat.add_zero]
    exact (Nat.mod_eq_of_lt hc).symm
  | cons step rest ih =>
    intro m c n sf hc
    cases step with
    | hit o e =>
      simp only [trackScan, scanHits, List.length_cons]
      rw [ih _ _ _ _ (Nat.mod_lt _ (by decide))]
      omega
    | duplicate o =>
      simp only [trackScan, scanHits]
      exact ih _ _ _ _ hc
    | miss o =>
      simp only [trackScan, scanHits]
      exact ih _ _ _ _ hc

theorem trackScan_partialMatch (env : ScanEnv) (steps : List ScanStep) :
    ∀ (c : Nat) (n : Option Nat) (sf : Option MD5Hash),
      (trackScan env steps MatchType.ePartialMatch c n sf).1 = MatchType.ePartialMatch := by
  induction steps with
  | nil => intro c n sf; rfl
  | cons step rest ih =>
    intro c n sf
    cases step with
    | hit o e =>
      simp only [trackScan]
      have e1 : (if c = 0 then
          (if !env.FirstBlock e ∨ o ≠ 0 then MatchType.ePartialMatch
            else MatchType.ePartialMatch)
          else (if some e ≠ n then MatchType.ePartialMatch else MatchType.ePartialMatch)) =
          MatchType.ePartialMatch := by
        split <;> split <;> rfl
      rw [e1]
      exact ih _ _ _
    | duplicate o => exact ih _ _ _
    | miss o => exact ih _ _ _

theorem trackScan_sourcefile (env : ScanEnv) (steps : List ScanStep) :
    ∀ (m : MatchType) (c : Nat) (n : Option Nat) (sf : Option MD5Hash), 0 < c →
      c + (scanHits steps).length < 2 ^ 32 →
      (trackScan env steps m c n sf).2.2.2 = sf := by
  induction steps with
  | nil => intro m c n sf _ _; rfl
  | cons step rest ih =>
    intro m c n sf hc hlen
    cases step with
    | hit o e =>
      simp only [scanHits, List.length_cons] at hlen
      have hc0 : c ≠ 0 := by omega
      have hnext : (c + 1) % 2 ^ 32 = c + 1 := Nat.mod_eq_of_lt (by omega)
      simp only [trackScan, if_neg hc0, hnext]
      exact ih _ (c + 1) _ sf (by omega) (by omega)
    | duplicate o =>
      simp only [trackScan]
      exact ih _ c _ sf hc (by simpa [scanHits] using hlen)
    | miss o =>
      simp only [trackScan]
      exact ih _ c _ sf hc (by simpa [scanHits] using hlen)

theorem trackScan_later (env : ScanEnv) (steps : List ScanStep) :
    ∀ (c : Nat) (n : Option Nat) (sf : Option MD5Hash), 0 < c →
      c + (scanHits steps).length < 2 ^ 32 →
      ((trackScan env steps MatchType.eFullMatch c n sf).1 = MatchType.eFullMatch ↔
        chainFrom env n steps = true) := by
  induction steps with
  | nil =>
    intro c n sf _ _
    simp [trackScan, chainFrom]
  | cons step rest ih =>
    intro c n sf hc hlen
    cases step with
    | hit o e =>
      simp only [scanHits, List.length_cons] at hlen
      have hc0 : c ≠ 0 := by omega
      have hnext : (c + 1) % 2 ^ 32 = c + 1 := Nat.mod_eq_of_lt (by omega)
      simp only [trackScan, if_neg hc0, hnext, chainFrom]
      by_cases he : some e = n
      · rw [if_neg (by simpa using he)]
        have := ih (c + 1) (env.Next e) sf (by omega) (by omega)
        simp only [he, decide_True, Bool.true_and]
        exact this
      · rw [if_pos (by simpa using he)]
        have hp := trackScan_partialMatch env rest (c + 1) (env.Next e) sf
        constructor
        · intro h
          rw [hp] at h
          exact absurd h (by decide)
        · intro h
          simp [he] at h
    | duplicate o =>
      simp only [trackScan, chainFrom]
      have hp := trackScan_partialMatch env rest c none sf
      constructor
      · intro h
        rw [hp] at h
        exact absurd h (by decide)
      · intro h
        exact absurd h (by decide)
    | miss o =>
      simp only [trackScan, chainFrom]
      have hp := trackScan_partialMatch env rest c none sf
      constructor
      · intro h
        rw [hp] at h
        exact absurd h (by decide)
      · intro h
        exact absurd h (by decide)

theorem chainFrom_iff (env : ScanEnv) (rest : List ScanStep) :
    ∀ entry : Nat, chainFrom env (env.Next entry) rest = true ↔
      rest.all ScanStep.isHit = true ∧
      List.Chain (fun a b => env.Next a = some b) entry ((scanHits rest).map Prod.snd) := by
  induction rest with
  | nil =>
    intro entry
    simp [chainFrom, scanHits]
  | cons step rest ih =>
    intro entry
    cases step with
    | hit o e =>
      simp only [chainFrom, scanHits, List.map_cons, List.chain_cons, List.all_cons,
        ScanStep.isHit, Bool.true_and, Bool.and_eq_true, decide_eq_true_eq]
      rw [ih e]
      constructor
      · rintro ⟨h1, h2, h3⟩
        exact ⟨h2, h1.symm, h3⟩
      · rintro ⟨h2, h1, h3⟩
        exact ⟨h1.symm, h2, h3⟩
    | duplicate o => simp [chainFrom, ScanStep.isHit]
    | miss o => simp [chainFrom, ScanStep.isHit]

theorem trackScan_first (env : ScanEnv) (steps : List ScanStep) (sf : Option MD5Hash)
    (hlen : (scanHits steps).length < 2 ^ 32) :
    ((trackScan env steps MatchType.eFullMatch 0 none sf).1 = MatchType.eFullMatch ↔
      steps = [] ∨ ∃ offset entry rest, steps = ScanStep.hit offset entry :: rest ∧
        env.FirstBlock entry = true ∧ offset = 0 ∧
        chainFrom env (env.Next entry) rest = true) ∧
    (∀ offset entry rest, steps = ScanStep.hit offset entry :: rest →
      (trackScan env steps MatchType.eFullMatch 0 none sf).2.2.2 =
        some (env.SourceFile entry)) := by
  cases steps with
  | nil =>
    refine ⟨?_, ?_⟩
    · simp [trackScan]
    · intro o e rest h
      exact absurd h (by simp)
  | cons step rest =>
    cases step with
    | hit o e =>
      simp only [scanHits, List.length_cons] at hlen
      have h1 : (0 + 1) % 2 ^ 32 = 1 := by decide
      refine ⟨?_, ?_⟩
      · simp only [trackScan, if_pos, h1]
        by_cases hfirst : env.FirstBlock e = true ∧ o = 0
        · have hcond : ¬ ((!env.FirstBlock e) = true ∨ o ≠ 0) := by
            rw [hfirst.1, hfirst.2]
            simp
          rw [if_neg hcond, trackScan_later env rest 1 (env.Next e) _ (by decide) (by omega)]
          constructor
          · intro h
            exact Or.inr ⟨o, e, rest, rfl, hfirst.1, hfirst.2, h⟩
          · rintro (h | ⟨o', e', rest', h, _, _, hch⟩)
            · exact absurd h (by simp)
            · simp only [List.cons.injEq, ScanStep.hit.injEq] at h
              obtain ⟨⟨_, rfl⟩, rfl⟩ := h
              exact hch
        · have hcond : (!env.FirstBlock e) = true ∨ o ≠ 0 := by
            by_cases hf : env.FirstBlock e = true
            · exact Or.inr (fun ho => hfirst ⟨hf, ho⟩)
            · exact Or.inl (by simpa using hf)
          rw [if_pos hcond, trackScan_partialMatch]
          constructor
          · intro h
            exact absurd h (by decide)
          · rintro (h | ⟨o', e', rest', h, hf, ho, _⟩)
            · exact absurd h (by simp)
            · simp only [List.cons.injEq, ScanStep.hit.injEq] at h
              obtain ⟨⟨rfl, rfl⟩, rfl⟩ := h
              exact absurd ⟨hf, ho⟩ hfirst
      · intro o' e' rest' h
        simp only [List.cons.injEq, ScanStep.hit.injEq] at h
        obtain ⟨⟨rfl, rfl⟩, rfl⟩ := h
        simp only [trackScan, if_pos, h1]
        exact trackScan_sourcefile env rest _ 1 _ _ (by decide) (by omega)
    | duplicate o =>
      refine ⟨?_, ?_⟩
      · simp only [trackScan]
        rw [trackScan_partialMatch]
        constructor
        · intro h
          exact absurd h (by decide)
        · rintro (h | ⟨o', e', rest', h, _⟩)
          · exact absurd h (by simp)
          · exact absurd h (by simp)
      · intro o' e' rest' h
        exact absurd h (by simp)
    | miss o =>
      refine ⟨?_, ?_⟩
      · simp only [trackScan]
        rw [trackScan_partialMatch]
        constructor
        · intro h
          exact absurd h (by decide)
        · rintro (h | ⟨o', e', rest', h, _⟩)
          · exact absurd h (by simp)
          · exact absurd h (by simp)
      · intro o' e' rest' h
        exact absurd h (by simp)

theorem classifyScan_spec (diskfile : DiskFile) (st r : ScanState)
    (h : classifyScan diskfile st = some r) (hm : st.matchtype ≠ MatchType.eNoMatch) :
    r.log = st.log ∧ r.s = st.s ∧ r.sourcefile = st.sourcefile ∧ r.count = st.count ∧
    r.hashfull = st.hashfull ∧ r.hash16k = st.hash16k ∧ r.accesses = st.accesses ∧
    (r.matchtype = MatchType.eNoMatch ↔ st.count = 0) ∧
    (r.matchtype = MatchType.eFullMatch ↔
      0 < st.count ∧ st.matchtype = MatchType.eFullMatch ∧
      ∃ sourcefile verificationpacket descriptionpacket,
        st.sourcefile.bind (fun fileid => sfFind fileid st.s.sourcefilemap) = some sourcefile ∧
        sourcefile.verificationpacket = some verificationpacket ∧
        sourcefile.descriptionpacket = some descriptionpacket ∧
        st.count = verificationpacket.blockcount ∧
        diskfile.FileSize = descriptionpacket.filesize ∧
        st.hashfull = descriptionpacket.hashfull ∧
        st.hash16k = descriptionpacket.hash16k) := by
  unfold classifyScan at h
  by_cases hc : st.count > 0
  · rw [if_pos hc] at h
    by_cases hfull : st.matchtype = MatchType.eFullMatch
    · rw [if_neg (by simpa using hfull)] at h
      cases hsf : st.sourcefile.bind (fun fileid => sfFind fileid st.s.sourcefilemap) with
      | none =>
        rw [hsf] at h
        exact absurd h (by simp)
      | some sourcefile =>
        rw [hsf] at h
        dsimp only at h
        cases hv : sourcefile.verificationpacket with
        | none =>
          rw [hv] at h
          exact absurd h (by simp)
        | some v =>
          cases hd : sourcefile.descriptionpacket with
          | none =>
            rw [hv, hd] at h
            exact absurd h (by simp)
          | some d =>
            rw [hv, hd] at h
            dsimp only at h
            by_cases hcond : st.count ≠ v.blockcount ∨ diskfile.FileSize ≠ d.filesize ∨
                st.hashfull ≠ d.hashfull ∨ st.hash16k ≠ d.hash16k
            · rw [if_pos hcond] at h
              have e := Option.some.inj h
              rw [← e]
              refine ⟨rfl, rfl, rfl, rfl, rfl, rfl, rfl, ?_, ?_⟩
              · constructor
                · intro h1
                  simp at h1
                · intro h1
                  omega
              · constructor
                · intro h1
                  simp at h1
                · rintro ⟨_, _, sf', v', d', h1, h2, h3, h4, h5, h6, h7⟩
                  have e1 : sf' = sourcefile := Option.some.inj h1.symm
                  subst e1
                  rw [hv] at h2
                  rw [hd] at h3
                  have e2 := Option.some.inj h2
                  have e3 := Option.some.inj h3
                  subst e2
                  subst e3
                  rcases hcond with hx | hx | hx | hx
                  · exact absurd h4 hx
                  · exact absurd h5 hx
                  · exact absurd h6 hx
                  · exact absurd h7 hx
            · rw [if_neg hcond] at h
              have e := Option.some.inj h
              rw [← e]
              refine ⟨rfl, rfl, rfl, rfl, rfl, rfl, rfl, ?_, ?_⟩
              · constructor
                · intro h1
                  exact absurd h1 hm
                · intro h1
                  omega
              · constructor
                · intro _
                  refine ⟨hc, hfull, sourcefile, v, d, rfl, hv, hd, ?_, ?_, ?_, ?_⟩
                  · by_contra hx
                    exact hcond (Or.inl hx)
                  · by_contra hx
                    exact hcond (Or.inr (Or.inl hx))
                  · by_contra hx
                    exact hcond (Or.inr (Or.inr (Or.inl hx)))
                  · by_contra hx
                    exact hcond (Or.inr (Or.inr (Or.inr hx)))
                · intro _
                  exact hfull
    · rw [if_pos (by simpa using hfull)] at h
      have e := Option.some.inj h
      rw [← e]
      refine ⟨rfl, rfl, rfl, rfl, rfl, rfl, rfl, ?_, ?_⟩
      · constructor
        · intro h1
          simp at h1
        · intro h1
          omega
      · constructor
        · intro h1
          simp at h1
        · rintro ⟨_, h1, _⟩
          exact absurd h1 hfull
  · rw [if_neg hc] at h
    have e := Option.some.inj h
    rw [← e]
    refine ⟨rfl, rfl, rfl, rfl, rfl, rfl, rfl, ?_, ?_⟩
    · constructor
      · intro _
        omega
      · intro _
        rfl
    · constructor
      · intro h1
        simp at h1
      · rintro ⟨h1, _⟩
        omega

theorem trackScan_ne_noMatch (env : ScanEnv) (steps : List ScanStep) :
    ∀ (m : MatchType) (c : Nat) (n : Option Nat) (sf : Option MD5Hash),
      m ≠ MatchType.eNoMatch → (trackScan env steps m c n sf).1 ≠ MatchType.eNoMatch := by
  induction steps with
  | nil =>
    intro m c n sf hm
    simpa [trackScan] using hm
  | cons step rest ih =>
    intro m c n sf hm
    cases step with
    | hit o e =>
      simp only [trackScan]
      apply ih
      by_cases hc : c = 0
      · rw [if_pos hc]
        split
        · decide
        · exact hm
      · rw [if_neg hc]
        split
        · decide
        · exact hm
    | duplicate o =>
      simp only [trackScan]
      exact ih _ _ _ _ (by decide)
    | miss o =>
      simp only [trackScan]
      exact ih _ _ _ _ (by decide)

theorem scanHits_eq_nil_iff (steps : List ScanStep) :
    (scanHits steps).length = 0 ↔ scanHits steps = [] := by
  cases scanHits steps <;> simp

/-- The scan loop returns within `FileSize - Offset() + 1` turns when every
successful `Jump` and `Step` moves the checksummer forward. -/
theorem scanLoop_returns (env : ScanEnv) (diskfile : DiskFile)
    (hjump : ∀ offset distance next, env.Jump diskfile offset distance = some next →
      offset < next)
    (hstep : ∀ offset next, env.Step diskfile offset = some next → offset < next) :
    ∀ (fuel : Nat) (st : ScanState), diskfile.FileSize - st.offset < fuel →
      ∃ result, scanLoop env diskfile fuel st = some result := by
  intro fuel
  induction fuel with
  | zero =>
    intro st h
    exact absurd h (by omega)
  | succ fuel ih =>
    intro st h
    unfold scanLoop
    by_cases hlt : st.offset < diskfile.FileSize
    · rw [if_pos hlt]
      split
      · rename_i currententry dup hfind
        dsimp only
        split
        · exact ⟨_, rfl⟩
        · rename_i next hnext
          have := hjump _ _ _ hnext
          exact ih _ (by simp only; omega)
      · rename_i dup hfind
        by_cases hd : dup = true
        · rw [if_pos hd]
          dsimp only
          split
          · exact ⟨_, rfl⟩
          · rename_i next hnext
            have := hjump _ _ _ hnext
            exact ih _ (by simp only; omega)
        · rw [if_neg hd]
          dsimp only
          split
          · exact ⟨_, rfl⟩
          · rename_i next hnext
            have := hstep _ _ hnext
            exact ih _ (by simp only; omega)
    · rw [if_neg hlt]
      exact ⟨_, rfl⟩

/-- A successful scan of a file that is not empty and not considered OK is a
run of the scan loop from offset 0, followed by the classification with the
hashes of the file. -/
theorem ScanDataFile_scanned (env : ScanEnv) (md5 : MD5Function) (fuel : Nat) (s : Par2Repairer)
    (diskfile : DiskFile) (sourcefile : Option MD5Hash) (hashfull hash16k : MD5Hash)
    (count : Nat) (r : ScanState)
    (hsize : diskfile.FileSize ≠ 0) (htrusted : env.FileConsideredOK diskfile = false)
    (h : ScanDataFile env md5 fuel s diskfile sourcefile hashfull hash16k count =
      some (true, r)) :
    ∃ st1,
      scanLoop env diskfile fuel
        { s := s, sourcefile := sourcefile, matchtype := MatchType.eFullMatch,
          hashfull := hashfull, hash16k := hash16k, count := 0,
          accesses := [ScanAccess.start] } = some (true, st1) ∧
      classifyScan diskfile
        { st1 with hashfull := (GetFileHashes md5 diskfile).1
                   hash16k := (GetFileHashes md5 diskfile).2
                   accesses := st1.accesses ++ [ScanAccess.hashes] } = some r := by
  unfold ScanDataFile at h
  simp only [if_neg hsize, htrusted] at h
  by_cases hstart : env.Start diskfile s.blocksize = true
  · simp only [hstart, if_true] at h
    rw [if_neg (by decide)] at h
    split at h
    · exact absurd h (by simp)
    · exact absurd h (by simp)
    · rename_i st1 hloop
      refine ⟨st1, hloop, ?_⟩
      cases hc : classifyScan diskfile
          { st1 with hashfull := (GetFileHashes md5 diskfile).1
                     hash16k := (GetFileHashes md5 diskfile).2
                     accesses := st1.accesses ++ [ScanAccess.hashes] } with
      | none =>
        rw [hc] at h
        exact absurd h (by simp)
      | some st2 =>
        rw [hc] at h
        simp only [Option.map_some', Option.some.injEq, Prod.mk.injEq, true_and] at h
        rw [h]
  · simp only [hstart] at h
    rw [if_neg (by decide), if_neg (by decide)] at h
    exact absurd h (by simp)

/-- C19: for a candidate file that is not empty and not considered OK, on a
successful return of `ScanDataFile` with fewer than `2 ^ 32` matches: the match
type is `eNoMatch` exactly when no block was matched; it is `eFullMatch`
exactly when the conditions `IsFullScan` hold (the first turn matched a first
block at offset 0, every later turn matched the entry expected next, so there
was no miss and no duplicate, the number of matches is the block count of the
verification packet, and size, whole-file MD5 and 16 KiB MD5 are those of the
description packet); and it is `ePartialMatch` in every other case. -/
theorem ScanDataFile_classification (env : ScanEnv) (md5 : MD5Function) (fuel : Nat)
    (s : Par2Repairer) (diskfile : DiskFile) (sourcefile : Option MD5Hash)
    (hashfull hash16k : MD5Hash) (count : Nat) (r : ScanState)
    (hsize : diskfile.FileSize ≠ 0) (htrusted : env.FileConsideredOK diskfile = false)
    (h : ScanDataFile env md5 fuel s diskfile sourcefile hashfull hash16k count =
      some (true, r))
    (hhits : (scanHits r.log).length < 2 ^ 32) :
    (r.matchtype = MatchType.eNoMatch ↔ scanHits r.log = []) ∧
    (r.matchtype = MatchType.eFullMatch ↔ IsFullScan env md5 diskfile r) ∧
    (r.matchtype = MatchType.ePartialMatch ↔
      scanHits r.log ≠ [] ∧ ¬ IsFullScan env md5 diskfile r) := by
  obtain ⟨st1, hloop, hclass⟩ :=
    ScanDataFile_scanned env md5 fuel s diskfile sourcefile hashfull hash16k count r
      hsize htrusted h
  obtain ⟨steps, hlog, htrack, _, _⟩ := scanLoop_tracks env diskfile fuel _ true st1 hloop
  simp only [List.nil_append] at hlog htrack
  have hm1 : st1.matchtype = (trackScan env steps MatchType.eFullMatch 0 none sourcefile).1 :=
    congrArg (fun x => x.1) htrack
  have hc1 : st1.count = (trackScan env steps MatchType.eFullMatch 0 none sourcefile).2.1 :=
    congrArg (fun x => x.2.1) htrack
  have hs1 : st1.sourcefile =
      (trackScan env steps MatchType.eFullMatch 0 none sourcefile).2.2.2 :=
    congrArg (fun x => x.2.2.2) htrack
  have hne : st1.matchtype ≠ MatchType.eNoMatch := by
    rw [hm1]
    exact trackScan_ne_noMatch env steps _ _ _ _ (by decide)
  obtain ⟨rlog, rs, rsf, rcount, rfull, r16k, _, hno, hfull⟩ :=
    classifyScan_spec diskfile _ r hclass hne
  simp only at rlog rs rsf rcount rfull r16k hno hfull
  rw [hlog] at rlog
  rw [rlog] at hhits
  have hcount : st1.count = (scanHits steps).length := by
    rw [hc1, trackScan_count env steps _ 0 _ _ (by decide), Nat.zero_add,
      Nat.mod_eq_of_lt hhits]
  have hfirst := trackScan_first env steps sourcefile hhits
  have hNo : r.matchtype = MatchType.eNoMatch ↔ scanHits r.log = [] := by
    rw [hno, hcount, rlog]
    exact scanHits_eq_nil_iff steps
  have hFull : r.matchtype = MatchType.eFullMatch ↔ IsFullScan env md5 diskfile r := by
    rw [hfull]
    unfold IsFullScan
    rw [rlog, rsf, rs]
    constructor
    · rintro ⟨hpos, hmt, sf, v, d, h1, h2, h3, h4, h5, h6, h7⟩
      rw [hm1] at hmt
      rcases hfirst.1.mp hmt with hnil | ⟨o, e, rest, hsteps, hfb, ho, hch⟩
      · rw [hcount, hnil] at hpos
        exact absurd hpos (by simp [scanHits])
      · refine ⟨⟨o, e, rest, hsteps, hfb, ho, ?_, ((chainFrom_iff env rest e).mp hch).1,
          ((chainFrom_iff env rest e).mp hch).2⟩, sf, v, d, h1, h2, h3, ?_, h5, ?_, ?_⟩
        · rw [hs1]
          exact hfirst.2 o e rest hsteps
        · rw [← hcount]
          exact h4
        · exact h6
        · exact h7
    · rintro ⟨⟨o, e, rest, hsteps, hfb, ho, hsf, hall, hchain⟩, sf, v, d, h1, h2, h3, h4, h5,
        h6, h7⟩
      refine ⟨?_, ?_, sf, v, d, h1, h2, h3, ?_, h5, h6, h7⟩
      · rw [hcount, hsteps]
        simp [scanHits]
      · rw [hm1]
        exact hfirst.1.mpr (Or.inr ⟨o, e, rest, hsteps, hfb, ho,
          (chainFrom_iff env rest e).mpr ⟨hall, hchain⟩⟩)
      · rw [hcount]
        exact h4
  refine ⟨hNo, hFull, ?_⟩
  constructor
  · intro hp
    refine ⟨fun hx => ?_, fun hx => ?_⟩
    · have := hNo.mpr hx
      rw [hp] at this
      exact absurd this (by decide)
    · have := hFull.mpr hx
      rw [hp] at this
      exact absurd this (by decide)
  · rintro ⟨h1, h2⟩
    cases hmt : r.matchtype with
    | eNoMatch => exact absurd (hNo.mp hmt) h1
    | ePartialMatch => rfl
    | eFullMatch => exact absurd (hFull.mp hmt) h2

theorem ScanDataFile_classification_witness :
    (ScanDataFile toyScanEnv toyMD5 3 scanRepairer scanCandidate none [] [] 0).map
        (fun r => (r.1, r.2.matchtype, r.2.log)) =
      some (true, MatchType.eFullMatch, [ScanStep.hit 0 0, ScanStep.hit 4 1]) ∧
    ∃ r, ScanDataFile toyScanEnv toyMD5 3 scanRepairer scanCandidate none [] [] 0 =
        some (true, r) ∧
      (r.matchtype = MatchType.eNoMatch ↔ scanHits r.log = []) ∧
      (r.matchtype = MatchType.eFullMatch ↔ IsFullScan toyScanEnv toyMD5 scanCandidate r) ∧
      (r.matchtype = MatchType.ePartialMatch ↔
        scanHits r.log ≠ [] ∧ ¬ IsFullScan toyScanEnv toyMD5 scanCandidate r) := by
  have hev : (ScanDataFile toyScanEnv toyMD5 3 scanRepairer scanCandidate none [] [] 0).map
      (fun r => (r.1, r.2.matchtype, r.2.log)) =
      some (true, MatchType.eFullMatch, [ScanStep.hit 0 0, ScanStep.hit 4 1]) := by decide
  refine ⟨hev, ?_⟩
  cases hp : ScanDataFile toyScanEnv toyMD5 3 scanRepairer scanCandidate none [] [] 0 with
  | none =>
    rw [hp] at hev
    exact absurd hev (by simp)
  | some res =>
    obtain ⟨ok, r⟩ := res
    rw [hp] at hev
    have hok : ok = true := congrArg (fun x => x.1) (Option.some.inj hev)
    have hlog : r.log = [ScanStep.hit 0 0, ScanStep.hit 4 1] :=
      congrArg (fun x => x.2.2) (Option.some.inj hev)
    subst hok
    exact ⟨r, rfl, ScanDataFile_classification toyScanEnv toyMD5 3 scanRepairer scanCandidate
      none [] [] 0 r (by decide) (by decide) hp (by rw [hlog]; decide)⟩

/-- C20: for a candidate file of size zero `ScanDataFile` returns true with
match type `eNoMatch`, whatever the fuel; the repairer (block locations,
source files and counters) and the caller's `sourcefile`, `hashfull`,
`hash16k` and `count` are as they were, no turn of the scan loop is made, and
no call is made to a checksummer of the file. -/
theorem ScanDataFile_empty_file (env : ScanEnv) (md5 : MD5Function) (fuel : Nat) (s : Par2Repairer)
    (diskfile : DiskFile) (sourcefile : Option MD5Hash) (hashfull hash16k : MD5Hash)
    (count : Nat) (hsize : diskfile.FileSize = 0) :
    ∃ r, ScanDataFile env md5 fuel s diskfile sourcefile hashfull hash16k count =
        some (true, r) ∧
      r.matchtype = MatchType.eNoMatch ∧ r.s = s ∧ r.sourcefile = sourcefile ∧
      r.hashfull = hashfull ∧ r.hash16k = hash16k ∧ r.count = count ∧
      r.log = [] ∧ r.accesses = [] := by
  unfold ScanDataFile
  simp only [if_pos hsize]
  exact ⟨_, rfl, rfl, rfl, rfl, rfl, rfl, rfl, rfl, rfl⟩

theorem ScanDataFile_empty_file_witness :
    emptyCandidate.FileSize = 0 ∧
    ∃ r, ScanDataFile toyScanEnv toyMD5 0 scanRepairer emptyCandidate none [] [] 7 =
        some (true, r) ∧
      r.matchtype = MatchType.eNoMatch ∧ r.s = scanRepairer ∧ r.sourcefile = none ∧
      r.hashfull = [] ∧ r.hash16k = [] ∧ r.count = 7 ∧
      r.log = [] ∧ r.accesses = [] :=
  ⟨rfl, ScanDataFile_empty_file toyScanEnv toyMD5 0 scanRepairer emptyCandidate none [] [] 7 rfl⟩

end Par2Repairer

/-! ## Writing through a data block -/

namespace DataBlock

/-- C30: `WriteData(position, size, buffer, wrote)` on a block
`(file, offset, length)` that lies in the 64-bit offset range, with
`h = min(size, length - position)`.  When `position < length`, exactly one
write is issued, of the first `h` bytes of the buffer at file offset
`offset + position`, and its range lies inside `[offset, offset + length)`; the
call returns true exactly when that write succeeds, then with the file as the
write left it and `wrote = h`, and it returns false with `wrote = 0` when the
write fails.  When `position >= length` no write is issued, the file is
unchanged, `wrote = 0` and the call returns true. -/
theorem WriteData_spec (b : DataBlock) (file : DiskFile) (position size : Nat)
    (buffer : List Byte) (hrange : b.offset + b.length ≤ U64) :
    (position < b.length →
      (b.WriteData file position size buffer).2.2 =
          [(b.offset + position, min size (b.length - position))] ∧
      b.offset ≤ b.offset + position ∧
      b.offset + position + min size (b.length - position) ≤ b.offset + b.length ∧
      (∀ written, (b.WriteData file position size buffer).1 = some written →
        file.Write (b.offset + position) (buffer.take (min size (b.length - position))) =
          some written ∧
        (b.WriteData file position size buffer).2.1 = min size (b.length - position)) ∧
      ((b.WriteData file position size buffer).1 = none ↔
        file.Write (b.offset + position) (buffer.take (min size (b.length - position))) =
          none) ∧
      ((b.WriteData file position size buffer).1 = none →
        (b.WriteData file position size buffer).2.1 = 0)) ∧
    (b.length ≤ position → b.WriteData file position size buffer = (some file, 0, [])) := by
  constructor
  · intro hpos
    have hmod : (b.offset + position) % U64 = b.offset + position :=
      Nat.mod_eq_of_lt (by omega)
    have hgt : b.length > position := hpos
    cases hwrite : file.Write (b.offset + position)
        (buffer.take (min size (b.length - position))) with
    | none =>
      simp only [WriteData, hgt, hmod, hwrite, if_true]
      refine ⟨trivial, by omega, by omega, ?_, ?_, ?_⟩
      · intro written h
        exact absurd h (by simp)
      · simp
      · intro _
        trivial
    | some written =>
      simp only [WriteData, hgt, hmod, hwrite, if_true]
      refine ⟨trivial, by omega, by omega, ?_, ?_, ?_⟩
      · intro w h
        exact ⟨h, trivial⟩
      · simp
      · intro h
        exact absurd h (by simp)
  · intro hpos
    have hgt : ¬ b.length > position := by omega
    simp only [WriteData, hgt, if_false]

theorem WriteData_spec_witness :
    ((1 : Nat) < 3 →
      (WriteData { diskfile := some "a", offset := 1, length := 3 }
          { content := [1, 2, 3, 4, 5] } 1 4 [9, 8, 7, 6]).2.2 = [(1 + 1, min 4 (3 - 1))]) ∧
    ((WriteData { diskfile := some "a", offset := 1, length := 3 }
        { content := [1, 2, 3, 4, 5] } 1 4 [9, 8, 7, 6]).1.map (fun f => f.content),
      (WriteData { diskfile := some "a", offset := 1, length := 3 }
        { content := [1, 2, 3, 4, 5] } 1 4 [9, 8, 7, 6]).2.1) =
      (some [1, 2, 9, 8, 5], 2) :=
  ⟨fun h => ((WriteData_spec { diskfile := some "a", offset := 1, length := 3 }
      { content := [1, 2, 3, 4, 5] } 1 4 [9, 8, 7, 6] (by decide)).1 h).1, by decide⟩

end DataBlock

/-! ## The packet scan that does not end -/

namespace Par2Repairer

theorem scanPackets_wrapFile_none (ld : PacketLoaders) (md5 : MD5Function)
    (hmd5 : md5.hash (List.replicate 16 0 ++ creatorpacket_type) = exampleDigest) :
    ∀ (fuel : Nat) (st : Par2Repairer × Nat),
      scanPackets ld md5 wrapFile 68 fuel 0 st = none := by
  intro fuel
  induction fuel with
  | zero => intro st; rfl
  | succ fuel ih =>
    intro st
    rw [scanPackets_wrapFile_step ld md5 hmd5]
    exact ih _

/-- C26: on the 68-byte file `wrapFile` the packet scan loop of
`LoadPacketsFromFile` does not terminate.  The turn that starts at offset 0
validates the header found at offset 4, whose length field is `2 ^ 64 - 4`;
the new offset is the 64-bit sum `4 + length`, which is 0: the offset has not
increased, the loop is where it started, and neither the loop nor
`LoadPacketsFromFile` returns for any amount of fuel. -/
theorem packet_scan_does_not_terminate (ld : PacketLoaders) (md5 : MD5Function)
    (hmd5 : md5.hash (List.replicate 16 0 ++ creatorpacket_type) = exampleDigest) :
    (4 + wrapHeader.length) % U64 = 0
    ∧ (∀ (fuel : Nat) (st : Par2Repairer × Nat),
        scanPackets ld md5 wrapFile 68 (fuel + 1) 0 st =
          scanPackets ld md5 wrapFile 68 fuel ((4 + wrapHeader.length) % U64)
            (acceptPacket ld st wrapFile 4 wrapHeader))
    ∧ (∀ (fuel : Nat) (st : Par2Repairer × Nat),
        scanPackets ld md5 wrapFile 68 fuel 0 st = none)
    ∧ (∀ (fuel : Nat) (s : Par2Repairer), "wrap.par2" ∉ s.diskFileMap →
        LoadPacketsFromFile ld md5 exampleFS fuel s "wrap.par2" = none) := by
  have hnext : (4 + wrapHeader.length) % U64 = 0 := by decide
  refine ⟨hnext, ?_, scanPackets_wrapFile_none ld md5 hmd5, ?_⟩
  · intro fuel st
    rw [hnext]
    exact scanPackets_wrapFile_step ld md5 hmd5 fuel st
  · intro fuel s hs
    have hfs : exampleFS "wrap.par2" = some wrapFile := by simp [exampleFS]
    have hsize : wrapFile.FileSize > 0 := by decide
    have hbuf : min (1024 * 1024 * 10) wrapFile.FileSize = 68 := by decide
    unfold LoadPacketsFromFile
    rw [if_neg hs, hfs]
    dsimp only
    rw [if_pos hsize, hbuf, scanPackets_wrapFile_none ld md5 hmd5]

theorem packet_scan_does_not_terminate_witness :
    toyMD5.hash (List.replicate 16 0 ++ creatorpacket_type) = exampleDigest
    ∧ LoadPacketsFromFile creatorOnlyLoaders toyMD5 exampleFS 1000 {} "wrap.par2" = none :=
  ⟨rfl, (packet_scan_does_not_terminate creatorOnlyLoaders toyMD5 rfl).2.2.2 1000 {}
    (by decide)⟩

end Par2Repairer

/-! ## The root name used by `LoadPacketsFromOtherFiles` -/

namespace Par2Repairer

theorem splitLastDot_of_not_mem (name : List Char) (h : '.' ∉ name) : splitLastDot name = none := by
  induction name with
  | nil => rfl
  | cons ch rest ih =>
    rw [List.mem_cons, not_or] at h
    simp only [splitLastDot, ih h.2]
    rw [if_neg (fun e => h.1 e.symm)]

theorem splitLastDot_append (base tail : List Char) (h : '.' ∉ tail) :
    splitLastDot (base ++ '.' :: tail) = some (base, tail) := by
  induction base with
  | nil =>
    simp only [List.nil_append, splitLastDot, splitLastDot_of_not_mem tail h]
    simp
  | cons ch rest ih =>
    rw [List.cons_append, splitLastDot, ih]

theorem splitLastDot_some (name before tail : List Char)
    (h : splitLastDot name = some (before, tail)) : name = before ++ '.' :: tail := by
  induction name generalizing before tail with
  | nil => exact absurd h (by simp [splitLastDot])
  | cons ch rest ih =>
    unfold splitLastDot at h
    cases hr : splitLastDot rest with
    | some r =>
      obtain ⟨b, t⟩ := r
      rw [hr] at h
      simp only [Option.some.injEq, Prod.mk.injEq] at h
      rw [← h.1, ← h.2, List.cons_append, ← ih b t hr]
    | none =>
      rw [hr] at h
      by_cases hc : ch = '.'
      · rw [if_pos hc] at h
        simp only [Option.some.injEq, Prod.mk.injEq] at h
        rw [← h.1, ← h.2, hc]
        rfl
      · rw [if_neg hc] at h
        exact absurd h (by simp)

theorem trimToPar2_fuel : ∀ (f1 f2 : Nat) (name : List Char), name.length ≤ f1 →
    name.length ≤ f2 → trimToPar2 f1 name = trimToPar2 f2 name := by
  intro f1
  induction f1 with
  | zero =>
    intro f2 name h1 _
    have hn : name = [] := List.length_eq_zero.mp (by omega)
    subst hn
    cases f2 <;> rfl
  | succ f1 ih =>
    intro f2 name h1 h2
    cases f2 with
    | zero =>
      have hn : name = [] := List.length_eq_zero.mp (by omega)
      subst hn
      rfl
    | succ f2 =>
      unfold trimToPar2
      cases hs : splitLastDot name with
      | none => rfl
      | some r =>
        obtain ⟨b, t⟩ := r
        have hname := splitLastDot_some name b t hs
        have hlen : b.length < name.length := by
          rw [hname, List.length_append, List.length_cons]
          omega
        simp only
        split
        · rfl
        · exact ih f2 b (by omega) (by omega)

theorem not_mem_of_par2 (ext : List Char) (h : ext.map Char.toLower = "par2".data) :
    '.' ∉ ext := by
  intro hm
  have : Char.toLower '.' ∈ ext.map Char.toLower := List.mem_map_of_mem _ hm
  rw [h] at this
  revert this
  decide

end Par2Repairer

namespace Par2Repairer

theorem trimPar2_of_not_mem (name : List Char) (h : '.' ∉ name) : trimPar2 name = name := by
  unfold trimPar2
  cases hl : name.length with
  | zero => rfl
  | succ n => simp only [trimToPar2, splitLastDot_of_not_mem name h]

theorem trimPar2_par2 (base ext : List Char) (h : ext.map Char.toLower = "par2".data) :
    trimPar2 (base ++ '.' :: ext) = base := by
  unfold trimPar2
  rw [List.length_append, List.length_cons, ← Nat.add_assoc]
  simp only [trimToPar2, splitLastDot_append base ext (not_mem_of_par2 ext h), h, if_true]

theorem trimPar2_other (base ext : List Char) (hdot : '.' ∉ ext)
    (h : ext.map Char.toLower ≠ "par2".data) :
    trimPar2 (base ++ '.' :: ext) = trimPar2 base := by
  unfold trimPar2
  rw [List.length_append, List.length_cons, ← Nat.add_assoc]
  simp only [trimToPar2, splitLastDot_append base ext hdot, h, if_false]
  exact trimToPar2_fuel _ _ base (by omega) (le_refl _)

end Par2Repairer

namespace Par2Repairer

theorem volScan_four (digits : List Char) :
    volScan 4 digits = true ↔ digits.all Char.isDigit = true := by
  induction digits with
  | nil => simp [volScan]
  | cons ch rest ih =>
    by_cases hd : ch.isDigit = true
    · simp [volScan, hd, ih]
    · simp [volScan, hd]

theorem dropWhile_digits (digits rest : List Char) (sign : Char)
    (hd : digits.all Char.isDigit = true) (hs : sign.isDigit = false) :
    (digits ++ sign :: rest).dropWhile Char.isDigit = sign :: rest := by
  induction digits with
  | nil => simp [List.dropWhile, hs]
  | cons ch more ih =>
    rw [List.all_cons, Bool.and_eq_true] at hd
    simp [List.dropWhile, hd.1, ih hd.2]

theorem volScan_three_of_form (rest : List Char)
    (h : (match rest.dropWhile Char.isDigit with
        | sign :: digits => (decide (sign = '+') || decide (sign = '-')) && digits.all Char.isDigit
        | [] => false) = true) :
    volScan 3 rest = true := by
  induction rest with
  | nil => rfl
  | cons ch more ih =>
    by_cases hd : ch.isDigit = true
    · have hdrop : (ch :: more).dropWhile Char.isDigit = more.dropWhile Char.isDigit := by
        simp [List.dropWhile, hd]
      rw [hdrop] at h
      simp [volScan, hd, ih h]
    · have hdrop : (ch :: more).dropWhile Char.isDigit = ch :: more := by
        simp [List.dropWhile, hd]
      rw [hdrop] at h
      simp only [Bool.and_eq_true, Bool.or_eq_true, decide_eq_true_eq] at h
      have hsign : ch = '-' ∨ ch = '+' := h.1.symm
      simp [volScan, hd, hsign, (volScan_four more).mpr h.2]

theorem volScan_of_isVolForm (seg : List Char) (h : isVolForm seg = true) :
    volScan 0 seg = true := by
  match seg, h with
  | v :: o :: l :: rest, h =>
    simp only [isVolForm, Bool.and_eq_true, decide_eq_true_eq] at h
    obtain ⟨⟨⟨hv, ho⟩, hl⟩, hrest⟩ := h
    simp [volScan, hv, ho, hl, volScan_three_of_form rest hrest]

theorem volScan_three_prefix (rest : List Char) (h : volScan 3 rest = true) :
    ∃ more, (match (rest ++ more).dropWhile Char.isDigit with
        | sign :: digits => (decide (sign = '+') || decide (sign = '-')) && digits.all Char.isDigit
        | [] => false) = true := by
  induction rest with
  | nil => exact ⟨['+'], by decide⟩
  | cons ch tail ih =>
    by_cases hd : ch.isDigit = true
    · simp only [volScan, hd, if_true] at h
      simp only [OfNat.ofNat_ne_zero, OfNat.ofNat_ne_one, if_false] at h
      obtain ⟨more, hm⟩ := ih (by simpa using h)
      refine ⟨more, ?_⟩
      have hdrop : (ch :: tail ++ more).dropWhile Char.isDigit =
          (tail ++ more).dropWhile Char.isDigit := by
        simp [List.dropWhile, hd]
      rw [hdrop]
      exact hm
    · have hd2 : ch.isDigit = false := by simpa using hd
      by_cases hsign : ch = '-' ∨ ch = '+'
      · have h4 : volScan 4 tail = true := by
          simpa [volScan, hd2, hsign] using h
        refine ⟨[], ?_⟩
        have hdrop : (ch :: tail ++ []).dropWhile Char.isDigit = ch :: tail := by
          simp [List.dropWhile, hd2]
        rw [hdrop]
        simp only [Bool.and_eq_true, Bool.or_eq_true, decide_eq_true_eq]
        exact ⟨hsign.symm, (volScan_four tail).mp h4⟩
      · simp [volScan, hd2, hsign] at h

theorem isVolPrefix_of_volScan (seg : List Char) (h : volScan 0 seg = true) :
    IsVolPrefix seg := by
  match seg, h with
  | [], _ => exact ⟨"vol+".data, by decide⟩
  | [v], h =>
    have hv : v.toLower = 'v' := by
      by_contra hv
      simp [volScan, hv] at h
    exact ⟨"ol+".data, by simp [isVolForm, hv]⟩
  | [v, o], h =>
    have hv : v.toLower = 'v' := by
      by_contra hv
      simp [volScan, hv] at h
    have ho : o.toLower = 'o' := by
      by_contra ho
      simp [volScan, hv, ho] at h
    exact ⟨"l+".data, by simp [isVolForm, hv, ho]⟩
  | v :: o :: l :: rest, h =>
    have hv : v.toLower = 'v' := by
      by_contra hv
      simp [volScan, hv] at h
    have ho : o.toLower = 'o' := by
      by_contra ho
      simp [volScan, hv, ho] at h
    have hl : l.toLower = 'l' := by
      by_contra hl
      simp [volScan, hv, ho, hl] at h
    have h3 : volScan 3 rest = true := by
      simpa [volScan, hv, ho, hl] using h
    obtain ⟨more, hm⟩ := volScan_three_prefix rest h3
    refine ⟨more, ?_⟩
    simp only [List.cons_append, isVolForm, hv, ho, hl, decide_True, Bool.true_and]
    exact hm

theorem not_mem_of_volScan : ∀ (n : Nat) (seg : List Char), n ≤ 4 → volScan n seg = true →
    '.' ∉ seg := by
  intro n seg
  induction seg generalizing n with
  | nil => intro _ _; simp
  | cons ch rest ih =>
    intro hn h
    rw [List.mem_cons, not_or]
    have hne : ¬ '.' = ch := by
      intro e
      subst e
      unfold volScan at h
      have h0 : Char.toLower '.' ≠ 'v' := by decide
      have h1 : Char.toLower '.' ≠ 'o' := by decide
      have h2 : Char.toLower '.' ≠ 'l' := by decide
      have h3 : Char.isDigit '.' = false := by decide
      have h4 : ¬ ('.' = '-' ∨ '.' = '+') := by decide
      simp only [h0, h1, h2, h3, h4, if_false] at h
      split at h
      · exact absurd h (by simp)
      · split at h
        · exact absurd h (by simp)
        · split at h
          · exact absurd h (by simp)
          · split at h
            · simp at h
            · split at h
              · simp at h
              · omega
    refine ⟨hne, ?_⟩
    unfold volScan at h
    split at h
    · split at h
      · exact ih 1 (by omega) h
      · exact absurd h (by simp)
    · split at h
      · split at h
        · exact ih 2 (by omega) h
        · exact absurd h (by simp)
      · split at h
        · split at h
          · exact ih 3 (by omega) h
          · exact absurd h (by simp)
        · split at h
          · split at h
            · exact ih 3 (by omega) h
            · split at h
              · exact ih 4 (by omega) h
              · exact absurd h (by simp)
          · split at h
            · split at h
              · exact ih 4 (by omega) h
              · exact absurd h (by simp)
            · omega

theorem stripVol_of_not_mem (name : List Char) (h : '.' ∉ name) : stripVol name = name := by
  simp only [stripVol, splitLastDot_of_not_mem name h]

theorem stripVol_volForm (base seg : List Char) (h : isVolForm seg = true) :
    stripVol (base ++ '.' :: seg) = base := by
  have hscan := volScan_of_isVolForm seg h
  simp only [stripVol, splitLastDot_append base seg (not_mem_of_volScan 0 seg (by omega) hscan),
    hscan, if_true]

theorem stripVol_other (base seg : List Char) (hdot : '.' ∉ seg) (h : ¬ IsVolPrefix seg) :
    stripVol (base ++ '.' :: seg) = base ++ '.' :: seg := by
  have hscan : volScan 0 seg = false := by
    cases hs : volScan 0 seg with
    | false => rfl
    | true => exact absurd (isVolPrefix_of_volScan seg hs) h
  simp [stripVol, splitLastDot_append base seg hdot, hscan]

end Par2Repairer

namespace Par2Repairer

theorem not_mem_of_splitLastDot_none (name : List Char) (h : splitLastDot name = none) :
    '.' ∉ name := by
  induction name with
  | nil => simp
  | cons ch rest ih =>
    unfold splitLastDot at h
    cases hr : splitLastDot rest with
    | some found =>
      rw [hr] at h
      exact absurd h (by simp)
    | none =>
      rw [hr] at h
      simp only at h
      split at h
      · exact absurd h (by simp)
      · rename_i hch
        rw [List.mem_cons, not_or]
        exact ⟨fun e => hch e.symm, ih hr⟩

theorem splitLastDot_tail (name before tail : List Char)
    (h : splitLastDot name = some (before, tail)) : '.' ∉ tail := by
  induction name generalizing before tail with
  | nil => exact absurd h (by simp [splitLastDot])
  | cons ch rest ih =>
    unfold splitLastDot at h
    cases hr : splitLastDot rest with
    | some found =>
      rw [hr] at h
      simp only [Option.some.injEq, Prod.mk.injEq] at h
      rw [← h.2]
      exact ih found.1 found.2 hr
    | none =>
      rw [hr] at h
      simp only at h
      split at h
      · simp only [Option.some.injEq, Prod.mk.injEq] at h
        rw [← h.2]
        exact not_mem_of_splitLastDot_none rest hr
      · exact absurd h (by simp)

/-- The second step removes nothing, or the final dot-segment with its dot. -/
theorem stripVol_cases (name : List Char) :
    stripVol name = name ∨ ∃ seg, '.' ∉ seg ∧ name = stripVol name ++ '.' :: seg := by
  unfold stripVol
  cases hs : splitLastDot name with
  | none => exact Or.inl rfl
  | some found =>
    obtain ⟨before, tail⟩ := found
    simp only
    split
    · exact Or.inr ⟨tail, splitLastDot_tail name before tail hs,
        splitLastDot_some name before tail hs⟩
    · exact Or.inl rfl

/-- The scan of lines 806-830 has no check that it ended after the sign: a
final segment that is only the beginning of the vol form is cut off as well. -/
theorem rootName_of_vol_beginning :
    rootName "backup.v.par2" = "backup" ∧ rootName "backup.vol12.par2" = "backup" := by
  decide

/-- C22 (as the code has it): the root name is made in two steps.  First the
trailing dot-segments of the name are removed, last one first, up to and
including the first one met that is `par2` in any case of letters: a name
without a dot is its own root name, a name `base.ext` with `ext` equal to
`par2` goes on to the second step as `base`, and a name `base.ext` with another
`ext` has the root name of `base`.  The second step removes at most the final
dot-segment of what is left: a name without a dot is kept, the final
dot-segment is removed when it has the form `vol`, digits, sign, digits, and
it is left in place when it is not even the beginning of such a form. -/
theorem rootName_spec :
    (∀ name : List Char, '.' ∉ name → rootName (String.mk name) = String.mk name) ∧
    (∀ base ext : List Char, ext.map Char.toLower = "par2".data →
      rootName (String.mk (base ++ '.' :: ext)) = String.mk (stripVol base)) ∧
    (∀ base ext : List Char, '.' ∉ ext → ext.map Char.toLower ≠ "par2".data →
      rootName (String.mk (base ++ '.' :: ext)) = rootName (String.mk base)) ∧
    (∀ name : List Char, '.' ∉ name → stripVol name = name) ∧
    (∀ base seg : List Char, isVolForm seg = true → stripVol (base ++ '.' :: seg) = base) ∧
    (∀ base seg : List Char, '.' ∉ seg → ¬ IsVolPrefix seg →
      stripVol (base ++ '.' :: seg) = base ++ '.' :: seg) ∧
    (∀ name : List Char,
      stripVol name = name ∨ ∃ seg, '.' ∉ seg ∧ name = stripVol name ++ '.' :: seg) := by
  refine ⟨?_, ?_, ?_, stripVol_of_not_mem, stripVol_volForm, stripVol_other, stripVol_cases⟩
  · intro name h
    show String.mk (stripVol (trimPar2 name)) = String.mk name
    rw [trimPar2_of_not_mem name h, stripVol_of_not_mem name h]
  · intro base ext h
    show String.mk (stripVol (trimPar2 (base ++ '.' :: ext))) = String.mk (stripVol base)
    rw [trimPar2_par2 base ext h]
  · intro base ext hdot h
    show String.mk (stripVol (trimPar2 (base ++ '.' :: ext))) =
      String.mk (stripVol (trimPar2 base))
    rw [trimPar2_other base ext hdot h]

theorem rootName_spec_witness :
    rootName (String.mk ("set.vol00+01".data ++ '.' :: "PAR2".data)) =
      String.mk (stripVol "set.vol00+01".data) ∧
    stripVol ("set".data ++ '.' :: "vol00+01".data) = "set".data ∧
    stripVol ("set".data ++ '.' :: "tar".data) = "set".data ++ '.' :: "tar".data ∧
    rootName "set.vol00+01.PAR2" = "set" ∧
    rootName "set.tar.par2" = "set.tar" :=
  ⟨rootName_spec.2.1 "set.vol00+01".data "PAR2".data (by decide),
    rootName_spec.2.2.2.2.1 "set".data "vol00+01".data (by decide),
    rootName_spec.2.2.2.2.2.1 "set".data "tar".data (by decide)
      (by
        intro h
        obtain ⟨rest, hrest⟩ := h
        simp [isVolForm] at hrest),
    by decide, by decide⟩

/-- C22, the claim as stated fails: for the primary file name `set.par2.bak`
the code takes the root name `set` (it cuts off `.bak` and then `.par2`), where
the claim leaves the name as it is, because it does not end in `.par2` and
`.bak` is not a vol segment. -/
theorem rootName_differs_from_claim :
    rootName "set.par2.bak" = "set" ∧ claimedRootName "set.par2.bak" = "set.par2.bak" ∧
    rootName "set.par2.bak" ≠ claimedRootName "set.par2.bak" := by
  decide

end Par2Repairer

/-! ## The scan of a file that is considered OK -/

namespace Par2Repairer

theorem setBlockLocations_spec (filename : String) :
    ∀ (locations : List (Nat × Nat)) (first : Nat) (blocks : List DataBlock),
      first + locations.length ≤ blocks.length →
      ∃ assigned, setBlockLocations filename locations (some first) blocks = some assigned ∧
        assigned.length = blocks.length ∧
        (∀ i location, locations[i]? = some location →
          assigned[first + i]? =
            some { diskfile := some filename, offset := location.1, length := location.2 }) ∧
        (∀ j, j < first ∨ first + locations.length ≤ j → assigned[j]? = blocks[j]?) := by
  intro locations
  induction locations with
  | nil =>
    intro first blocks _
    refine ⟨blocks, rfl, rfl, ?_, fun _ _ => rfl⟩
    intro i location h
    exact absurd h (by simp)
  | cons location rest ih =>
    intro first blocks hlen
    rw [List.length_cons] at hlen
    have hfirst : first < blocks.length := by omega
    obtain ⟨assigned, hset, hl, hin, hout⟩ := ih (first + 1)
      (blocks.set first { diskfile := some filename, offset := location.1, length := location.2 })
      (by rw [List.length_set]; omega)
    refine ⟨assigned, ?_, ?_, ?_, ?_⟩
    · obtain ⟨offset, length⟩ := location
      simp only [setBlockLocations, assignAt, if_pos hfirst]
      exact hset
    · rw [hl, List.length_set]
    · intro i loc hi
      cases i with
      | zero =>
        simp only [List.getElem?_cons_zero, Option.some.injEq] at hi
        rw [Nat.add_zero, hout first (Or.inl (by omega)), ← hi]
        simp [List.getElem?_set, hfirst]
      | succ i =>
        rw [List.getElem?_cons_succ] at hi
        have := hin i loc hi
        rw [show first + (i + 1) = first + 1 + i by omega]
        exact this
    · intro j hj
      rw [hout j (by rw [List.length_cons] at hj; omega)]
      rw [List.getElem?_set_ne]
      rw [List.length_cons] at hj
      omega

theorem scanTrusted_spec (fuel : Nat) (diskfile : DiskFile) (st : ScanState)
    (fileid : MD5Hash) (sf : Par2RepairerSourceFile) (v : VerificationPacket)
    (d : DescriptionPacket) (first : Nat)
    (hsource : st.sourcefile = some fileid)
    (hfind : sfFind fileid st.s.sourcefilemap = some sf)
    (hv : sf.verificationpacket = some v) (hd : sf.descriptionpacket = some d)
    (hfirst : sf.sourceblocks = some first)
    (hblocks : first + ceilBlocks d.filesize st.s.blocksize ≤ st.s.sourceblocks.length)
    (hB : 0 < st.s.blocksize)
    (hfit : ceilBlocks d.filesize st.s.blocksize * st.s.blocksize < U64)
    (hfuel : ceilBlocks d.filesize st.s.blocksize < fuel) :
    ∃ assigned,
      scanTrusted fuel diskfile st =
        some { st with
          matchtype := MatchType.eFullMatch
          count := v.blockcount
          hashfull := d.hashfull
          hash16k := d.hash16k
          s := { st.s with sourceblocks := assigned } } ∧
      assigned.length = st.s.sourceblocks.length ∧
      (∀ i, i < ceilBlocks d.filesize st.s.blocksize →
        assigned[first + i]? =
          some { diskfile := some diskfile.filename, offset := i * st.s.blocksize,
                 length := min st.s.blocksize (d.filesize - i * st.s.blocksize) }) ∧
      (∀ j, j < first ∨ first + ceilBlocks d.filesize st.s.blocksize ≤ j →
        assigned[j]? = st.s.sourceblocks[j]?) := by
  have hloc := assignBlockLocations_aux st.s.blocksize d.filesize hB hfit fuel 0
    (Nat.zero_le _) (by omega)
  rw [Nat.zero_mul, Nat.sub_zero] at hloc
  obtain ⟨assigned, hset, hl, hin, hout⟩ := setBlockLocations_spec diskfile.filename
    ((List.range' 0 (ceilBlocks d.filesize st.s.blocksize)).map
      (fun i => (i * st.s.blocksize, min st.s.blocksize (d.filesize - i * st.s.blocksize))))
    first st.s.sourceblocks (by simpa using hblocks)
  refine ⟨assigned, ?_, hl, ?_, ?_⟩
  · unfold scanTrusted
    simp only [hsource, Option.some_bind, hfind, hv, hd, hloc, hfirst, hset]
  · intro i hi
    have := hin i (i * st.s.blocksize, min st.s.blocksize (d.filesize - i * st.s.blocksize))
      (by simp [List.getElem?_map, List.getElem?_range', hi])
    exact this
  · intro j hj
    exact hout j (by simpa using hj)

/-- C21 (as the code has it): let the candidate be considered OK and not empty,
let the preferred source file have both packets and a range of
`ceil(filesize / blocksize)` source blocks in the vector, and let the block
size be above 0 and the block offsets stay inside 64 bits
(`ceil(filesize / blocksize) * blocksize < 2 ^ 64`).  Then, with fuel for the
location loop, `ScanDataFile` returns true without a call to a
checksummer of the candidate; source block `i` of the file gets the location
`(candidate, i * blocksize)` and the length `min(blocksize, filesize - i *
blocksize)` for every `i < ceil(filesize / blocksize)`, `filesize` being the
size in the description packet, and nothing else in the repairer changes; and
the match type is `eFullMatch` exactly when the verification packet lists at
least one block and the size of the candidate on disk is the size in the
description packet, `ePartialMatch` when it lists a block and the sizes differ,
and `eNoMatch` when it lists no block. -/
theorem ScanDataFile_trusted (env : ScanEnv) (md5 : MD5Function) (fuel : Nat)
    (s : Par2Repairer) (diskfile : DiskFile) (fileid : MD5Hash)
    (sf : Par2RepairerSourceFile) (v : VerificationPacket) (d : DescriptionPacket)
    (first : Nat) (hashfull hash16k : MD5Hash) (count : Nat)
    (hsize : diskfile.FileSize ≠ 0) (htrusted : env.FileConsideredOK diskfile = true)
    (hfind : sfFind fileid s.sourcefilemap = some sf)
    (hv : sf.verificationpacket = some v) (hd : sf.descriptionpacket = some d)
    (hfirst : sf.sourceblocks = some first)
    (hblocks : first + ceilBlocks d.filesize s.blocksize ≤ s.sourceblocks.length)
    (hB : 0 < s.blocksize)
    (hfit : ceilBlocks d.filesize s.blocksize * s.blocksize < U64)
    (hfuel : ceilBlocks d.filesize s.blocksize < fuel) :
    ∃ r, ScanDataFile env md5 fuel s diskfile (some fileid) hashfull hash16k count =
        some (true, r) ∧
      r.accesses = [] ∧ r.log = [] ∧
      r.s = { s with sourceblocks := r.s.sourceblocks } ∧
      r.s.sourceblocks.length = s.sourceblocks.length ∧
      (∀ i, i < ceilBlocks d.filesize s.blocksize →
        r.s.sourceblocks[first + i]? =
          some { diskfile := some diskfile.filename, offset := i * s.blocksize,
                 length := min s.blocksize (d.filesize - i * s.blocksize) }) ∧
      (∀ j, j < first ∨ first + ceilBlocks d.filesize s.blocksize ≤ j →
        r.s.sourceblocks[j]? = s.sourceblocks[j]?) ∧
      (r.matchtype = MatchType.eFullMatch ↔
        0 < v.blockcount ∧ diskfile.FileSize = d.filesize) ∧
      (r.matchtype = MatchType.ePartialMatch ↔
        0 < v.blockcount ∧ diskfile.FileSize ≠ d.filesize) ∧
      (r.matchtype = MatchType.eNoMatch ↔ v.blockcount = 0) := by
  obtain ⟨assigned, hscan, hl, hin, hout⟩ := scanTrusted_spec fuel diskfile
    { s := s, sourcefile := some fileid, matchtype := MatchType.eNoMatch, hashfull := hashfull,
      hash16k := hash16k, count := count } fileid sf v d first rfl hfind hv hd hfirst hblocks
    hB hfit hfuel
  unfold ScanDataFile
  simp only [if_neg hsize, htrusted, if_true, hscan]
  unfold classifyScan
  simp only [Option.some_bind, hfind, hv, hd, ne_eq, not_true_eq_false, if_false]
  by_cases hcount : v.blockcount > 0
  · by_cases hfs : diskfile.FileSize = d.filesize
    · refine ⟨_, by simp [hcount, hfs]; rfl, ?_⟩
      refine ⟨rfl, rfl, rfl, hl, hin, hout, ?_, ?_, ?_⟩
      · simp [hcount, hfs]
      · simp [hcount, hfs]
      · simp; omega
    · refine ⟨_, by simp [hcount, hfs]; rfl, ?_⟩
      refine ⟨rfl, rfl, rfl, hl, hin, hout, ?_, ?_, ?_⟩
      · simp [hcount, hfs]
      · simp [hcount, hfs]
      · simp; omega
  · refine ⟨_, by simp [hcount]; rfl, ?_⟩
    refine ⟨rfl, rfl, rfl, hl, hin, hout, ?_, ?_, ?_⟩
    · simp; omega
    · simp; omega
    · simp; omega

theorem ScanDataFile_trusted_witness :
    ∃ r, ScanDataFile trustingScanEnv toyMD5 3 allocatedRepairer scanCandidate
        (some (List.replicate 16 1)) [] [] 0 = some (true, r) ∧
      r.accesses = [] ∧
      r.s.sourceblocks[0]? = some { diskfile := some "a.dat", offset := 0, length := 4 } ∧
      r.s.sourceblocks[1]? = some { diskfile := some "a.dat", offset := 4, length := 4 } ∧
      r.matchtype = MatchType.eFullMatch := by
  obtain ⟨r, h, hacc, _, _, _, hin, _, hfull, _, _⟩ :=
    ScanDataFile_trusted trustingScanEnv toyMD5 3 allocatedRepairer scanCandidate
      (List.replicate 16 1)
      { descriptionpacket := some
          { fileid := List.replicate 16 1, hashfull := exampleDigest,
            hash16k := exampleDigest, filesize := 8, filename := "a.dat" }
        verificationpacket := some { fileid := List.replicate 16 1, blockcount := 2 }
        blockcount := 2
        sourceblocks := some 0
        targetblocks := some 0 }
      { fileid := List.replicate 16 1, blockcount := 2 }
      { fileid := List.replicate 16 1, hashfull := exampleDigest,
        hash16k := exampleDigest, filesize := 8, filename := "a.dat" }
      0 [] [] 0 (by decide) rfl (by decide) rfl rfl rfl (by decide) (by decide) (by decide)
      (by decide)
  exact ⟨r, h, hacc, hin 0 (by decide), hin 1 (by decide), hfull.mpr ⟨by decide, by decide⟩⟩

/-- C21, the claim as stated fails: the 3-byte candidate `a.dat` is considered
OK and is scanned for the source file whose description packet gives the size
8.  `ScanDataFile` reads nothing and gives the two source blocks the locations
`(a.dat, 0)` and `(a.dat, 4)` with length 4, but the size on disk differs from
the size in the description packet and the match type returned is
`ePartialMatch`, not `eFullMatch`. -/
theorem ScanDataFile_trusted_partial_match :
    (ScanDataFile trustingScanEnv toyMD5 3 allocatedRepairer shortCandidate
        (some (List.replicate 16 1)) [] [] 0).map
      (fun r => (r.1, r.2.matchtype, r.2.s.sourceblocks, r.2.accesses)) =
    some (true, MatchType.ePartialMatch,
      [{ diskfile := some "a.dat", offset := 0, length := 4 },
       { diskfile := some "a.dat", offset := 4, length := 4 }], []) := by
  decide

end Par2Repairer

/-! ## The verification of a data file -/

namespace Par2Repairer

theorem take_append_take_drop (content : List Byte) (offset k : Nat) :
    content.take offset ++ (content.drop offset).take k = content.take (offset + k) := by
  rw [List.take_add]

/-- The hashing loop of `VerifyDataFile` on a file that is read without errors,
with a buffer of at least one byte: it ends, the context has been fed the whole
content, and `hash16k` is the MD5 of the first 16384 bytes when the file has
that many (wherever the boundaries of the reads fall) and is left as it was
otherwise. -/
theorem hashFileLoop_spec (md5 : MD5Function) (diskfile : DiskFile) (buffersize : Nat)
    (hio : ∀ o n, diskfile.ioOk o n = true) (hbuf : 0 < buffersize) :
    ∀ (fuel offset : Nat) (hash16k : MD5Hash), offset ≤ diskfile.FileSize →
      diskfile.FileSize - offset < fuel →
      hashFileLoop md5 diskfile buffersize fuel offset (diskfile.content.take offset) hash16k =
        some (some (diskfile.content,
          if offset < 16384 ∧ 16384 ≤ diskfile.FileSize then
            md5.hash (diskfile.content.take 16384)
          else hash16k)) := by
  intro fuel
  induction fuel with
  | zero =>
    intro offset hash16k _ h
    omega
  | succ fuel ih =>
    intro offset hash16k hle hfuel
    unfold hashFileLoop
    by_cases hlt : offset < diskfile.FileSize
    · rw [if_pos hlt]
      have hwant : offset + min buffersize (diskfile.FileSize - offset) ≤ diskfile.FileSize := by
        omega
      have hpos : 0 < min buffersize (diskfile.FileSize - offset) := by omega
      have hread : diskfile.Read offset (min buffersize (diskfile.FileSize - offset)) =
          some ((diskfile.content.drop offset).take
            (min buffersize (diskfile.FileSize - offset))) := by
        unfold DiskFile.Read
        rw [if_pos ⟨hwant, hio _ _⟩]
      simp only [hread]
      by_cases hcross : offset < 16384 ∧
          offset + min buffersize (diskfile.FileSize - offset) ≥ 16384
      · rw [if_pos hcross]
        have hc1 : diskfile.content.take offset ++
            ((diskfile.content.drop offset).take
              (min buffersize (diskfile.FileSize - offset))).take (16384 - offset) =
            diskfile.content.take 16384 := by
          rw [List.take_take, show min (16384 - offset)
            (min buffersize (diskfile.FileSize - offset)) = 16384 - offset by omega,
            take_append_take_drop, show offset + (16384 - offset) = 16384 by omega]
        have hc2 : (if offset + min buffersize (diskfile.FileSize - offset) > 16384 then
              diskfile.content.take offset ++
                ((diskfile.content.drop offset).take
                  (min buffersize (diskfile.FileSize - offset))).take (16384 - offset) ++
              (((diskfile.content.drop offset).take
                  (min buffersize (diskfile.FileSize - offset))).drop (16384 - offset)).take
                (offset + min buffersize (diskfile.FileSize - offset) - 16384)
            else
              diskfile.content.take offset ++
                ((diskfile.content.drop offset).take
                  (min buffersize (diskfile.FileSize - offset))).take (16384 - offset)) =
            diskfile.content.take (offset + min buffersize (diskfile.FileSize - offset)) := by
          rw [hc1]
          split
          · rw [List.drop_take, List.drop_drop, List.take_take,
              show offset + (16384 - offset) = 16384 by omega,
              show min (offset + min buffersize (diskfile.FileSize - offset) - 16384)
                (min buffersize (diskfile.FileSize - offset) - (16384 - offset)) =
                offset + min buffersize (diskfile.FileSize - offset) - 16384 by omega,
              take_append_take_drop,
              show 16384 + (offset + min buffersize (diskfile.FileSize - offset) - 16384) =
                offset + min buffersize (diskfile.FileSize - offset) by omega]
          · rw [show offset + min buffersize (diskfile.FileSize - offset) = 16384 by omega]
        rw [hc2, hc1, ih _ _ hwant (by omega)]
        have h1 : ¬ (offset + min buffersize (diskfile.FileSize - offset) < 16384 ∧
            16384 ≤ diskfile.FileSize) := by omega
        have h2 : offset < 16384 ∧ 16384 ≤ diskfile.FileSize := by omega
        rw [if_neg h1, if_pos h2]
      · rw [if_neg hcross, List.take_take, Nat.min_self, take_append_take_drop,
          ih _ _ hwant (by omega)]
        by_cases h2 : offset < 16384 ∧ 16384 ≤ diskfile.FileSize
        · have h1 : offset + min buffersize (diskfile.FileSize - offset) < 16384 ∧
              16384 ≤ diskfile.FileSize := by omega
          rw [if_pos h1, if_pos h2]
        · have h1 : ¬ (offset + min buffersize (diskfile.FileSize - offset) < 16384 ∧
              16384 ≤ diskfile.FileSize) := by omega
          rw [if_neg h1, if_neg h2]
    · rw [if_neg hlt]
      have he : offset = diskfile.FileSize := by omega
      have h2 : ¬ (offset < 16384 ∧ 16384 ≤ diskfile.FileSize) := by omega
      rw [if_neg h2, he]
      unfold DiskFile.FileSize
      rw [List.take_length]

theorem hashFileLoop_returns (md5 : MD5Function) (diskfile : DiskFile) (blocksize fuel : Nat)
    (hash16k : MD5Hash) (hio : ∀ o n, diskfile.ioOk o n = true) (hB : 0 < blocksize)
    (hfuel : diskfile.FileSize < fuel) :
    hashFileLoop md5 diskfile (min (1024 * 1024 * 10) (min blocksize diskfile.FileSize)) fuel 0 []
        hash16k =
      some (some (diskfile.content,
        if 16384 ≤ diskfile.FileSize then md5.hash (diskfile.content.take 16384)
        else hash16k)) := by
  by_cases hsize : diskfile.FileSize = 0
  · have hcontent : diskfile.content = [] := List.length_eq_zero.mp hsize
    cases fuel with
    | zero => omega
    | succ fuel =>
      unfold hashFileLoop
      rw [if_neg (by omega), if_neg (by omega), hcontent]
  · have h := hashFileLoop_spec md5 diskfile
      (min (1024 * 1024 * 10) (min blocksize diskfile.FileSize)) hio (by omega) fuel 0 hash16k
      (Nat.zero_le _) (by omega)
    rw [List.take_zero] at h
    rw [h]
    by_cases h16 : 16384 ≤ diskfile.FileSize
    · rw [if_pos ⟨by omega, h16⟩, if_pos h16]
    · rw [if_neg (fun hc => h16 hc.2), if_neg h16]

theorem findUnverifiable_none (s : Par2Repairer) (diskfile : DiskFile)
    (hashfull hash16k : MD5Hash) :
    ∀ files : List MD5Hash,
      (∀ fileid ∈ files, ∃ sf d, sfFind fileid s.sourcefilemap = some sf ∧
        sf.descriptionpacket = some d ∧ hashfull ≠ d.hashfull) →
      findUnverifiable s diskfile hashfull hash16k files = some none := by
  intro files
  induction files with
  | nil => intro _; rfl
  | cons fileid rest ih =>
    intro h
    obtain ⟨sf, d, hfind, hd, hne⟩ := h fileid (List.mem_cons_self _ _)
    have hrest := ih (fun f hf => h f (List.mem_cons_of_mem _ hf))
    unfold findUnverifiable
    simp only [hfind, hd]
    split
    · exact hrest
    · rw [if_neg (fun hc => hne hc.2.2)]
      exact hrest

/-- C28: in a set without verification packets (`blockverifiable` is false)
with a block size above 0, `VerifyDataFile` on a candidate that is read without
errors records no complete file, and returns true with the state unchanged,
whenever the value held by the variable `hashfull` declared at the top of the
function differs from the whole-file hash of every description packet on the
list.  That variable is never assigned on this path: the MD5 of the content is
put into a second variable of the same name, so the outcome does not depend on
the MD5 of the whole content of the candidate. -/
theorem VerifyDataFile_compares_unset_hashfull (env : ScanEnv) (md5 : MD5Function)
    (fuel : Nat) (s : Par2Repairer) (diskfile : DiskFile) (sourcefile : Option MD5Hash)
    (hashfull hash16k : MD5Hash) (count : Nat)
    (hverifiable : s.blockverifiable = false) (hB : 0 < s.blocksize)
    (hio : ∀ o n, diskfile.ioOk o n = true) (hfuel : diskfile.FileSize < fuel)
    (hfiles : ∀ fileid ∈ s.unverifiablesourcefiles, ∃ sf d,
      sfFind fileid s.sourcefilemap = some sf ∧ sf.descriptionpacket = some d ∧
      hashfull ≠ d.hashfull) :
    VerifyDataFile env md5 fuel s diskfile sourcefile hashfull hash16k count =
      some (true, s) := by
  unfold VerifyDataFile
  rw [hverifiable]
  simp only [Bool.false_eq_true, if_false]
  unfold verifyUnverifiable
  split
  · simp only [hverifiable, Bool.not_false, if_true,
      hashFileLoop_returns md5 diskfile s.blocksize fuel hash16k hio hB hfuel,
      findUnverifiable_none s diskfile hashfull _ s.unverifiablesourcefiles hfiles]
  · rfl

theorem VerifyDataFile_compares_unset_hashfull_witness :
    intactCandidate.FileSize = 4 ∧
    headMD5.hash (intactCandidate.content.take 16384) =
      [1, 2, 3, 4, 0, 0, 0, 0, 0, 0, 0, 0, 0, 0, 0, 0] ∧
    headMD5.hash intactCandidate.content = [1, 2, 3, 4, 0, 0, 0, 0, 0, 0, 0, 0, 0, 0, 0, 0] ∧
    unverifiableRepairer.sourcefilemap.map (fun e => e.2.descriptionpacket.map
        (fun d => (d.filesize, d.hash16k, d.hashfull))) =
      [some (4, [1, 2, 3, 4, 0, 0, 0, 0, 0, 0, 0, 0, 0, 0, 0, 0],
        [1, 2, 3, 4, 0, 0, 0, 0, 0, 0, 0, 0, 0, 0, 0, 0])] ∧
    VerifyDataFile toyScanEnv headMD5 5 unverifiableRepairer intactCandidate none
        (List.replicate 16 0) (List.replicate 16 0) 0 = some (true, unverifiableRepairer) ∧
    (VerifyDataFile toyScanEnv headMD5 5 unverifiableRepairer intactCandidate none
        [1, 2, 3, 4, 0, 0, 0, 0, 0, 0, 0, 0, 0, 0, 0, 0] (List.replicate 16 0) 0).map
      (fun r => r.2.sourcefilemap.map (fun e => e.2.completefile)) = some [some "b.dat"] := by
  refine ⟨by decide, by decide, by decide, by decide, ?_, by decide⟩
  exact VerifyDataFile_compares_unset_hashfull toyScanEnv headMD5 5 unverifiableRepairer
    intactCandidate none (List.replicate 16 0) (List.replicate 16 0) 0 rfl (by decide)
    (fun _ _ => rfl) (by decide)
    (by
      intro fileid hf
      have he : fileid = [7] := by simpa [unverifiableRepairer] using hf
      subst he
      exact ⟨_, _, rfl, rfl, by decide⟩)

end Par2Repairer

/-! ## The Reed-Solomon matrix -/

namespace Par2Repairer

end Par2Repairer

/-! ## The repair branch of `Process` -/

namespace Par2Repairer

theorem updateVerificationLoop_frame (s : Par2Repairer) :
    ∀ (slots : List (Option MD5Hash)) (acc r : Par2Repairer),
      updateVerificationLoop s slots acc = some r →
      r.sourcefiles = acc.sourcefiles ∧ r.mainpacket = acc.mainpacket ∧
      r.sourcefilemap = acc.sourcefilemap ∧ r.verifylist = acc.verifylist := by
  intro slots
  induction slots with
  | nil =>
    intro acc r h
    have e : acc = r := Option.some.inj h
    rw [← e]
    exact ⟨rfl, rfl, rfl, rfl⟩
  | cons slot rest ih =>
    intro acc r h
    unfold updateVerificationLoop at h
    split at h
    · split at h
      · split at h
        · (have hr := ih _ r h; exact hr)
        · (have hr := ih _ r h; exact hr)
      · split at h
        · exact absurd h (by simp)
        · split at h
          · (have hr := ih _ r h; exact hr)
          · (have hr := ih _ r h; exact hr)
    · (have hr := ih _ r h; exact hr)

theorem UpdateVerificationResults_frame (s r : Par2Repairer)
    (h : UpdateVerificationResults s = some r) :
    r.sourcefiles = s.sourcefiles ∧ r.mainpacket = s.mainpacket ∧
    r.sourcefilemap = s.sourcefilemap ∧ r.verifylist = s.verifylist := by
  unfold UpdateVerificationResults at h
  cases hl : updateVerificationLoop s (s.sourcefiles.take (TotalFileCount s))
      { s with availableblockcount := 0, missingblockcount := 0, completefilecount := 0,
               renamedfilecount := 0, damagedfilecount := 0, missingfilecount := 0 } with
  | none =>
    rw [hl] at h
    exact absurd h (by simp)
  | some q =>
    rw [hl] at h
    have e := Option.some.inj h
    have hq := updateVerificationLoop_frame s _ _ q hl
    rw [← e]
    exact hq

theorem slots_not_null_of_check (rc : Nat) (hrc : 0 < rc) (slots : List (Option MD5Hash))
    (h : checkSourceFileSlots rc slots true = true) : ∀ slot ∈ slots, slot ≠ none := by
  intro slot hslot hnull
  rw [hnull] at hslot
  rw [checkSourceFileSlots_of_null rc hrc slots hslot true] at h
  exact absurd h (by simp)

/-- The state after the scans has the slots and the main packet that
`VerifySourceFiles` looked at, and that function returned true. -/
theorem scanPhase_done_slots (env : ProcessEnv) (fuel : Nat) (par2filename : String)
    (extrafiles : List String) (s : Par2Repairer)
    (hverify : ∀ t, (env.verifyFiles t).2.sourcefiles = t.sourcefiles ∧
      (env.verifyFiles t).2.mainpacket = t.mainpacket)
    (hextra : ∀ t files, (env.verifyExtraFiles t files).sourcefiles = t.sourcefiles ∧
      (env.verifyExtraFiles t files).mainpacket = t.mainpacket)
    (hscan : scanPhase env fuel par2filename extrafiles = some (Scanned.done s)) :
    checkSourceFileSlots (RecoverableFileCount s) s.sourcefiles true = true := by
  unfold scanPhase at hscan
  split at hscan
  · exact absurd hscan (by simp)
  · rename_i loaded hload
    simp only at hscan
    split at hscan
    · exact absurd hscan (by simp)
    · split at hscan
      · exact absurd hscan (by simp)
      · split at hscan
        · exact absurd hscan (by simp)
        · split at hscan
          · exact absurd hscan (by simp)
          · rename_i hok
            generalize hprep : PrepareVerificationHashTable
              (AllocateSourceBlocks (CreateSourceFileList (CheckPacketConsistency loaded).2)) =
              prepared at hscan hok
            have hfinal : checkSourceFileSlots (RecoverableFileCount prepared)
                prepared.sourcefiles true = true := by
              unfold VerifySourceFiles at hok
              have hb : (checkSourceFileSlots (RecoverableFileCount prepared)
                  prepared.sourcefiles true && (env.verifyFiles prepared).1) = true := by
                unfold RecoverableFileCount
                simpa using hok
              exact ((Bool.and_eq_true _ _).mp hb).1
            have hv := hverify prepared
            have hvs : (VerifySourceFiles env prepared).2 = (env.verifyFiles prepared).2 := rfl
            rw [hvs] at hscan
            unfold scanExtraFiles at hscan
            cases hu : UpdateVerificationResults (env.verifyFiles prepared).2 with
            | none =>
              rw [hu] at hscan
              exact absurd hscan (by simp)
            | some s1 =>
              rw [hu] at hscan
              simp only at hscan
              have h1 := UpdateVerificationResults_frame _ s1 hu
              split at hscan
              · cases hu2 : UpdateVerificationResults (env.verifyExtraFiles s1 extrafiles) with
                | none =>
                  rw [hu2] at hscan
                  exact absurd hscan (by simp)
                | some s2 =>
                  rw [hu2] at hscan
                  simp only [Option.map_some', Option.some.injEq, Scanned.done.injEq] at hscan
                  have h2 := UpdateVerificationResults_frame _ s2 hu2
                  have he := hextra s1 extrafiles
                  have hsf : s.sourcefiles = prepared.sourcefiles := by
                    rw [← hscan, h2.1, he.1, h1.1, hv.1]
                  have hmp : s.mainpacket = prepared.mainpacket := by
                    rw [← hscan, h2.2.1, he.2, h1.2.1, hv.2]
                  unfold RecoverableFileCount at hfinal ⊢
                  rw [hsf, hmp]
                  exact hfinal
              · simp only [Option.map_some', Option.some.injEq, Scanned.done.injEq] at hscan
                have hsf : s.sourcefiles = prepared.sourcefiles := by
                  rw [← hscan, h1.1, hv.1]
                have hmp : s.mainpacket = prepared.mainpacket := by
                  rw [← hscan, h1.2.1, hv.2]
                unfold RecoverableFileCount at hfinal ⊢
                rw [hsf, hmp]
                exact hfinal

theorem renameDamagedFiles_frame (env : RepairBranchEnv) :
    ∀ (slots : List (Option MD5Hash)) (run : RepairRun) (ok : Bool) (r : RepairRun),
      renameDamagedFiles env slots run = some (ok, r) →
      r.s.sourcefiles = run.s.sourcefiles ∧ r.s.mainpacket = run.s.mainpacket ∧
      r.s.verifylist = run.s.verifylist ∧ r.s.completefilecount = run.s.completefilecount := by
  intro slots
  induction slots with
  | nil =>
    intro run ok r h
    have e := (Prod.mk.inj (Option.some.inj h)).2
    rw [← e]
    exact ⟨rfl, rfl, rfl, rfl⟩
  | cons slot rest ih =>
    intro run ok r h
    unfold renameDamagedFiles at h
    split at h
    · exact absurd h (by simp)
    · split at h
      · split at h
        · exact absurd h (by simp)
        · simp only at h
          split at h
          · have e := (Prod.mk.inj (Option.some.inj h)).2
            rw [← e]
            exact ⟨rfl, rfl, rfl, rfl⟩
          · have hr := ih _ ok r h
            exact hr
      · exact ih run ok r h

theorem renameCompleteFiles_frame (env : RepairBranchEnv) :
    ∀ (slots : List (Option MD5Hash)) (run : RepairRun) (ok : Bool) (r : RepairRun),
      renameCompleteFiles env slots run = some (ok, r) →
      r.s.sourcefiles = run.s.sourcefiles ∧ r.s.mainpacket = run.s.mainpacket ∧
      r.s.verifylist = run.s.verifylist := by
  intro slots
  induction slots with
  | nil =>
    intro run ok r h
    have e := (Prod.mk.inj (Option.some.inj h)).2
    rw [← e]
    exact ⟨rfl, rfl, rfl⟩
  | cons slot rest ih =>
    intro run ok r h
    unfold renameCompleteFiles at h
    split at h
    · exact absurd h (by simp)
    · split at h
      · simp only at h
        split at h
        · have hr := ih _ ok r h
          exact hr
        · have e := (Prod.mk.inj (Option.some.inj h)).2
          rw [← e]
          exact ⟨rfl, rfl, rfl⟩
      · exact ih run ok r h

theorem RenameTargetFiles_frame (env : RepairBranchEnv) (run : RepairRun) (ok : Bool)
    (r : RepairRun) (h : RenameTargetFiles env run = some (ok, r)) :
    r.s.sourcefiles = run.s.sourcefiles ∧ r.s.mainpacket = run.s.mainpacket ∧
    r.s.verifylist = run.s.verifylist := by
  unfold RenameTargetFiles at h
  split at h
  · exact absurd h (by simp)
  · rename_i failed hfirst
    have e := (Prod.mk.inj (Option.some.inj h)).2
    have hf := renameDamagedFiles_frame env _ run false failed hfirst
    rw [← e]
    exact ⟨hf.1, hf.2.1, hf.2.2.1⟩
  · rename_i cleared hfirst
    have hf := renameDamagedFiles_frame env _ run true cleared hfirst
    have hs := renameCompleteFiles_frame env _ cleared ok r h
    exact ⟨hs.1.trans hf.1, hs.2.1.trans hf.2.1, hs.2.2.trans hf.2.2.1⟩

theorem scanPhase_repairing (env : ProcessEnv) (renv : RepairBranchEnv) (fuel fuel2 : Nat)
    (par2filename : String) (extrafiles : List String) :
    scanPhase (env.repairing renv fuel2) fuel par2filename extrafiles =
      scanPhase env fuel par2filename extrafiles := rfl

/-- C29: let the parallel scans leave the source-file list and the main packet
as they are (they only follow the pointers).  Whenever `Process`, called for a
repair, gets as far as `RenameTargetFiles` (the scans were completed, the
results were accepted and files are still incomplete), it goes on with the
repair branch on a source-file list without a null entry; and when
`RenameTargetFiles` returns true, so that `CreateTargetFiles` may be reached,
the list that `CreateTargetFiles` walks through has no null entry either.
This holds for every main packet: a null entry makes `VerifySourceFiles`
return false whenever the set has a recoverable file, and without a
recoverable file no file counts as incomplete. -/
theorem Process_repair_slots_not_null (env : ProcessEnv) (renv : RepairBranchEnv)
    (fuel : Nat) (par2filename : String) (extrafiles : List String) (s : Par2Repairer)
    (hverify : ∀ t, (env.verifyFiles t).2.sourcefiles = t.sourcefiles ∧
      (env.verifyFiles t).2.mainpacket = t.mainpacket)
    (hextra : ∀ t files, (env.verifyExtraFiles t files).sourcefiles = t.sourcefiles ∧
      (env.verifyExtraFiles t files).mainpacket = t.mainpacket)
    (hscan : scanPhase env fuel par2filename extrafiles = some (Scanned.done s))
    (hcheck : (CheckVerificationResults s).1 = true)
    (hincomplete : s.completefilecount < RecoverableFileCount s) :
    Process (env.repairing renv fuel) fuel par2filename extrafiles true =
      repairBranch renv fuel { s := s, disk := env.fs } ∧
    (∀ slot ∈ s.sourcefiles, slot ≠ none) ∧
    (∀ renamed, RenameTargetFiles renv { s := s, disk := env.fs } = some (true, renamed) →
      ∀ slot ∈ renamed.s.sourcefiles, slot ≠ none) := by
  have hslots : ∀ slot ∈ s.sourcefiles, slot ≠ none :=
    slots_not_null_of_check (RecoverableFileCount s) (by omega) s.sourcefiles
      (scanPhase_done_slots env fuel par2filename extrafiles s hverify hextra hscan)
  refine ⟨?_, hslots, ?_⟩
  · rw [Process_of_done (env.repairing renv fuel) fuel par2filename extrafiles true s
      ((scanPhase_repairing env renv fuel fuel par2filename extrafiles).trans hscan)]
    rw [hcheck, if_pos hincomplete]
    rfl
  · intro renamed hrename slot hslot
    have hf := RenameTargetFiles_frame renv _ true renamed hrename
    rw [hf.1] at hslot
    exact hslots slot hslot

set_option maxRecDepth 40000 in
theorem Process_repair_slots_not_null_witness :
    ∃ s, scanPhase repairScanEnv 10 "repair.par2" [] = some (Scanned.done s) ∧
      s.sourcefiles = [some [1], some [2]] ∧
      Process (repairScanEnv.repairing (repairBranchEnv (fun _ => true) true) 10) 10
          "repair.par2" [] true =
        repairBranch (repairBranchEnv (fun _ => true) true) 10
          { s := s, disk := repairScanEnv.fs } ∧
      (∀ slot ∈ s.sourcefiles, slot ≠ none) := by
  have hev1 : ((scanPhase repairScanEnv 10 "repair.par2" []).bind Scanned.state?).map
      (fun s => (CheckVerificationResults s).1) = some true := by decide
  have hev2 : ((scanPhase repairScanEnv 10 "repair.par2" []).bind Scanned.state?).map
      (fun s => [s.completefilecount, RecoverableFileCount s]) = some [0, 2] := by decide
  have hev3 : ((scanPhase repairScanEnv 10 "repair.par2" []).bind Scanned.state?).map
      (fun s => s.sourcefiles) = some [some [1], some [2]] := by decide
  cases hs : scanPhase repairScanEnv 10 "repair.par2" [] with
  | none =>
    rw [hs] at hev1
    exact absurd hev1 (by simp)
  | some scanned =>
    cases scanned with
    | stopped result =>
      rw [hs] at hev1
      exact absurd hev1 (by simp [Scanned.state?])
    | done s =>
      rw [hs] at hev1 hev2 hev3
      simp only [Option.some_bind, Scanned.state?, Option.map_some', Option.some.injEq,
        List.cons.injEq, and_true] at hev1 hev2 hev3
      have h := Process_repair_slots_not_null repairScanEnv
        (repairBranchEnv (fun _ => true) true) 10 "repair.par2" [] s
        (fun _ => ⟨rfl, rfl⟩) (fun _ _ => ⟨rfl, rfl⟩) hs hev1 (by omega)
      exact ⟨s, rfl, hev3, h.1, h.2.1⟩

theorem derefSlot_some (s : Par2Repairer) (slot : Option MD5Hash) (fileid : MD5Hash)
    (sourcefile : Par2RepairerSourceFile) (h : derefSlot s slot = some (fileid, sourcefile)) :
    slot = some fileid ∧ sfFind fileid s.sourcefilemap = some sourcefile := by
  unfold derefSlot at h
  cases slot with
  | none => exact absurd h (by simp)
  | some key =>
    simp only [Option.some_bind] at h
    cases hf : sfFind key s.sourcefilemap with
    | none =>
      rw [hf] at h
      exact absurd h (by simp)
    | some found =>
      rw [hf] at h
      simp only [Option.map_some', Option.some.injEq, Prod.mk.injEq] at h
      rw [h.1] at hf
      rw [h.1, hf, h.2]
      exact ⟨rfl, rfl⟩

/-- What the loop of `CreateTargetFiles` leaves: the entries of `verifylist`
are source files with an existing target file, entries that had one are
untouched, the list has only grown, and every operation added is the creation
of the target file of an entry of the list. -/
theorem createTargetFiles_created (env : RepairBranchEnv) (fuel : Nat) :
    ∀ (slots : List (Option MD5Hash)) (run : RepairRun) (ok : Bool) (r : RepairRun),
      createTargetFiles env fuel slots run = some (ok, r) →
      (∀ fileid ∈ run.s.verifylist, ∃ sf name,
        sfFind fileid run.s.sourcefilemap = some sf ∧ sf.targetexists = true ∧
        sf.targetfile = some name) →
      (∀ fileid ∈ r.s.verifylist, ∃ sf name,
        sfFind fileid r.s.sourcefilemap = some sf ∧ sf.targetexists = true ∧
        sf.targetfile = some name) ∧
      (∀ fileid sf, sfFind fileid run.s.sourcefilemap = some sf → sf.targetexists = true →
        sfFind fileid r.s.sourcefilemap = some sf) ∧
      (∀ fileid ∈ run.s.verifylist, fileid ∈ r.s.verifylist) ∧
      ∃ added, r.ops = run.ops ++ added ∧
        ∀ op ∈ added, ∃ name size, op = FileOp.create name size ∧
          ∃ fileid ∈ r.s.verifylist, ∃ sf, sfFind fileid r.s.sourcefilemap = some sf ∧
            sf.targetexists = true ∧ sf.targetfile = some name := by
  intro slots
  induction slots with
  | nil =>
    intro run ok r h hinv
    have e := (Prod.mk.inj (Option.some.inj h)).2
    rw [← e]
    exact ⟨hinv, fun _ _ h1 _ => h1, fun _ h1 => h1, [], by simp, by simp⟩
  | cons slot rest ih =>
    intro run ok r h hinv
    unfold createTargetFiles at h
    split at h
    · exact absurd h (by simp)
    · rename_i fileid sourcefile hderef
      have hfind := (derefSlot_some run.s slot fileid sourcefile hderef).2
      split at h
      · rename_i hexists
        have hex : sourcefile.targetexists = false := by simpa using hexists
        split at h
        · exact absurd h (by simp)
        · rename_i descriptionpacket hd
          split at h
          · split at h
            · exact absurd h (by simp)
            · split at h
              · exact absurd h (by simp)
              · rename_i locations hloc targetblocks hset
                have hne : ∀ other sf, sfFind other run.s.sourcefilemap = some sf →
                    sf.targetexists = true → other ≠ fileid := by
                  intro other sf h1 h2 he
                  rw [he, hfind] at h1
                  rw [← Option.some.inj h1, hex] at h2
                  exact absurd h2 (by simp)
                have hself : sfFind fileid
                    (sfSet fileid
                      { sourcefile with
                        targetexists := true
                        targetfile := some (env.TargetFileName sourcefile) }
                      run.s.sourcefilemap) =
                    some { sourcefile with
                        targetexists := true
                        targetfile := some (env.TargetFileName sourcefile) } :=
                  sfFind_sfSet_self _ _ _ (by rw [hfind]; rfl)
                obtain ⟨h1, h2, h3, added, h4, h5⟩ := ih _ ok r h (by
                  intro other hother
                  simp only [List.mem_append, List.mem_singleton] at hother
                  rcases hother with hother | hother
                  · obtain ⟨sf, name, hs1, hs2, hs3⟩ := hinv other hother
                    refine ⟨sf, name, ?_, hs2, hs3⟩
                    simp only
                    rw [sfFind_sfSet_ne _ _ _ _ (hne other sf hs1 hs2)]
                    exact hs1
                  · rw [hother]
                    exact ⟨_, _, hself, rfl, rfl⟩)
                simp only at h2 h3 h4
                refine ⟨h1, ?_, ?_, ?_⟩
                · intro other sf hs1 hs2
                  apply h2 other sf _ hs2
                  rw [sfFind_sfSet_ne _ _ _ _ (hne other sf hs1 hs2)]
                  exact hs1
                · intro other hother
                  exact h3 other (List.mem_append_left _ hother)
                · refine ⟨FileOp.create (env.TargetFileName sourcefile)
                    descriptionpacket.filesize :: added, ?_, ?_⟩
                  · rw [h4, List.append_assoc]
                    rfl
                  · intro op hop
                    rw [List.mem_cons] at hop
                    rcases hop with hop | hop
                    · refine ⟨_, _, hop, fileid, ?_, _, h2 fileid _ hself rfl, rfl, rfl⟩
                      exact h3 fileid (List.mem_append_right _ (List.mem_singleton_self _))
                    · exact h5 op hop
          · have e := (Prod.mk.inj (Option.some.inj h)).2
            rw [← e]
            exact ⟨hinv, fun _ _ h1 _ => h1, fun _ h1 => h1, [], by simp, by simp⟩
      · exact ih run ok r h hinv

theorem ComputeRSmatrix_frame (env : CoderEnv) (s planned : Par2Repairer) (ok : Bool)
    (exponents : List Nat) (h : ComputeRSmatrix env s = some (ok, planned, exponents)) :
    planned.sourcefilemap = s.sourcefilemap ∧ planned.verifylist = s.verifylist ∧
    planned.sourcefiles = s.sourcefiles ∧ planned.mainpacket = s.mainpacket := by
  unfold ComputeRSmatrix at h
  split at h
  · exact absurd h (by simp)
  · split at h
    · have e := (Prod.mk.inj (Prod.mk.inj (Option.some.inj h)).2).1
      rw [← e]
      exact ⟨rfl, rfl, rfl, rfl⟩
    · split at h
      · exact absurd h (by simp)
      · simp only at h
        split at h
        · have e := (Prod.mk.inj (Prod.mk.inj (Option.some.inj h)).2).1
          rw [← e]
          exact ⟨rfl, rfl, rfl, rfl⟩
        · split at h
          · have e := (Prod.mk.inj (Prod.mk.inj (Option.some.inj h)).2).1
            rw [← e]
            exact ⟨rfl, rfl, rfl, rfl⟩
          · have e := (Prod.mk.inj (Prod.mk.inj (Option.some.inj h)).2).1
            rw [← e]
            exact ⟨rfl, rfl, rfl, rfl⟩

/-- The loop of `DeleteIncompleteTargetFiles` on a list whose entries are
source files that have a target file whenever `targetexists` is set: it
returns, every operation it adds is a deletion, and the target file of every
entry with `targetexists` set is deleted. -/
theorem deleteTargetFiles_spec :
    ∀ (files : List MD5Hash) (run : RepairRun),
      (∀ fileid ∈ files, ∃ sf, sfFind fileid run.s.sourcefilemap = some sf ∧
        (sf.targetexists = true → ∃ name, sf.targetfile = some name)) →
      ∃ r added, deleteTargetFiles files run = some r ∧ r.ops = run.ops ++ added ∧
        (∀ op ∈ added, ∃ name, op = FileOp.delete name ∧
          ∃ fileid ∈ files, ∃ sf, sfFind fileid run.s.sourcefilemap = some sf ∧
            sf.targetexists = true ∧ sf.targetfile = some name) ∧
        (∀ fileid ∈ files, ∀ sf name, sfFind fileid run.s.sourcefilemap = some sf →
          sf.targetexists = true → sf.targetfile = some name →
          FileOp.delete name ∈ added) := by
  intro files
  induction files with
  | nil =>
    intro run _
    exact ⟨run, [], rfl, by simp, by simp, by simp⟩
  | cons fileid rest ih =>
    intro run hinv
    obtain ⟨sourcefile, hfind, htarget⟩ := hinv fileid (List.mem_cons_self _ _)
    unfold deleteTargetFiles
    rw [hfind]
    simp only
    by_cases hexists : sourcefile.targetexists = true
    · obtain ⟨targetfile, htf⟩ := htarget hexists
      rw [if_pos hexists, htf]
      simp only
      have hself : sfFind fileid
          (sfSet fileid { sourcefile with targetexists := false, targetfile := none }
            run.s.sourcefilemap) =
          some { sourcefile with targetexists := false, targetfile := none } :=
        sfFind_sfSet_self _ _ _ (by rw [hfind]; rfl)
      obtain ⟨r, added, hr, hops, hdel, hall⟩ := ih
        { s := { run.s with
            diskFileMap := run.s.diskFileMap.filter (fun name => name ≠ targetfile)
            sourcefilemap :=
              (sfSet fileid { sourcefile with targetexists := false, targetfile := none }
                run.s.sourcefilemap) }
          disk := run.disk.delete targetfile
          ops := run.ops ++ [FileOp.delete targetfile] }
        (by
          intro other hother
          by_cases he : other = fileid
          · rw [he]
            exact ⟨_, hself, fun hc => absurd hc (by simp)⟩
          · obtain ⟨sf, hs1, hs2⟩ := hinv other (List.mem_cons_of_mem _ hother)
            refine ⟨sf, ?_, hs2⟩
            simp only
            rw [sfFind_sfSet_ne _ _ _ _ he]
            exact hs1)
      simp only at hops hdel hall
      refine ⟨r, FileOp.delete targetfile :: added, hr, ?_, ?_, ?_⟩
      · rw [hops, List.append_assoc]
        rfl
      · intro op hop
        rw [List.mem_cons] at hop
        rcases hop with hop | hop
        · exact ⟨targetfile, hop, fileid, List.mem_cons_self _ _, sourcefile, hfind, hexists,
            htf⟩
        · obtain ⟨name, hname, other, hother, sf, hs1, hs2, hs3⟩ := hdel op hop
          have he : other ≠ fileid := by
            intro he
            rw [he, hself] at hs1
            rw [← Option.some.inj hs1] at hs2
            exact absurd hs2 (by simp)
          rw [sfFind_sfSet_ne _ _ _ _ he] at hs1
          exact ⟨name, hname, other, List.mem_cons_of_mem _ hother, sf, hs1, hs2, hs3⟩
      · intro other hother sf name hs1 hs2 hs3
        by_cases he : other = fileid
        · rw [he, hfind] at hs1
          rw [← Option.some.inj hs1, htf] at hs3
          rw [← Option.some.inj hs3]
          exact List.mem_cons_self _ _
        · rw [List.mem_cons] at hother
          have hmem : other ∈ rest := hother.resolve_left he
          apply List.mem_cons_of_mem
          apply hall other hmem sf name _ hs2 hs3
          rw [sfFind_sfSet_ne _ _ _ _ he]
          exact hs1
    · rw [if_neg hexists]
      obtain ⟨r, added, hr, hops, hdel, hall⟩ := ih run
        (fun other hother => hinv other (List.mem_cons_of_mem _ hother))
      refine ⟨r, added, hr, hops, ?_, ?_⟩
      · intro op hop
        obtain ⟨name, hname, other, hother, rest2⟩ := hdel op hop
        exact ⟨name, hname, other, List.mem_cons_of_mem _ hother, rest2⟩
      · intro other hother sf name hs1 hs2 hs3
        by_cases he : other = fileid
        · rw [he, hfind] at hs1
          rw [← Option.some.inj hs1] at hs2
          exact absurd hs2 hexists
        · rw [List.mem_cons] at hother
          exact hall other (hother.resolve_left he) sf name hs1 hs2 hs3

/-- C24, as the code has it: when the scan leaves a repairable set, the renaming
pass and `CreateTargetFiles` succeed and `ComputeRSmatrix` returns false,
`Process` runs `DeleteIncompleteTargetFiles` and returns `eFileIOError`; the
clean-up returns, adds only deletions, and deletes every target file that
`CreateTargetFiles` created. -/
theorem Process_matrix_failure (env : ProcessEnv) (renv : RepairBranchEnv) (fuel : Nat)
    (par2filename : String) (extrafiles : List String) (s : Par2Repairer)
    (renamed created : RepairRun) (planned : Par2Repairer) (exponents : List Nat)
    (hscan : scanPhase env fuel par2filename extrafiles = some (Scanned.done s))
    (hcheck : (CheckVerificationResults s).1 = true)
    (hdamaged : s.completefilecount < RecoverableFileCount s)
    (hlist : s.verifylist = [])
    (hrename : RenameTargetFiles renv { s := s, disk := env.fs } = some (true, renamed))
    (hincomplete : renamed.s.completefilecount < RecoverableFileCount renamed.s)
    (hcreate : CreateTargetFiles renv fuel renamed = some (true, created))
    (hmatrix : ComputeRSmatrix renv.coder created.s = some (false, planned, exponents)) :
    ∃ deleted creates deletes,
      DeleteIncompleteTargetFiles { created with s := planned } = some deleted ∧
      Process (env.repairing renv fuel) fuel par2filename extrafiles true =
        some (Result.eFileIOError, deleted.ops) ∧
      created.ops = renamed.ops ++ creates ∧
      deleted.ops = created.ops ++ deletes ∧
      (∀ op ∈ creates, ∃ name size, op = FileOp.create name size ∧
        FileOp.delete name ∈ deletes) ∧
      (∀ op ∈ deletes, ∃ name, op = FileOp.delete name) := by
  have hvl : renamed.s.verifylist = [] := by
    rw [(RenameTargetFiles_frame renv _ true renamed hrename).2.2]
    exact hlist
  obtain ⟨hinv, _, _, creates, hops, hcreates⟩ :=
    createTargetFiles_created renv fuel _ renamed true created hcreate (by
      intro fileid hmem
      rw [hvl] at hmem
      exact absurd hmem (List.not_mem_nil _))
  have hframe := ComputeRSmatrix_frame renv.coder created.s planned false exponents hmatrix
  obtain ⟨deleted, deletes, hdel, hdops, hdeletes, hall⟩ :=
    deleteTargetFiles_spec planned.verifylist { created with s := planned } (by
      intro fileid hmem
      simp only
      rw [hframe.2.1] at hmem
      rw [hframe.1]
      obtain ⟨sf, name, h1, _, h3⟩ := hinv fileid hmem
      exact ⟨sf, h1, fun _ => ⟨name, h3⟩⟩)
  simp only at hdops hall
  have hdelete : DeleteIncompleteTargetFiles { created with s := planned } = some deleted :=
    hdel
  refine ⟨deleted, creates, deletes, hdelete, ?_, hops, hdops, ?_, ?_⟩
  · rw [Process_of_done _ _ _ _ _ s (by rw [scanPhase_repairing]; exact hscan)]
    rw [hcheck, if_pos hdamaged]
    show repairBranch renv fuel { s := s, disk := env.fs } = _
    unfold repairBranch
    rw [hrename]
    simp only
    rw [if_pos hincomplete, hcreate]
    simp only
    rw [hmatrix]
    simp only
    unfold deleteAndReturn
    rw [hdelete]
    rfl
  · intro op hop
    obtain ⟨name, size, hname, fileid, hmem, sf, h1, h2, h3⟩ := hcreates op hop
    refine ⟨name, size, hname, hall fileid ?_ sf name ?_ h2 h3⟩
    · rw [hframe.2.1]
      exact hmem
    · rw [hframe.1]
      exact h1
  · intro op hop
    obtain ⟨name, hname, _⟩ := hdeletes op hop
    exact ⟨name, hname⟩

set_option maxRecDepth 40000 in
theorem Process_matrix_failure_witness :
    ∃ (deleted : RepairRun) (creates deletes : List FileOp),
      Process (repairScanEnv.repairing (repairBranchEnv (fun _ => true) false) 10) 10
          "repair.par2" [] true = some (Result.eFileIOError, deleted.ops) ∧
      (∀ op ∈ creates, ∃ name size, op = FileOp.create name size ∧
        FileOp.delete name ∈ deletes) ∧
      (∀ op ∈ deletes, ∃ name, op = FileOp.delete name) := by
  have hev1 : ((scanPhase repairScanEnv 10 "repair.par2" []).bind Scanned.state?).map
      (fun s => (CheckVerificationResults s).1 &&
        decide (s.completefilecount < RecoverableFileCount s) && s.verifylist.isEmpty) =
      some true := by decide
  have hev2 : (((scanPhase repairScanEnv 10 "repair.par2" []).bind Scanned.state?).bind
      (fun s => RenameTargetFiles (repairBranchEnv (fun _ => true) false)
        { s := s, disk := repairScanEnv.fs })).map
      (fun r => r.1 && decide (r.2.s.completefilecount < RecoverableFileCount r.2.s)) =
      some true := by decide
  have hev3 : ((((scanPhase repairScanEnv 10 "repair.par2" []).bind Scanned.state?).bind
      (fun s => RenameTargetFiles (repairBranchEnv (fun _ => true) false)
        { s := s, disk := repairScanEnv.fs })).bind
      (fun r => CreateTargetFiles (repairBranchEnv (fun _ => true) false) 10 r.2)).map
      (fun r => r.1) = some true := by decide
  have hev4 : (((((scanPhase repairScanEnv 10 "repair.par2" []).bind Scanned.state?).bind
      (fun s => RenameTargetFiles (repairBranchEnv (fun _ => true) false)
        { s := s, disk := repairScanEnv.fs })).bind
      (fun r => CreateTargetFiles (repairBranchEnv (fun _ => true) false) 10 r.2)).bind
      (fun r => ComputeRSmatrix (repairBranchEnv (fun _ => true) false).coder r.2.s)).map
      (fun r => r.1) = some false := by decide
  cases hs : scanPhase repairScanEnv 10 "repair.par2" [] with
  | none =>
    rw [hs] at hev1
    exact absurd hev1 (by simp)
  | some scanned =>
    cases scanned with
    | stopped result =>
      rw [hs] at hev1
      exact absurd hev1 (by simp [Scanned.state?])
    | done s =>
      rw [hs] at hev1 hev2 hev3 hev4
      simp only [Option.some_bind, Scanned.state?, Option.map_some', Option.some.injEq,
        Bool.and_eq_true, decide_eq_true_eq, List.isEmpty_iff] at hev1 hev2 hev3 hev4
      cases hr : RenameTargetFiles (repairBranchEnv (fun _ => true) false)
          { s := s, disk := repairScanEnv.fs } with
      | none =>
        rw [hr] at hev2
        exact absurd hev2 (by simp)
      | some renamedPair =>
        obtain ⟨okRenamed, renamed⟩ := renamedPair
        rw [hr] at hev2 hev3 hev4
        simp only [Option.some_bind, Option.map_some', Option.some.injEq,
          Bool.and_eq_true, decide_eq_true_eq] at hev2 hev3 hev4
        cases hc : CreateTargetFiles (repairBranchEnv (fun _ => true) false) 10 renamed with
        | none =>
          rw [hc] at hev3
          exact absurd hev3 (by simp)
        | some createdPair =>
          obtain ⟨okCreated, created⟩ := createdPair
          rw [hc] at hev3 hev4
          simp only [Option.some_bind, Option.map_some', Option.some.injEq] at hev3 hev4
          cases hm : ComputeRSmatrix (repairBranchEnv (fun _ => true) false).coder
              created.s with
          | none =>
            rw [hm] at hev4
            exact absurd hev4 (by simp)
          | some plannedTriple =>
            obtain ⟨okPlanned, planned, exponents⟩ := plannedTriple
            rw [hm] at hev4
            simp only [Option.map_some', Option.some.injEq] at hev4
            rw [hev2.1] at hr
            rw [hev3] at hc
            rw [hev4] at hm
            obtain ⟨deleted, creates, deletes, _, h2, _, _, h5, h6⟩ :=
              Process_matrix_failure repairScanEnv (repairBranchEnv (fun _ => true) false)
                10 "repair.par2" [] s renamed created planned exponents hs hev1.1.1
                hev1.1.2 hev1.2 hr hev2.2 hc hm
            exact ⟨deleted, creates, deletes, h2, h5, h6⟩

set_option maxRecDepth 40000 in
/-- C24 counterexample: for the set `repair.par2` with both data files missing
and a coder that refuses the matrix, `Process` deletes the two files it
created and returns `eFileIOError`, not `eLogicError`. -/
theorem Process_matrix_failure_is_file_error :
    Process (repairProcessEnv (fun _ => true) false) 10 "repair.par2" [] true =
      some (Result.eFileIOError,
        [FileOp.create "x.dat" 4, FileOp.create "y.dat" 4,
          FileOp.delete "x.dat", FileOp.delete "y.dat"]) ∧
    (Process (repairProcessEnv (fun _ => true) false) 10 "repair.par2" [] true).map Prod.fst ≠
      some Result.eLogicError := by
  have h : Process (repairProcessEnv (fun _ => true) false) 10 "repair.par2" [] true =
      some (Result.eFileIOError,
        [FileOp.create "x.dat" 4, FileOp.create "y.dat" 4,
          FileOp.delete "x.dat", FileOp.delete "y.dat"]) := by decide
  refine ⟨h, ?_⟩
  rw [h]
  decide

set_option maxRecDepth 40000 in
/-- C25: for the set `repair.par2` with both data files missing, when `x.dat`
is created and the creation of `y.dat` then fails, `Process` returns
`eFileIOError` and the only disk operation of the run is the creation of
`x.dat`: the file created in this run is not deleted. -/
theorem Process_failed_create_keeps_created_file :
    Process (repairProcessEnv (fun name => decide (name ≠ "y.dat")) true) 10
      "repair.par2" [] true =
      some (Result.eFileIOError, [FileOp.create "x.dat" 4]) := by
  decide

/-! ## The renaming pass -/

theorem sfFind_map (f : Par2RepairerSourceFile → Par2RepairerSourceFile) (k : MD5Hash) :
    ∀ m : List (MD5Hash × Par2RepairerSourceFile),
      sfFind k (m.map (fun e => (e.1, f e.2))) = (sfFind k m).map f := by
  intro m
  induction m with
  | nil => rfl
  | cons e rest ih =>
    simp only [List.map_cons, sfFind]
    split
    · rfl
    · exact ih

theorem renamePointer_of_ne (oldname newname : String) (pointer : Option String)
    (h : pointer ≠ some oldname) : renamePointer oldname newname pointer = pointer := by
  unfold renamePointer
  rw [if_neg h]

theorem renamePointer_none (oldname newname : String) :
    renamePointer oldname newname none = none :=
  renamePointer_of_ne oldname newname none (by simp)

theorem renamePointer_self (oldname newname : String) :
    renamePointer oldname newname (some oldname) = some newname := by
  unfold renamePointer
  rw [if_pos rfl]

theorem renamePointer_eq_some (oldname newname : String) (pointer : Option String)
    (name : String) (h : renamePointer oldname newname pointer = some name) :
    (pointer = some oldname ∧ name = newname) ∨ (pointer = some name ∧ name ≠ oldname) := by
  unfold renamePointer at h
  split at h
  · rename_i hp
    exact Or.inl ⟨hp, (Option.some.inj h).symm⟩
  · rename_i hp
    right
    refine ⟨h, ?_⟩
    intro he
    rw [h, he] at hp
    exact hp rfl

theorem renamePointer_isSome (oldname newname : String) (pointer : Option String) :
    (renamePointer oldname newname pointer).isSome = pointer.isSome := by
  unfold renamePointer
  split
  · rename_i hp
    rw [hp]
    rfl
  · rfl

theorem renamePointer_inj (oldname newname : String) (p q : Option String)
    (hp : p ≠ some newname) (hq : q ≠ some newname)
    (h : renamePointer oldname newname p = renamePointer oldname newname q) : p = q := by
  unfold renamePointer at h
  split at h
  · rename_i h1
    split at h
    · rename_i h2
      rw [h1, h2]
    · exact absurd h.symm hq
  · split at h
    · exact absurd h hp
    · exact h

theorem rename_isSome (disk : Disk) (oldname newname : String) (pointer : Option String)
    (name : String) (hold : (disk oldname).isSome = true) (hnew : disk newname = none)
    (htracked : ∀ n, pointer = some n → (disk n).isSome = true)
    (h : renamePointer oldname newname pointer = some name) :
    ((disk.rename oldname newname) name).isSome = true := by
  rcases renamePointer_eq_some oldname newname pointer name h with ⟨_, hn⟩ | ⟨hp, hn⟩
  · rw [hn]
    unfold Disk.rename
    rw [if_pos rfl, Option.isSome_map']
    exact hold
  · have hsome := htracked name hp
    have hne : name ≠ newname := by
      intro he
      rw [he, hnew] at hsome
      exact absurd hsome (by simp)
    unfold Disk.rename
    rw [if_neg hne, if_neg hn]
    exact hsome

/-- The invariants of the tracked files after one rename: the map `m2` holds,
for every file, the entry of `m` with its complete-file pointer following the
rename, and a target-file pointer that follows the rename, is null, or is the
new name. -/
theorem tracked_of_rename (m m2 : List (MD5Hash × Par2RepairerSourceFile)) (disk : Disk)
    (oldname newname : String)
    (hold : (disk oldname).isSome = true) (hnew : disk newname = none)
    (hrel : ∀ fileid sf2, sfFind fileid m2 = some sf2 → ∃ sf, sfFind fileid m = some sf ∧
      sf2.completefile = renamePointer oldname newname sf.completefile ∧
      (sf2.targetfile = renamePointer oldname newname sf.targetfile ∨ sf2.targetfile = none ∨
        sf2.targetfile = some newname))
    (htracked : TrackedOnDisk m disk) :
    TrackedOnDisk m2 (disk.rename oldname newname) ∧
    (CompletesDistinct m → CompletesDistinct m2) := by
  constructor
  · intro fileid sf2 hfind name hname
    obtain ⟨sf, hsf, hc, ht⟩ := hrel fileid sf2 hfind
    rcases hname with hname | hname
    · rcases ht with ht | ht | ht
      · rw [ht] at hname
        exact rename_isSome disk oldname newname _ name hold hnew
          (fun n hn => htracked fileid sf hsf n (Or.inl hn)) hname
      · rw [ht] at hname
        exact absurd hname (by simp)
      · rw [ht] at hname
        rw [← Option.some.inj hname]
        unfold Disk.rename
        rw [if_pos rfl, Option.isSome_map']
        exact hold
    · rw [hc] at hname
      exact rename_isSome disk oldname newname _ name hold hnew
        (fun n hn => htracked fileid sf hsf n (Or.inr hn)) hname
  · intro hdistinct a b sfa sfb name ha hb hca hcb
    obtain ⟨sa, hsa, hca2, _⟩ := hrel a sfa ha
    obtain ⟨sb, hsb, hcb2, _⟩ := hrel b sfb hb
    have hna : sa.completefile ≠ some newname := by
      intro he
      have hsome := htracked a sa hsa newname (Or.inr he)
      rw [hnew] at hsome
      exact absurd hsome (by simp)
    have hnb : sb.completefile ≠ some newname := by
      intro he
      have hsome := htracked b sb hsb newname (Or.inr he)
      rw [hnew] at hsome
      exact absurd hsome (by simp)
    have heq : sa.completefile = sb.completefile :=
      renamePointer_inj oldname newname _ _ hna hnb (by rw [← hca2, ← hcb2, hca, hcb])
    rw [hca] at hca2
    rcases renamePointer_eq_some oldname newname _ name hca2.symm with ⟨h1, _⟩ | ⟨h1, _⟩
    · exact hdistinct a b sa sb oldname hsa hsb h1 (by rw [← heq, h1])
    · exact hdistinct a b sa sb name hsa hsb h1 (by rw [← heq, h1])

theorem targets_of_rename (m m2 : List (MD5Hash × Par2RepairerSourceFile)) (disk : Disk)
    (oldname newname : String) (hnew : disk newname = none)
    (hrel : ∀ fileid sf2, sfFind fileid m2 = some sf2 → ∃ sf, sfFind fileid m = some sf ∧
      (sf2.targetfile = renamePointer oldname newname sf.targetfile ∨ sf2.targetfile = none))
    (htracked : TrackedOnDisk m disk) (hdistinct : TargetsDistinct m) :
    TargetsDistinct m2 := by
  intro a b sfa sfb name ha hb hta htb
  obtain ⟨sa, hsa, hta2⟩ := hrel a sfa ha
  obtain ⟨sb, hsb, htb2⟩ := hrel b sfb hb
  rcases hta2 with hta2 | hta2
  swap
  · rw [hta2] at hta
    exact absurd hta (by simp)
  rcases htb2 with htb2 | htb2
  swap
  · rw [htb2] at htb
    exact absurd htb (by simp)
  have hna : sa.targetfile ≠ some newname := by
    intro he
    have hsome := htracked a sa hsa newname (Or.inl he)
    rw [hnew] at hsome
    exact absurd hsome (by simp)
  have hnb : sb.targetfile ≠ some newname := by
    intro he
    have hsome := htracked b sb hsb newname (Or.inl he)
    rw [hnew] at hsome
    exact absurd hsome (by simp)
  have heq : sa.targetfile = sb.targetfile :=
    renamePointer_inj oldname newname _ _ hna hnb (by rw [← hta2, ← htb2, hta, htb])
  rw [hta] at hta2
  rcases renamePointer_eq_some oldname newname _ name hta2.symm with ⟨h1, _⟩ | ⟨h1, _⟩
  · exact hdistinct a b sa sb oldname hsa hsb h1 (by rw [← heq, h1])
  · exact hdistinct a b sa sb name hsa hsb h1 (by rw [← heq, h1])

/-- The entries of the map after the rename of `oldname`, with the entry of
`fileid` replaced by `entry`. -/
theorem sfFind_renamed (m : List (MD5Hash × Par2RepairerSourceFile)) (oldname newname : String)
    (fileid : MD5Hash) (sourcefile entry : Par2RepairerSourceFile)
    (hfind : sfFind fileid m = some sourcefile) (other : MD5Hash) :
    sfFind other
      (sfSet fileid entry (m.map (fun e => (e.1, renameSourceFile oldname newname e.2)))) =
      if other = fileid then some entry
      else (sfFind other m).map (renameSourceFile oldname newname) := by
  by_cases he : other = fileid
  · rw [if_pos he, he]
    apply sfFind_sfSet_self
    rw [sfFind_map, hfind]
    rfl
  · rw [if_neg he, sfFind_sfSet_ne _ _ _ _ he, sfFind_map]

/-- The first loop of `RenameTargetFiles`, when `DiskFile::Rename()` picks
names that are free on the disk: the invariants of the tracked files are kept,
every source file of a slot whose target file exists and is not its complete
file has its target file renamed and ends with no target file, and every other
source file keeps its target file. -/
theorem renameDamagedFiles_spec (env : RepairBranchEnv)
    (hfresh : ∀ disk name newname, env.RenameAway disk name = some newname →
      disk newname = none) :
    ∀ (slots : List (Option MD5Hash)) (run r : RepairRun),
      renameDamagedFiles env slots run = some (true, r) →
      TrackedOnDisk run.s.sourcefilemap run.disk → TargetsDistinct run.s.sourcefilemap →
      CompletesDistinct run.s.sourcefilemap →
      TrackedOnDisk r.s.sourcefilemap r.disk ∧ TargetsDistinct r.s.sourcefilemap ∧
      CompletesDistinct r.s.sourcefilemap ∧
      ∃ aways, r.ops = run.ops ++ aways ∧
        ∀ fileid sf, sfFind fileid run.s.sourcefilemap = some sf →
          ∃ sf1, sfFind fileid r.s.sourcefilemap = some sf1 ∧
            sf1.descriptionpacket = sf.descriptionpacket ∧
            sf1.completefile.isSome = sf.completefile.isSome ∧
            ((some fileid ∈ slots ∧ sf.targetexists = true ∧
                sf.targetfile ≠ sf.completefile) →
              sf1.targetexists = false ∧ sf1.targetfile = none ∧
              ∃ name, sf.targetfile = some name ∧ FileOp.rename name ∈ aways) ∧
            (¬(some fileid ∈ slots ∧ sf.targetexists = true ∧
                sf.targetfile ≠ sf.completefile) →
              sf1.targetexists = sf.targetexists ∧ sf1.targetfile = sf.targetfile ∧
              (sf.targetfile = sf.completefile → sf1.completefile = sf.completefile)) := by
  intro slots
  induction slots with
  | nil =>
    intro run r h htracked htargets hcompletes
    have e := (Prod.mk.inj (Option.some.inj h)).2
    rw [← e]
    refine ⟨htracked, htargets, hcompletes, [], by simp, ?_⟩
    intro fileid sf hsf
    refine ⟨sf, hsf, rfl, rfl, ?_, ?_⟩
    · intro hc
      exact absurd hc.1 (List.not_mem_nil _)
    · intro _
      exact ⟨rfl, rfl, fun _ => rfl⟩
  | cons slot rest ih =>
    intro run r h htracked htargets hcompletes
    unfold renameDamagedFiles at h
    split at h
    · exact absurd h (by simp)
    · rename_i fileid0 sf0 hderef
      obtain ⟨hslot, hfind0⟩ := derefSlot_some run.s slot fileid0 sf0 hderef
      split at h
      · rename_i hcond
        split at h
        · exact absurd h (by simp)
        · rename_i oldname htf
          simp only at h
          split at h
          · exact absurd h (by simp)
          · rename_i newname hnew
            have hfree := hfresh _ _ _ hnew
            have hold : (run.disk oldname).isSome = true :=
              htracked fileid0 sf0 hfind0 oldname (Or.inl htf)
            have hfind1 := sfFind_renamed run.s.sourcefilemap oldname newname fileid0 sf0
              { renameSourceFile oldname newname sf0 with
                targetexists := false, targetfile := none } hfind0
            have hrel : ∀ other sf2,
                sfFind other
                  (sfSet fileid0
                    { renameSourceFile oldname newname sf0 with
                      targetexists := false, targetfile := none }
                    (run.s.sourcefilemap.map
                      (fun e => (e.1, renameSourceFile oldname newname e.2)))) = some sf2 →
                ∃ sf, sfFind other run.s.sourcefilemap = some sf ∧
                  sf2.completefile = renamePointer oldname newname sf.completefile ∧
                  (sf2.targetfile = renamePointer oldname newname sf.targetfile ∨
                    sf2.targetfile = none) := by
              intro other sf2 h2
              rw [hfind1 other] at h2
              split at h2
              · rename_i he
                refine ⟨sf0, by rw [he]; exact hfind0, ?_, Or.inr ?_⟩
                · rw [← Option.some.inj h2]
                  rfl
                · rw [← Option.some.inj h2]
              · cases hs : sfFind other run.s.sourcefilemap with
                | none =>
                  rw [hs] at h2
                  exact absurd h2 (by simp)
                | some sf =>
                  rw [hs] at h2
                  refine ⟨sf, rfl, ?_, Or.inl ?_⟩
                  · rw [← Option.some.inj h2]
                    rfl
                  · rw [← Option.some.inj h2]
                    rfl
            obtain ⟨ht1, hc1⟩ := tracked_of_rename _ _ run.disk oldname newname hold hfree
              (fun other sf2 h2 =>
                let ⟨sf, h3, h4, h5⟩ := hrel other sf2 h2
                ⟨sf, h3, h4, h5.elim Or.inl (fun h6 => Or.inr (Or.inl h6))⟩) htracked
            have htd1 := targets_of_rename _ _ run.disk oldname newname hfree
              (fun other sf2 h2 =>
                let ⟨sf, h3, _, h5⟩ := hrel other sf2 h2
                ⟨sf, h3, h5⟩) htracked htargets
            obtain ⟨hT, hTD, hCD, aways, hops, hfiles⟩ := ih _ r h ht1 htd1 (hc1 hcompletes)
            refine ⟨hT, hTD, hCD, FileOp.rename oldname :: aways, ?_, ?_⟩
            · rw [hops, List.append_assoc]
              rfl
            · intro fileid sf hsf
              by_cases he : fileid = fileid0
              · have hsf0 : sf = sf0 := by
                  rw [he, hfind0] at hsf
                  exact (Option.some.inj hsf).symm
                obtain ⟨sf1, h1, h2, h3, _, h5⟩ := hfiles fileid
                  { renameSourceFile oldname newname sf0 with
                    targetexists := false, targetfile := none }
                  ((hfind1 fileid).trans (if_pos he))
                obtain ⟨h6, h7, _⟩ := h5 (fun hc => Bool.false_ne_true hc.2.1)
                refine ⟨sf1, h1, ?_, ?_, ?_, ?_⟩
                · rw [h2, hsf0]
                  rfl
                · rw [h3, hsf0]
                  exact renamePointer_isSome oldname newname sf0.completefile
                · intro _
                  refine ⟨h6, h7, oldname, ?_, List.mem_cons_self _ _⟩
                  rw [hsf0]
                  exact htf
                · intro hn
                  refine absurd ⟨?_, ?_, ?_⟩ hn
                  · rw [he, hslot]
                    exact List.mem_cons_self _ _
                  · rw [hsf0]
                    exact hcond.1
                  · rw [hsf0]
                    exact hcond.2
              · have ht : sf.targetfile ≠ some oldname := fun hx =>
                  he (htargets fileid fileid0 sf sf0 oldname hsf hfind0 hx htf)
                have hkeep : renamePointer oldname newname sf.targetfile = sf.targetfile :=
                  renamePointer_of_ne oldname newname _ ht
                have hnt : sf.targetfile ≠ some newname := by
                  intro hx
                  have hsome := htracked fileid sf hsf newname (Or.inl hx)
                  rw [hfree] at hsome
                  exact absurd hsome (by simp)
                have hnc : sf.completefile ≠ some newname := by
                  intro hx
                  have hsome := htracked fileid sf hsf newname (Or.inr hx)
                  rw [hfree] at hsome
                  exact absurd hsome (by simp)
                obtain ⟨sf1, h1, h2, h3, h4, h5⟩ := hfiles fileid
                  (renameSourceFile oldname newname sf)
                  ((hfind1 fileid).trans (by rw [if_neg he, hsf]; rfl))
                have h4b : some fileid ∈ rest ∧ sf.targetexists = true ∧
                    renamePointer oldname newname sf.targetfile ≠
                      renamePointer oldname newname sf.completefile →
                    sf1.targetexists = false ∧ sf1.targetfile = none ∧
                    ∃ name, renamePointer oldname newname sf.targetfile = some name ∧
                      FileOp.rename name ∈ aways := h4
                have h5b : ¬(some fileid ∈ rest ∧ sf.targetexists = true ∧
                    renamePointer oldname newname sf.targetfile ≠
                      renamePointer oldname newname sf.completefile) →
                    sf1.targetexists = sf.targetexists ∧
                    sf1.targetfile = renamePointer oldname newname sf.targetfile ∧
                    (renamePointer oldname newname sf.targetfile =
                        renamePointer oldname newname sf.completefile →
                      sf1.completefile = renamePointer oldname newname sf.completefile) := h5
                have h3b : sf1.completefile.isSome =
                    (renamePointer oldname newname sf.completefile).isSome := h3
                refine ⟨sf1, h1, h2, ?_, ?_, ?_⟩
                · rw [h3b]
                  exact renamePointer_isSome oldname newname sf.completefile
                · intro hc
                  have hmem : some fileid ∈ rest := by
                    rcases List.mem_cons.mp hc.1 with hm | hm
                    · rw [hslot] at hm
                      exact absurd (Option.some.inj hm) he
                    · exact hm
                  obtain ⟨h6, h7, name, h8, h9⟩ := h4b ⟨hmem, hc.2.1, fun hx =>
                    hc.2.2 (renamePointer_inj oldname newname _ _ hnt hnc hx)⟩
                  rw [hkeep] at h8
                  exact ⟨h6, h7, name, h8, List.mem_cons_of_mem _ h9⟩
                · intro hn
                  obtain ⟨h6, h7, h8⟩ := h5b (fun hc =>
                    hn ⟨List.mem_cons_of_mem _ hc.1, hc.2.1, fun hx =>
                      hc.2.2 (by rw [hx])⟩)
                  rw [hkeep] at h7
                  refine ⟨h6, h7, ?_⟩
                  intro hx
                  have hcx : sf.completefile ≠ some oldname := by
                    rw [← hx]
                    exact ht
                  rw [h8 (by rw [hx]), renamePointer_of_ne oldname newname _ hcx]
      · rename_i hcond
        obtain ⟨hT, hTD, hCD, aways, hops, hfiles⟩ := ih run r h htracked htargets hcompletes
        refine ⟨hT, hTD, hCD, aways, hops, ?_⟩
        intro fileid sf hsf
        obtain ⟨sf1, h1, h2, h3, h4, h5⟩ := hfiles fileid sf hsf
        refine ⟨sf1, h1, h2, h3, ?_, ?_⟩
        · intro hc
          apply h4
          refine ⟨?_, hc.2⟩
          rcases List.mem_cons.mp hc.1 with hm | hm
          · rw [hslot] at hm
            have he := Option.some.inj hm
            rw [he, hfind0] at hsf
            rw [← Option.some.inj hsf] at hc
            exact absurd hc.2 hcond
          · exact hm
        · intro hn
          apply h5
          intro hc
          exact hn ⟨List.mem_cons_of_mem _ hc.1, hc.2⟩

theorem renameSourceFile_of_ne (oldname newname : String) (sf : Par2RepairerSourceFile)
    (ht : sf.targetfile ≠ some oldname) (hc : sf.completefile ≠ some oldname) :
    renameSourceFile oldname newname sf = sf := by
  unfold renameSourceFile
  rw [renamePointer_of_ne oldname newname _ ht, renamePointer_of_ne oldname newname _ hc]

/-- The second loop of `RenameTargetFiles`, when `DiskFile::Rename(name)`
succeeds only for a name that is free on the disk: the invariants of the
tracked files are kept, `completefilecount` grows by the number of renames,
every rename is that of the complete file of a source file of a slot that had no
target file, every such source file ends with its complete file as target file
under the expected name, and every other source file whose target file is null
or its complete file is left as it was. -/
theorem renameCompleteFiles_spec (env : RepairBranchEnv)
    (hfree : ∀ disk name newname, env.RenameTo disk name newname = true →
      disk newname = none) :
    ∀ (slots : List (Option MD5Hash)) (run r : RepairRun),
      renameCompleteFiles env slots run = some (true, r) →
      TrackedOnDisk run.s.sourcefilemap run.disk → CompletesDistinct run.s.sourcefilemap →
      run.s.completefilecount + slots.length < 2 ^ 32 →
      TrackedOnDisk r.s.sourcefilemap r.disk ∧ CompletesDistinct r.s.sourcefilemap ∧
      ∃ tos, r.ops = run.ops ++ tos ∧
        r.s.completefilecount = run.s.completefilecount + tos.length ∧
        (∀ op ∈ tos, ∃ fileid sf name, some fileid ∈ slots ∧
          sfFind fileid run.s.sourcefilemap = some sf ∧ sf.targetfile = none ∧
          sf.completefile = some name ∧ op = FileOp.rename name) ∧
        ∀ fileid sf, sfFind fileid run.s.sourcefilemap = some sf →
          (sf.targetfile = none ∨ sf.targetfile = sf.completefile) →
          ∃ sf2, sfFind fileid r.s.sourcefilemap = some sf2 ∧
            sf2.descriptionpacket = sf.descriptionpacket ∧
            ((some fileid ∈ slots ∧ sf.targetfile = none ∧ sf.completefile.isSome = true) →
              sf2.targetexists = true ∧ sf2.targetfile = some (env.TargetFileName sf) ∧
              sf2.completefile = some (env.TargetFileName sf) ∧
              ∃ name, sf.completefile = some name ∧ FileOp.rename name ∈ tos) ∧
            (¬(some fileid ∈ slots ∧ sf.targetfile = none ∧ sf.completefile.isSome = true) →
              sf2 = sf) := by
  intro slots
  induction slots with
  | nil =>
    intro run r h htracked hcompletes _
    have e := (Prod.mk.inj (Option.some.inj h)).2
    rw [← e]
    refine ⟨htracked, hcompletes, [], by simp, by simp, by simp, ?_⟩
    intro fileid sf hsf _
    refine ⟨sf, hsf, rfl, ?_, fun _ => rfl⟩
    intro hc
    exact absurd hc.1 (List.not_mem_nil _)
  | cons slot rest ih =>
    intro run r h htracked hcompletes hcount
    rw [List.length_cons] at hcount
    unfold renameCompleteFiles at h
    split at h
    · exact absurd h (by simp)
    · rename_i fileid0 sf0 hderef
      obtain ⟨hslot, hfind0⟩ := derefSlot_some run.s slot fileid0 sf0 hderef
      split at h
      · rename_i oldname htf hcf
        simp only at h
        split at h
        swap
        · exact absurd h (by simp)
        rename_i hto
        have hnew := hfree _ _ _ hto
        have hold : (run.disk oldname).isSome = true :=
          htracked fileid0 sf0 hfind0 oldname (Or.inr hcf)
        have hfind1 := sfFind_renamed run.s.sourcefilemap oldname (env.TargetFileName sf0)
          fileid0 sf0
          { renameSourceFile oldname (env.TargetFileName sf0) sf0 with
            targetexists := true, targetfile := some (env.TargetFileName sf0) } hfind0
        have hentry : renamePointer oldname (env.TargetFileName sf0) sf0.completefile =
            some (env.TargetFileName sf0) := by
          rw [hcf]
          exact renamePointer_self _ _
        obtain ⟨ht1, hc1⟩ := tracked_of_rename run.s.sourcefilemap
          (sfSet fileid0
            { renameSourceFile oldname (env.TargetFileName sf0) sf0 with
              targetexists := true, targetfile := some (env.TargetFileName sf0) }
            (run.s.sourcefilemap.map
              (fun e => (e.1, renameSourceFile oldname (env.TargetFileName sf0) e.2))))
          run.disk oldname (env.TargetFileName sf0) hold hnew
          (by
            intro other sf2 h2
            rw [hfind1 other] at h2
            split at h2
            · rename_i he
              refine ⟨sf0, by rw [he]; exact hfind0, ?_, Or.inr (Or.inr ?_)⟩
              · rw [← Option.some.inj h2]
                rfl
              · rw [← Option.some.inj h2]
            · cases hs : sfFind other run.s.sourcefilemap with
              | none =>
                rw [hs] at h2
                exact absurd h2 (by simp)
              | some sf =>
                rw [hs] at h2
                refine ⟨sf, rfl, ?_, Or.inl ?_⟩
                · rw [← Option.some.inj h2]
                  rfl
                · rw [← Option.some.inj h2]
                  rfl) htracked
        have hmod : (run.s.completefilecount + 1) % 2 ^ 32 = run.s.completefilecount + 1 :=
          Nat.mod_eq_of_lt (by omega)
        obtain ⟨hT, hCD, tos, hops, hcnt, hspec, hfiles⟩ := ih _ r h ht1 (hc1 hcompletes) (by
          show (run.s.completefilecount + 1) % 2 ^ 32 + rest.length < 2 ^ 32
          rw [hmod]
          omega)
        have hcnt2 : r.s.completefilecount =
            (run.s.completefilecount + 1) % 2 ^ 32 + tos.length := hcnt
        rw [hmod] at hcnt2
        refine ⟨hT, hCD, FileOp.rename oldname :: tos, ?_, ?_, ?_, ?_⟩
        · rw [hops, List.append_assoc]
          rfl
        · rw [hcnt2, List.length_cons]
          omega
        · intro op hop
          rcases List.mem_cons.mp hop with hop | hop
          · exact ⟨fileid0, sf0, oldname, by rw [hslot]; exact List.mem_cons_self _ _, hfind0,
              htf, hcf, hop⟩
          · obtain ⟨fileid, sf1, name, hmem, hf1, htn, hcn, hname⟩ := hspec op hop
            have hf2 := (hfind1 fileid).symm.trans hf1
            by_cases he : fileid = fileid0
            · rw [if_pos he] at hf2
              rw [← Option.some.inj hf2] at htn
              exact absurd htn (by simp)
            · rw [if_neg he] at hf2
              cases hs : sfFind fileid run.s.sourcefilemap with
              | none =>
                rw [hs] at hf2
                exact absurd hf2 (by simp)
              | some sf =>
                rw [hs] at hf2
                have hsf1 := Option.some.inj hf2
                have hcY : sf.completefile ≠ some oldname := fun hx =>
                  he (hcompletes fileid fileid0 sf sf0 oldname hs hfind0 hx hcf)
                have htn2 : renamePointer oldname (env.TargetFileName sf0) sf.targetfile =
                    none := by
                  rw [← hsf1] at htn
                  exact htn
                have hcn2 : renamePointer oldname (env.TargetFileName sf0) sf.completefile =
                    some name := by
                  rw [← hsf1] at hcn
                  exact hcn
                rw [renamePointer_of_ne _ _ _ hcY] at hcn2
                have htn3 : sf.targetfile = none := by
                  have hi := renamePointer_isSome oldname (env.TargetFileName sf0) sf.targetfile
                  rw [htn2] at hi
                  cases hv : sf.targetfile with
                  | none => rfl
                  | some v =>
                    rw [hv] at hi
                    exact absurd hi (by simp)
                exact ⟨fileid, sf, name, List.mem_cons_of_mem _ hmem, hs, htn3, hcn2, hname⟩
        · intro fileid sf hsf hset
          by_cases he : fileid = fileid0
          · have hsf0 : sf = sf0 := by
              rw [he, hfind0] at hsf
              exact (Option.some.inj hsf).symm
            obtain ⟨sf2, h1, h2, _, h5⟩ := hfiles fileid
              { renameSourceFile oldname (env.TargetFileName sf0) sf0 with
                targetexists := true, targetfile := some (env.TargetFileName sf0) }
              ((hfind1 fileid).trans (if_pos he)) (Or.inr hentry.symm)
            have h6 := h5 (fun hc =>
              absurd (show some (env.TargetFileName sf0) = none from hc.2.1) (by simp))
            refine ⟨sf2, h1, ?_, ?_, ?_⟩
            · rw [h2, hsf0]
              rfl
            · intro _
              rw [h6, hsf0]
              exact ⟨rfl, rfl, hentry, oldname, hcf, List.mem_cons_self _ _⟩
            · intro hn
              refine absurd ⟨?_, ?_, ?_⟩ hn
              · rw [he, hslot]
                exact List.mem_cons_self _ _
              · rw [hsf0]
                exact htf
              · rw [hsf0, hcf]
                rfl
          · have hcY : sf.completefile ≠ some oldname := fun hx =>
              he (hcompletes fileid fileid0 sf sf0 oldname hsf hfind0 hx hcf)
            have htY : sf.targetfile ≠ some oldname := by
              rcases hset with hset | hset
              · rw [hset]
                simp
              · rw [hset]
                exact hcY
            have hf1 : sfFind fileid
                (sfSet fileid0
                  { renameSourceFile oldname (env.TargetFileName sf0) sf0 with
                    targetexists := true, targetfile := some (env.TargetFileName sf0) }
                  (run.s.sourcefilemap.map
                    (fun e => (e.1, renameSourceFile oldname (env.TargetFileName sf0) e.2)))) =
                some sf := by
              rw [hfind1 fileid, if_neg he, hsf, Option.map_some',
                renameSourceFile_of_ne _ _ _ htY hcY]
            obtain ⟨sf2, h1, h2, h4, h5⟩ := hfiles fileid sf hf1 hset
            refine ⟨sf2, h1, h2, ?_, ?_⟩
            · intro hc
              have hmem : some fileid ∈ rest := by
                rcases List.mem_cons.mp hc.1 with hm | hm
                · rw [hslot] at hm
                  exact absurd (Option.some.inj hm) he
                · exact hm
              obtain ⟨h6, h7, h8, name, h9, h10⟩ := h4 ⟨hmem, hc.2⟩
              exact ⟨h6, h7, h8, name, h9, List.mem_cons_of_mem _ h10⟩
            · intro hn
              exact h5 (fun hc => hn ⟨List.mem_cons_of_mem _ hc.1, hc.2⟩)
      · rename_i hskip
        obtain ⟨hT, hCD, tos, hops, hcnt, hspec, hfiles⟩ := ih run r h htracked hcompletes
          (by omega)
        refine ⟨hT, hCD, tos, hops, hcnt, ?_, ?_⟩
        · intro op hop
          obtain ⟨fileid, sf, name, hmem, rest2⟩ := hspec op hop
          exact ⟨fileid, sf, name, List.mem_cons_of_mem _ hmem, rest2⟩
        · intro fileid sf hsf hset
          obtain ⟨sf2, h1, h2, h4, h5⟩ := hfiles fileid sf hsf hset
          refine ⟨sf2, h1, h2, ?_, ?_⟩
          · intro hc
            apply h4
            refine ⟨?_, hc.2⟩
            rcases List.mem_cons.mp hc.1 with hm | hm
            · rw [hslot] at hm
              have he := Option.some.inj hm
              rw [he, hfind0] at hsf
              rw [← Option.some.inj hsf] at hc
              obtain ⟨name, hname⟩ := Option.isSome_iff_exists.mp hc.2.2
              exact absurd hname (hskip name hc.2.1)
            · exact hm
          · intro hn
            apply h5
            intro hc
            exact hn ⟨List.mem_cons_of_mem _ hc.1, hc.2⟩

theorem trackedOnDisk_of_entries (m : List (MD5Hash × Par2RepairerSourceFile)) (disk : Disk)
    (h : ∀ e ∈ m, (e.2.targetfile.all (fun name => (disk name).isSome) &&
      e.2.completefile.all (fun name => (disk name).isSome)) = true) :
    TrackedOnDisk m disk := by
  intro fileid sf hfind name hname
  have he := h (fileid, sf) (sfFind_mem fileid sf m hfind)
  rw [Bool.and_eq_true] at he
  rcases hname with hname | hname
  · have h1 := he.1
    simp only at h1
    rw [hname] at h1
    exact h1
  · have h1 := he.2
    simp only at h1
    rw [hname] at h1
    exact h1

theorem targetsDistinct_of_entries (m : List (MD5Hash × Par2RepairerSourceFile))
    (h : ∀ e1 ∈ m, ∀ e2 ∈ m, e1.2.targetfile.isSome = true →
      e1.2.targetfile = e2.2.targetfile → e1.1 = e2.1) :
    TargetsDistinct m := by
  intro a b sfa sfb name ha hb hta htb
  exact h (a, sfa) (sfFind_mem a sfa m ha) (b, sfb) (sfFind_mem b sfb m hb)
    (by simp only; rw [hta]; rfl) (by simp only; rw [hta, htb])

theorem completesDistinct_of_entries (m : List (MD5Hash × Par2RepairerSourceFile))
    (h : ∀ e1 ∈ m, ∀ e2 ∈ m, e1.2.completefile.isSome = true →
      e1.2.completefile = e2.2.completefile → e1.1 = e2.1) :
    CompletesDistinct m := by
  intro a b sfa sfb name ha hb hca hcb
  exact h (a, sfa) (sfFind_mem a sfa m ha) (b, sfb) (sfFind_mem b sfb m hb)
    (by simp only; rw [hca]; rfl) (by simp only; rw [hca, hcb])

/-- C23: let `DiskFile::Rename()` pick names that are free on the disk, let
`DiskFile::Rename(name)` succeed only for a free name, let the expected name
of a source file depend on its description packet only, and let the state be
one in which a source file without `targetexists` has no target file, the
tracked files are on the disk, and no `DiskFile` is the target file, or the
complete file, of two source files.  When `RenameTargetFiles` returns true,
the first loop returned true with a state `cleared` and
(a) every source file of a slot whose target file existed and was not its
complete file has had that file renamed in the first loop and has no target
file in `cleared`;
(b) every source file of a slot that has a complete file ends with
`targetexists` set and its complete file as target file, under the expected
name, by a rename of the second loop, when the two differed at the start, and
under the name it had when they were the same;
(c) `completefilecount` has grown by the number of renames of the second loop,
each of which is the rename of the complete file of a source file of a slot
that had no target file in `cleared`. -/
theorem RenameTargetFiles_spec (env : RepairBranchEnv) (run r : RepairRun)
    (hfresh : ∀ disk name newname, env.RenameAway disk name = some newname →
      disk newname = none)
    (hfree : ∀ disk name newname, env.RenameTo disk name newname = true →
      disk newname = none)
    (hname : ∀ a b : Par2RepairerSourceFile, a.descriptionpacket = b.descriptionpacket →
      env.TargetFileName a = env.TargetFileName b)
    (hexists : ∀ fileid sf, sfFind fileid run.s.sourcefilemap = some sf →
      sf.targetexists = false → sf.targetfile = none)
    (htracked : TrackedOnDisk run.s.sourcefilemap run.disk)
    (htargets : TargetsDistinct run.s.sourcefilemap)
    (hcompletes : CompletesDistinct run.s.sourcefilemap)
    (hcount : run.s.completefilecount + TotalFileCount run.s < 2 ^ 32)
    (h : RenameTargetFiles env run = some (true, r)) :
    ∃ cleared aways tos,
      renameDamagedFiles env (run.s.sourcefiles.take (TotalFileCount run.s)) run =
        some (true, cleared) ∧
      cleared.ops = run.ops ++ aways ∧ r.ops = cleared.ops ++ tos ∧
      (∀ fileid sf, some fileid ∈ run.s.sourcefiles.take (TotalFileCount run.s) →
        sfFind fileid run.s.sourcefilemap = some sf →
        sf.targetexists = true → sf.targetfile ≠ sf.completefile →
        ∃ name sf1, sf.targetfile = some name ∧ FileOp.rename name ∈ aways ∧
          sfFind fileid cleared.s.sourcefilemap = some sf1 ∧
          sf1.targetexists = false ∧ sf1.targetfile = none) ∧
      (∀ fileid sf, some fileid ∈ run.s.sourcefiles.take (TotalFileCount run.s) →
        sfFind fileid run.s.sourcefilemap = some sf → sf.completefile.isSome = true →
        ∃ sf2, sfFind fileid r.s.sourcefilemap = some sf2 ∧
          sf2.targetexists = true ∧ sf2.completefile.isSome = true ∧
          sf2.targetfile = sf2.completefile ∧
          (sf.targetfile ≠ sf.completefile →
            sf2.targetfile = some (env.TargetFileName sf) ∧
            ∃ sf1 name, sfFind fileid cleared.s.sourcefilemap = some sf1 ∧
              sf1.completefile = some name ∧ FileOp.rename name ∈ tos) ∧
          (sf.targetfile = sf.completefile → sf2.targetfile = sf.targetfile)) ∧
      r.s.completefilecount = run.s.completefilecount + tos.length ∧
      (∀ op ∈ tos, ∃ fileid sf1 name,
        some fileid ∈ run.s.sourcefiles.take (TotalFileCount run.s) ∧
        sfFind fileid cleared.s.sourcefilemap = some sf1 ∧ sf1.targetfile = none ∧
        sf1.completefile = some name ∧ op = FileOp.rename name) := by
  unfold RenameTargetFiles at h
  split at h
  · exact absurd h (by simp)
  · exact absurd h (by simp)
  · rename_i cleared hfirst
    have hframe := renameDamagedFiles_frame env _ run true cleared hfirst
    have hslots : cleared.s.sourcefiles.take (TotalFileCount cleared.s) =
        run.s.sourcefiles.take (TotalFileCount run.s) := by
      unfold TotalFileCount
      rw [hframe.1, hframe.2.1]
    rw [hslots] at h
    obtain ⟨hT1, _, hCD1, aways, hops1, hfiles1⟩ :=
      renameDamagedFiles_spec env hfresh _ run cleared hfirst htracked htargets hcompletes
    have hlen : (run.s.sourcefiles.take (TotalFileCount run.s)).length ≤
        TotalFileCount run.s := by
      rw [List.length_take]
      exact Nat.min_le_left _ _
    obtain ⟨_, _, tos, hops2, hcnt, hspec, hfiles2⟩ :=
      renameCompleteFiles_spec env hfree _ cleared r h hT1 hCD1 (by
        rw [hframe.2.2.2]
        omega)
    refine ⟨cleared, aways, tos, hfirst, hops1, hops2, ?_, ?_, ?_, hspec⟩
    · intro fileid sf hmem hsf hte hne
      obtain ⟨sf1, h1, _, _, h4, _⟩ := hfiles1 fileid sf hsf
      obtain ⟨h6, h7, name, h8, h9⟩ := h4 ⟨hmem, hte, hne⟩
      exact ⟨name, sf1, h8, h9, h1, h6, h7⟩
    · intro fileid sf hmem hsf hcs
      obtain ⟨sf1, h1, h2, h3, h4, h5⟩ := hfiles1 fileid sf hsf
      by_cases heq : sf.targetfile = sf.completefile
      · have hte : sf.targetexists = true := by
          cases hb : sf.targetexists with
          | true => rfl
          | false =>
            have hn := hexists fileid sf hsf hb
            rw [← heq, hn] at hcs
            exact absurd hcs (by simp)
        obtain ⟨h6, h7, h8⟩ := h5 (fun hc => hc.2.2 heq)
        have h9 := h8 heq
        obtain ⟨sf2, g1, _, _, g5⟩ := hfiles2 fileid sf1 h1 (Or.inr (by rw [h7, h9, heq]))
        have g6 := g5 (fun hc => by
          have hn := hc.2.1
          rw [h7, heq] at hn
          rw [hn] at hcs
          exact absurd hcs (by simp))
        refine ⟨sf2, g1, ?_, ?_, ?_, fun hne => absurd heq hne, fun _ => ?_⟩
        · rw [g6, h6]
          exact hte
        · rw [g6, h9]
          exact hcs
        · rw [g6, h7, h9]
          exact heq
        · rw [g6, h7]
      · have hnone : sf1.targetfile = none := by
          cases hb : sf.targetexists with
          | true => exact (h4 ⟨hmem, hb, heq⟩).2.1
          | false =>
            have hn := hexists fileid sf hsf hb
            have h7 := (h5 (fun hc => by
              have hx := hc.2.1
              rw [hb] at hx
              exact absurd hx (by simp))).2.1
            rw [h7, hn]
        obtain ⟨sf2, g1, _, g4, _⟩ := hfiles2 fileid sf1 h1 (Or.inl hnone)
        obtain ⟨g6, g7, g8, name, g9, g10⟩ := g4 ⟨hmem, hnone, by rw [h3]; exact hcs⟩
        refine ⟨sf2, g1, g6, ?_, ?_, fun _ => ⟨?_, sf1, name, h1, g9, g10⟩,
          fun he => absurd he heq⟩
        · rw [g8]
          rfl
        · rw [g7, g8]
        · rw [g7, hname sf1 sf h2]
    · rw [hcnt, hframe.2.2.2]

set_option maxRecDepth 40000 in
theorem RenameTargetFiles_spec_witness :
    ∃ (r cleared : RepairRun) (aways tos : List FileOp),
      RenameTargetFiles renamingEnv swappedRun = some (true, r) ∧
      cleared.ops = swappedRun.ops ++ aways ∧ r.ops = cleared.ops ++ tos ∧
      FileOp.rename "x.dat" ∈ aways ∧
      r.s.completefilecount = swappedRun.s.completefilecount + tos.length ∧
      (∃ sf2, sfFind [1] r.s.sourcefilemap = some sf2 ∧ sf2.targetexists = true ∧
        sf2.targetfile = some "x.dat" ∧ sf2.completefile = some "x.dat") ∧
      (∃ sf2, sfFind [2] r.s.sourcefilemap = some sf2 ∧ sf2.targetexists = true ∧
        sf2.targetfile = some "y.dat" ∧ sf2.completefile = some "y.dat") := by
  have hev : (RenameTargetFiles renamingEnv swappedRun).map (fun p => p.1) = some true := by
    decide
  cases hr : RenameTargetFiles renamingEnv swappedRun with
  | none =>
    rw [hr] at hev
    exact absurd hev (by simp)
  | some p =>
    obtain ⟨ok, r⟩ := p
    rw [hr] at hev
    simp only [Option.map_some', Option.some.injEq] at hev
    subst hev
    obtain ⟨cleared, aways, tos, _, hops1, hops2, ha, hb, hc, _⟩ :=
      RenameTargetFiles_spec renamingEnv swappedRun r
        (by
          intro disk name newname h
          simp only [renamingEnv] at h
          split at h
          · rename_i hnone
            rw [← Option.some.inj h]
            exact Option.isNone_iff_eq_none.mp hnone
          · exact absurd h (by simp))
        (fun disk _ newname h => Option.isNone_iff_eq_none.mp h)
        (by
          intro a b hab
          simp only [renamingEnv, repairBranchEnv]
          rw [hab])
        (fun fileid sf hf =>
          (by decide : ∀ e ∈ swappedRun.s.sourcefilemap,
            e.2.targetexists = false → e.2.targetfile = none) (fileid, sf)
            (sfFind_mem fileid sf _ hf))
        (trackedOnDisk_of_entries _ _ (by decide))
        (targetsDistinct_of_entries _ (by decide))
        (completesDistinct_of_entries _ (by decide))
        (by decide) hr
    obtain ⟨name, _, hname, hmem, _⟩ := ha [1]
      { descriptionpacket := some { fileid := [1], filesize := 4, filename := "x.dat" }
        targetexists := true
        targetfile := some "x.dat"
        completefile := some "z.dat" } (by decide) rfl rfl (by decide)
    obtain ⟨sfx, hx1, hx2, _, hx4, hx5, _⟩ := hb [1]
      { descriptionpacket := some { fileid := [1], filesize := 4, filename := "x.dat" }
        targetexists := true
        targetfile := some "x.dat"
        completefile := some "z.dat" } (by decide) rfl rfl
    obtain ⟨sfy, hy1, hy2, _, hy4, hy5, _⟩ := hb [2]
      { descriptionpacket := some { fileid := [2], filesize := 4, filename := "y.dat" }
        completefile := some "x.dat" } (by decide) rfl rfl
    have hx6 := (hx5 (by decide)).1
    have hy6 := (hy5 (by decide)).1
    refine ⟨r, cleared, aways, tos, rfl, hops1, hops2, ?_, hc, ⟨sfx, hx1, hx2, hx6, ?_⟩,
      ⟨sfy, hy1, hy2, hy6, ?_⟩⟩
    · rw [Option.some.inj hname]
      exact hmem
    · rw [← hx4]
      exact hx6
    · rw [← hy4]
      exact hy6

end Par2Repairer

